import Mathlib

/-!
# kgchess: a shallow embedding of the rules engine `kgchess.c`

The engine keeps an 8x8 board of occupants, enumerates the legal moves of a
square, applies a chosen move and tracks turn, pending promotion and game end.

Conventions of the embedding.

* C `int` values are Lean integers.  The `int8_t` fields of `kgchess_pos_t`
  are integers too; the one place where an `int` is stored into an `int8_t`
  (`move_make` and the knight's position table) goes through `to_int8`.
* `kgchess_moves_array_t` (28 slots and a count) is the list of its first
  `count` items; `add_move` refuses to grow it beyond 28.
* `pieces[8][8]` is a function of two integers which is only ever read and
  written through the bounds-checked `get_piece_at` / `set_piece_at`.
* The call graph of the C file is cyclic: `get_moves` reaches
  `add_move_if_legal`, which reaches `is_in_check`, which reaches
  `kgchess_is_square_attacked_by_player`, which calls `get_moves` again, this
  time as an attack probe (`is_attacks_check = true`) that never reaches the
  legality filter.  The functions on the cycle are written once, in namespace
  `Gen`, with the attack oracle `att` as a parameter; the oracle itself is then
  defined from the probe generator, and `attacked_unfold` shows that it
  satisfies the recursive equation of the source.
-/

set_option autoImplicit false

namespace KgChess


/-! # Definitions -/

/-! ## Data model (`kgchess.h`) -/

inductive kgchess_piece_type_t where
  | KGCHESS_PIECE_NONE
  | KGCHESS_PIECE_KING
  | KGCHESS_PIECE_QUEEN
  | KGCHESS_PIECE_BISHOP
  | KGCHESS_PIECE_KNIGHT
  | KGCHESS_PIECE_ROOK
  | KGCHESS_PIECE_PAWN
  deriving DecidableEq

inductive kgchess_player_t where
  | KGCHESS_PLAYER_NONE
  | KGCHESS_PLAYER_WHITE
  | KGCHESS_PLAYER_BLACK
  deriving DecidableEq

inductive kgchess_state_t where
  | KGCHESS_STATE_NONE
  | KGCHESS_STATE_MOVE
  | KGCHESS_STATE_PROMOTION
  | KGCHESS_STATE_ENDED
  deriving DecidableEq

open kgchess_piece_type_t kgchess_player_t kgchess_state_t

structure kgchess_piece_t where
  type : kgchess_piece_type_t
  player : kgchess_player_t
  deriving DecidableEq

structure kgchess_pos_t where
  x : Int
  y : Int
  deriving DecidableEq

structure kgchess_move_t where
  from_ : kgchess_pos_t
  to_ : kgchess_pos_t
  is_castling : Bool
  is_attack : Bool
  is_en_passant : Bool
  deriving DecidableEq

/-- The array `kgchess_moves_array_t`: the items below `count`, in order. -/
abbrev kgchess_moves_array_t := List kgchess_move_t

structure kgchess_piece_internal_t where
  type : kgchess_piece_type_t
  player : kgchess_player_t
  last_move_num : Int
  deriving DecidableEq

structure kgchess_t where
  current_player : kgchess_player_t
  pieces : Int → Int → kgchess_piece_internal_t
  move_num : Int
  last_move : kgchess_move_t
  state : kgchess_state_t
  promotion_pos : kgchess_pos_t
  winner : kgchess_player_t

def KGCHESS_POS_INVALID : kgchess_pos_t := ⟨-1, -1⟩

/-- Conversion of a C `int` to `int8_t` (two's complement wrap-around). -/
def to_int8 (v : Int) : Int := (v + 128) % 256 - 128

/-- The values of the loop counters `for (int x = 0; x < 8; x++)`. -/
def range8 : List Int := [0, 1, 2, 3, 4, 5, 6, 7]

/-! ## Functions outside the recursive cycle -/

def kgchess_moves_array_make_empty : kgchess_moves_array_t := []

def kgchess_get_enemy_player (player : kgchess_player_t) : kgchess_player_t :=
  if player = KGCHESS_PLAYER_BLACK then KGCHESS_PLAYER_WHITE
  else if player = KGCHESS_PLAYER_WHITE then KGCHESS_PLAYER_BLACK
  else KGCHESS_PLAYER_NONE

def move_make (from_x from_y to_x to_y : Int) (is_attack is_castling is_en_passant : Bool) :
    kgchess_move_t :=
  { from_ := ⟨to_int8 from_x, to_int8 from_y⟩
    to_ := ⟨to_int8 to_x, to_int8 to_y⟩
    is_attack := is_attack
    is_castling := is_castling
    is_en_passant := is_en_passant }

def add_move (arr : kgchess_moves_array_t) (move : kgchess_move_t) : kgchess_moves_array_t :=
  if arr.length ≥ 28 then arr else arr ++ [move]

def piece_make (type : kgchess_piece_type_t) (player : kgchess_player_t) :
    kgchess_piece_internal_t :=
  { type := type, player := player, last_move_num := -1 }

def get_piece_at (chess : kgchess_t) (x y : Int) : kgchess_piece_internal_t :=
  if x < 0 ∨ x ≥ 8 ∨ y < 0 ∨ y ≥ 8 then
    piece_make KGCHESS_PIECE_NONE KGCHESS_PLAYER_NONE
  else chess.pieces x y

def set_piece_at (chess : kgchess_t) (piece : kgchess_piece_internal_t) (x y : Int) : kgchess_t :=
  if x < 0 ∨ x ≥ 8 ∨ y < 0 ∨ y ≥ 8 then chess
  else { chess with pieces := fun a b => if a = x ∧ b = y then piece else chess.pieces a b }

def convert_piece (piece : kgchess_piece_internal_t) : kgchess_piece_t :=
  { type := piece.type, player := piece.player }

def kgchess_get_piece_at (chess : kgchess_t) (x y : Int) : kgchess_piece_t :=
  convert_piece (get_piece_at chess x y)

def is_position_empty (chess : kgchess_t) (x y : Int) : Bool :=
  let piece := kgchess_get_piece_at chess x y
  decide (piece.type = KGCHESS_PIECE_NONE)

def is_player_at_position (chess : kgchess_t) (player : kgchess_player_t) (x y : Int) : Bool :=
  let piece := kgchess_get_piece_at chess x y
  decide (piece.type ≠ KGCHESS_PIECE_NONE) && decide (piece.player = player)

def get_en_passant (chess : kgchess_t) (pawn_x pawn_y : Int) (pawn : kgchess_piece_t) : Int :=
  if chess.move_num ≤ 0 then -1
  else
    let last_move := chess.last_move
    let last_move_piece := kgchess_get_piece_at chess last_move.to_.x last_move.to_.y
    if pawn.type ≠ KGCHESS_PIECE_PAWN ∨ last_move_piece.type ≠ KGCHESS_PIECE_PAWN then -1
    else
      let enemy_pawn_x := last_move.to_.x
      let enemy_pawn_y := last_move.to_.y
      if pawn_y ≠ enemy_pawn_y then -1
      else
        let last_move_dist := Int.natAbs (last_move.to_.y - last_move.from_.y)
        if last_move_dist ≠ 2 then -1
        else if pawn_x ≠ enemy_pawn_x - 1 ∧ pawn_x ≠ enemy_pawn_x + 1 then -1
        else enemy_pawn_x

/-- The part of `apply_move` before its final `if`: the board update, the
promotion trigger, the ply counter and the last move (source lines 274-318).
`apply_move chess move false` is exactly this, see `apply_move_false`. -/
def apply_move_body (chess : kgchess_t) (move : kgchess_move_t) : kgchess_t :=
  let empty_piece := piece_make KGCHESS_PIECE_NONE KGCHESS_PLAYER_NONE
  let chess :=
    if move.is_castling then
      let king := get_piece_at chess move.from_.x move.from_.y
      let rook_from_x : Int := if move.to_.x = 2 then 0 else 7
      let rook_to_x : Int := if move.to_.x = 2 then 3 else 5
      let rook := get_piece_at chess rook_from_x move.from_.y
      let chess := set_piece_at chess empty_piece move.from_.x move.from_.y
      let chess := set_piece_at chess empty_piece rook_from_x move.from_.y
      let king := { king with last_move_num := chess.move_num }
      let rook := { rook with last_move_num := chess.move_num }
      let chess := set_piece_at chess king move.to_.x move.to_.y
      set_piece_at chess rook rook_to_x move.to_.y
    else if move.is_en_passant then
      let piece := get_piece_at chess move.from_.x move.from_.y
      let piece := { piece with last_move_num := chess.move_num }
      let chess := set_piece_at chess empty_piece move.from_.x move.from_.y
      let chess := set_piece_at chess piece move.to_.x move.to_.y
      set_piece_at chess empty_piece move.to_.x move.from_.y
    else
      let piece := get_piece_at chess move.from_.x move.from_.y
      let piece := { piece with last_move_num := chess.move_num }
      let chess := set_piece_at chess empty_piece move.from_.x move.from_.y
      let chess := set_piece_at chess piece move.to_.x move.to_.y
      if piece.type = KGCHESS_PIECE_PAWN then
        if (piece.player = KGCHESS_PLAYER_WHITE ∧ move.to_.y = 7)
            ∨ (piece.player = KGCHESS_PLAYER_BLACK ∧ move.to_.y = 0) then
          { chess with state := KGCHESS_STATE_PROMOTION, promotion_pos := move.to_ }
        else chess
      else chess
  { chess with move_num := chess.move_num + 1, last_move := move }

/-! ## The functions on the cycle, with the attack oracle as a parameter -/

namespace Gen

/-- Type of `kgchess_is_square_attacked_by_player`. -/
abbrev oracle := kgchess_t → Int → Int → kgchess_player_t → Bool

def is_in_check (att : oracle) (chess : kgchess_t) (player : kgchess_player_t) : Bool :=
  let king : Int × Int :=
    range8.foldl (fun king x =>
      match range8.find? (fun y =>
          let piece := kgchess_get_piece_at chess x y
          decide (piece.type = KGCHESS_PIECE_KING) && decide (piece.player = player)) with
      | some y => (x, y)
      | none => king) (-1, -1)
  if king.1 = -1 ∨ king.2 = -1 then false
  else att chess king.1 king.2 (kgchess_get_enemy_player player)

def is_castling_possible (att : oracle) (chess : kgchess_t) (x y rook_x : Int) : Bool :=
  let king := get_piece_at chess x y
  let rook := get_piece_at chess rook_x y
  if king.type ≠ KGCHESS_PIECE_KING ∨ rook.type ≠ KGCHESS_PIECE_ROOK then false
  else if king.last_move_num ≠ -1 ∨ rook.last_move_num ≠ -1 then false
  else
    let enemy := kgchess_get_enemy_player king.player
    if is_in_check att chess king.player then false
    else if rook_x = 0 then
      if !is_position_empty chess 1 y || !is_position_empty chess 2 y
          || !is_position_empty chess 3 y then false
      else if att chess 3 y enemy then false
      else true
    else if rook_x = 7 then
      if !is_position_empty chess 5 y || !is_position_empty chess 6 y then false
      else if att chess 5 y enemy then false
      else true
    else false

def add_move_if_legal (att : oracle) (chess : kgchess_t) (arr : kgchess_moves_array_t)
    (move : kgchess_move_t) (is_attacks_check : Bool) : kgchess_moves_array_t :=
  if move.to_.x < 0 ∨ move.to_.x ≥ 8 ∨ move.to_.y < 0 ∨ move.to_.y ≥ 8 then arr
  else if !is_attacks_check then
    let piece := kgchess_get_piece_at chess move.from_.x move.from_.y
    let chess_copy := apply_move_body chess move
    if is_in_check att chess_copy piece.player then arr
    else add_move arr move
  else add_move arr move

/-- The loop of `add_move_range`: `n` iterations are left and the counter is `i`. -/
def add_move_range_loop (att : oracle) (chess : kgchess_t) (x y : Int) (piece : kgchess_piece_t)
    (dx dy : Int) (add_potential_attacks is_attacks_check : Bool) :
    Nat → Int → kgchess_moves_array_t → kgchess_moves_array_t
  | 0, _, moves => moves
  | n + 1, i, moves =>
    let temp_piece := kgchess_get_piece_at chess (x + i * dx) (y + i * dy)
    if temp_piece.type = KGCHESS_PIECE_NONE ∧ (!is_attacks_check || add_potential_attacks) then
      let move := move_make x y (x + i * dx) (y + i * dy) add_potential_attacks false false
      add_move_range_loop att chess x y piece dx dy add_potential_attacks is_attacks_check n (i + 1)
        (add_move_if_legal att chess moves move is_attacks_check)
    else if temp_piece.player = kgchess_get_enemy_player piece.player then
      let move := move_make x y (x + i * dx) (y + i * dy) true false false
      add_move_if_legal att chess moves move is_attacks_check
    else if temp_piece.player = piece.player then moves
    else
      add_move_range_loop att chess x y piece dx dy add_potential_attacks is_attacks_check n (i + 1)
        moves

def add_move_range (att : oracle) (chess : kgchess_t) (moves : kgchess_moves_array_t) (x y : Int)
    (piece : kgchess_piece_t) (dx dy end_ : Int) (add_potential_attacks is_attacks_check : Bool) :
    kgchess_moves_array_t :=
  add_move_range_loop att chess x y piece dx dy add_potential_attacks is_attacks_check
    (end_ + 1 - 1).toNat 1 moves

def get_king_moves (att : oracle) (chess : kgchess_t) (x y : Int) (piece : kgchess_piece_t)
    (add_potential_attacks is_attacks_check : Bool) : kgchess_moves_array_t :=
  let moves := kgchess_moves_array_make_empty
  let moves := add_move_range att chess moves x y piece 0 1 1 add_potential_attacks is_attacks_check
  let moves := add_move_range att chess moves x y piece 0 (-1) 1 add_potential_attacks is_attacks_check
  let moves := add_move_range att chess moves x y piece (-1) 0 1 add_potential_attacks is_attacks_check
  let moves := add_move_range att chess moves x y piece 1 0 1 add_potential_attacks is_attacks_check
  let moves := add_move_range att chess moves x y piece 1 1 1 add_potential_attacks is_attacks_check
  let moves := add_move_range att chess moves x y piece (-1) (-1) 1 add_potential_attacks is_attacks_check
  let moves := add_move_range att chess moves x y piece (-1) 1 1 add_potential_attacks is_attacks_check
  let moves := add_move_range att chess moves x y piece 1 (-1) 1 add_potential_attacks is_attacks_check
  let moves :=
    if !is_attacks_check && is_castling_possible att chess x y 0 then
      add_move_if_legal att chess moves (move_make x y 2 y false true false) false
    else moves
  let moves :=
    if !is_attacks_check && is_castling_possible att chess x y 7 then
      add_move_if_legal att chess moves (move_make x y 6 y false true false) false
    else moves
  moves

def get_queen_moves (att : oracle) (chess : kgchess_t) (x y : Int) (piece : kgchess_piece_t)
    (add_potential_attacks is_attacks_check : Bool) : kgchess_moves_array_t :=
  let moves := kgchess_moves_array_make_empty
  let moves := add_move_range att chess moves x y piece 0 1 7 add_potential_attacks is_attacks_check
  let moves := add_move_range att chess moves x y piece 0 (-1) 7 add_potential_attacks is_attacks_check
  let moves := add_move_range att chess moves x y piece (-1) 0 7 add_potential_attacks is_attacks_check
  let moves := add_move_range att chess moves x y piece 1 0 7 add_potential_attacks is_attacks_check
  let moves := add_move_range att chess moves x y piece 1 1 7 add_potential_attacks is_attacks_check
  let moves := add_move_range att chess moves x y piece (-1) (-1) 7 add_potential_attacks is_attacks_check
  let moves := add_move_range att chess moves x y piece (-1) 1 7 add_potential_attacks is_attacks_check
  let moves := add_move_range att chess moves x y piece 1 (-1) 7 add_potential_attacks is_attacks_check
  moves

def get_bishop_moves (att : oracle) (chess : kgchess_t) (x y : Int) (piece : kgchess_piece_t)
    (add_potential_attacks is_attacks_check : Bool) : kgchess_moves_array_t :=
  let moves := kgchess_moves_array_make_empty
  let moves := add_move_range att chess moves x y piece 1 1 7 add_potential_attacks is_attacks_check
  let moves := add_move_range att chess moves x y piece (-1) (-1) 7 add_potential_attacks is_attacks_check
  let moves := add_move_range att chess moves x y piece (-1) 1 7 add_potential_attacks is_attacks_check
  let moves := add_move_range att chess moves x y piece 1 (-1) 7 add_potential_attacks is_attacks_check
  moves

/-- One iteration of the loop over `positions_to_check` in `get_knight_moves`. -/
def knight_step (att : oracle) (chess : kgchess_t) (x y : Int) (enemy : kgchess_player_t)
    (add_potential_attacks is_attacks_check : Bool) (moves : kgchess_moves_array_t)
    (pos : kgchess_pos_t) : kgchess_moves_array_t :=
  let temp_piece := kgchess_get_piece_at chess pos.x pos.y
  if temp_piece.type = KGCHESS_PIECE_NONE ∧ (!is_attacks_check || add_potential_attacks) then
    add_move_if_legal att chess moves
      (move_make x y pos.x pos.y add_potential_attacks false false) is_attacks_check
  else if temp_piece.player = enemy then
    add_move_if_legal att chess moves (move_make x y pos.x pos.y true false false) is_attacks_check
  else moves

/-- The table `positions_to_check` of `get_knight_moves` (its entries are `int8_t` pairs). -/
def positions_to_check (x y : Int) : List kgchess_pos_t :=
  [ ⟨to_int8 (x + 2), to_int8 (y + 1)⟩,
    ⟨to_int8 (x + 2), to_int8 (y - 1)⟩,
    ⟨to_int8 (x - 2), to_int8 (y + 1)⟩,
    ⟨to_int8 (x - 2), to_int8 (y - 1)⟩,
    ⟨to_int8 (x + 1), to_int8 (y + 2)⟩,
    ⟨to_int8 (x + 1), to_int8 (y - 2)⟩,
    ⟨to_int8 (x - 1), to_int8 (y + 2)⟩,
    ⟨to_int8 (x - 1), to_int8 (y - 2)⟩ ]

def get_knight_moves (att : oracle) (chess : kgchess_t) (x y : Int) (piece : kgchess_piece_t)
    (add_potential_attacks is_attacks_check : Bool) : kgchess_moves_array_t :=
  let moves := kgchess_moves_array_make_empty
  let enemy := kgchess_get_enemy_player piece.player
  (positions_to_check x y).foldl
    (knight_step att chess x y enemy add_potential_attacks is_attacks_check) moves

def get_rook_moves (att : oracle) (chess : kgchess_t) (x y : Int) (piece : kgchess_piece_t)
    (add_potential_attacks is_attacks_check : Bool) : kgchess_moves_array_t :=
  let moves := kgchess_moves_array_make_empty
  let moves := add_move_range att chess moves x y piece 0 1 7 add_potential_attacks is_attacks_check
  let moves := add_move_range att chess moves x y piece 0 (-1) 7 add_potential_attacks is_attacks_check
  let moves := add_move_range att chess moves x y piece (-1) 0 7 add_potential_attacks is_attacks_check
  let moves := add_move_range att chess moves x y piece 1 0 7 add_potential_attacks is_attacks_check
  moves

def get_pawn_moves (att : oracle) (chess : kgchess_t) (x y : Int) (piece : kgchess_piece_t)
    (add_potential_attacks is_attacks_check : Bool) : kgchess_moves_array_t :=
  let moves := kgchess_moves_array_make_empty
  let dir : Int := if piece.player = KGCHESS_PLAYER_BLACK then -1 else 1
  let initial_y : Int := if piece.player = KGCHESS_PLAYER_BLACK then 6 else 1
  let moves :=
    if !is_attacks_check && is_position_empty chess x (y + 1 * dir) then
      let moves :=
        add_move_if_legal att chess moves (move_make x y x (y + 1 * dir) false false false)
          is_attacks_check
      if y = initial_y ∧ is_position_empty chess x (y + 2 * dir) then
        add_move_if_legal att chess moves (move_make x y x (y + 2 * dir) false false false)
          is_attacks_check
      else moves
    else moves
  let enemy := kgchess_get_enemy_player piece.player
  let moves :=
    if add_potential_attacks || is_player_at_position chess enemy (x + 1) (y + 1 * dir) then
      add_move_if_legal att chess moves (move_make x y (x + 1) (y + 1 * dir) true false false)
        is_attacks_check
    else moves
  let moves :=
    if add_potential_attacks || is_player_at_position chess enemy (x - 1) (y + 1 * dir) then
      add_move_if_legal att chess moves (move_make x y (x - 1) (y + 1 * dir) true false false)
        is_attacks_check
    else moves
  let moves :=
    if !add_potential_attacks && !is_attacks_check then
      let en_passant_x := get_en_passant chess x y piece
      if en_passant_x ≠ -1 then
        add_move_if_legal att chess moves (move_make x y en_passant_x (y + dir) true false true)
          is_attacks_check
      else moves
    else moves
  moves

def get_moves (att : oracle) (chess : kgchess_t) (x y : Int)
    (add_potential_attacks is_attacks_check : Bool) : kgchess_moves_array_t :=
  let piece := kgchess_get_piece_at chess x y
  match piece.type with
  | KGCHESS_PIECE_KING => get_king_moves att chess x y piece add_potential_attacks is_attacks_check
  | KGCHESS_PIECE_QUEEN => get_queen_moves att chess x y piece add_potential_attacks is_attacks_check
  | KGCHESS_PIECE_BISHOP =>
    get_bishop_moves att chess x y piece add_potential_attacks is_attacks_check
  | KGCHESS_PIECE_KNIGHT =>
    get_knight_moves att chess x y piece add_potential_attacks is_attacks_check
  | KGCHESS_PIECE_ROOK => get_rook_moves att chess x y piece add_potential_attacks is_attacks_check
  | KGCHESS_PIECE_PAWN => get_pawn_moves att chess x y piece add_potential_attacks is_attacks_check
  | KGCHESS_PIECE_NONE => kgchess_moves_array_make_empty

/-- Body of `kgchess_is_square_attacked_by_player`, its probes generated with oracle `att`. -/
def is_square_attacked (att : oracle) (chess : kgchess_t) (square_x square_y : Int)
    (player : kgchess_player_t) : Bool :=
  range8.any fun x =>
    range8.any fun y =>
      let piece := kgchess_get_piece_at chess x y
      if piece.player ≠ player then false
      else
        let moves := get_moves att chess x y true true
        moves.any fun move =>
          move.is_attack && decide (move.to_.x = square_x) && decide (move.to_.y = square_y)

end Gen

/-! ## Tying the knot -/

/-- The attack oracle.  Its probes run with `is_attacks_check = true`, where the
generator never consults the oracle it is given (`Gen.get_moves_probe_irrel`),
so the inner oracle is immaterial; `attacked_unfold` restates the definition
with the oracle itself inside, as in the source. -/
def kgchess_is_square_attacked_by_player (chess : kgchess_t) (square_x square_y : Int)
    (player : kgchess_player_t) : Bool :=
  Gen.is_square_attacked (fun _ _ _ _ => false) chess square_x square_y player

def is_in_check (chess : kgchess_t) (player : kgchess_player_t) : Bool :=
  Gen.is_in_check kgchess_is_square_attacked_by_player chess player

def is_castling_possible (chess : kgchess_t) (x y rook_x : Int) : Bool :=
  Gen.is_castling_possible kgchess_is_square_attacked_by_player chess x y rook_x

def add_move_if_legal (chess : kgchess_t) (arr : kgchess_moves_array_t) (move : kgchess_move_t)
    (is_attacks_check : Bool) : kgchess_moves_array_t :=
  Gen.add_move_if_legal kgchess_is_square_attacked_by_player chess arr move is_attacks_check

def get_moves (chess : kgchess_t) (x y : Int) (add_potential_attacks is_attacks_check : Bool) :
    kgchess_moves_array_t :=
  Gen.get_moves kgchess_is_square_attacked_by_player chess x y add_potential_attacks
    is_attacks_check

def kgchess_get_moves (chess : kgchess_t) (x y : Int) : kgchess_moves_array_t :=
  get_moves chess x y false false

def check_checkmate (chess : kgchess_t) : kgchess_t :=
  if range8.any (fun x =>
      range8.any fun y =>
        let piece := kgchess_get_piece_at chess x y
        if piece.type = KGCHESS_PIECE_NONE ∨ piece.player ≠ chess.current_player then false
        else
          let moves := kgchess_get_moves chess x y
          decide (moves.length ≠ 0)) then chess
  else
    let chess :=
      if is_in_check chess chess.current_player then
        { chess with winner := kgchess_get_enemy_player chess.current_player }
      else chess
    { chess with state := KGCHESS_STATE_ENDED }

def apply_move (chess : kgchess_t) (move : kgchess_move_t) (update_state : Bool) : kgchess_t :=
  let chess := apply_move_body chess move
  if chess.state = KGCHESS_STATE_MOVE ∧ update_state then
    let chess := { chess with current_player := kgchess_get_enemy_player chess.current_player }
    check_checkmate chess
  else chess

def kgchess_move (chess : kgchess_t) (move : kgchess_move_t) : Bool × kgchess_t :=
  (true, apply_move chess move true)

def kgchess_get_state (chess : kgchess_t) : kgchess_state_t := chess.state

def kgchess_get_promotion_position (chess : kgchess_t) : kgchess_pos_t := chess.promotion_pos

def kgchess_promote (chess : kgchess_t) (piece_type : kgchess_piece_type_t) : Bool × kgchess_t :=
  if chess.state ≠ KGCHESS_STATE_PROMOTION then (false, chess)
  else if chess.promotion_pos.x = -1 ∨ chess.promotion_pos.y = -1 then (false, chess)
  else if piece_type = KGCHESS_PIECE_PAWN ∨ piece_type = KGCHESS_PIECE_KING then (false, chess)
  else
    let piece := get_piece_at chess chess.promotion_pos.x chess.promotion_pos.y
    let piece := { piece with type := piece_type }
    let chess := set_piece_at chess piece chess.promotion_pos.x chess.promotion_pos.y
    let chess := { chess with state := KGCHESS_STATE_MOVE }
    let chess := { chess with current_player := kgchess_get_enemy_player chess.current_player }
    (true, check_checkmate chess)

def kgchess_get_winner (chess : kgchess_t) : kgchess_player_t := chess.winner

def kgchess_get_current_player (chess : kgchess_t) : kgchess_player_t := chess.current_player

def kgchess_draw (chess : kgchess_t) : kgchess_t :=
  { chess with state := KGCHESS_STATE_ENDED, winner := KGCHESS_PLAYER_NONE }

def kgchess_set_winner (chess : kgchess_t) (player : kgchess_player_t) : kgchess_t :=
  { chess with state := KGCHESS_STATE_ENDED, winner := player }

/-- The zero-filled structure left by `memset(chess, 0, sizeof(kgchess_t))`. -/
def zeroed : kgchess_t :=
  { current_player := KGCHESS_PLAYER_NONE
    pieces := fun _ _ => ⟨KGCHESS_PIECE_NONE, KGCHESS_PLAYER_NONE, 0⟩
    move_num := 0
    last_move := ⟨⟨0, 0⟩, ⟨0, 0⟩, false, false, false⟩
    state := KGCHESS_STATE_NONE
    promotion_pos := ⟨0, 0⟩
    winner := KGCHESS_PLAYER_NONE }

def kgchess_make : kgchess_t :=
  let chess := zeroed
  let chess := set_piece_at chess (piece_make KGCHESS_PIECE_ROOK KGCHESS_PLAYER_WHITE) 0 0
  let chess := set_piece_at chess (piece_make KGCHESS_PIECE_KNIGHT KGCHESS_PLAYER_WHITE) 1 0
  let chess := set_piece_at chess (piece_make KGCHESS_PIECE_BISHOP KGCHESS_PLAYER_WHITE) 2 0
  let chess := set_piece_at chess (piece_make KGCHESS_PIECE_QUEEN KGCHESS_PLAYER_WHITE) 3 0
  let chess := set_piece_at chess (piece_make KGCHESS_PIECE_KING KGCHESS_PLAYER_WHITE) 4 0
  let chess := set_piece_at chess (piece_make KGCHESS_PIECE_BISHOP KGCHESS_PLAYER_WHITE) 5 0
  let chess := set_piece_at chess (piece_make KGCHESS_PIECE_KNIGHT KGCHESS_PLAYER_WHITE) 6 0
  let chess := set_piece_at chess (piece_make KGCHESS_PIECE_ROOK KGCHESS_PLAYER_WHITE) 7 0
  let chess := set_piece_at chess (piece_make KGCHESS_PIECE_PAWN KGCHESS_PLAYER_WHITE) 0 1
  let chess := set_piece_at chess (piece_make KGCHESS_PIECE_PAWN KGCHESS_PLAYER_WHITE) 1 1
  let chess := set_piece_at chess (piece_make KGCHESS_PIECE_PAWN KGCHESS_PLAYER_WHITE) 2 1
  let chess := set_piece_at chess (piece_make KGCHESS_PIECE_PAWN KGCHESS_PLAYER_WHITE) 3 1
  let chess := set_piece_at chess (piece_make KGCHESS_PIECE_PAWN KGCHESS_PLAYER_WHITE) 4 1
  let chess := set_piece_at chess (piece_make KGCHESS_PIECE_PAWN KGCHESS_PLAYER_WHITE) 5 1
  let chess := set_piece_at chess (piece_make KGCHESS_PIECE_PAWN KGCHESS_PLAYER_WHITE) 6 1
  let chess := set_piece_at chess (piece_make KGCHESS_PIECE_PAWN KGCHESS_PLAYER_WHITE) 7 1
  let chess := set_piece_at chess (piece_make KGCHESS_PIECE_ROOK KGCHESS_PLAYER_BLACK) 0 7
  let chess := set_piece_at chess (piece_make KGCHESS_PIECE_KNIGHT KGCHESS_PLAYER_BLACK) 1 7
  let chess := set_piece_at chess (piece_make KGCHESS_PIECE_BISHOP KGCHESS_PLAYER_BLACK) 2 7
  let chess := set_piece_at chess (piece_make KGCHESS_PIECE_QUEEN KGCHESS_PLAYER_BLACK) 3 7
  let chess := set_piece_at chess (piece_make KGCHESS_PIECE_KING KGCHESS_PLAYER_BLACK) 4 7
  let chess := set_piece_at chess (piece_make KGCHESS_PIECE_BISHOP KGCHESS_PLAYER_BLACK) 5 7
  let chess := set_piece_at chess (piece_make KGCHESS_PIECE_KNIGHT KGCHESS_PLAYER_BLACK) 6 7
  let chess := set_piece_at chess (piece_make KGCHESS_PIECE_ROOK KGCHESS_PLAYER_BLACK) 7 7
  let chess := set_piece_at chess (piece_make KGCHESS_PIECE_PAWN KGCHESS_PLAYER_BLACK) 0 6
  let chess := set_piece_at chess (piece_make KGCHESS_PIECE_PAWN KGCHESS_PLAYER_BLACK) 1 6
  let chess := set_piece_at chess (piece_make KGCHESS_PIECE_PAWN KGCHESS_PLAYER_BLACK) 2 6
  let chess := set_piece_at chess (piece_make KGCHESS_PIECE_PAWN KGCHESS_PLAYER_BLACK) 3 6
  let chess := set_piece_at chess (piece_make KGCHESS_PIECE_PAWN KGCHESS_PLAYER_BLACK) 4 6
  let chess := set_piece_at chess (piece_make KGCHESS_PIECE_PAWN KGCHESS_PLAYER_BLACK) 5 6
  let chess := set_piece_at chess (piece_make KGCHESS_PIECE_PAWN KGCHESS_PLAYER_BLACK) 6 6
  let chess := set_piece_at chess (piece_make KGCHESS_PIECE_PAWN KGCHESS_PLAYER_BLACK) 7 6
  { chess with
    current_player := KGCHESS_PLAYER_WHITE
    move_num := 0
    state := KGCHESS_STATE_MOVE
    promotion_pos := KGCHESS_POS_INVALID
    winner := KGCHESS_PLAYER_NONE }

/-! ## What the generators can put into a list -/

namespace Gen

/-- What `add_move_if_legal` demands of a move before adding it: the
destination is on the board and, outside attack probes, the mover's king is
not attacked once the move is applied to a copy. -/
def admitted (att : oracle) (g : kgchess_t) (iac : Bool) (m : kgchess_move_t) : Prop :=
  (0 ≤ m.to_.x ∧ m.to_.x < 8 ∧ 0 ≤ m.to_.y ∧ m.to_.y < 8) ∧
    (iac = false →
      is_in_check att (apply_move_body g m) (kgchess_get_piece_at g m.from_.x m.from_.y).player
        = false)

/-- The condition under which iteration `j` of the loop of `add_move_range`
offers the square `(tx, ty)` with capture flag `a`. -/
def range_target (g : kgchess_t) (piece : kgchess_piece_t) (apa iac : Bool) (tx ty : Int)
    (a : Bool) : Prop :=
  ((kgchess_get_piece_at g tx ty).type = KGCHESS_PIECE_NONE ∧ (!iac || apa) = true ∧ a = apa) ∨
    (¬ ((kgchess_get_piece_at g tx ty).type = KGCHESS_PIECE_NONE ∧ (!iac || apa) = true) ∧
      (kgchess_get_piece_at g tx ty).player = kgchess_get_enemy_player piece.player ∧ a = true)

/-- Directions of the orthogonal rays. -/
def rook_dir (dx dy : Int) : Prop :=
  (dx = 0 ∧ dy = 1) ∨ (dx = 0 ∧ dy = -1) ∨ (dx = -1 ∧ dy = 0) ∨ (dx = 1 ∧ dy = 0)

/-- Directions of the diagonal rays. -/
def bishop_dir (dx dy : Int) : Prop :=
  (dx = 1 ∧ dy = 1) ∨ (dx = -1 ∧ dy = -1) ∨ (dx = -1 ∧ dy = 1) ∨ (dx = 1 ∧ dy = -1)

/-- Direction of advance of a player's pawns (`dir` in `get_pawn_moves`). -/
def pawn_dir (player : kgchess_player_t) : Int :=
  if player = KGCHESS_PLAYER_BLACK then -1 else 1

/-- Starting rank of a player's pawns (`initial_y` in `get_pawn_moves`). -/
def pawn_initial_y (player : kgchess_player_t) : Int :=
  if player = KGCHESS_PLAYER_BLACK then 6 else 1

end Gen

/-! ## Move generation reads only the board, the ply counter and the last move -/

/-- Two states that agree on everything move generation reads. -/
structure same_core (g g' : kgchess_t) : Prop where
  pieces : g.pieces = g'.pieces
  move_num : g.move_num = g'.move_num
  last_move : g.last_move = g'.last_move

/-! ## The promotion trigger and the end-of-game scan -/

/-- The move is an ordinary one (neither castling nor en passant) of a pawn onto
its far back rank: the condition under which `apply_move` asks for a promotion. -/
def promotes (g : kgchess_t) (m : kgchess_move_t) : Bool :=
  !m.is_castling && !m.is_en_passant &&
    decide ((get_piece_at g m.from_.x m.from_.y).type = KGCHESS_PIECE_PAWN) &&
    (decide ((get_piece_at g m.from_.x m.from_.y).player = KGCHESS_PLAYER_WHITE ∧ m.to_.y = 7) ||
      decide ((get_piece_at g m.from_.x m.from_.y).player = KGCHESS_PLAYER_BLACK ∧ m.to_.y = 0))

/-- The square holds a piece of the player. -/
def owned_by (g : kgchess_t) (player : kgchess_player_t) (x y : Int) : Prop :=
  (kgchess_get_piece_at g x y).type ≠ KGCHESS_PIECE_NONE ∧
    (kgchess_get_piece_at g x y).player = player

/-- No square owned by the current player has a non-empty `kgchess_get_moves` list. -/
def no_legal_move (g : kgchess_t) : Prop :=
  ∀ x y : Int, owned_by g g.current_player x y → kgchess_get_moves g x y = []

/-- The double loop of `check_checkmate` as a test. -/
def has_legal_move (g : kgchess_t) : Bool :=
  range8.any fun x =>
    range8.any fun y =>
      let piece := kgchess_get_piece_at g x y
      if piece.type = KGCHESS_PIECE_NONE ∨ piece.player ≠ g.current_player then false
      else
        let moves := kgchess_get_moves g x y
        decide (moves.length ≠ 0)

/-- Checkmate detection ran and produced `g'`: either `kgchess_move` was called
in phase AwaitingMove with a move that does not trigger promotion, or
`kgchess_promote` succeeded. -/
def detection_ran (g g' : kgchess_t) : Prop :=
  (∃ m : kgchess_move_t, g.state = KGCHESS_STATE_MOVE ∧ promotes g m = false ∧
      g' = (kgchess_move g m).2) ∨
    (∃ piece_type : kgchess_piece_type_t, kgchess_promote g piece_type = (true, g'))

/-! ## En passant eligibility -/

/-- The conditions tested by `get_en_passant` for a pawn on `(x, y)`: a ply has
been played, the destination of the last move holds a pawn, on the rank of the
capturing pawn, the last move covered two ranks, and the files are adjacent. -/
def en_passant_conditions (g : kgchess_t) (x y : Int) : Prop :=
  0 < g.move_num ∧
    (kgchess_get_piece_at g g.last_move.to_.x g.last_move.to_.y).type = KGCHESS_PIECE_PAWN ∧
    g.last_move.to_.y = y ∧
    Int.natAbs (g.last_move.to_.y - g.last_move.from_.y) = 2 ∧
    (g.last_move.to_.x = x - 1 ∨ g.last_move.to_.x = x + 1)

/-! ## Reachable states -/

/-- The states reachable from `kgchess_make` by `kgchess_move` with moves taken
from `kgchess_get_moves`, `kgchess_promote`, `kgchess_draw` and
`kgchess_set_winner`.  The flag is history: it tells whether the last applied
move was an ordinary move of a pawn onto its far back rank (`promotes`). -/
inductive reachable : kgchess_t → Bool → Prop
  | make : reachable kgchess_make false
  | move {g : kgchess_t} {b : Bool} (x y : Int) (m : kgchess_move_t) :
      reachable g b → m ∈ kgchess_get_moves g x y → reachable (kgchess_move g m).2 (promotes g m)
  | promote {g : kgchess_t} {b : Bool} (piece_type : kgchess_piece_type_t) :
      reachable g b → reachable (kgchess_promote g piece_type).2 b
  | draw {g : kgchess_t} {b : Bool} : reachable g b → reachable (kgchess_draw g) b
  | set_winner {g : kgchess_t} {b : Bool} (player : kgchess_player_t) :
      reachable g b → reachable (kgchess_set_winner g player) b

/-! ## Playing a list of moves -/

/-- The game after `kgchess_move` has been called with each move of the list in turn. -/
def play (g : kgchess_t) : List kgchess_move_t → kgchess_t
  | [] => g
  | m :: ms => play (kgchess_move g m).2 ms

/-- The same for the board update alone (`apply_move` without turn and end-of-game handling). -/
def play_body (g : kgchess_t) : List kgchess_move_t → kgchess_t
  | [] => g
  | m :: ms => play_body (apply_move_body g m) ms

/-- Each move of the list is, when its turn comes, in the `kgchess_get_moves`
list of its origin square. -/
def script_listed (g : kgchess_t) : List kgchess_move_t → Bool
  | [] => true
  | m :: ms =>
    decide (m ∈ kgchess_get_moves g m.from_.x m.from_.y) && script_listed (apply_move_body g m) ms

/-- Whether the last move of the list triggers a promotion (`b` for the empty list). -/
def last_promotes (g : kgchess_t) (b : Bool) : List kgchess_move_t → Bool
  | [] => b
  | m :: ms => last_promotes (apply_move_body g m) (promotes g m) ms

/-! ## A game that reaches a promotion in nine plies -/

/-- The first eight plies: 1. a2-a4 b7-b5 2. a4xb5 a7-a6 3. b5xa6 h7-h6 4. a6-a7 h6-h5. -/
def promotion_game_moves : List kgchess_move_t :=
  [ ⟨⟨0, 1⟩, ⟨0, 3⟩, false, false, false⟩,
    ⟨⟨1, 6⟩, ⟨1, 4⟩, false, false, false⟩,
    ⟨⟨0, 3⟩, ⟨1, 4⟩, false, true, false⟩,
    ⟨⟨0, 6⟩, ⟨0, 5⟩, false, false, false⟩,
    ⟨⟨1, 4⟩, ⟨0, 5⟩, false, true, false⟩,
    ⟨⟨7, 6⟩, ⟨7, 5⟩, false, false, false⟩,
    ⟨⟨0, 5⟩, ⟨0, 6⟩, false, false, false⟩,
    ⟨⟨7, 5⟩, ⟨7, 4⟩, false, false, false⟩ ]

/-- The ninth ply, 5. a7xb8: the pawn captures the knight on the back rank. -/
def promotion_game_capture : kgchess_move_t := ⟨⟨0, 6⟩, ⟨1, 7⟩, false, true, false⟩

def promotion_game_8 : kgchess_t := play kgchess_make promotion_game_moves

/-- After 5. a7xb8: the pawn stands on b8 and a promotion is pending. -/
def promotion_game_9 : kgchess_t := (kgchess_move promotion_game_8 promotion_game_capture).2

/-- The promotion resolved to a queen. -/
def promotion_game_resolved : kgchess_t :=
  (kgchess_promote promotion_game_9 KGCHESS_PIECE_QUEEN).2

/-- Instead of resolving the promotion, the host plays h5-h4 for Black. -/
def promotion_game_unresolved : kgchess_t :=
  (kgchess_move promotion_game_9 ⟨⟨7, 4⟩, ⟨7, 3⟩, false, false, false⟩).2

/-! ## En passant: what is listed, and for how long -/

/-- The en passant capture available to the pawn on `(x, y)`: onto the file of
the pawn moved last, one rank ahead. -/
def en_passant_move (g : kgchess_t) (x y : Int) : kgchess_move_t :=
  ⟨⟨x, y⟩, ⟨g.last_move.to_.x, y + Gen.pawn_dir (kgchess_get_piece_at g x y).player⟩,
    false, true, true⟩

/-- A listed move that leaves a pawn on its destination after covering two
ranks is a double pawn push, onto a square that was empty. -/
def double_step_onto_empty (g : kgchess_t) (m : kgchess_move_t) : Prop :=
  (get_piece_at (apply_move_body g m) m.to_.x m.to_.y).type = KGCHESS_PIECE_PAWN →
    Int.natAbs (m.to_.y - m.from_.y) = 2 →
    (kgchess_get_piece_at g m.to_.x m.to_.y).type = KGCHESS_PIECE_NONE

/-- The move passes `add_move_if_legal` outside attack probes: its destination
is on the board and, applied to a copy, it does not leave the mover's king
attacked. -/
def passes_filter (g : kgchess_t) (m : kgchess_move_t) : Prop :=
  (0 ≤ m.to_.x ∧ m.to_.x < 8 ∧ 0 ≤ m.to_.y ∧ m.to_.y < 8) ∧
    is_in_check (apply_move_body g m) (kgchess_get_piece_at g m.from_.x m.from_.y).player = false

/-- The game 1. d2-d4 a7-a6 2. e2-e4: White's e-pawn has just advanced two
squares next to White's own d-pawn. -/
def own_pawn_moves : List kgchess_move_t :=
  [ ⟨⟨3, 1⟩, ⟨3, 3⟩, false, false, false⟩,
    ⟨⟨0, 6⟩, ⟨0, 5⟩, false, false, false⟩,
    ⟨⟨4, 1⟩, ⟨4, 3⟩, false, false, false⟩ ]

def own_pawn_game : kgchess_t := play kgchess_make own_pawn_moves

/-- White to move after Black's d7-d5: White pawn e5, Black pawn d5, kings on e1 and e8. -/
def en_passant_position : kgchess_t :=
  let chess := { zeroed with
    current_player := KGCHESS_PLAYER_WHITE
    move_num := 4
    last_move := ⟨⟨3, 6⟩, ⟨3, 4⟩, false, false, false⟩
    state := KGCHESS_STATE_MOVE
    promotion_pos := KGCHESS_POS_INVALID }
  let chess := set_piece_at chess ⟨KGCHESS_PIECE_KING, KGCHESS_PLAYER_WHITE, -1⟩ 4 0
  let chess := set_piece_at chess ⟨KGCHESS_PIECE_KING, KGCHESS_PLAYER_BLACK, -1⟩ 4 7
  let chess := set_piece_at chess ⟨KGCHESS_PIECE_PAWN, KGCHESS_PLAYER_WHITE, 2⟩ 4 4
  set_piece_at chess ⟨KGCHESS_PIECE_PAWN, KGCHESS_PLAYER_BLACK, 3⟩ 3 4

/-! ## Rays: every admitted square before the first stop is listed -/

/-- The square lies on the board. -/
def in_board (x y : Int) : Prop := 0 ≤ x ∧ x < 8 ∧ 0 ≤ y ∧ y < 8

instance (x y : Int) : Decidable (in_board x y) := by
  unfold in_board
  infer_instance

namespace Gen

/-- The loop of `add_move_range` goes on past a square: the square is empty (and
a quiet move may be recorded), or it holds a piece that is neither the
mover's enemy nor the mover's own. -/
def ray_continues (g : kgchess_t) (piece : kgchess_piece_t) (apa iac : Bool) (tx ty : Int) :
    Prop :=
  ((kgchess_get_piece_at g tx ty).type = KGCHESS_PIECE_NONE ∧ (!iac || apa) = true) ∨
    (¬ ((kgchess_get_piece_at g tx ty).type = KGCHESS_PIECE_NONE ∧ (!iac || apa) = true) ∧
      (kgchess_get_piece_at g tx ty).player ≠ kgchess_get_enemy_player piece.player ∧
      (kgchess_get_piece_at g tx ty).player ≠ piece.player)

/-- Number of steps `i, ..., i + n - 1` of a ray whose square is on the board:
a bound on what the ray can add to the list. -/
def ray_room (x y dx dy : Int) : Nat → Int → Nat
  | 0, _ => 0
  | n + 1, i =>
    (if in_board (to_int8 (x + i * dx)) (to_int8 (y + i * dy)) then 1 else 0) +
      ray_room x y dx dy n (i + 1)

/-- The orthogonal directions, in the order in which the generators walk them. -/
def rook_dirs : List (Int × Int) := [(0, 1), (0, -1), (-1, 0), (1, 0)]

/-- The diagonal directions, in the order in which the generators walk them. -/
def bishop_dirs : List (Int × Int) := [(1, 1), (-1, -1), (-1, 1), (1, -1)]

/-- Consecutive calls of `add_move_range`, one for each direction of the list. -/
def add_rays (att : oracle) (g : kgchess_t) (x y : Int) (piece : kgchess_piece_t) (end_ : Int)
    (apa iac : Bool) (dirs : List (Int × Int)) (moves : kgchess_moves_array_t) :
    kgchess_moves_array_t :=
  dirs.foldl (fun mv d => add_move_range att g mv x y piece d.1 d.2 end_ apa iac) moves

/-- The ray in direction `(dx, dy)` reaches step `k` and offers its square: `m`
is the move it passes to `add_move_if_legal`, and it is admitted. -/
def ray_offers (att : oracle) (g : kgchess_t) (x y : Int) (piece : kgchess_piece_t)
    (dx dy end_ : Int) (apa iac : Bool) (m : kgchess_move_t) : Prop :=
  ∃ (k : Int) (a : Bool), 1 ≤ k ∧ k ≤ end_ ∧
    (∀ k' : Int, 1 ≤ k' → k' < k → ray_continues g piece apa iac (x + k' * dx) (y + k' * dy)) ∧
    range_target g piece apa iac (x + k * dx) (y + k * dy) a ∧
    admitted att g iac (move_make x y (x + k * dx) (y + k * dy) a false false) ∧
    m = move_make x y (x + k * dx) (y + k * dy) a false false

/-- Room needed by the rays of a list of directions. -/
def total_room (x y end_ : Int) (dirs : List (Int × Int)) : Nat :=
  (dirs.map fun d => ray_room x y d.1 d.2 (end_ + 1 - 1).toNat 1).sum

end Gen

/-! ## Attack probes, square by square -/

/-- A probing ray of a piece of `own` passes over the square. -/
def probe_pass (g : kgchess_t) (own : kgchess_player_t) (u v : Int) : Prop :=
  (kgchess_get_piece_at g u v).type = KGCHESS_PIECE_NONE ∨
    ((kgchess_get_piece_at g u v).player ≠ kgchess_get_enemy_player own ∧
      (kgchess_get_piece_at g u v).player ≠ own)

/-- A probe of a piece of `own` reports the square when it reaches it. -/
def probe_offer (g : kgchess_t) (own : kgchess_player_t) (u v : Int) : Prop :=
  (kgchess_get_piece_at g u v).type = KGCHESS_PIECE_NONE ∨
    (kgchess_get_piece_at g u v).player = kgchess_get_enemy_player own

/-- The probing ray from `(a, b)` in direction `(dx, dy)` reports `(sx, sy)`. -/
def ray_hits (g : kgchess_t) (own : kgchess_player_t) (a b dx dy end_ sx sy : Int) : Prop :=
  ∃ k : Int, 1 ≤ k ∧ k ≤ end_ ∧ sx = a + k * dx ∧ sy = b + k * dy ∧ in_board sx sy ∧
    (∀ k' : Int, 1 ≤ k' → k' < k → probe_pass g own (a + k' * dx) (b + k' * dy)) ∧
    probe_offer g own sx sy

/-- What the piece on `(a, b)` reports for the square `(sx, sy)` in an attack probe. -/
def piece_hits (g : kgchess_t) (a b sx sy : Int) : Prop :=
  match (kgchess_get_piece_at g a b).type with
  | KGCHESS_PIECE_KING =>
    ∃ d ∈ Gen.rook_dirs ++ Gen.bishop_dirs,
      ray_hits g (kgchess_get_piece_at g a b).player a b d.1 d.2 1 sx sy
  | KGCHESS_PIECE_QUEEN =>
    ∃ d ∈ Gen.rook_dirs ++ Gen.bishop_dirs,
      ray_hits g (kgchess_get_piece_at g a b).player a b d.1 d.2 7 sx sy
  | KGCHESS_PIECE_BISHOP =>
    ∃ d ∈ Gen.bishop_dirs, ray_hits g (kgchess_get_piece_at g a b).player a b d.1 d.2 7 sx sy
  | KGCHESS_PIECE_KNIGHT =>
    (⟨sx, sy⟩ : kgchess_pos_t) ∈ Gen.positions_to_check a b ∧ in_board sx sy ∧
      probe_offer g (kgchess_get_piece_at g a b).player sx sy
  | KGCHESS_PIECE_ROOK =>
    ∃ d ∈ Gen.rook_dirs, ray_hits g (kgchess_get_piece_at g a b).player a b d.1 d.2 7 sx sy
  | KGCHESS_PIECE_PAWN =>
    in_board sx sy ∧ sy = b + Gen.pawn_dir (kgchess_get_piece_at g a b).player ∧
      (sx = a + 1 ∨ sx = a - 1)
  | KGCHESS_PIECE_NONE => False

/-! ## Castling: the board after the move and the attacks on the king's destination -/

/-- Destination file of the king when castling with the rook of file `r`. -/
def castle_to (r : Int) : Int := if r = 0 then 2 else 6

/-- File the king passes over, which is also the rook's destination. -/
def castle_transit (r : Int) : Int := if r = 0 then 3 else 5

/-- The castling move of the king on `(4, y)` with the rook of file `r`. -/
def castle_move (y r : Int) : kgchess_move_t := ⟨⟨4, y⟩, ⟨castle_to r, y⟩, true, false, false⟩

/-- The situation in which castling with the rook of file `r` is considered:
the only king of `P` stands on `(4, y)`, a rook on `(r, y)`, nothing between
them, and the king is not in check. -/
structure castle_setting (g : kgchess_t) (y r : Int) (P : kgchess_player_t) : Prop where
  file : r = 0 ∨ r = 7
  player : P = KGCHESS_PLAYER_WHITE ∨ P = KGCHESS_PLAYER_BLACK
  king : kgchess_get_piece_at g 4 y = ⟨KGCHESS_PIECE_KING, P⟩
  unique : ∀ a b : Int, kgchess_get_piece_at g a b = ⟨KGCHESS_PIECE_KING, P⟩ → a = 4 ∧ b = y
  rook : (kgchess_get_piece_at g r y).type = KGCHESS_PIECE_ROOK
  between : ∀ x : Int, min 4 r < x → x < max 4 r →
    (kgchess_get_piece_at g x y).type = KGCHESS_PIECE_NONE
  safe : is_in_check g P = false

/-- The four squares that castling changes. -/
def castle_square (y r u v : Int) : Prop :=
  v = y ∧ (u = 4 ∨ u = r ∨ u = castle_transit r ∨ u = castle_to r)

/-! ## Example positions -/

/-- White to move: king g1, rook a1; Black: king h8, pawns g7 and h7. -/
def back_rank_position : kgchess_t :=
  let chess := { zeroed with
    current_player := KGCHESS_PLAYER_WHITE
    move_num := 30
    state := KGCHESS_STATE_MOVE
    promotion_pos := KGCHESS_POS_INVALID }
  let chess := set_piece_at chess ⟨KGCHESS_PIECE_KING, KGCHESS_PLAYER_WHITE, 12⟩ 6 0
  let chess := set_piece_at chess ⟨KGCHESS_PIECE_ROOK, KGCHESS_PLAYER_WHITE, 20⟩ 0 0
  let chess := set_piece_at chess ⟨KGCHESS_PIECE_KING, KGCHESS_PLAYER_BLACK, 15⟩ 7 7
  let chess := set_piece_at chess ⟨KGCHESS_PIECE_PAWN, KGCHESS_PLAYER_BLACK, -1⟩ 6 6
  set_piece_at chess ⟨KGCHESS_PIECE_PAWN, KGCHESS_PLAYER_BLACK, -1⟩ 7 6

/-- The rook move a1-a8 that mates in `back_rank_position`. -/
def back_rank_move : kgchess_move_t := ⟨⟨0, 0⟩, ⟨0, 7⟩, false, false, false⟩

/-- White to move: king a3, pawn b7; Black: king a1.  Promoting on b8 to a queen
leaves Black without a move and not in check. -/
def pawn_b7_position : kgchess_t :=
  let chess := { zeroed with
    current_player := KGCHESS_PLAYER_WHITE
    move_num := 80
    state := KGCHESS_STATE_MOVE
    promotion_pos := KGCHESS_POS_INVALID }
  let chess := set_piece_at chess ⟨KGCHESS_PIECE_KING, KGCHESS_PLAYER_WHITE, 78⟩ 0 2
  let chess := set_piece_at chess ⟨KGCHESS_PIECE_PAWN, KGCHESS_PLAYER_WHITE, 76⟩ 1 6
  set_piece_at chess ⟨KGCHESS_PIECE_KING, KGCHESS_PLAYER_BLACK, 79⟩ 0 0

/-- The pawn advance b7-b8. -/
def pawn_b8_move : kgchess_move_t := ⟨⟨1, 6⟩, ⟨1, 7⟩, false, false, false⟩

/-- A move of the pawn on b7 to `(8, 7)`, a square that is not on the board;
`kgchess_move` does not validate the move it is given. -/
def pawn_off_board_move : kgchess_move_t := ⟨⟨1, 6⟩, ⟨8, 7⟩, false, false, false⟩

/-- The game `pawn_b7_position` after `kgchess_move` with `pawn_off_board_move`:
a promotion is pending and the recorded promotion square is `(8, 7)`. -/
def promotion_off_board : kgchess_t := (kgchess_move pawn_b7_position pawn_off_board_move).2

/-- The game `pawn_b7_position` after `kgchess_set_winner` declared Black the
winner and the host nevertheless played b7-b8: a promotion is pending and the
winner set before is still recorded. -/
def pending_after_resignation : kgchess_t :=
  (kgchess_move (kgchess_set_winner pawn_b7_position KGCHESS_PLAYER_BLACK) pawn_b8_move).2

/-- White to move, king e1 and rooks a1, h1 all unmoved; Black: king e8, a rook
on d8 that has moved. -/
def castle_position : kgchess_t :=
  let chess := { zeroed with
    current_player := KGCHESS_PLAYER_WHITE
    move_num := 40
    state := KGCHESS_STATE_MOVE
    promotion_pos := KGCHESS_POS_INVALID }
  let chess := set_piece_at chess ⟨KGCHESS_PIECE_KING, KGCHESS_PLAYER_WHITE, -1⟩ 4 0
  let chess := set_piece_at chess ⟨KGCHESS_PIECE_ROOK, KGCHESS_PLAYER_WHITE, -1⟩ 0 0
  let chess := set_piece_at chess ⟨KGCHESS_PIECE_ROOK, KGCHESS_PLAYER_WHITE, -1⟩ 7 0
  let chess := set_piece_at chess ⟨KGCHESS_PIECE_KING, KGCHESS_PLAYER_BLACK, 21⟩ 4 7
  set_piece_at chess ⟨KGCHESS_PIECE_ROOK, KGCHESS_PLAYER_BLACK, 33⟩ 3 7

/-! ## Applying a move: the rook of a castling move -/

/-- File from which `apply_move` takes the rook of a castling move (`rook_from_x`). -/
def rook_from_x (m : kgchess_move_t) : Int := if m.to_.x = 2 then 0 else 7

/-- File on which `apply_move` puts the rook of a castling move (`rook_to_x`). -/
def rook_to_x (m : kgchess_move_t) : Int := if m.to_.x = 2 then 3 else 5

/-! ## Scripted games -/

/-- The eight-ply game `promotion_game_8`, declared a draw: the phase is Ended. -/
def drawn_game : kgchess_t := kgchess_draw promotion_game_8

/-- The state after a move that does not trigger a promotion, played in phase
AwaitingMove, when the end-of-game scan finds a legal move: the board update of
`apply_move` and the turn handed over. -/
def hand_over (g : kgchess_t) (m : kgchess_move_t) : kgchess_t :=
  { apply_move_body g m with current_player := kgchess_get_enemy_player g.current_player }

/-- A list of moves played with `hand_over`. -/
def play_turns (g : kgchess_t) : List kgchess_move_t → kgchess_t
  | [] => g
  | m :: ms => play_turns (hand_over g m) ms

/-- No move of the list triggers a promotion and each leaves the opponent a legal move. -/
def script_continues (g : kgchess_t) : List kgchess_move_t → Bool
  | [] => true
  | m :: ms => !promotes g m && has_legal_move (hand_over g m) && script_continues (hand_over g m) ms

/-- The opening 1. e2-e4 e7-e5. -/
def opening_moves : List kgchess_move_t :=
  [ ⟨⟨4, 1⟩, ⟨4, 3⟩, false, false, false⟩,
    ⟨⟨4, 6⟩, ⟨4, 4⟩, false, false, false⟩ ]

/-- The first three plies of the fool's mate: 1. f2-f3 e7-e5 2. g2-g4. -/
def fools_mate_moves : List kgchess_move_t :=
  [ ⟨⟨5, 1⟩, ⟨5, 2⟩, false, false, false⟩,
    ⟨⟨4, 6⟩, ⟨4, 4⟩, false, false, false⟩,
    ⟨⟨6, 1⟩, ⟨6, 3⟩, false, false, false⟩ ]

/-- The queen move 2. ... Qd8-h4. -/
def fools_mate_queen : kgchess_move_t := ⟨⟨3, 7⟩, ⟨7, 3⟩, false, false, false⟩

/-! ## Empty squares and their owner -/

/-- Every square whose kind is None has owner None. -/
def empty_unowned (g : kgchess_t) : Prop :=
  ∀ a b : Int, (kgchess_get_piece_at g a b).type = KGCHESS_PIECE_NONE →
    (kgchess_get_piece_at g a b).player = KGCHESS_PLAYER_NONE

/-! ## The castling helper -/

/-- Every occupied square is owned by White or by Black. -/
def pieces_owned (g : kgchess_t) : Prop :=
  ∀ a b : Int, (kgchess_get_piece_at g a b).type ≠ KGCHESS_PIECE_NONE →
    (kgchess_get_piece_at g a b).player = KGCHESS_PLAYER_WHITE ∨
      (kgchess_get_piece_at g a b).player = KGCHESS_PLAYER_BLACK

/-- White to move, king e1 and rook h1 unmoved; Black: king e8 and a rook on g8,
which attacks g1 and nothing else on White's back rank. -/
def castle_guarded_position : kgchess_t :=
  let chess := { zeroed with
    current_player := KGCHESS_PLAYER_WHITE
    move_num := 40
    state := KGCHESS_STATE_MOVE
    promotion_pos := KGCHESS_POS_INVALID }
  let chess := set_piece_at chess ⟨KGCHESS_PIECE_KING, KGCHESS_PLAYER_WHITE, -1⟩ 4 0
  let chess := set_piece_at chess ⟨KGCHESS_PIECE_ROOK, KGCHESS_PLAYER_WHITE, -1⟩ 7 0
  let chess := set_piece_at chess ⟨KGCHESS_PIECE_KING, KGCHESS_PLAYER_BLACK, 21⟩ 4 7
  set_piece_at chess ⟨KGCHESS_PIECE_ROOK, KGCHESS_PLAYER_BLACK, 33⟩ 6 7

/-! ## The generators as sequences of blocks -/

namespace Gen

/-- One of the two castling blocks at the end of `get_king_moves`. -/
def add_castle (att : oracle) (g : kgchess_t) (x y : Int) (iac : Bool) (rook_x to_x : Int)
    (moves : kgchess_moves_array_t) : kgchess_moves_array_t :=
  if !iac && is_castling_possible att g x y rook_x then
    add_move_if_legal att g moves (move_make x y to_x y false true false) false
  else moves

end Gen

/-! ## What is listed outside attack probes -/

/-- Outside attack probes, a generator that has reached the square `s` lists
`m`: the square is empty and `m` is the quiet move onto it, or it holds an enemy
piece and `m` is the capture; and `m` passes `add_move_if_legal`. -/
def step_lists (att : Gen.oracle) (g : kgchess_t) (x y : Int) (P : kgchess_player_t)
    (s : kgchess_pos_t) (m : kgchess_move_t) : Prop :=
  ∃ a : Bool,
    (((kgchess_get_piece_at g s.x s.y).type = KGCHESS_PIECE_NONE ∧ a = false) ∨
      ((kgchess_get_piece_at g s.x s.y).type ≠ KGCHESS_PIECE_NONE ∧
        (kgchess_get_piece_at g s.x s.y).player = kgchess_get_enemy_player P ∧ a = true)) ∧
    Gen.admitted att g false ⟨⟨x, y⟩, s, false, a, false⟩ ∧
    m = ⟨⟨x, y⟩, s, false, a, false⟩

/-- Outside attack probes, the ray from `(x, y)` in direction `d` lists `m`: at
some step `k` it has only passed squares that do not stop it, and it lists `m`
on the square it has reached. -/
def ray_lists (att : Gen.oracle) (g : kgchess_t) (x y : Int) (P : kgchess_player_t)
    (d : Int × Int) (end_ : Int) (m : kgchess_move_t) : Prop :=
  ∃ k : Int, 1 ≤ k ∧ k ≤ end_ ∧
    (∀ k' : Int, 1 ≤ k' → k' < k → probe_pass g P (x + k' * d.1) (y + k' * d.2)) ∧
    step_lists att g x y P ⟨x + k * d.1, y + k * d.2⟩ m

/-! ## The blocks of the pawn generator -/

namespace Gen

/-- A guarded call of `add_move_if_legal`, as in the blocks of `get_pawn_moves`. -/
def add_if (att : oracle) (g : kgchess_t) (c : Bool) (move : kgchess_move_t)
    (moves : kgchess_moves_array_t) : kgchess_moves_array_t :=
  if c then add_move_if_legal att g moves move false else moves

end Gen

/-! ## Sliding and stepping pieces -/

/-- The directions of the rays of a sliding piece, in the order in which its
generator walks them. -/
def slide_dirs : kgchess_piece_type_t → List (Int × Int)
  | KGCHESS_PIECE_ROOK => Gen.rook_dirs
  | KGCHESS_PIECE_BISHOP => Gen.bishop_dirs
  | KGCHESS_PIECE_QUEEN => Gen.rook_dirs ++ Gen.bishop_dirs
  | _ => []

/-- The move from `(x, y)` to `s` as the generators of the rays and steps make
it for a piece of `P`: capture-flagged exactly when `s` holds an enemy piece,
never castling- or en-passant-flagged. -/
def offered_move (g : kgchess_t) (x y : Int) (P : kgchess_player_t) (s : kgchess_pos_t) :
    kgchess_move_t :=
  ⟨⟨x, y⟩, s, false, is_player_at_position g (kgchess_get_enemy_player P) s.x s.y, false⟩

/-- The square is one of the eight squares a knight's move away from `(x, y)`. -/
def knight_offset (x y : Int) (s : kgchess_pos_t) : Prop :=
  (Int.natAbs (s.x - x) = 2 ∧ Int.natAbs (s.y - y) = 1) ∨
    (Int.natAbs (s.x - x) = 1 ∧ Int.natAbs (s.y - y) = 2)

/-- The square is one of the eight squares next to `(x, y)`. -/
def adjacent (x y : Int) (s : kgchess_pos_t) : Prop :=
  Int.natAbs (s.x - x) ≤ 1 ∧ Int.natAbs (s.y - y) ≤ 1 ∧ s ≠ ⟨x, y⟩

/-- A position with a piece that belongs to nobody: White rook a1 and knight c1,
kings on e1 and e8, and on a2 a knight whose owner is `KGCHESS_PLAYER_NONE`. -/
def ownerless_position : kgchess_t :=
  let chess := { zeroed with
    current_player := KGCHESS_PLAYER_WHITE
    move_num := 40
    state := KGCHESS_STATE_MOVE
    promotion_pos := KGCHESS_POS_INVALID }
  let chess := set_piece_at chess ⟨KGCHESS_PIECE_KING, KGCHESS_PLAYER_WHITE, 10⟩ 4 0
  let chess := set_piece_at chess ⟨KGCHESS_PIECE_ROOK, KGCHESS_PLAYER_WHITE, -1⟩ 0 0
  let chess := set_piece_at chess ⟨KGCHESS_PIECE_KNIGHT, KGCHESS_PLAYER_WHITE, 12⟩ 2 0
  let chess := set_piece_at chess ⟨KGCHESS_PIECE_KING, KGCHESS_PLAYER_BLACK, 21⟩ 4 7
  set_piece_at chess ⟨KGCHESS_PIECE_KNIGHT, KGCHESS_PLAYER_NONE, -1⟩ 0 1

instance (x y : Int) (s : kgchess_pos_t) : Decidable (knight_offset x y s) := by
  unfold knight_offset
  infer_instance

instance (x y : Int) (s : kgchess_pos_t) : Decidable (adjacent x y s) := by
  unfold adjacent
  infer_instance

/-- The squares a knight resp. a king steps to from `(x, y)`. -/
def step_squares (T : kgchess_piece_type_t) (x y : Int) (s : kgchess_pos_t) : Prop :=
  (T = KGCHESS_PIECE_KNIGHT ∧ knight_offset x y s) ∨ (T = KGCHESS_PIECE_KING ∧ adjacent x y s)

/-! ## Pieces that have never moved -/

/-- The states reached from `g0` by `kgchess_move`, called while the phase is
AwaitingMove with a move taken from `kgchess_get_moves`, and by
`kgchess_promote`, called while the phase is AwaitingPromotion. -/
inductive played_from (g0 : kgchess_t) : kgchess_t → Prop
  | start : played_from g0 g0
  | move {g : kgchess_t} (x y : Int) (m : kgchess_move_t) :
      played_from g0 g → g.state = KGCHESS_STATE_MOVE → m ∈ kgchess_get_moves g x y →
      played_from g0 (kgchess_move g m).2
  | promote {g : kgchess_t} (piece_type : kgchess_piece_type_t) :
      played_from g0 g → g.state = KGCHESS_STATE_PROMOTION →
      played_from g0 (kgchess_promote g piece_type).2

/-- The ply counter is not negative and, while a promotion is pending, the piece
on the promotion square has been moved. -/
def markers_sound (g : kgchess_t) : Prop :=
  0 ≤ g.move_num ∧
    (g.state = KGCHESS_STATE_PROMOTION →
      (get_piece_at g g.promotion_pos.x g.promotion_pos.y).last_move_num ≠ -1)

/-- Every piece of `g` that has never moved stands in `g0` on the same square,
with the same kind, owner and marker. -/
def unmoved_since (g0 g : kgchess_t) : Prop :=
  ∀ a b : Int, (get_piece_at g a b).type ≠ KGCHESS_PIECE_NONE →
    (get_piece_at g a b).last_move_num = -1 → get_piece_at g a b = get_piece_at g0 a b

/-! ## The generator without the capacity guard of `add_move` -/

namespace Unbounded

/-- What `add_move` does when the capacity guard is removed: the move is appended. -/
def add_move (arr : kgchess_moves_array_t) (move : kgchess_move_t) : kgchess_moves_array_t :=
  arr ++ [move]

def add_move_if_legal (att : Gen.oracle) (chess : kgchess_t) (arr : kgchess_moves_array_t)
    (move : kgchess_move_t) (is_attacks_check : Bool) : kgchess_moves_array_t :=
  if move.to_.x < 0 ∨ move.to_.x ≥ 8 ∨ move.to_.y < 0 ∨ move.to_.y ≥ 8 then arr
  else if !is_attacks_check then
    let piece := kgchess_get_piece_at chess move.from_.x move.from_.y
    let chess_copy := apply_move_body chess move
    if Gen.is_in_check att chess_copy piece.player then arr
    else add_move arr move
  else add_move arr move

/-- The loop of `add_move_range`, see `Gen.add_move_range_loop`. -/
def add_move_range_loop (att : Gen.oracle) (chess : kgchess_t) (x y : Int) (piece : kgchess_piece_t)
    (dx dy : Int) (add_potential_attacks is_attacks_check : Bool) :
    Nat → Int → kgchess_moves_array_t → kgchess_moves_array_t
  | 0, _, moves => moves
  | n + 1, i, moves =>
    let temp_piece := kgchess_get_piece_at chess (x + i * dx) (y + i * dy)
    if temp_piece.type = KGCHESS_PIECE_NONE ∧ (!is_attacks_check || add_potential_attacks) then
      let move := move_make x y (x + i * dx) (y + i * dy) add_potential_attacks false false
      add_move_range_loop att chess x y piece dx dy add_potential_attacks is_attacks_check n (i + 1)
        (add_move_if_legal att chess moves move is_attacks_check)
    else if temp_piece.player = kgchess_get_enemy_player piece.player then
      let move := move_make x y (x + i * dx) (y + i * dy) true false false
      add_move_if_legal att chess moves move is_attacks_check
    else if temp_piece.player = piece.player then moves
    else
      add_move_range_loop att chess x y piece dx dy add_potential_attacks is_attacks_check n (i + 1)
        moves

def add_move_range (att : Gen.oracle) (chess : kgchess_t) (moves : kgchess_moves_array_t) (x y : Int)
    (piece : kgchess_piece_t) (dx dy end_ : Int) (add_potential_attacks is_attacks_check : Bool) :
    kgchess_moves_array_t :=
  add_move_range_loop att chess x y piece dx dy add_potential_attacks is_attacks_check
    (end_ + 1 - 1).toNat 1 moves

def get_king_moves (att : Gen.oracle) (chess : kgchess_t) (x y : Int) (piece : kgchess_piece_t)
    (add_potential_attacks is_attacks_check : Bool) : kgchess_moves_array_t :=
  let moves := kgchess_moves_array_make_empty
  let moves := add_move_range att chess moves x y piece 0 1 1 add_potential_attacks is_attacks_check
  let moves := add_move_range att chess moves x y piece 0 (-1) 1 add_potential_attacks is_attacks_check
  let moves := add_move_range att chess moves x y piece (-1) 0 1 add_potential_attacks is_attacks_check
  let moves := add_move_range att chess moves x y piece 1 0 1 add_potential_attacks is_attacks_check
  let moves := add_move_range att chess moves x y piece 1 1 1 add_potential_attacks is_attacks_check
  let moves := add_move_range att chess moves x y piece (-1) (-1) 1 add_potential_attacks is_attacks_check
  let moves := add_move_range att chess moves x y piece (-1) 1 1 add_potential_attacks is_attacks_check
  let moves := add_move_range att chess moves x y piece 1 (-1) 1 add_potential_attacks is_attacks_check
  let moves :=
    if !is_attacks_check && Gen.is_castling_possible att chess x y 0 then
      add_move_if_legal att chess moves (move_make x y 2 y false true false) false
    else moves
  let moves :=
    if !is_attacks_check && Gen.is_castling_possible att chess x y 7 then
      add_move_if_legal att chess moves (move_make x y 6 y false true false) false
    else moves
  moves

def get_queen_moves (att : Gen.oracle) (chess : kgchess_t) (x y : Int) (piece : kgchess_piece_t)
    (add_potential_attacks is_attacks_check : Bool) : kgchess_moves_array_t :=
  let moves := kgchess_moves_array_make_empty
  let moves := add_move_range att chess moves x y piece 0 1 7 add_potential_attacks is_attacks_check
  let moves := add_move_range att chess moves x y piece 0 (-1) 7 add_potential_attacks is_attacks_check
  let moves := add_move_range att chess moves x y piece (-1) 0 7 add_potential_attacks is_attacks_check
  let moves := add_move_range att chess moves x y piece 1 0 7 add_potential_attacks is_attacks_check
  let moves := add_move_range att chess moves x y piece 1 1 7 add_potential_attacks is_attacks_check
  let moves := add_move_range att chess moves x y piece (-1) (-1) 7 add_potential_attacks is_attacks_check
  let moves := add_move_range att chess moves x y piece (-1) 1 7 add_potential_attacks is_attacks_check
  let moves := add_move_range att chess moves x y piece 1 (-1) 7 add_potential_attacks is_attacks_check
  moves

def get_bishop_moves (att : Gen.oracle) (chess : kgchess_t) (x y : Int) (piece : kgchess_piece_t)
    (add_potential_attacks is_attacks_check : Bool) : kgchess_moves_array_t :=
  let moves := kgchess_moves_array_make_empty
  let moves := add_move_range att chess moves x y piece 1 1 7 add_potential_attacks is_attacks_check
  let moves := add_move_range att chess moves x y piece (-1) (-1) 7 add_potential_attacks is_attacks_check
  let moves := add_move_range att chess moves x y piece (-1) 1 7 add_potential_attacks is_attacks_check
  let moves := add_move_range att chess moves x y piece 1 (-1) 7 add_potential_attacks is_attacks_check
  moves

/-- One iteration of the loop of `get_knight_moves`, see `Gen.knight_step`. -/
def knight_step (att : Gen.oracle) (chess : kgchess_t) (x y : Int) (enemy : kgchess_player_t)
    (add_potential_attacks is_attacks_check : Bool) (moves : kgchess_moves_array_t)
    (pos : kgchess_pos_t) : kgchess_moves_array_t :=
  let temp_piece := kgchess_get_piece_at chess pos.x pos.y
  if temp_piece.type = KGCHESS_PIECE_NONE ∧ (!is_attacks_check || add_potential_attacks) then
    add_move_if_legal att chess moves
      (move_make x y pos.x pos.y add_potential_attacks false false) is_attacks_check
  else if temp_piece.player = enemy then
    add_move_if_legal att chess moves (move_make x y pos.x pos.y true false false) is_attacks_check
  else moves

def get_knight_moves (att : Gen.oracle) (chess : kgchess_t) (x y : Int) (piece : kgchess_piece_t)
    (add_potential_attacks is_attacks_check : Bool) : kgchess_moves_array_t :=
  let moves := kgchess_moves_array_make_empty
  let enemy := kgchess_get_enemy_player piece.player
  (Gen.positions_to_check x y).foldl
    (knight_step att chess x y enemy add_potential_attacks is_attacks_check) moves

def get_rook_moves (att : Gen.oracle) (chess : kgchess_t) (x y : Int) (piece : kgchess_piece_t)
    (add_potential_attacks is_attacks_check : Bool) : kgchess_moves_array_t :=
  let moves := kgchess_moves_array_make_empty
  let moves := add_move_range att chess moves x y piece 0 1 7 add_potential_attacks is_attacks_check
  let moves := add_move_range att chess moves x y piece 0 (-1) 7 add_potential_attacks is_attacks_check
  let moves := add_move_range att chess moves x y piece (-1) 0 7 add_potential_attacks is_attacks_check
  let moves := add_move_range att chess moves x y piece 1 0 7 add_potential_attacks is_attacks_check
  moves

def get_pawn_moves (att : Gen.oracle) (chess : kgchess_t) (x y : Int) (piece : kgchess_piece_t)
    (add_potential_attacks is_attacks_check : Bool) : kgchess_moves_array_t :=
  let moves := kgchess_moves_array_make_empty
  let dir : Int := if piece.player = KGCHESS_PLAYER_BLACK then -1 else 1
  let initial_y : Int := if piece.player = KGCHESS_PLAYER_BLACK then 6 else 1
  let moves :=
    if !is_attacks_check && is_position_empty chess x (y + 1 * dir) then
      let moves :=
        add_move_if_legal att chess moves (move_make x y x (y + 1 * dir) false false false)
          is_attacks_check
      if y = initial_y ∧ is_position_empty chess x (y + 2 * dir) then
        add_move_if_legal att chess moves (move_make x y x (y + 2 * dir) false false false)
          is_attacks_check
      else moves
    else moves
  let enemy := kgchess_get_enemy_player piece.player
  let moves :=
    if add_potential_attacks || is_player_at_position chess enemy (x + 1) (y + 1 * dir) then
      add_move_if_legal att chess moves (move_make x y (x + 1) (y + 1 * dir) true false false)
        is_attacks_check
    else moves
  let moves :=
    if add_potential_attacks || is_player_at_position chess enemy (x - 1) (y + 1 * dir) then
      add_move_if_legal att chess moves (move_make x y (x - 1) (y + 1 * dir) true false false)
        is_attacks_check
    else moves
  let moves :=
    if !add_potential_attacks && !is_attacks_check then
      let en_passant_x := get_en_passant chess x y piece
      if en_passant_x ≠ -1 then
        add_move_if_legal att chess moves (move_make x y en_passant_x (y + dir) true false true)
          is_attacks_check
      else moves
    else moves
  moves

def get_moves (att : Gen.oracle) (chess : kgchess_t) (x y : Int)
    (add_potential_attacks is_attacks_check : Bool) : kgchess_moves_array_t :=
  let piece := kgchess_get_piece_at chess x y
  match piece.type with
  | KGCHESS_PIECE_KING => get_king_moves att chess x y piece add_potential_attacks is_attacks_check
  | KGCHESS_PIECE_QUEEN => get_queen_moves att chess x y piece add_potential_attacks is_attacks_check
  | KGCHESS_PIECE_BISHOP =>
    get_bishop_moves att chess x y piece add_potential_attacks is_attacks_check
  | KGCHESS_PIECE_KNIGHT =>
    get_knight_moves att chess x y piece add_potential_attacks is_attacks_check
  | KGCHESS_PIECE_ROOK => get_rook_moves att chess x y piece add_potential_attacks is_attacks_check
  | KGCHESS_PIECE_PAWN => get_pawn_moves att chess x y piece add_potential_attacks is_attacks_check
  | KGCHESS_PIECE_NONE => kgchess_moves_array_make_empty

/-- Body of `kgchess_is_square_attacked_by_player`, its probes generated without the
capacity guard. -/
def is_square_attacked (att : Gen.oracle) (chess : kgchess_t) (square_x square_y : Int)
    (player : kgchess_player_t) : Bool :=
  range8.any fun x =>
    range8.any fun y =>
      let piece := kgchess_get_piece_at chess x y
      if piece.player ≠ player then false
      else
        let moves := get_moves att chess x y true true
        moves.any fun move =>
          move.is_attack && decide (move.to_.x = square_x) && decide (move.to_.y = square_y)

/-- The attack oracle of the generator without capacity guard. -/
def kgchess_is_square_attacked_by_player (chess : kgchess_t) (square_x square_y : Int)
    (player : kgchess_player_t) : Bool :=
  is_square_attacked (fun _ _ _ _ => false) chess square_x square_y player

/-- What `kgchess_get_moves` returns when `add_move` never discards a move. -/
def kgchess_get_moves (chess : kgchess_t) (x y : Int) : kgchess_moves_array_t :=
  get_moves kgchess_is_square_attacked_by_player chess x y false false

end Unbounded

/-! ## Destinations of a list -/

namespace Gen

/-- The squares of the steps `i, ..., i + n - 1` of a ray, as `move_make` records them. -/
def ray_squares (x y dx dy : Int) : Nat → Int → List kgchess_pos_t
  | 0, _ => []
  | n + 1, i => ⟨to_int8 (x + i * dx), to_int8 (y + i * dy)⟩ :: ray_squares x y dx dy n (i + 1)

/-- The squares of the rays of a list of directions, in the order in which the
generator walks them. -/
def sweep_squares (x y end_ : Int) (dirs : List (Int × Int)) : List kgchess_pos_t :=
  dirs.flatMap fun d => ray_squares x y d.1 d.2 (end_ + 1 - 1).toNat 1

end Gen

/-- The game 1. d2-d4 e7-e5 2. e2-e4. -/
def double_capture_moves : List kgchess_move_t :=
  [ ⟨⟨3, 1⟩, ⟨3, 3⟩, false, false, false⟩,
    ⟨⟨4, 6⟩, ⟨4, 4⟩, false, false, false⟩,
    ⟨⟨4, 1⟩, ⟨4, 3⟩, false, false, false⟩ ]

def double_capture_game : kgchess_t := play kgchess_make double_capture_moves

/-- Two listed moves may share their destination only as the ordinary capture of
a pawn followed by its en passant capture. -/
def shared_destination (g : kgchess_t) (x y : Int) (a b : kgchess_move_t) : Prop :=
  a.to_ = b.to_ →
    ((kgchess_get_piece_at g x y).type = KGCHESS_PIECE_PAWN ∧ a.is_attack = true ∧
      a.is_en_passant = false ∧ b.is_en_passant = true)

/-! ## Occupancy of the board -/

/-- The two boards hold, on every square of the board, occupants of the same
kind and owner (the last-moved markers may differ). -/
def same_occupancy (g g' : kgchess_t) : Prop :=
  ∀ a b : Int, in_board a b → kgchess_get_piece_at g a b = kgchess_get_piece_at g' a b

/-- The game with every field but kind and owner of the squares replaced: the
current player, the ply counter, the last move, the phase, the promotion
square, the winner, and the last-moved marker of every square. -/
def with_other_fields (g : kgchess_t) (current_player : kgchess_player_t) (move_num : Int)
    (last_move : kgchess_move_t) (state : kgchess_state_t) (promotion_pos : kgchess_pos_t)
    (winner : kgchess_player_t) (markers : Int → Int → Int) : kgchess_t :=
  { current_player := current_player
    pieces := fun a b => { g.pieces a b with last_move_num := markers a b }
    move_num := move_num
    last_move := last_move
    state := state
    promotion_pos := promotion_pos
    winner := winner }

/-! ## The engine with fuel for its recursive calls -/

namespace Fuel

/-- A call of `kgchess_is_square_attacked_by_player` made from inside the
engine: it may fail to return. -/
abbrev oracle := kgchess_t → Int → Int → kgchess_player_t → Option Bool

/-- A call of `check_checkmate` made from `apply_move`: it may fail to return. -/
abbrev scan := kgchess_t → Option kgchess_t

/-- A `for` loop over the list whose body may `return true`: the body is run
on the elements in turn until it returns true or fails to return. -/
def any_opt {α : Type} (f : α → Option Bool) : List α → Option Bool
  | [] => some false
  | a :: l => (f a).bind fun b => if b then some true else any_opt f l

def is_in_check (att : oracle) (chess : kgchess_t) (player : kgchess_player_t) : Option Bool :=
  let king : Int × Int :=
    range8.foldl (fun king x =>
      match range8.find? (fun y =>
          let piece := kgchess_get_piece_at chess x y
          decide (piece.type = KGCHESS_PIECE_KING) && decide (piece.player = player)) with
      | some y => (x, y)
      | none => king) (-1, -1)
  if king.1 = -1 ∨ king.2 = -1 then some false
  else att chess king.1 king.2 (kgchess_get_enemy_player player)

def is_castling_possible (att : oracle) (chess : kgchess_t) (x y rook_x : Int) : Option Bool :=
  let king := get_piece_at chess x y
  let rook := get_piece_at chess rook_x y
  if king.type ≠ KGCHESS_PIECE_KING ∨ rook.type ≠ KGCHESS_PIECE_ROOK then some false
  else if king.last_move_num ≠ -1 ∨ rook.last_move_num ≠ -1 then some false
  else
    let enemy := kgchess_get_enemy_player king.player
    (is_in_check att chess king.player).bind fun in_check =>
      if in_check then some false
      else if rook_x = 0 then
        if !is_position_empty chess 1 y || !is_position_empty chess 2 y
            || !is_position_empty chess 3 y then some false
        else (att chess 3 y enemy).bind fun attacked => if attacked then some false else some true
      else if rook_x = 7 then
        if !is_position_empty chess 5 y || !is_position_empty chess 6 y then some false
        else (att chess 5 y enemy).bind fun attacked => if attacked then some false else some true
      else some false

/-- `apply_move`: the board update of `apply_move_body`, then, in phase
AwaitingMove and with `update_state`, the call of `check_checkmate`. -/
def apply_move (cm : scan) (chess : kgchess_t) (move : kgchess_move_t) (update_state : Bool) :
    Option kgchess_t :=
  let chess := apply_move_body chess move
  if chess.state = KGCHESS_STATE_MOVE ∧ update_state then
    let chess := { chess with current_player := kgchess_get_enemy_player chess.current_player }
    cm chess
  else some chess

def add_move_if_legal (att : oracle) (cm : scan) (chess : kgchess_t)
    (arr : kgchess_moves_array_t) (move : kgchess_move_t) (is_attacks_check : Bool) :
    Option kgchess_moves_array_t :=
  if move.to_.x < 0 ∨ move.to_.x ≥ 8 ∨ move.to_.y < 0 ∨ move.to_.y ≥ 8 then some arr
  else if !is_attacks_check then
    let piece := kgchess_get_piece_at chess move.from_.x move.from_.y
    (apply_move cm chess move false).bind fun chess_copy =>
      (is_in_check att chess_copy piece.player).bind fun in_check =>
        if in_check then some arr else some (add_move arr move)
  else some (add_move arr move)

/-- The loop of `add_move_range`, see `Gen.add_move_range_loop`. -/
def add_move_range_loop (att : oracle) (cm : scan) (chess : kgchess_t) (x y : Int)
    (piece : kgchess_piece_t) (dx dy : Int) (add_potential_attacks is_attacks_check : Bool) :
    Nat → Int → kgchess_moves_array_t → Option kgchess_moves_array_t
  | 0, _, moves => some moves
  | n + 1, i, moves =>
    let temp_piece := kgchess_get_piece_at chess (x + i * dx) (y + i * dy)
    if temp_piece.type = KGCHESS_PIECE_NONE ∧ (!is_attacks_check || add_potential_attacks) then
      let move := move_make x y (x + i * dx) (y + i * dy) add_potential_attacks false false
      (add_move_if_legal att cm chess moves move is_attacks_check).bind fun moves =>
        add_move_range_loop att cm chess x y piece dx dy add_potential_attacks is_attacks_check n
          (i + 1) moves
    else if temp_piece.player = kgchess_get_enemy_player piece.player then
      let move := move_make x y (x + i * dx) (y + i * dy) true false false
      add_move_if_legal att cm chess moves move is_attacks_check
    else if temp_piece.player = piece.player then some moves
    else
      add_move_range_loop att cm chess x y piece dx dy add_potential_attacks is_attacks_check n
        (i + 1) moves

def add_move_range (att : oracle) (cm : scan) (chess : kgchess_t) (moves : kgchess_moves_array_t)
    (x y : Int) (piece : kgchess_piece_t) (dx dy end_ : Int)
    (add_potential_attacks is_attacks_check : Bool) : Option kgchess_moves_array_t :=
  add_move_range_loop att cm chess x y piece dx dy add_potential_attacks is_attacks_check
    (end_ + 1 - 1).toNat 1 moves

def get_king_moves (att : oracle) (cm : scan) (chess : kgchess_t) (x y : Int)
    (piece : kgchess_piece_t) (add_potential_attacks is_attacks_check : Bool) :
    Option kgchess_moves_array_t :=
  (add_move_range att cm chess kgchess_moves_array_make_empty x y piece 0 1 1
    add_potential_attacks is_attacks_check).bind fun moves =>
  (add_move_range att cm chess moves x y piece 0 (-1) 1
    add_potential_attacks is_attacks_check).bind fun moves =>
  (add_move_range att cm chess moves x y piece (-1) 0 1
    add_potential_attacks is_attacks_check).bind fun moves =>
  (add_move_range att cm chess moves x y piece 1 0 1
    add_potential_attacks is_attacks_check).bind fun moves =>
  (add_move_range att cm chess moves x y piece 1 1 1
    add_potential_attacks is_attacks_check).bind fun moves =>
  (add_move_range att cm chess moves x y piece (-1) (-1) 1
    add_potential_attacks is_attacks_check).bind fun moves =>
  (add_move_range att cm chess moves x y piece (-1) 1 1
    add_potential_attacks is_attacks_check).bind fun moves =>
  (add_move_range att cm chess moves x y piece 1 (-1) 1
    add_potential_attacks is_attacks_check).bind fun moves =>
  (if !is_attacks_check then is_castling_possible att chess x y 0 else some false).bind
    fun possible =>
  (if possible then
      add_move_if_legal att cm chess moves (move_make x y 2 y false true false) false
    else some moves).bind fun moves =>
  (if !is_attacks_check then is_castling_possible att chess x y 7 else some false).bind
    fun possible =>
  if possible then
    add_move_if_legal att cm chess moves (move_make x y 6 y false true false) false
  else some moves

def get_queen_moves (att : oracle) (cm : scan) (chess : kgchess_t) (x y : Int)
    (piece : kgchess_piece_t) (add_potential_attacks is_attacks_check : Bool) :
    Option kgchess_moves_array_t :=
  (add_move_range att cm chess kgchess_moves_array_make_empty x y piece 0 1 7
    add_potential_attacks is_attacks_check).bind fun moves =>
  (add_move_range att cm chess moves x y piece 0 (-1) 7
    add_potential_attacks is_attacks_check).bind fun moves =>
  (add_move_range att cm chess moves x y piece (-1) 0 7
    add_potential_attacks is_attacks_check).bind fun moves =>
  (add_move_range att cm chess moves x y piece 1 0 7
    add_potential_attacks is_attacks_check).bind fun moves =>
  (add_move_range att cm chess moves x y piece 1 1 7
    add_potential_attacks is_attacks_check).bind fun moves =>
  (add_move_range att cm chess moves x y piece (-1) (-1) 7
    add_potential_attacks is_attacks_check).bind fun moves =>
  (add_move_range att cm chess moves x y piece (-1) 1 7
    add_potential_attacks is_attacks_check).bind fun moves =>
  add_move_range att cm chess moves x y piece 1 (-1) 7 add_potential_attacks is_attacks_check

def get_bishop_moves (att : oracle) (cm : scan) (chess : kgchess_t) (x y : Int)
    (piece : kgchess_piece_t) (add_potential_attacks is_attacks_check : Bool) :
    Option kgchess_moves_array_t :=
  (add_move_range att cm chess kgchess_moves_array_make_empty x y piece 1 1 7
    add_potential_attacks is_attacks_check).bind fun moves =>
  (add_move_range att cm chess moves x y piece (-1) (-1) 7
    add_potential_attacks is_attacks_check).bind fun moves =>
  (add_move_range att cm chess moves x y piece (-1) 1 7
    add_potential_attacks is_attacks_check).bind fun moves =>
  add_move_range att cm chess moves x y piece 1 (-1) 7 add_potential_attacks is_attacks_check

/-- One iteration of the loop of `get_knight_moves`, see `Gen.knight_step`. -/
def knight_step (att : oracle) (cm : scan) (chess : kgchess_t) (x y : Int)
    (enemy : kgchess_player_t) (add_potential_attacks is_attacks_check : Bool)
    (moves : kgchess_moves_array_t) (pos : kgchess_pos_t) : Option kgchess_moves_array_t :=
  let temp_piece := kgchess_get_piece_at chess pos.x pos.y
  if temp_piece.type = KGCHESS_PIECE_NONE ∧ (!is_attacks_check || add_potential_attacks) then
    add_move_if_legal att cm chess moves
      (move_make x y pos.x pos.y add_potential_attacks false false) is_attacks_check
  else if temp_piece.player = enemy then
    add_move_if_legal att cm chess moves (move_make x y pos.x pos.y true false false)
      is_attacks_check
  else some moves

/-- The loop of `get_knight_moves` over the table `positions_to_check`. -/
def knight_loop (att : oracle) (cm : scan) (chess : kgchess_t) (x y : Int)
    (enemy : kgchess_player_t) (add_potential_attacks is_attacks_check : Bool) :
    List kgchess_pos_t → kgchess_moves_array_t → Option kgchess_moves_array_t
  | [], moves => some moves
  | pos :: rest, moves =>
    (knight_step att cm chess x y enemy add_potential_attacks is_attacks_check moves pos).bind
      fun moves =>
        knight_loop att cm chess x y enemy add_potential_attacks is_attacks_check rest moves

def get_knight_moves (att : oracle) (cm : scan) (chess : kgchess_t) (x y : Int)
    (piece : kgchess_piece_t) (add_potential_attacks is_attacks_check : Bool) :
    Option kgchess_moves_array_t :=
  let moves := kgchess_moves_array_make_empty
  let enemy := kgchess_get_enemy_player piece.player
  knight_loop att cm chess x y enemy add_potential_attacks is_attacks_check
    (Gen.positions_to_check x y) moves

def get_rook_moves (att : oracle) (cm : scan) (chess : kgchess_t) (x y : Int)
    (piece : kgchess_piece_t) (add_potential_attacks is_attacks_check : Bool) :
    Option kgchess_moves_array_t :=
  (add_move_range att cm chess kgchess_moves_array_make_empty x y piece 0 1 7
    add_potential_attacks is_attacks_check).bind fun moves =>
  (add_move_range att cm chess moves x y piece 0 (-1) 7
    add_potential_attacks is_attacks_check).bind fun moves =>
  (add_move_range att cm chess moves x y piece (-1) 0 7
    add_potential_attacks is_attacks_check).bind fun moves =>
  add_move_range att cm chess moves x y piece 1 0 7 add_potential_attacks is_attacks_check

def get_pawn_moves (att : oracle) (cm : scan) (chess : kgchess_t) (x y : Int)
    (piece : kgchess_piece_t) (add_potential_attacks is_attacks_check : Bool) :
    Option kgchess_moves_array_t :=
  let moves := kgchess_moves_array_make_empty
  let dir : Int := if piece.player = KGCHESS_PLAYER_BLACK then -1 else 1
  let initial_y : Int := if piece.player = KGCHESS_PLAYER_BLACK then 6 else 1
  (if !is_attacks_check && is_position_empty chess x (y + 1 * dir) then
      (add_move_if_legal att cm chess moves (move_make x y x (y + 1 * dir) false false false)
        is_attacks_check).bind fun moves =>
        if y = initial_y ∧ is_position_empty chess x (y + 2 * dir) then
          add_move_if_legal att cm chess moves (move_make x y x (y + 2 * dir) false false false)
            is_attacks_check
        else some moves
    else some moves).bind fun moves =>
  let enemy := kgchess_get_enemy_player piece.player
  (if add_potential_attacks || is_player_at_position chess enemy (x + 1) (y + 1 * dir) then
      add_move_if_legal att cm chess moves (move_make x y (x + 1) (y + 1 * dir) true false false)
        is_attacks_check
    else some moves).bind fun moves =>
  (if add_potential_attacks || is_player_at_position chess enemy (x - 1) (y + 1 * dir) then
      add_move_if_legal att cm chess moves (move_make x y (x - 1) (y + 1 * dir) true false false)
        is_attacks_check
    else some moves).bind fun moves =>
  if !add_potential_attacks && !is_attacks_check then
    let en_passant_x := get_en_passant chess x y piece
    if en_passant_x ≠ -1 then
      add_move_if_legal att cm chess moves (move_make x y en_passant_x (y + dir) true false true)
        is_attacks_check
    else some moves
  else some moves

def get_moves (att : oracle) (cm : scan) (chess : kgchess_t) (x y : Int)
    (add_potential_attacks is_attacks_check : Bool) : Option kgchess_moves_array_t :=
  let piece := kgchess_get_piece_at chess x y
  match piece.type with
  | KGCHESS_PIECE_KING =>
    get_king_moves att cm chess x y piece add_potential_attacks is_attacks_check
  | KGCHESS_PIECE_QUEEN =>
    get_queen_moves att cm chess x y piece add_potential_attacks is_attacks_check
  | KGCHESS_PIECE_BISHOP =>
    get_bishop_moves att cm chess x y piece add_potential_attacks is_attacks_check
  | KGCHESS_PIECE_KNIGHT =>
    get_knight_moves att cm chess x y piece add_potential_attacks is_attacks_check
  | KGCHESS_PIECE_ROOK =>
    get_rook_moves att cm chess x y piece add_potential_attacks is_attacks_check
  | KGCHESS_PIECE_PAWN =>
    get_pawn_moves att cm chess x y piece add_potential_attacks is_attacks_check
  | KGCHESS_PIECE_NONE => some kgchess_moves_array_make_empty

/-- Body of `kgchess_is_square_attacked_by_player`. -/
def is_square_attacked (att : oracle) (cm : scan) (chess : kgchess_t) (square_x square_y : Int)
    (player : kgchess_player_t) : Option Bool :=
  any_opt (fun x =>
    any_opt (fun y =>
      let piece := kgchess_get_piece_at chess x y
      if piece.player ≠ player then some false
      else
        (get_moves att cm chess x y true true).bind fun moves =>
          some (moves.any fun move =>
            move.is_attack && decide (move.to_.x = square_x) && decide (move.to_.y = square_y)))
      range8) range8

/-- Body of `check_checkmate`. -/
def check_checkmate (att : oracle) (cm : scan) (chess : kgchess_t) : Option kgchess_t :=
  (any_opt (fun x =>
    any_opt (fun y =>
      let piece := kgchess_get_piece_at chess x y
      if piece.type = KGCHESS_PIECE_NONE ∨ piece.player ≠ chess.current_player then some false
      else
        (get_moves att cm chess x y false false).bind fun moves =>
          some (decide (moves.length ≠ 0)))
      range8) range8).bind fun found =>
    if found then some chess
    else
      (is_in_check att chess chess.current_player).bind fun in_check =>
        let chess :=
          if in_check then
            { chess with winner := kgchess_get_enemy_player chess.current_player }
          else chess
        some { chess with state := KGCHESS_STATE_ENDED }

/-- The calls that close the recursion of the engine,
`kgchess_is_square_attacked_by_player` (from `is_in_check` and
`is_castling_possible`) and `check_checkmate` (from `apply_move`), with fuel: a
call with no fuel left does not return, a call with fuel `n + 1` runs the body
with fuel `n` for the calls it makes. -/
def calls : Nat → oracle × scan
  | 0 => (fun _ _ _ _ => none, fun _ => none)
  | n + 1 => (is_square_attacked (calls n).1 (calls n).2, check_checkmate (calls n).1 (calls n).2)

def kgchess_is_square_attacked_by_player (fuel : Nat) (chess : kgchess_t)
    (square_x square_y : Int) (player : kgchess_player_t) : Option Bool :=
  (calls fuel).1 chess square_x square_y player

def kgchess_get_moves : Nat → kgchess_t → Int → Int → Option kgchess_moves_array_t
  | 0, _, _, _ => none
  | n + 1, chess, x, y => get_moves (calls n).1 (calls n).2 chess x y false false

def kgchess_move : Nat → kgchess_t → kgchess_move_t → Option (Bool × kgchess_t)
  | 0, _, _ => none
  | n + 1, chess, move => (apply_move (calls n).2 chess move true).bind fun chess => some (true, chess)

def kgchess_promote : Nat → kgchess_t → kgchess_piece_type_t → Option (Bool × kgchess_t)
  | 0, _, _ => none
  | n + 1, chess, piece_type =>
    if chess.state ≠ KGCHESS_STATE_PROMOTION then some (false, chess)
    else if chess.promotion_pos.x = -1 ∨ chess.promotion_pos.y = -1 then some (false, chess)
    else if piece_type = KGCHESS_PIECE_PAWN ∨ piece_type = KGCHESS_PIECE_KING then
      some (false, chess)
    else
      let piece := get_piece_at chess chess.promotion_pos.x chess.promotion_pos.y
      let piece := { piece with type := piece_type }
      let chess := set_piece_at chess piece chess.promotion_pos.x chess.promotion_pos.y
      let chess := { chess with state := KGCHESS_STATE_MOVE }
      let chess := { chess with current_player := kgchess_get_enemy_player chess.current_player }
      (check_checkmate (calls n).1 (calls n).2 chess).bind fun chess => some (true, chess)

end Fuel

/-- The fuelled oracle returns, and returns the value of `att`. -/
def returns (att' : Fuel.oracle) (att : Gen.oracle) : Prop :=
  ∀ (g : kgchess_t) (x y : Int) (p : kgchess_player_t), att' g x y p = some (att g x y p)

/-! # Theorems -/

/-! ## Frame lemmas -/

section frame

variable (chess : kgchess_t) (piece : kgchess_piece_internal_t) (x y : Int)

@[simp] theorem set_piece_at_current_player :
    (set_piece_at chess piece x y).current_player = chess.current_player := by
  unfold set_piece_at; split <;> rfl

@[simp] theorem set_piece_at_move_num :
    (set_piece_at chess piece x y).move_num = chess.move_num := by
  unfold set_piece_at; split <;> rfl

@[simp] theorem set_piece_at_last_move :
    (set_piece_at chess piece x y).last_move = chess.last_move := by
  unfold set_piece_at; split <;> rfl

@[simp] theorem set_piece_at_state : (set_piece_at chess piece x y).state = chess.state := by
  unfold set_piece_at; split <;> rfl

@[simp] theorem set_piece_at_promotion_pos :
    (set_piece_at chess piece x y).promotion_pos = chess.promotion_pos := by
  unfold set_piece_at; split <;> rfl

@[simp] theorem set_piece_at_winner : (set_piece_at chess piece x y).winner = chess.winner := by
  unfold set_piece_at; split <;> rfl

theorem get_piece_at_set_piece_at (a b : Int) :
    get_piece_at (set_piece_at chess piece x y) a b =
      if (0 ≤ x ∧ x < 8 ∧ 0 ≤ y ∧ y < 8) ∧ a = x ∧ b = y then piece
      else get_piece_at chess a b := by
  unfold set_piece_at get_piece_at
  by_cases hx : x < 0 ∨ x ≥ 8 ∨ y < 0 ∨ y ≥ 8
  · have : ¬ (0 ≤ x ∧ x < 8 ∧ 0 ≤ y ∧ y < 8) := by omega
    simp [hx, this]
  · have h1 : 0 ≤ x ∧ x < 8 ∧ 0 ≤ y ∧ y < 8 := by omega
    simp only [hx, if_false, h1, true_and]
    by_cases hab : a = x ∧ b = y
    · obtain ⟨rfl, rfl⟩ := hab
      simp [hx]
    · simp [hab]

end frame

theorem check_checkmate_pieces (chess : kgchess_t) :
    (check_checkmate chess).pieces = chess.pieces := by
  unfold check_checkmate; split
  · rfl
  · dsimp only; split <;> rfl

theorem check_checkmate_current_player (chess : kgchess_t) :
    (check_checkmate chess).current_player = chess.current_player := by
  unfold check_checkmate; split
  · rfl
  · dsimp only; split <;> rfl

theorem check_checkmate_move_num (chess : kgchess_t) :
    (check_checkmate chess).move_num = chess.move_num := by
  unfold check_checkmate; split
  · rfl
  · dsimp only; split <;> rfl

theorem check_checkmate_last_move (chess : kgchess_t) :
    (check_checkmate chess).last_move = chess.last_move := by
  unfold check_checkmate; split
  · rfl
  · dsimp only; split <;> rfl

theorem check_checkmate_promotion_pos (chess : kgchess_t) :
    (check_checkmate chess).promotion_pos = chess.promotion_pos := by
  unfold check_checkmate; split
  · rfl
  · dsimp only; split <;> rfl

/-- With `update_state = false` the final `if` of `apply_move` is skipped. -/
theorem apply_move_false (chess : kgchess_t) (move : kgchess_move_t) :
    apply_move chess move false = apply_move_body chess move := by
  simp [apply_move]

theorem apply_move_body_move_num (chess : kgchess_t) (move : kgchess_move_t) :
    (apply_move_body chess move).move_num = chess.move_num + 1 := by
  unfold apply_move_body
  dsimp only
  split_ifs <;> simp

theorem apply_move_body_last_move (chess : kgchess_t) (move : kgchess_move_t) :
    (apply_move_body chess move).last_move = move := by
  unfold apply_move_body
  rfl

theorem apply_move_pieces (chess : kgchess_t) (move : kgchess_move_t) (update_state : Bool) :
    (apply_move chess move update_state).pieces = (apply_move_body chess move).pieces := by
  unfold apply_move
  dsimp only
  split
  · rw [check_checkmate_pieces]
  · rfl

/-! ## Attack probes do not depend on the oracle, nor on anything but the board -/

theorem kgchess_get_piece_at_congr {g g' : kgchess_t} (h : g.pieces = g'.pieces) (x y : Int) :
    kgchess_get_piece_at g x y = kgchess_get_piece_at g' x y := by
  simp [kgchess_get_piece_at, get_piece_at, h]

namespace Gen

theorem add_move_if_legal_probe (att att' : oracle) (g g' : kgchess_t)
    (arr : kgchess_moves_array_t) (m : kgchess_move_t) :
    add_move_if_legal att g arr m true = add_move_if_legal att' g' arr m true := by
  simp [add_move_if_legal]

theorem add_move_range_loop_probe (att att' : oracle) {g g' : kgchess_t}
    (h : g.pieces = g'.pieces) (x y : Int) (piece : kgchess_piece_t) (dx dy : Int) (apa : Bool)
    (n : Nat) (i : Int) (moves : kgchess_moves_array_t) :
    add_move_range_loop att g x y piece dx dy apa true n i moves =
      add_move_range_loop att' g' x y piece dx dy apa true n i moves := by
  induction n generalizing i moves with
  | zero => rfl
  | succ n ih =>
    simp only [add_move_range_loop, kgchess_get_piece_at_congr h,
      add_move_if_legal_probe att att' g g', ih]

theorem add_move_range_probe (att att' : oracle) {g g' : kgchess_t}
    (h : g.pieces = g'.pieces) (moves : kgchess_moves_array_t) (x y : Int)
    (piece : kgchess_piece_t) (dx dy end_ : Int) (apa : Bool) :
    add_move_range att g moves x y piece dx dy end_ apa true =
      add_move_range att' g' moves x y piece dx dy end_ apa true := by
  unfold add_move_range
  exact add_move_range_loop_probe att att' h x y piece dx dy apa _ _ _

theorem knight_step_probe (att att' : oracle) {g g' : kgchess_t} (h : g.pieces = g'.pieces)
    (x y : Int) (enemy : kgchess_player_t) (apa : Bool) :
    knight_step att g x y enemy apa true = knight_step att' g' x y enemy apa true := by
  funext moves pos
  simp only [knight_step, kgchess_get_piece_at_congr h, add_move_if_legal_probe att att' g g']

/-- Attack probes (`is_attacks_check = true`) never consult the oracle and read
nothing but the board. -/
theorem get_moves_probe_irrel (att att' : oracle) {g g' : kgchess_t} (h : g.pieces = g'.pieces)
    (x y : Int) (apa : Bool) :
    get_moves att g x y apa true = get_moves att' g' x y apa true := by
  unfold get_moves
  rw [kgchess_get_piece_at_congr h]
  dsimp only
  split
  · simp only [get_king_moves, add_move_range_probe att att' h, Bool.not_true, Bool.false_and,
      Bool.false_eq_true, if_false]
  · simp only [get_queen_moves, add_move_range_probe att att' h]
  · simp only [get_bishop_moves, add_move_range_probe att att' h]
  · simp only [get_knight_moves, knight_step_probe att att' h]
  · simp only [get_rook_moves, add_move_range_probe att att' h]
  · simp only [get_pawn_moves, is_player_at_position, kgchess_get_piece_at_congr h,
      add_move_if_legal_probe att att' g g', Bool.not_true, Bool.false_and, Bool.and_false,
      Bool.false_eq_true, if_false]
  · rfl

theorem is_square_attacked_irrel (att att' : oracle) {g g' : kgchess_t}
    (h : g.pieces = g'.pieces) (sx sy : Int) (p : kgchess_player_t) :
    is_square_attacked att g sx sy p = is_square_attacked att' g' sx sy p := by
  simp only [is_square_attacked, kgchess_get_piece_at_congr h, get_moves_probe_irrel att att' h]

end Gen

/-- The recursive equation of the source: the oracle probes with the very
generator that consults the oracle. -/
theorem attacked_unfold (chess : kgchess_t) (sx sy : Int) (player : kgchess_player_t) :
    kgchess_is_square_attacked_by_player chess sx sy player =
      range8.any fun x =>
        range8.any fun y =>
          let piece := kgchess_get_piece_at chess x y
          if piece.player ≠ player then false
          else
            let moves := get_moves chess x y true true
            moves.any fun move =>
              move.is_attack && decide (move.to_.x = sx) && decide (move.to_.y = sy) := by
  unfold kgchess_is_square_attacked_by_player get_moves
  exact Gen.is_square_attacked_irrel _ _ rfl sx sy player

theorem attacked_congr {g g' : kgchess_t} (h : g.pieces = g'.pieces) (sx sy : Int)
    (p : kgchess_player_t) :
    kgchess_is_square_attacked_by_player g sx sy p =
      kgchess_is_square_attacked_by_player g' sx sy p :=
  Gen.is_square_attacked_irrel _ _ h sx sy p

theorem is_in_check_congr {g g' : kgchess_t} (h : g.pieces = g'.pieces) (p : kgchess_player_t) :
    is_in_check g p = is_in_check g' p := by
  simp only [is_in_check, Gen.is_in_check, kgchess_get_piece_at_congr h, attacked_congr h]

/-! ## What the generators can put into a list -/

theorem mem_add_move {arr : kgchess_moves_array_t} {move m : kgchess_move_t}
    (h : m ∈ add_move arr move) : m ∈ arr ∨ m = move := by
  unfold add_move at h
  split at h
  · exact Or.inl h
  · simpa using h

theorem to_int8_of_range {v : Int} (h0 : -128 ≤ v) (h1 : v < 128) : to_int8 v = v := by
  unfold to_int8; omega

/-- A square that holds a piece lies on the board. -/
theorem in_range_of_type {g : kgchess_t} {x y : Int}
    (h : (kgchess_get_piece_at g x y).type ≠ KGCHESS_PIECE_NONE) :
    0 ≤ x ∧ x < 8 ∧ 0 ≤ y ∧ y < 8 := by
  by_contra hc
  apply h
  have : x < 0 ∨ x ≥ 8 ∨ y < 0 ∨ y ≥ 8 := by omega
  simp [kgchess_get_piece_at, get_piece_at, this, convert_piece, piece_make]

namespace Gen

theorem mem_add_move_if_legal {att : oracle} {g : kgchess_t} {arr : kgchess_moves_array_t}
    {move m : kgchess_move_t} {iac : Bool} (h : m ∈ add_move_if_legal att g arr move iac) :
    m ∈ arr ∨ (m = move ∧ admitted att g iac move) := by
  unfold add_move_if_legal at h
  split at h
  · exact Or.inl h
  · rename_i hr
    have hr' : 0 ≤ move.to_.x ∧ move.to_.x < 8 ∧ 0 ≤ move.to_.y ∧ move.to_.y < 8 := by omega
    split at h
    · rename_i hi
      have hi' : iac = false := by simpa using hi
      dsimp only at h
      split at h
      · exact Or.inl h
      · rename_i hc
        rcases mem_add_move h with h | h
        · exact Or.inl h
        · exact Or.inr ⟨h, hr', fun _ => by simpa using hc⟩
    · rename_i hi
      have hi' : iac = true := by simpa using hi
      rcases mem_add_move h with h | h
      · exact Or.inl h
      · exact Or.inr ⟨h, hr', fun hf => by rw [hi'] at hf; cases hf⟩

theorem forall_add_move_range_loop {att : oracle} {g : kgchess_t} {x y : Int}
    {piece : kgchess_piece_t} {dx dy : Int} {apa iac : Bool} (Q : kgchess_move_t → Prop)
    (n : Nat) (i : Int) (moves : kgchess_moves_array_t)
    (hQ : ∀ (j : Int) (a : Bool), i ≤ j → j < i + n →
      range_target g piece apa iac (x + j * dx) (y + j * dy) a →
      admitted att g iac (move_make x y (x + j * dx) (y + j * dy) a false false) →
      Q (move_make x y (x + j * dx) (y + j * dy) a false false))
    (hm : ∀ m ∈ moves, Q m) :
    ∀ m ∈ add_move_range_loop att g x y piece dx dy apa iac n i moves, Q m := by
  induction n generalizing i moves with
  | zero => simpa [add_move_range_loop] using hm
  | succ n ih =>
    intro m hmem
    simp only [add_move_range_loop] at hmem
    split at hmem
    · rename_i hc
      refine ih (i + 1) _ (fun j a h1 h2 => hQ j a (by omega) (by push_cast; omega)) ?_ m hmem
      intro m' hm'
      rcases mem_add_move_if_legal hm' with h | ⟨rfl, h⟩
      · exact hm _ h
      · exact hQ i _ (le_refl _) (by push_cast; omega) (Or.inl ⟨hc.1, hc.2, rfl⟩) h
    · rename_i hc
      split at hmem
      · rename_i he
        rcases mem_add_move_if_legal hmem with h | ⟨rfl, h⟩
        · exact hm _ h
        · exact hQ i _ (le_refl _) (by push_cast; omega) (Or.inr ⟨hc, he, rfl⟩) h
      · split at hmem
        · exact hm _ hmem
        · exact ih (i + 1) _ (fun j a h1 h2 => hQ j a (by omega) (by push_cast; omega)) hm m hmem

theorem forall_add_move_range {att : oracle} {g : kgchess_t} {x y : Int}
    {piece : kgchess_piece_t} {dx dy end_ : Int} {apa iac : Bool} (Q : kgchess_move_t → Prop)
    (moves : kgchess_moves_array_t)
    (hQ : ∀ (j : Int) (a : Bool), 1 ≤ j → j ≤ end_ →
      range_target g piece apa iac (x + j * dx) (y + j * dy) a →
      admitted att g iac (move_make x y (x + j * dx) (y + j * dy) a false false) →
      Q (move_make x y (x + j * dx) (y + j * dy) a false false))
    (hm : ∀ m ∈ moves, Q m) :
    ∀ m ∈ add_move_range att g moves x y piece dx dy end_ apa iac, Q m := by
  unfold add_move_range
  exact forall_add_move_range_loop Q _ 1 moves (fun j a h1 h2 => hQ j a h1 (by omega)) hm

theorem forall_add_move_if_legal {att : oracle} {g : kgchess_t} {iac : Bool}
    (Q : kgchess_move_t → Prop) {arr : kgchess_moves_array_t} {move : kgchess_move_t}
    (hQ : admitted att g iac move → Q move) (hm : ∀ m ∈ arr, Q m) :
    ∀ m ∈ add_move_if_legal att g arr move iac, Q m := by
  intro m h
  rcases mem_add_move_if_legal h with h | ⟨rfl, h⟩
  · exact hm _ h
  · exact hQ h

theorem forall_ite {c : Prop} [Decidable c] (Q : kgchess_move_t → Prop)
    {A B : kgchess_moves_array_t} (hA : c → ∀ m ∈ A, Q m) (hB : ¬ c → ∀ m ∈ B, Q m) :
    ∀ m ∈ (if c then A else B), Q m := by
  split
  · rename_i h; exact hA h
  · rename_i h; exact hB h

section rays

variable {att : oracle} {g : kgchess_t} {x y : Int} {piece : kgchess_piece_t} {apa iac : Bool}
  (Q : kgchess_move_t → Prop)

theorem forall_get_rook_moves
    (hQ : ∀ (dx dy j : Int) (a : Bool), rook_dir dx dy → 1 ≤ j → j ≤ 7 →
      range_target g piece apa iac (x + j * dx) (y + j * dy) a →
      admitted att g iac (move_make x y (x + j * dx) (y + j * dy) a false false) →
      Q (move_make x y (x + j * dx) (y + j * dy) a false false)) :
    ∀ m ∈ get_rook_moves att g x y piece apa iac, Q m := by
  unfold get_rook_moves
  have h0 : ∀ m ∈ kgchess_moves_array_make_empty, Q m := by
    simp [kgchess_moves_array_make_empty]
  have h1 := forall_add_move_range Q _ (hQ 0 1 · · (by simp [rook_dir])) h0
  have h2 := forall_add_move_range Q _ (hQ 0 (-1) · · (by simp [rook_dir])) h1
  have h3 := forall_add_move_range Q _ (hQ (-1) 0 · · (by simp [rook_dir])) h2
  exact forall_add_move_range Q _ (hQ 1 0 · · (by simp [rook_dir])) h3

theorem forall_get_bishop_moves
    (hQ : ∀ (dx dy j : Int) (a : Bool), bishop_dir dx dy → 1 ≤ j → j ≤ 7 →
      range_target g piece apa iac (x + j * dx) (y + j * dy) a →
      admitted att g iac (move_make x y (x + j * dx) (y + j * dy) a false false) →
      Q (move_make x y (x + j * dx) (y + j * dy) a false false)) :
    ∀ m ∈ get_bishop_moves att g x y piece apa iac, Q m := by
  unfold get_bishop_moves
  have h0 : ∀ m ∈ kgchess_moves_array_make_empty, Q m := by
    simp [kgchess_moves_array_make_empty]
  have h1 := forall_add_move_range Q _ (hQ 1 1 · · (by simp [bishop_dir])) h0
  have h2 := forall_add_move_range Q _ (hQ (-1) (-1) · · (by simp [bishop_dir])) h1
  have h3 := forall_add_move_range Q _ (hQ (-1) 1 · · (by simp [bishop_dir])) h2
  exact forall_add_move_range Q _ (hQ 1 (-1) · · (by simp [bishop_dir])) h3

theorem forall_get_queen_moves
    (hQ : ∀ (dx dy j : Int) (a : Bool), rook_dir dx dy ∨ bishop_dir dx dy → 1 ≤ j → j ≤ 7 →
      range_target g piece apa iac (x + j * dx) (y + j * dy) a →
      admitted att g iac (move_make x y (x + j * dx) (y + j * dy) a false false) →
      Q (move_make x y (x + j * dx) (y + j * dy) a false false)) :
    ∀ m ∈ get_queen_moves att g x y piece apa iac, Q m := by
  unfold get_queen_moves
  have h0 : ∀ m ∈ kgchess_moves_array_make_empty, Q m := by
    simp [kgchess_moves_array_make_empty]
  have h1 := forall_add_move_range Q _ (hQ 0 1 · · (by simp [rook_dir])) h0
  have h2 := forall_add_move_range Q _ (hQ 0 (-1) · · (by simp [rook_dir])) h1
  have h3 := forall_add_move_range Q _ (hQ (-1) 0 · · (by simp [rook_dir])) h2
  have h4 := forall_add_move_range Q _ (hQ 1 0 · · (by simp [rook_dir])) h3
  have h5 := forall_add_move_range Q _ (hQ 1 1 · · (by simp [bishop_dir])) h4
  have h6 := forall_add_move_range Q _ (hQ (-1) (-1) · · (by simp [bishop_dir])) h5
  have h7 := forall_add_move_range Q _ (hQ (-1) 1 · · (by simp [bishop_dir])) h6
  exact forall_add_move_range Q _ (hQ 1 (-1) · · (by simp [bishop_dir])) h7

theorem forall_get_king_moves
    (hQ : ∀ (dx dy j : Int) (a : Bool), rook_dir dx dy ∨ bishop_dir dx dy → 1 ≤ j → j ≤ 1 →
      range_target g piece apa iac (x + j * dx) (y + j * dy) a →
      admitted att g iac (move_make x y (x + j * dx) (y + j * dy) a false false) →
      Q (move_make x y (x + j * dx) (y + j * dy) a false false))
    (hC : ∀ rook_x to_x : Int, (rook_x = 0 ∧ to_x = 2) ∨ (rook_x = 7 ∧ to_x = 6) →
      iac = false → is_castling_possible att g x y rook_x = true →
      admitted att g false (move_make x y to_x y false true false) →
      Q (move_make x y to_x y false true false)) :
    ∀ m ∈ get_king_moves att g x y piece apa iac, Q m := by
  unfold get_king_moves
  have h0 : ∀ m ∈ kgchess_moves_array_make_empty, Q m := by
    simp [kgchess_moves_array_make_empty]
  have h1 := forall_add_move_range Q _ (hQ 0 1 · · (by simp [rook_dir])) h0
  have h2 := forall_add_move_range Q _ (hQ 0 (-1) · · (by simp [rook_dir])) h1
  have h3 := forall_add_move_range Q _ (hQ (-1) 0 · · (by simp [rook_dir])) h2
  have h4 := forall_add_move_range Q _ (hQ 1 0 · · (by simp [rook_dir])) h3
  have h5 := forall_add_move_range Q _ (hQ 1 1 · · (by simp [bishop_dir])) h4
  have h6 := forall_add_move_range Q _ (hQ (-1) (-1) · · (by simp [bishop_dir])) h5
  have h7 := forall_add_move_range Q _ (hQ (-1) 1 · · (by simp [bishop_dir])) h6
  have h8 := forall_add_move_range Q _ (hQ 1 (-1) · · (by simp [bishop_dir])) h7
  have hb : ∀ {b : Bool}, (!iac && b) = true → iac = false ∧ b = true := by
    intro b hc
    simpa using hc
  have h9 := forall_ite (c := (!iac && is_castling_possible att g x y 0) = true) Q
    (fun hc => forall_add_move_if_legal Q (hC 0 2 (by simp) (hb hc).1 (hb hc).2) h8) (fun _ => h8)
  exact forall_ite (c := (!iac && is_castling_possible att g x y 7) = true) Q
    (fun hc => forall_add_move_if_legal Q (hC 7 6 (by simp) (hb hc).1 (hb hc).2) h9) (fun _ => h9)

end rays

section steps

variable {att : oracle} {g : kgchess_t} {x y : Int} {piece : kgchess_piece_t} {apa iac : Bool}
  (Q : kgchess_move_t → Prop)

theorem forall_knight_foldl (l : List kgchess_pos_t) (moves : kgchess_moves_array_t)
    (hQ : ∀ (pos : kgchess_pos_t) (a : Bool), pos ∈ l →
      range_target g piece apa iac pos.x pos.y a →
      admitted att g iac (move_make x y pos.x pos.y a false false) →
      Q (move_make x y pos.x pos.y a false false))
    (hm : ∀ m ∈ moves, Q m) :
    ∀ m ∈ l.foldl (knight_step att g x y (kgchess_get_enemy_player piece.player) apa iac) moves,
      Q m := by
  induction l generalizing moves with
  | nil => simpa using hm
  | cons pos l ih =>
    simp only [List.foldl_cons]
    refine ih _ (fun p a hp => hQ p a (List.mem_cons_of_mem _ hp)) ?_
    unfold knight_step
    dsimp only
    split
    · rename_i hc
      exact forall_add_move_if_legal Q
        (hQ pos _ (List.mem_cons_self _ _) (Or.inl ⟨hc.1, hc.2, rfl⟩)) hm
    · rename_i hc
      split
      · rename_i he
        exact forall_add_move_if_legal Q
          (hQ pos _ (List.mem_cons_self _ _) (Or.inr ⟨hc, he, rfl⟩)) hm
      · exact hm

theorem forall_get_knight_moves
    (hQ : ∀ (pos : kgchess_pos_t) (a : Bool), pos ∈ positions_to_check x y →
      range_target g piece apa iac pos.x pos.y a →
      admitted att g iac (move_make x y pos.x pos.y a false false) →
      Q (move_make x y pos.x pos.y a false false)) :
    ∀ m ∈ get_knight_moves att g x y piece apa iac, Q m := by
  unfold get_knight_moves
  exact forall_knight_foldl Q _ _ hQ (by simp [kgchess_moves_array_make_empty])

end steps

section pawns

variable {att : oracle} {g : kgchess_t} {x y : Int} {piece : kgchess_piece_t} {apa iac : Bool}
  (Q : kgchess_move_t → Prop)

theorem forall_get_pawn_moves
    (h1 : iac = false → is_position_empty g x (y + 1 * pawn_dir piece.player) = true →
      admitted att g iac (move_make x y x (y + 1 * pawn_dir piece.player) false false false) →
      Q (move_make x y x (y + 1 * pawn_dir piece.player) false false false))
    (h2 : iac = false → is_position_empty g x (y + 1 * pawn_dir piece.player) = true →
      y = pawn_initial_y piece.player →
      is_position_empty g x (y + 2 * pawn_dir piece.player) = true →
      admitted att g iac (move_make x y x (y + 2 * pawn_dir piece.player) false false false) →
      Q (move_make x y x (y + 2 * pawn_dir piece.player) false false false))
    (h3 : ∀ sx : Int, sx = x + 1 ∨ sx = x - 1 →
      (apa = true ∨ is_player_at_position g (kgchess_get_enemy_player piece.player) sx
        (y + 1 * pawn_dir piece.player) = true) →
      admitted att g iac (move_make x y sx (y + 1 * pawn_dir piece.player) true false false) →
      Q (move_make x y sx (y + 1 * pawn_dir piece.player) true false false))
    (h4 : apa = false → iac = false → get_en_passant g x y piece ≠ -1 →
      admitted att g iac
        (move_make x y (get_en_passant g x y piece) (y + pawn_dir piece.player) true false true) →
      Q (move_make x y (get_en_passant g x y piece) (y + pawn_dir piece.player) true false true)) :
    ∀ m ∈ get_pawn_moves att g x y piece apa iac, Q m := by
  unfold get_pawn_moves
  dsimp only
  have h0 : ∀ m ∈ kgchess_moves_array_make_empty, Q m := by
    simp [kgchess_moves_array_make_empty]
  have hb : ∀ {b : Bool}, (!iac && b) = true → iac = false ∧ b = true := by
    intro b hc
    simpa using hc
  have hb2 : (!apa && !iac) = true → apa = false ∧ iac = false := by
    intro hc
    simpa using hc
  refine forall_ite Q (fun hc => forall_ite Q (fun he => forall_add_move_if_legal Q
    (h4 (hb2 hc).1 (hb2 hc).2 he) ?_) (fun _ => ?_)) (fun _ => ?_)
  all_goals
    refine forall_ite Q (fun hc => forall_add_move_if_legal Q
      (h3 _ (Or.inr rfl) (by simpa using hc)) ?_) (fun _ => ?_)
  all_goals
    refine forall_ite Q (fun hc => forall_add_move_if_legal Q
      (h3 _ (Or.inl rfl) (by simpa using hc)) ?_) (fun _ => ?_)
  all_goals
    refine forall_ite Q (fun hc => forall_ite Q (fun hd => forall_add_move_if_legal Q
      (h2 (hb hc).1 (hb hc).2 hd.1 hd.2) (forall_add_move_if_legal Q
        (h1 (hb hc).1 (hb hc).2) h0)) (fun _ => forall_add_move_if_legal Q
        (h1 (hb hc).1 (hb hc).2) h0)) (fun _ => h0)

end pawns

/-- Every move of a generated list starts on the generating square and was
admitted by `add_move_if_legal`. -/
theorem forall_get_moves {att : oracle} {g : kgchess_t} {x y : Int} {apa iac : Bool}
    (Q : kgchess_move_t → Prop)
    (H : ∀ m : kgchess_move_t, m.from_ = ⟨to_int8 x, to_int8 y⟩ → admitted att g iac m → Q m) :
    ∀ m ∈ get_moves att g x y apa iac, Q m := by
  unfold get_moves
  dsimp only
  split
  · exact forall_get_king_moves Q (fun _ _ _ _ _ _ _ _ h => H _ rfl h)
      (fun _ _ _ hi _ h => H _ rfl (by rw [hi]; exact h))
  · exact forall_get_queen_moves Q (fun _ _ _ _ _ _ _ _ h => H _ rfl h)
  · exact forall_get_bishop_moves Q (fun _ _ _ _ _ _ _ _ h => H _ rfl h)
  · exact forall_get_knight_moves Q (fun _ _ _ _ h => H _ rfl h)
  · exact forall_get_rook_moves Q (fun _ _ _ _ _ _ _ _ h => H _ rfl h)
  · exact forall_get_pawn_moves Q (fun _ _ h => H _ rfl h) (fun _ _ _ _ h => H _ rfl h)
      (fun _ _ _ h => H _ rfl h) (fun _ _ _ h => H _ rfl h)
  · simp [kgchess_moves_array_make_empty]

theorem get_moves_type {att : oracle} {g : kgchess_t} {x y : Int} {apa iac : Bool}
    {m : kgchess_move_t} (h : m ∈ get_moves att g x y apa iac) :
    (kgchess_get_piece_at g x y).type ≠ KGCHESS_PIECE_NONE := by
  intro hc
  unfold get_moves at h
  simp [hc, kgchess_moves_array_make_empty] at h

end Gen

/-- A listed move starts on the square it was listed for, ends on the board,
and does not leave the mover's king attacked when applied to a copy. -/
theorem kgchess_get_moves_sound {g : kgchess_t} {x y : Int} {m : kgchess_move_t}
    (h : m ∈ kgchess_get_moves g x y) :
    (0 ≤ x ∧ x < 8 ∧ 0 ≤ y ∧ y < 8) ∧ m.from_ = ⟨x, y⟩ ∧
      (0 ≤ m.to_.x ∧ m.to_.x < 8 ∧ 0 ≤ m.to_.y ∧ m.to_.y < 8) ∧
      is_in_check (apply_move_body g m) (kgchess_get_piece_at g x y).player = false := by
  have hr := in_range_of_type (Gen.get_moves_type h)
  have hx : to_int8 x = x := to_int8_of_range (by omega) (by omega)
  have hy : to_int8 y = y := to_int8_of_range (by omega) (by omega)
  refine ⟨hr, ?_⟩
  refine Gen.forall_get_moves
    (fun m => m.from_ = ⟨x, y⟩ ∧ (0 ≤ m.to_.x ∧ m.to_.x < 8 ∧ 0 ≤ m.to_.y ∧ m.to_.y < 8) ∧
      is_in_check (apply_move_body g m) (kgchess_get_piece_at g x y).player = false)
    ?_ m h
  intro m' hf ha
  rw [hx, hy] at hf
  refine ⟨hf, ha.1, ?_⟩
  have := ha.2 rfl
  rw [hf] at this
  exact this

/-! ## Move generation reads only the board, the ply counter and the last move -/

theorem same_core_set_piece_at {g g' : kgchess_t} (h : same_core g g')
    (p : kgchess_piece_internal_t) (x y : Int) :
    same_core (set_piece_at g p x y) (set_piece_at g' p x y) := by
  unfold set_piece_at
  split
  · exact h
  · exact ⟨by simp [h.pieces], h.move_num, h.last_move⟩

theorem apply_move_body_pieces_congr {g g' : kgchess_t} (h : same_core g g')
    (m : kgchess_move_t) : (apply_move_body g m).pieces = (apply_move_body g' m).pieces := by
  have hg : ∀ a b, get_piece_at g a b = get_piece_at g' a b := fun a b => by
    simp [get_piece_at, h.pieces]
  unfold apply_move_body
  dsimp only
  simp only [hg, set_piece_at_move_num, h.move_num]
  split_ifs <;> (try dsimp only) <;>
    exact same_core.pieces (by
      repeat (first | exact h | apply same_core_set_piece_at))

theorem get_en_passant_congr {g g' : kgchess_t} (h : same_core g g') (x y : Int)
    (piece : kgchess_piece_t) : get_en_passant g x y piece = get_en_passant g' x y piece := by
  simp only [get_en_passant, kgchess_get_piece_at_congr h.pieces, h.move_num, h.last_move]

namespace Gen

section congr

variable {g g' : kgchess_t} (h : same_core g g')
include h

theorem is_in_check_congr_closed (p : kgchess_player_t) :
    is_in_check kgchess_is_square_attacked_by_player g p =
      is_in_check kgchess_is_square_attacked_by_player g' p :=
  KgChess.is_in_check_congr h.pieces p

theorem add_move_if_legal_congr (arr : kgchess_moves_array_t) (m : kgchess_move_t) (iac : Bool) :
    add_move_if_legal kgchess_is_square_attacked_by_player g arr m iac =
      add_move_if_legal kgchess_is_square_attacked_by_player g' arr m iac := by
  have h2 : ∀ p, is_in_check kgchess_is_square_attacked_by_player (apply_move_body g m) p =
      is_in_check kgchess_is_square_attacked_by_player (apply_move_body g' m) p :=
    fun p => KgChess.is_in_check_congr (apply_move_body_pieces_congr h m) p
  simp only [add_move_if_legal, kgchess_get_piece_at_congr h.pieces, h2]

theorem add_move_range_loop_congr (x y : Int) (piece : kgchess_piece_t) (dx dy : Int)
    (apa iac : Bool) (n : Nat) (i : Int) (moves : kgchess_moves_array_t) :
    add_move_range_loop kgchess_is_square_attacked_by_player g x y piece dx dy apa iac n i moves =
      add_move_range_loop kgchess_is_square_attacked_by_player g' x y piece dx dy apa iac n i
        moves := by
  induction n generalizing i moves with
  | zero => rfl
  | succ n ih =>
    simp only [add_move_range_loop, kgchess_get_piece_at_congr h.pieces,
      add_move_if_legal_congr h, ih]

theorem add_move_range_congr (moves : kgchess_moves_array_t) (x y : Int)
    (piece : kgchess_piece_t) (dx dy end_ : Int) (apa iac : Bool) :
    add_move_range kgchess_is_square_attacked_by_player g moves x y piece dx dy end_ apa iac =
      add_move_range kgchess_is_square_attacked_by_player g' moves x y piece dx dy end_ apa
        iac := by
  unfold add_move_range
  exact add_move_range_loop_congr h x y piece dx dy apa iac _ _ _

theorem knight_step_congr (x y : Int) (enemy : kgchess_player_t) (apa iac : Bool) :
    knight_step kgchess_is_square_attacked_by_player g x y enemy apa iac =
      knight_step kgchess_is_square_attacked_by_player g' x y enemy apa iac := by
  funext moves pos
  simp only [knight_step, kgchess_get_piece_at_congr h.pieces, add_move_if_legal_congr h]

theorem is_castling_possible_congr (x y rook_x : Int) :
    is_castling_possible kgchess_is_square_attacked_by_player g x y rook_x =
      is_castling_possible kgchess_is_square_attacked_by_player g' x y rook_x := by
  have h1 : ∀ a b, get_piece_at g a b = get_piece_at g' a b := by
    intro a b
    simp [get_piece_at, h.pieces]
  simp only [is_castling_possible, h1, is_in_check_congr_closed h, is_position_empty,
    kgchess_get_piece_at_congr h.pieces, attacked_congr h.pieces]

theorem get_moves_congr (x y : Int) (apa iac : Bool) :
    get_moves kgchess_is_square_attacked_by_player g x y apa iac =
      get_moves kgchess_is_square_attacked_by_player g' x y apa iac := by
  unfold get_moves
  rw [kgchess_get_piece_at_congr h.pieces]
  dsimp only
  split
  · simp only [get_king_moves, add_move_range_congr h, is_castling_possible_congr h,
      add_move_if_legal_congr h]
  · simp only [get_queen_moves, add_move_range_congr h]
  · simp only [get_bishop_moves, add_move_range_congr h]
  · simp only [get_knight_moves, knight_step_congr h]
  · simp only [get_rook_moves, add_move_range_congr h]
  · simp only [get_pawn_moves, is_player_at_position, is_position_empty,
      kgchess_get_piece_at_congr h.pieces, add_move_if_legal_congr h, get_en_passant_congr h]
  · rfl

end congr

end Gen

theorem kgchess_get_moves_congr {g g' : kgchess_t} (h : same_core g g') (x y : Int) :
    kgchess_get_moves g x y = kgchess_get_moves g' x y :=
  Gen.get_moves_congr h x y false false

theorem check_checkmate_same_core (g : kgchess_t) : same_core (check_checkmate g) g :=
  ⟨check_checkmate_pieces g, check_checkmate_move_num g, check_checkmate_last_move g⟩

/-! ## The promotion trigger and the end-of-game scan -/

theorem mem_range8 {x : Int} : x ∈ range8 ↔ 0 ≤ x ∧ x < 8 := by
  simp only [range8, List.mem_cons, List.mem_singleton, List.not_mem_nil, or_false]
  omega

theorem apply_move_body_state (g : kgchess_t) (m : kgchess_move_t) :
    (apply_move_body g m).state =
      if promotes g m = true then KGCHESS_STATE_PROMOTION else g.state := by
  unfold apply_move_body promotes
  dsimp only
  cases m.is_castling <;> cases m.is_en_passant <;> simp <;> (split_ifs <;> simp_all)

theorem apply_move_body_promotion_pos (g : kgchess_t) (m : kgchess_move_t) :
    (apply_move_body g m).promotion_pos =
      if promotes g m = true then m.to_ else g.promotion_pos := by
  unfold apply_move_body promotes
  dsimp only
  cases m.is_castling <;> cases m.is_en_passant <;> simp <;> (split_ifs <;> simp_all)

theorem apply_move_body_current_player (g : kgchess_t) (m : kgchess_move_t) :
    (apply_move_body g m).current_player = g.current_player := by
  unfold apply_move_body
  dsimp only
  split_ifs <;> simp

theorem apply_move_body_winner (g : kgchess_t) (m : kgchess_move_t) :
    (apply_move_body g m).winner = g.winner := by
  unfold apply_move_body
  dsimp only
  split_ifs <;> simp

/-- The scan of `check_checkmate` finds a square exactly when the current player
has a legal move. -/
theorem check_checkmate_scan (g : kgchess_t) :
    (range8.any fun x =>
      range8.any fun y =>
        let piece := kgchess_get_piece_at g x y
        if piece.type = KGCHESS_PIECE_NONE ∨ piece.player ≠ g.current_player then false
        else
          let moves := kgchess_get_moves g x y
          decide (moves.length ≠ 0)) = true ↔ ¬ no_legal_move g := by
  simp only [List.any_eq_true, mem_range8]
  constructor
  · rintro ⟨x, -, y, -, h⟩ hn
    split at h
    · cases h
    · rename_i hc
      have ho : owned_by g g.current_player x y := by
        unfold owned_by
        constructor
        · intro h1; exact hc (Or.inl h1)
        · by_contra h2; exact hc (Or.inr h2)
      rw [hn x y ho] at h
      simp at h
  · intro hn
    unfold no_legal_move at hn
    push_neg at hn
    obtain ⟨x, y, ho, hm⟩ := hn
    have hr := in_range_of_type ho.1
    refine ⟨x, ⟨hr.1, hr.2.1⟩, y, ⟨hr.2.2.1, hr.2.2.2⟩, ?_⟩
    have : ¬ ((kgchess_get_piece_at g x y).type = KGCHESS_PIECE_NONE ∨
        (kgchess_get_piece_at g x y).player ≠ g.current_player) := by
      rintro (h1 | h2)
      · exact ho.1 h1
      · exact h2 ho.2
    rw [if_neg this]
    simpa using hm

theorem check_checkmate_continue {g : kgchess_t} (h : ¬ no_legal_move g) :
    check_checkmate g = g := by
  unfold check_checkmate
  rw [if_pos ((check_checkmate_scan g).2 h)]

theorem check_checkmate_end {g : kgchess_t} (h : no_legal_move g) :
    (check_checkmate g).state = KGCHESS_STATE_ENDED ∧
      (check_checkmate g).winner =
        if is_in_check g g.current_player = true then kgchess_get_enemy_player g.current_player
        else g.winner := by
  have hs : ¬ _ := fun hc => (check_checkmate_scan g).1 hc h
  unfold check_checkmate
  rw [if_neg hs]
  dsimp only
  split <;> simp

theorem no_legal_move_congr {g g' : kgchess_t} (h : same_core g g')
    (hc : g.current_player = g'.current_player) : no_legal_move g ↔ no_legal_move g' := by
  unfold no_legal_move owned_by
  simp only [kgchess_get_piece_at_congr h.pieces, kgchess_get_moves_congr h, hc]

theorem no_legal_move_check_checkmate (g : kgchess_t) :
    no_legal_move (check_checkmate g) ↔ no_legal_move g :=
  no_legal_move_congr (check_checkmate_same_core g) (check_checkmate_current_player g)

theorem no_legal_move_iff (g : kgchess_t) : no_legal_move g ↔ has_legal_move g = false := by
  have h := check_checkmate_scan g
  unfold has_legal_move
  constructor
  · intro hn
    cases hb : (range8.any fun x => range8.any fun y =>
        let piece := kgchess_get_piece_at g x y
        if piece.type = KGCHESS_PIECE_NONE ∨ piece.player ≠ g.current_player then false
        else
          let moves := kgchess_get_moves g x y
          decide (moves.length ≠ 0))
    · rfl
    · exact absurd hn (h.1 hb)
  · intro hf
    by_contra hc
    rw [h.2 hc] at hf
    cases hf

theorem kgchess_move_eq {g : kgchess_t} {m : kgchess_move_t} (hs : g.state = KGCHESS_STATE_MOVE)
    (hp : promotes g m = false) :
    (kgchess_move g m).2 =
      check_checkmate { apply_move_body g m with
        current_player := kgchess_get_enemy_player g.current_player } := by
  have h1 : (apply_move_body g m).state = KGCHESS_STATE_MOVE := by
    rw [apply_move_body_state, hp, hs]; simp
  simp only [kgchess_move, apply_move, h1, true_and, if_true, apply_move_body_current_player]

theorem kgchess_promote_eq {g g' : kgchess_t} {piece_type : kgchess_piece_type_t}
    (h : kgchess_promote g piece_type = (true, g')) :
    (g.state = KGCHESS_STATE_PROMOTION ∧ g.promotion_pos.x ≠ -1 ∧ g.promotion_pos.y ≠ -1 ∧
      piece_type ≠ KGCHESS_PIECE_PAWN ∧ piece_type ≠ KGCHESS_PIECE_KING) ∧
    g' = check_checkmate
      { set_piece_at g { get_piece_at g g.promotion_pos.x g.promotion_pos.y with type := piece_type }
          g.promotion_pos.x g.promotion_pos.y with
        state := KGCHESS_STATE_MOVE
        current_player := kgchess_get_enemy_player g.current_player } := by
  unfold kgchess_promote at h
  split at h
  · cases h
  · rename_i h1
    split at h
    · cases h
    · rename_i h2
      split at h
      · cases h
      · rename_i h3
        simp only [Prod.mk.injEq, true_and, set_piece_at_current_player] at h
        refine ⟨⟨by simpa using h1, by omega, by omega, fun hc => h3 (Or.inl hc),
          fun hc => h3 (Or.inr hc)⟩, h.symm⟩

/-- In both cases checkmate detection ran on a state in phase AwaitingMove that
has the winner of `g`. -/
theorem detection_ran_eq {g g' : kgchess_t} (h : detection_ran g g') :
    ∃ g1 : kgchess_t, g' = check_checkmate g1 ∧ g1.state = KGCHESS_STATE_MOVE ∧
      g1.winner = g.winner := by
  rcases h with ⟨m, hs, hp, rfl⟩ | ⟨k, hk⟩
  · refine ⟨_, kgchess_move_eq hs hp, ?_, ?_⟩
    · show (apply_move_body g m).state = _
      rw [apply_move_body_state, hp, hs]; simp
    · exact apply_move_body_winner g m
  · obtain ⟨-, rfl⟩ := kgchess_promote_eq hk
    exact ⟨_, rfl, rfl, set_piece_at_winner _ _ _ _⟩

/-! ## When a move is really added -/

theorem mem_add_move_of_mem {arr : kgchess_moves_array_t} {move m : kgchess_move_t}
    (h : m ∈ arr) : m ∈ add_move arr move := by
  unfold add_move
  split
  · exact h
  · exact List.mem_append_left _ h

theorem mem_add_move_self {arr : kgchess_moves_array_t} {move : kgchess_move_t}
    (h : arr.length < 28) : move ∈ add_move arr move := by
  unfold add_move
  rw [if_neg (by omega)]
  simp

theorem length_add_move_le (arr : kgchess_moves_array_t) (move : kgchess_move_t) :
    (add_move arr move).length ≤ arr.length + 1 := by
  unfold add_move
  split
  · omega
  · simp

namespace Gen

theorem length_add_move_if_legal_le (att : oracle) (g : kgchess_t) (arr : kgchess_moves_array_t)
    (move : kgchess_move_t) (iac : Bool) :
    (add_move_if_legal att g arr move iac).length ≤ arr.length + 1 := by
  unfold add_move_if_legal
  dsimp only
  split_ifs
  any_goals omega
  all_goals exact length_add_move_le arr move

theorem mem_add_move_if_legal_of_mem {att : oracle} {g : kgchess_t}
    {arr : kgchess_moves_array_t} {move m : kgchess_move_t} {iac : Bool} (h : m ∈ arr) :
    m ∈ add_move_if_legal att g arr move iac := by
  unfold add_move_if_legal
  dsimp only
  split_ifs
  any_goals exact h
  all_goals exact mem_add_move_of_mem h

theorem mem_add_move_if_legal_self {att : oracle} {g : kgchess_t}
    {arr : kgchess_moves_array_t} {move : kgchess_move_t} {iac : Bool}
    (ha : admitted att g iac move) (hl : arr.length < 28) :
    move ∈ add_move_if_legal att g arr move iac := by
  unfold add_move_if_legal
  have hr : ¬ (move.to_.x < 0 ∨ move.to_.x ≥ 8 ∨ move.to_.y < 0 ∨ move.to_.y ≥ 8) := by
    have := ha.1
    omega
  rw [if_neg hr]
  cases iac
  · have := ha.2 rfl
    simp only [Bool.not_false, if_true, this]
    exact mem_add_move_self hl
  · simp only [Bool.not_true, Bool.false_eq_true, if_false]
    exact mem_add_move_self hl

theorem length_ite_add_le (att : oracle) (g : kgchess_t) (arr : kgchess_moves_array_t)
    (move : kgchess_move_t) (iac : Bool) (c : Prop) [Decidable c] :
    (if c then add_move_if_legal att g arr move iac else arr).length ≤ arr.length + 1 := by
  split
  · exact length_add_move_if_legal_le att g arr move iac
  · omega

end Gen

/-! ## En passant eligibility -/

theorem get_en_passant_of_conditions {g : kgchess_t} {x y : Int} {pawn : kgchess_piece_t}
    (hp : pawn.type = KGCHESS_PIECE_PAWN) (h : en_passant_conditions g x y) :
    get_en_passant g x y pawn = g.last_move.to_.x ∧ g.last_move.to_.x ≠ -1 := by
  obtain ⟨h1, h2, h3, h4, h5⟩ := h
  have hr := in_range_of_type (by rw [h2]; decide :
    (kgchess_get_piece_at g g.last_move.to_.x g.last_move.to_.y).type ≠ KGCHESS_PIECE_NONE)
  refine ⟨?_, by omega⟩
  unfold get_en_passant
  have h1' : ¬ g.move_num ≤ 0 := by omega
  have h5' : ¬ (x ≠ g.last_move.to_.x - 1 ∧ x ≠ g.last_move.to_.x + 1) := by omega
  subst h3
  simp [h1', hp, h2, h4, h5']

theorem conditions_of_get_en_passant {g : kgchess_t} {x y : Int} {pawn : kgchess_piece_t}
    (h : get_en_passant g x y pawn ≠ -1) :
    pawn.type = KGCHESS_PIECE_PAWN ∧ en_passant_conditions g x y := by
  unfold get_en_passant at h
  dsimp only at h
  split at h
  · exact absurd rfl h
  · rename_i h1
    split at h
    · exact absurd rfl h
    · rename_i h2
      split at h
      · exact absurd rfl h
      · rename_i h3
        split at h
        · exact absurd rfl h
        · rename_i h4
          split at h
          · exact absurd rfl h
          · rename_i h5
            push_neg at h2 h3 h4
            exact ⟨h2.1, by omega, h2.2, h3.symm, h4, by omega⟩

/-! ## Reachable states -/

theorem reachable_move {g : kgchess_t} {b b' : Bool} (x y : Int) (m : kgchess_move_t)
    (h : reachable g b) (hm : m ∈ kgchess_get_moves g x y) (hb : promotes g m = b') :
    reachable (kgchess_move g m).2 b' :=
  hb ▸ reachable.move x y m h hm

/-! ## Playing a list of moves -/

theorem same_core_symm {g g' : kgchess_t} (h : same_core g g') : same_core g' g :=
  ⟨h.pieces.symm, h.move_num.symm, h.last_move.symm⟩

theorem same_core_trans {g g' g'' : kgchess_t} (h : same_core g g') (h' : same_core g' g'') :
    same_core g g'' :=
  ⟨h.pieces.trans h'.pieces, h.move_num.trans h'.move_num, h.last_move.trans h'.last_move⟩

theorem apply_move_body_same_core {g g' : kgchess_t} (h : same_core g g') (m : kgchess_move_t) :
    same_core (apply_move_body g m) (apply_move_body g' m) :=
  ⟨apply_move_body_pieces_congr h m,
    by rw [apply_move_body_move_num, apply_move_body_move_num, h.move_num],
    by rw [apply_move_body_last_move, apply_move_body_last_move]⟩

theorem kgchess_move_same_core (g : kgchess_t) (m : kgchess_move_t) :
    same_core (kgchess_move g m).2 (apply_move_body g m) := by
  show same_core (apply_move g m true) _
  unfold apply_move
  dsimp only
  split
  · exact same_core_trans (check_checkmate_same_core _) ⟨rfl, rfl, rfl⟩
  · exact ⟨rfl, rfl, rfl⟩

theorem play_same_core {g g' : kgchess_t} (h : same_core g g') (ms : List kgchess_move_t) :
    same_core (play g ms) (play_body g' ms) := by
  induction ms generalizing g g' with
  | nil => exact h
  | cons m ms ih =>
    exact ih (same_core_trans (kgchess_move_same_core g m) (apply_move_body_same_core h m))

theorem promotes_congr {g g' : kgchess_t} (h : same_core g g') (m : kgchess_move_t) :
    promotes g m = promotes g' m := by
  have hg : ∀ a b, get_piece_at g a b = get_piece_at g' a b := fun a b => by
    simp [get_piece_at, h.pieces]
  simp only [promotes, hg]

/-- Playing a list of moves, each listed by `kgchess_get_moves` when it is
played, leads from a reachable state to a reachable state. -/
theorem reachable_play {g g' : kgchess_t} {b : Bool} (ms : List kgchess_move_t)
    (hr : reachable g b) (h : same_core g g') (hl : script_listed g' ms = true) :
    reachable (play g ms) (last_promotes g' b ms) := by
  induction ms generalizing g g' b with
  | nil => exact hr
  | cons m ms ih =>
    simp only [script_listed, Bool.and_eq_true, decide_eq_true_eq] at hl
    have hm : m ∈ kgchess_get_moves g m.from_.x m.from_.y := by
      rw [kgchess_get_moves_congr h]
      exact hl.1
    have h1 := reachable_move m.from_.x m.from_.y m hr hm (promotes_congr h m)
    exact ih h1 (same_core_trans (kgchess_move_same_core g m) (apply_move_body_same_core h m))
      hl.2

/-! ## A game that reaches a promotion in nine plies -/

theorem promotion_game_8_core :
    same_core promotion_game_8 (play_body kgchess_make promotion_game_moves) :=
  play_same_core ⟨rfl, rfl, rfl⟩ _

theorem promotion_game_9_core :
    same_core promotion_game_9
      (apply_move_body (play_body kgchess_make promotion_game_moves) promotion_game_capture) :=
  same_core_trans (kgchess_move_same_core _ _) (apply_move_body_same_core promotion_game_8_core _)

theorem promotion_game_8_reachable : reachable promotion_game_8 false := by
  have h := reachable_play promotion_game_moves reachable.make ⟨rfl, rfl, rfl⟩ (by decide!)
  have hb : last_promotes kgchess_make false promotion_game_moves = false := by decide!
  rw [hb] at h
  exact h

theorem promotion_game_capture_promotes :
    promotes promotion_game_8 promotion_game_capture = true :=
  (promotes_congr promotion_game_8_core _).trans (by decide!)

theorem promotion_game_9_reachable : reachable promotion_game_9 true :=
  reachable_move 0 6 _ promotion_game_8_reachable
    ((kgchess_get_moves_congr promotion_game_8_core 0 6).symm ▸ (by decide!))
    promotion_game_capture_promotes

theorem kgchess_move_of_promotes {g : kgchess_t} {m : kgchess_move_t}
    (h : promotes g m = true) : (kgchess_move g m).2 = apply_move_body g m := by
  have h1 : (apply_move_body g m).state = KGCHESS_STATE_PROMOTION := by
    rw [apply_move_body_state, h]; rfl
  simp [kgchess_move, apply_move, h1]

theorem kgchess_move_state_pending {g : kgchess_t} (m : kgchess_move_t)
    (h : g.state = KGCHESS_STATE_PROMOTION) :
    (kgchess_move g m).2.state = KGCHESS_STATE_PROMOTION := by
  have h1 : (apply_move_body g m).state = KGCHESS_STATE_PROMOTION := by
    rw [apply_move_body_state, h]; simp
  simp [kgchess_move, apply_move, h1]

theorem promotion_game_9_state : promotion_game_9.state = KGCHESS_STATE_PROMOTION := by
  unfold promotion_game_9
  rw [kgchess_move_of_promotes promotion_game_capture_promotes, apply_move_body_state,
    promotion_game_capture_promotes]
  rfl

theorem promotion_game_9_promotion_pos : promotion_game_9.promotion_pos = ⟨1, 7⟩ := by
  unfold promotion_game_9
  rw [kgchess_move_of_promotes promotion_game_capture_promotes, apply_move_body_promotion_pos,
    promotion_game_capture_promotes]
  rfl

theorem check_checkmate_state_cases (g : kgchess_t) :
    (check_checkmate g).state = g.state ∨ (check_checkmate g).state = KGCHESS_STATE_ENDED := by
  by_cases hn : no_legal_move g
  · exact Or.inr (check_checkmate_end hn).1
  · rw [check_checkmate_continue hn]
    exact Or.inl rfl

theorem apply_move_promotion_pos (g : kgchess_t) (m : kgchess_move_t) (u : Bool) :
    (apply_move g m u).promotion_pos = (apply_move_body g m).promotion_pos := by
  unfold apply_move
  dsimp only
  split
  · rw [check_checkmate_promotion_pos]
  · rfl

theorem apply_move_state_promotion {g : kgchess_t} {m : kgchess_move_t} {u : Bool}
    (h : (apply_move g m u).state = KGCHESS_STATE_PROMOTION) :
    (apply_move_body g m).state = KGCHESS_STATE_PROMOTION := by
  unfold apply_move at h
  dsimp only at h
  split at h
  · rename_i hc
    rcases check_checkmate_state_cases { apply_move_body g m with
        current_player := kgchess_get_enemy_player (apply_move_body g m).current_player }
      with h1 | h1
    · rw [h1] at h
      exact h
    · rw [h1] at h
      cases h
  · exact h

theorem kgchess_promote_promotion_pos (g : kgchess_t) (k : kgchess_piece_type_t) :
    (kgchess_promote g k).2.promotion_pos = g.promotion_pos := by
  unfold kgchess_promote
  split_ifs <;> simp [check_checkmate_promotion_pos]

theorem kgchess_promote_last_move (g : kgchess_t) (k : kgchess_piece_type_t) :
    (kgchess_promote g k).2.last_move = g.last_move := by
  unfold kgchess_promote
  split_ifs <;> simp [check_checkmate_last_move]

theorem kgchess_promote_state_promotion {g : kgchess_t} {k : kgchess_piece_type_t}
    (h : (kgchess_promote g k).2.state = KGCHESS_STATE_PROMOTION) :
    g.state = KGCHESS_STATE_PROMOTION := by
  unfold kgchess_promote at h
  split at h
  · exact h
  · rename_i h1
    simpa using h1

theorem kgchess_promote_fst {g : kgchess_t} {k : kgchess_piece_type_t}
    (hs : g.state = KGCHESS_STATE_PROMOTION)
    (hp : g.promotion_pos.x ≠ -1 ∧ g.promotion_pos.y ≠ -1)
    (hk : k ≠ KGCHESS_PIECE_PAWN ∧ k ≠ KGCHESS_PIECE_KING) :
    (kgchess_promote g k).1 = true := by
  simp [kgchess_promote, hs, hp.1, hp.2, hk.1, hk.2]

theorem check_checkmate_state_of_move (g : kgchess_t) (h : g.state = KGCHESS_STATE_MOVE) :
    (check_checkmate g).state = KGCHESS_STATE_MOVE ∨
      (check_checkmate g).state = KGCHESS_STATE_ENDED := by
  rcases check_checkmate_state_cases g with h1 | h1
  · exact Or.inl (h1.trans h)
  · exact Or.inr h1

/-- A successful promotion leaves the phase AwaitingMove or Ended. -/
theorem promote_success_state (g : kgchess_t) (k : kgchess_piece_type_t) :
    (kgchess_promote g k).1 = false ∨ (kgchess_promote g k).2.state = KGCHESS_STATE_MOVE ∨
      (kgchess_promote g k).2.state = KGCHESS_STATE_ENDED := by
  unfold kgchess_promote
  split
  · exact Or.inl rfl
  · split
    · exact Or.inl rfl
    · split
      · exact Or.inl rfl
      · exact Or.inr (check_checkmate_state_of_move _ rfl)

theorem promotes_to_valid {g : kgchess_t} {m : kgchess_move_t} (h : promotes g m = true) :
    m.to_ ≠ KGCHESS_POS_INVALID := by
  intro hc
  unfold promotes at h
  rw [hc] at h
  simp [KGCHESS_POS_INVALID] at h

/-! ## En passant: what is listed, and for how long -/

theorem pawn_dir_cases (p : kgchess_player_t) : Gen.pawn_dir p = 1 ∨ Gen.pawn_dir p = -1 := by
  unfold Gen.pawn_dir
  split
  · exact Or.inr rfl
  · exact Or.inl rfl

theorem move_make_en_passant {g : kgchess_t} {x y : Int}
    (hp : (kgchess_get_piece_at g x y).type = KGCHESS_PIECE_PAWN)
    (h : en_passant_conditions g x y) :
    move_make x y (get_en_passant g x y (kgchess_get_piece_at g x y))
      (y + Gen.pawn_dir (kgchess_get_piece_at g x y).player) true false true =
      en_passant_move g x y := by
  have hr := in_range_of_type (by rw [hp]; decide :
    (kgchess_get_piece_at g x y).type ≠ KGCHESS_PIECE_NONE)
  have hl := in_range_of_type (by rw [h.2.1]; decide :
    (kgchess_get_piece_at g g.last_move.to_.x g.last_move.to_.y).type ≠ KGCHESS_PIECE_NONE)
  rw [(get_en_passant_of_conditions hp h).1]
  have hd := pawn_dir_cases (kgchess_get_piece_at g x y).player
  unfold move_make en_passant_move
  rw [to_int8_of_range (v := x) (by omega) (by omega),
    to_int8_of_range (v := y) (by omega) (by omega),
    to_int8_of_range (v := g.last_move.to_.x) (by omega) (by omega),
    to_int8_of_range (v := y + _) (by omega) (by omega)]

/-- An en-passant-flagged move is listed only for a pawn that meets the
conditions of `get_en_passant`, and it is `en_passant_move`. -/
theorem en_passant_of_mem {g : kgchess_t} {x y : Int} {m : kgchess_move_t}
    (h : m ∈ kgchess_get_moves g x y) (he : m.is_en_passant = true) :
    (kgchess_get_piece_at g x y).type = KGCHESS_PIECE_PAWN ∧ en_passant_conditions g x y ∧
      m = en_passant_move g x y ∧
      Gen.admitted kgchess_is_square_attacked_by_player g false (en_passant_move g x y) := by
  suffices H : ∀ m ∈ kgchess_get_moves g x y, m.is_en_passant = true →
      (kgchess_get_piece_at g x y).type = KGCHESS_PIECE_PAWN ∧ en_passant_conditions g x y ∧
        m = en_passant_move g x y ∧
        Gen.admitted kgchess_is_square_attacked_by_player g false (en_passant_move g x y) from
    H m h he
  unfold kgchess_get_moves get_moves Gen.get_moves
  dsimp only
  split
  · exact Gen.forall_get_king_moves _ (fun _ _ _ _ _ _ _ _ _ he => by simp [move_make] at he)
      (fun _ _ _ _ _ _ he => by simp [move_make] at he)
  · exact Gen.forall_get_queen_moves _ (fun _ _ _ _ _ _ _ _ _ he => by simp [move_make] at he)
  · exact Gen.forall_get_bishop_moves _ (fun _ _ _ _ _ _ _ _ _ he => by simp [move_make] at he)
  · exact Gen.forall_get_knight_moves _ (fun _ _ _ _ _ he => by simp [move_make] at he)
  · exact Gen.forall_get_rook_moves _ (fun _ _ _ _ _ _ _ _ _ he => by simp [move_make] at he)
  · rename_i hp
    refine Gen.forall_get_pawn_moves _ (fun _ _ _ he => by simp [move_make] at he)
      (fun _ _ _ _ _ he => by simp [move_make] at he)
      (fun _ _ _ _ he => by simp [move_make] at he) ?_
    intro _ _ hne ha _
    have hc := (conditions_of_get_en_passant hne).2
    have hmm := move_make_en_passant hp hc
    rw [hmm] at ha ⊢
    exact ⟨hp, hc, rfl, ha⟩
  · intro m hm
    simp [kgchess_moves_array_make_empty] at hm

/-- Under the conditions of `get_en_passant`, the capture is listed as soon as it
passes `add_move_if_legal`. -/
theorem en_passant_mem {g : kgchess_t} {x y : Int}
    (hp : (kgchess_get_piece_at g x y).type = KGCHESS_PIECE_PAWN)
    (hc : en_passant_conditions g x y)
    (ha : Gen.admitted kgchess_is_square_attacked_by_player g false (en_passant_move g x y)) :
    en_passant_move g x y ∈ kgchess_get_moves g x y := by
  have hne : get_en_passant g x y (kgchess_get_piece_at g x y) ≠ -1 := by
    rw [(get_en_passant_of_conditions hp hc).1]
    exact (get_en_passant_of_conditions hp hc).2
  unfold kgchess_get_moves get_moves Gen.get_moves
  simp only [hp]
  unfold Gen.get_pawn_moves
  simp only [Bool.not_false, Bool.and_self, if_true, Bool.true_and, Bool.false_or]
  rw [if_pos hne]
  have hmm := move_make_en_passant hp hc
  unfold Gen.pawn_dir at hmm
  rw [hmm]
  apply Gen.mem_add_move_if_legal_self ha
  refine lt_of_le_of_lt (Gen.length_ite_add_le _ _ _ _ _ _) ?_
  refine Nat.succ_lt_succ (lt_of_le_of_lt (Gen.length_ite_add_le _ _ _ _ _ _) ?_)
  refine Nat.succ_lt_succ ?_
  split_ifs <;>
    first
    | (simp [kgchess_moves_array_make_empty]; done)
    | (refine lt_of_le_of_lt (Gen.length_add_move_if_legal_le _ _ _ _ _) ?_
       first
       | (simp [kgchess_moves_array_make_empty]; done)
       | (refine Nat.succ_lt_succ (lt_of_le_of_lt (Gen.length_add_move_if_legal_le _ _ _ _ _) ?_)
          simp [kgchess_moves_array_make_empty]))

theorem get_piece_at_congr {g g' : kgchess_t} (h : g.pieces = g'.pieces) (a b : Int) :
    get_piece_at g a b = get_piece_at g' a b := by
  simp [get_piece_at, h]

/-- After an ordinary move the destination holds the piece that stood on the origin. -/
theorem type_at_to_ordinary {g : kgchess_t} {m : kgchess_move_t} (hc : m.is_castling = false)
    (he : m.is_en_passant = false)
    (hr : 0 ≤ m.to_.x ∧ m.to_.x < 8 ∧ 0 ≤ m.to_.y ∧ m.to_.y < 8) :
    (get_piece_at (apply_move_body g m) m.to_.x m.to_.y).type =
      (get_piece_at g m.from_.x m.from_.y).type := by
  have hp : (apply_move_body g m).pieces =
      (set_piece_at (set_piece_at g (piece_make KGCHESS_PIECE_NONE KGCHESS_PLAYER_NONE)
        m.from_.x m.from_.y)
        { get_piece_at g m.from_.x m.from_.y with last_move_num := g.move_num }
        m.to_.x m.to_.y).pieces := by
    unfold apply_move_body
    simp only [hc, he, Bool.false_eq_true, if_false, set_piece_at_move_num]
    split_ifs <;> rfl
  rw [get_piece_at_congr hp, get_piece_at_set_piece_at]
  simp [hr]

/-- After castling the king's destination holds the piece that stood on the origin. -/
theorem type_at_to_castling {g : kgchess_t} {m : kgchess_move_t} (hc : m.is_castling = true)
    (hx : m.to_.x = 2 ∨ m.to_.x = 6) (hy : 0 ≤ m.to_.y ∧ m.to_.y < 8) :
    (get_piece_at (apply_move_body g m) m.to_.x m.to_.y).type =
      (get_piece_at g m.from_.x m.from_.y).type := by
  have hp : (apply_move_body g m).pieces =
      (set_piece_at (set_piece_at
        (set_piece_at (set_piece_at g (piece_make KGCHESS_PIECE_NONE KGCHESS_PLAYER_NONE)
          m.from_.x m.from_.y) (piece_make KGCHESS_PIECE_NONE KGCHESS_PLAYER_NONE)
          (if m.to_.x = 2 then 0 else 7) m.from_.y)
        { get_piece_at g m.from_.x m.from_.y with last_move_num := g.move_num }
        m.to_.x m.to_.y)
        { get_piece_at g (if m.to_.x = 2 then 0 else 7) m.from_.y with
          last_move_num := g.move_num }
        (if m.to_.x = 2 then 3 else 5) m.to_.y).pieces := by
    unfold apply_move_body
    simp only [hc, if_true, set_piece_at_move_num]
  rw [get_piece_at_congr hp, get_piece_at_set_piece_at, get_piece_at_set_piece_at]
  have h1 : ¬ (m.to_.x = if m.to_.x = 2 then 3 else 5) := by
    split <;> omega
  have h2 : 0 ≤ m.to_.x ∧ m.to_.x < 8 := by omega
  simp [h1, h2, hy]

theorem double_step_of_not_pawn {g : kgchess_t} {a b : Int} {m : kgchess_move_t}
    (ht : (kgchess_get_piece_at g a b).type ≠ KGCHESS_PIECE_PAWN)
    (hn : (kgchess_get_piece_at g a b).type ≠ KGCHESS_PIECE_NONE)
    (hf : m.from_ = ⟨to_int8 a, to_int8 b⟩)
    (hk : (get_piece_at (apply_move_body g m) m.to_.x m.to_.y).type =
      (get_piece_at g m.from_.x m.from_.y).type) :
    double_step_onto_empty g m := by
  intro h1 _
  have hr := in_range_of_type hn
  rw [hk, hf, to_int8_of_range (v := a) (by omega) (by omega),
    to_int8_of_range (v := b) (by omega) (by omega)] at h1
  exact absurd h1 ht

theorem listed_double_step {g : kgchess_t} {a b : Int} {m : kgchess_move_t}
    (h : m ∈ kgchess_get_moves g a b) : double_step_onto_empty g m := by
  suffices H : ∀ m ∈ kgchess_get_moves g a b, double_step_onto_empty g m from H m h
  have hn := Gen.get_moves_type h
  have hr := in_range_of_type hn
  have hxa : to_int8 a = a := to_int8_of_range (by omega) (by omega)
  have hyb : to_int8 b = b := to_int8_of_range (by omega) (by omega)
  have ray : (kgchess_get_piece_at g a b).type ≠ KGCHESS_PIECE_PAWN →
      ∀ (tx ty : Int) (f : Bool),
      Gen.admitted kgchess_is_square_attacked_by_player g false (move_make a b tx ty f false false) →
      double_step_onto_empty g (move_make a b tx ty f false false) := by
    intro ht tx ty f ha
    exact double_step_of_not_pawn ht hn rfl (type_at_to_ordinary rfl rfl ha.1)
  unfold kgchess_get_moves get_moves Gen.get_moves
  dsimp only
  split
  · rename_i hk
    have ht : (kgchess_get_piece_at g a b).type ≠ KGCHESS_PIECE_PAWN := by rw [hk]; decide
    refine Gen.forall_get_king_moves _ (fun _ _ _ _ _ _ _ _ ha => ray ht _ _ _ ha) ?_
    intro rook_x to_x hx _ _ ha
    refine double_step_of_not_pawn ht hn rfl (type_at_to_castling rfl ?_ ⟨ha.1.2.2.1, ha.1.2.2.2⟩)
    show to_int8 to_x = 2 ∨ to_int8 to_x = 6
    rcases hx with ⟨-, rfl⟩ | ⟨-, rfl⟩
    · exact Or.inl rfl
    · exact Or.inr rfl
  · rename_i hk
    have ht : (kgchess_get_piece_at g a b).type ≠ KGCHESS_PIECE_PAWN := by rw [hk]; decide
    exact Gen.forall_get_queen_moves _ (fun _ _ _ _ _ _ _ _ ha => ray ht _ _ _ ha)
  · rename_i hk
    have ht : (kgchess_get_piece_at g a b).type ≠ KGCHESS_PIECE_PAWN := by rw [hk]; decide
    exact Gen.forall_get_bishop_moves _ (fun _ _ _ _ _ _ _ _ ha => ray ht _ _ _ ha)
  · rename_i hk
    have ht : (kgchess_get_piece_at g a b).type ≠ KGCHESS_PIECE_PAWN := by rw [hk]; decide
    exact Gen.forall_get_knight_moves _ (fun _ _ _ _ ha => ray ht _ _ _ ha)
  · rename_i hk
    have ht : (kgchess_get_piece_at g a b).type ≠ KGCHESS_PIECE_PAWN := by rw [hk]; decide
    exact Gen.forall_get_rook_moves _ (fun _ _ _ _ _ _ _ _ ha => ray ht _ _ _ ha)
  · have hd := pawn_dir_cases (kgchess_get_piece_at g a b).player
    have one : ∀ (tx : Int) (f e : Bool),
        double_step_onto_empty g
          (move_make a b tx (b + Gen.pawn_dir (kgchess_get_piece_at g a b).player) f false e) := by
      intro tx f e _ h2
      exfalso
      simp only [move_make, hyb] at h2
      rw [to_int8_of_range (by omega) (by omega)] at h2
      omega
    refine Gen.forall_get_pawn_moves _ ?_ ?_ ?_ ?_
    · intro _ _ _
      rw [one_mul]
      exact one _ _ _
    · intro _ _ _ he _ _ _
      simp only [move_make, hxa]
      rw [to_int8_of_range (v := b + _) (by omega) (by omega)]
      simpa [is_position_empty] using he
    · intro sx _ _ _
      rw [one_mul]
      exact one _ _ _
    · intro _ _ _ _
      exact one _ _ _
  · intro m hm
    simp [kgchess_moves_array_make_empty] at hm

theorem kgchess_move_last_move (g : kgchess_t) (m : kgchess_move_t) :
    (kgchess_move g m).2.last_move = m :=
  ((kgchess_move_same_core g m).last_move).trans (apply_move_body_last_move g m)

/-- After any further listed move, no en passant capture onto the file of the
pawn that had advanced is listed. -/
theorem en_passant_expires {g : kgchess_t} {x y a b : Int} {m' m : kgchess_move_t}
    (hocc : (kgchess_get_piece_at g g.last_move.to_.x y).type ≠ KGCHESS_PIECE_NONE)
    (hm' : m' ∈ kgchess_get_moves g a b)
    (hm : m ∈ kgchess_get_moves (kgchess_move g m').2 x y) (he : m.is_en_passant = true) :
    m.to_.x ≠ g.last_move.to_.x := by
  obtain ⟨-, ⟨-, h2, h3, h4, -⟩, hmeq, -⟩ := en_passant_of_mem hm he
  rw [kgchess_move_last_move] at h2 h3 h4
  have hx : m.to_.x = m'.to_.x := by
    rw [hmeq]
    show (kgchess_move g m').2.last_move.to_.x = _
    rw [kgchess_move_last_move]
  intro hc
  have h5 : (get_piece_at (apply_move_body g m') m'.to_.x m'.to_.y).type = KGCHESS_PIECE_PAWN := by
    rw [← h2]
    show _ = (get_piece_at _ _ _).type
    rw [get_piece_at_congr (kgchess_move_same_core g m').pieces]
  have h6 := listed_double_step hm' h5 h4
  rw [h3, ← hx, hc] at h6
  exact hocc h6

theorem passes_filter_iff (g : kgchess_t) (m : kgchess_move_t) :
    passes_filter g m ↔ Gen.admitted kgchess_is_square_attacked_by_player g false m := by
  unfold passes_filter Gen.admitted is_in_check
  simp

theorem own_pawn_game_core : same_core own_pawn_game (play_body kgchess_make own_pawn_moves) :=
  play_same_core ⟨rfl, rfl, rfl⟩ _

theorem own_pawn_game_reachable : reachable own_pawn_game false := by
  have h := reachable_play own_pawn_moves reachable.make ⟨rfl, rfl, rfl⟩ (by decide!)
  have hb : last_promotes kgchess_make false own_pawn_moves = false := by decide!
  rw [hb] at h
  exact h

/-! ## Rays: every admitted square before the first stop is listed -/

namespace Gen

section ray

variable {att : oracle} {g : kgchess_t} {x y : Int} {piece : kgchess_piece_t} {dx dy : Int}
  {apa iac : Bool}

theorem length_add_move_if_legal_le_room (arr : kgchess_moves_array_t) (move : kgchess_move_t) :
    (add_move_if_legal att g arr move iac).length ≤
      arr.length + (if in_board move.to_.x move.to_.y then 1 else 0) := by
  unfold add_move_if_legal
  by_cases hr : move.to_.x < 0 ∨ move.to_.x ≥ 8 ∨ move.to_.y < 0 ∨ move.to_.y ≥ 8
  · rw [if_pos hr]
    omega
  · have hb : in_board move.to_.x move.to_.y := by unfold in_board; omega
    rw [if_pos hb]
    exact length_add_move_if_legal_le att g arr move iac

theorem length_add_ray_step (arr : kgchess_moves_array_t) (fx fy tx ty : Int) (a : Bool) :
    (add_move_if_legal att g arr (move_make fx fy tx ty a false false) iac).length ≤
      arr.length + (if in_board (to_int8 tx) (to_int8 ty) then 1 else 0) :=
  length_add_move_if_legal_le_room arr (move_make fx fy tx ty a false false)

theorem mem_loop_of_mem {m : kgchess_move_t} (n : Nat) (i : Int) (moves : kgchess_moves_array_t)
    (h : m ∈ moves) : m ∈ add_move_range_loop att g x y piece dx dy apa iac n i moves := by
  induction n generalizing i moves with
  | zero => exact h
  | succ n ih =>
    simp only [add_move_range_loop]
    split_ifs
    · exact ih _ _ (mem_add_move_if_legal_of_mem h)
    · exact mem_add_move_if_legal_of_mem h
    · exact h
    · exact ih _ _ h

theorem length_loop_le (n : Nat) (i : Int) (moves : kgchess_moves_array_t) :
    (add_move_range_loop att g x y piece dx dy apa iac n i moves).length ≤
      moves.length + ray_room x y dx dy n i := by
  induction n generalizing i moves with
  | zero => simp [add_move_range_loop, ray_room]
  | succ n ih =>
    simp only [add_move_range_loop, ray_room]
    have h1 := fun a => @length_add_ray_step att g iac moves x y
      (x + i * dx) (y + i * dy) a
    generalize (if in_board (to_int8 (x + i * dx)) (to_int8 (y + i * dy)) then 1 else 0 : Nat) = c
      at h1 ⊢
    have h2 := ih (i + 1) (add_move_if_legal att g moves
      (move_make x y (x + i * dx) (y + i * dy) apa false false) iac)
    have h3 := h1 apa
    have h4 := h1 true
    have h5 := ih (i + 1) moves
    split_ifs <;> omega

/-- What a ray can add: a move to the square of a step that the loop reaches
and that offers the square. -/
theorem mem_loop {m : kgchess_move_t} (n : Nat) (i : Int) (moves : kgchess_moves_array_t)
    (h : m ∈ add_move_range_loop att g x y piece dx dy apa iac n i moves) :
    m ∈ moves ∨ ∃ (k : Int) (a : Bool), i ≤ k ∧ k < i + n ∧
      (∀ k' : Int, i ≤ k' → k' < k →
        ray_continues g piece apa iac (x + k' * dx) (y + k' * dy)) ∧
      range_target g piece apa iac (x + k * dx) (y + k * dy) a ∧
      admitted att g iac (move_make x y (x + k * dx) (y + k * dy) a false false) ∧
      m = move_make x y (x + k * dx) (y + k * dy) a false false := by
  induction n generalizing i moves with
  | zero => exact Or.inl h
  | succ n ih =>
    simp only [add_move_range_loop] at h
    have here : ∀ a : Bool, range_target g piece apa iac (x + i * dx) (y + i * dy) a →
        m ∈ add_move_if_legal att g moves
          (move_make x y (x + i * dx) (y + i * dy) a false false) iac →
        m ∈ moves ∨ ∃ (k : Int) (a : Bool), i ≤ k ∧ k < i + (n + 1 : Nat) ∧
          (∀ k' : Int, i ≤ k' → k' < k →
            ray_continues g piece apa iac (x + k' * dx) (y + k' * dy)) ∧
          range_target g piece apa iac (x + k * dx) (y + k * dy) a ∧
          admitted att g iac (move_make x y (x + k * dx) (y + k * dy) a false false) ∧
          m = move_make x y (x + k * dx) (y + k * dy) a false false := by
      intro a ht hm
      rcases mem_add_move_if_legal hm with h1 | ⟨rfl, h1⟩
      · exact Or.inl h1
      · exact Or.inr ⟨i, a, le_refl _, by push_cast; omega, fun k' h2 h3 => by omega, ht, h1, rfl⟩
    have later : ray_continues g piece apa iac (x + i * dx) (y + i * dy) →
        (∃ (k : Int) (a : Bool), i + 1 ≤ k ∧ k < i + 1 + n ∧
          (∀ k' : Int, i + 1 ≤ k' → k' < k →
            ray_continues g piece apa iac (x + k' * dx) (y + k' * dy)) ∧
          range_target g piece apa iac (x + k * dx) (y + k * dy) a ∧
          admitted att g iac (move_make x y (x + k * dx) (y + k * dy) a false false) ∧
          m = move_make x y (x + k * dx) (y + k * dy) a false false) →
        ∃ (k : Int) (a : Bool), i ≤ k ∧ k < i + (n + 1 : Nat) ∧
          (∀ k' : Int, i ≤ k' → k' < k →
            ray_continues g piece apa iac (x + k' * dx) (y + k' * dy)) ∧
          range_target g piece apa iac (x + k * dx) (y + k * dy) a ∧
          admitted att g iac (move_make x y (x + k * dx) (y + k * dy) a false false) ∧
          m = move_make x y (x + k * dx) (y + k * dy) a false false := by
      rintro hc ⟨k, a, h1, h2, h3, h4, h5, h6⟩
      refine ⟨k, a, by omega, by push_cast; omega, fun k' h7 h8 => ?_, h4, h5, h6⟩
      by_cases hk : k' = i
      · rw [hk]; exact hc
      · exact h3 k' (by omega) h8
    split at h
    · rename_i hc
      rcases ih _ _ h with h1 | h1
      · exact here apa (Or.inl ⟨hc.1, hc.2, rfl⟩) h1
      · exact Or.inr (later (Or.inl hc) h1)
    · rename_i hc
      split at h
      · rename_i he
        exact here true (Or.inr ⟨hc, he, rfl⟩) h
      · rename_i he
        split at h
        · exact Or.inl h
        · rename_i ho
          rcases ih _ _ h with h1 | h1
          · exact Or.inl h1
          · exact Or.inr (later (Or.inr ⟨hc, he, ho⟩) h1)

/-- A ray does add the move of every step it reaches, as long as the list has
room for the squares of the ray. -/
theorem loop_complete (n : Nat) (i : Int) (moves : kgchess_moves_array_t)
    (hcap : moves.length + ray_room x y dx dy n i ≤ 28) (k : Int) (a : Bool)
    (hk : i ≤ k ∧ k < i + n)
    (hpath : ∀ k' : Int, i ≤ k' → k' < k →
      ray_continues g piece apa iac (x + k' * dx) (y + k' * dy))
    (ht : range_target g piece apa iac (x + k * dx) (y + k * dy) a)
    (ha : admitted att g iac (move_make x y (x + k * dx) (y + k * dy) a false false)) :
    move_make x y (x + k * dx) (y + k * dy) a false false ∈
      add_move_range_loop att g x y piece dx dy apa iac n i moves := by
  induction n generalizing i moves with
  | zero => exfalso; simp at hk; omega
  | succ n ih =>
    simp only [add_move_range_loop]
    simp only [ray_room] at hcap
    by_cases hki : k = i
    · subst hki
      have hb : in_board (to_int8 (x + k * dx)) (to_int8 (y + k * dy)) := ha.1
      rw [if_pos hb] at hcap
      rcases ht with ⟨h1, h2, rfl⟩ | ⟨h1, h2, rfl⟩
      · rw [if_pos ⟨h1, h2⟩]
        exact mem_loop_of_mem _ _ _ (mem_add_move_if_legal_self ha (by omega))
      · rw [if_neg h1, if_pos h2]
        exact mem_add_move_if_legal_self ha (by omega)
    · have hc := hpath i (le_refl _) (by omega)
      have hk' : i + 1 ≤ k ∧ k < i + 1 + n := ⟨by omega, by have := hk.2; push_cast at this; omega⟩
      have hp' : ∀ k' : Int, i + 1 ≤ k' → k' < k →
          ray_continues g piece apa iac (x + k' * dx) (y + k' * dy) :=
        fun k' h1 h2 => hpath k' (by omega) h2
      rcases hc with hc | ⟨h1, h2, h3⟩
      · rw [if_pos hc]
        refine ih _ _ ?_ hk' hp'
        have h5 := @length_add_ray_step att g iac moves x y
          (x + i * dx) (y + i * dy) apa
        generalize (if in_board (to_int8 (x + i * dx)) (to_int8 (y + i * dy)) then 1 else 0 : Nat)
          = c at h5 hcap
        omega
      · rw [if_neg h1, if_neg h2, if_neg h3]
        exact ih _ _ (by omega) hk' hp'

end ray

section rays

variable {att : oracle} {g : kgchess_t} {x y : Int} {piece : kgchess_piece_t} {end_ : Int}
  {apa iac : Bool}

theorem mem_add_move_range {dx dy : Int} {m : kgchess_move_t} {moves : kgchess_moves_array_t}
    (h : m ∈ add_move_range att g moves x y piece dx dy end_ apa iac) :
    m ∈ moves ∨ ray_offers att g x y piece dx dy end_ apa iac m := by
  unfold add_move_range at h
  rcases mem_loop _ _ _ h with h1 | ⟨k, a, h1, h2, h3⟩
  · exact Or.inl h1
  · exact Or.inr ⟨k, a, h1, by omega, h3⟩

theorem add_move_range_complete {dx dy : Int} {m : kgchess_move_t}
    {moves : kgchess_moves_array_t}
    (hcap : moves.length + ray_room x y dx dy (end_ + 1 - 1).toNat 1 ≤ 28)
    (h : ray_offers att g x y piece dx dy end_ apa iac m) :
    m ∈ add_move_range att g moves x y piece dx dy end_ apa iac := by
  obtain ⟨k, a, h1, h2, h3, h4, h5, rfl⟩ := h
  unfold add_move_range
  exact loop_complete _ _ _ hcap k a ⟨h1, by omega⟩ h3 h4 h5

theorem mem_add_move_range_of_mem {dx dy : Int} {m : kgchess_move_t}
    {moves : kgchess_moves_array_t} (h : m ∈ moves) :
    m ∈ add_move_range att g moves x y piece dx dy end_ apa iac :=
  mem_loop_of_mem _ _ _ h

theorem length_add_move_range_le (dx dy : Int) (moves : kgchess_moves_array_t) :
    (add_move_range att g moves x y piece dx dy end_ apa iac).length ≤
      moves.length + ray_room x y dx dy (end_ + 1 - 1).toNat 1 :=
  length_loop_le _ _ _

theorem length_add_rays_le (dirs : List (Int × Int)) (moves : kgchess_moves_array_t) :
    (add_rays att g x y piece end_ apa iac dirs moves).length ≤
      moves.length + total_room x y end_ dirs := by
  induction dirs generalizing moves with
  | nil => simp [add_rays, total_room]
  | cons d dirs ih =>
    have h1 := ih (add_move_range att g moves x y piece d.1 d.2 end_ apa iac)
    have h2 := @length_add_move_range_le att g x y piece end_ apa iac d.1 d.2 moves
    simp only [add_rays, List.foldl_cons, total_room, List.map_cons, List.sum_cons] at h1 ⊢
    omega

theorem mem_add_rays_of_mem {m : kgchess_move_t} (dirs : List (Int × Int))
    (moves : kgchess_moves_array_t) (h : m ∈ moves) :
    m ∈ add_rays att g x y piece end_ apa iac dirs moves := by
  induction dirs generalizing moves with
  | nil => exact h
  | cons d dirs ih => exact ih _ (mem_add_move_range_of_mem h)

theorem mem_add_rays {m : kgchess_move_t} (dirs : List (Int × Int))
    (moves : kgchess_moves_array_t)
    (h : m ∈ add_rays att g x y piece end_ apa iac dirs moves) :
    m ∈ moves ∨ ∃ d ∈ dirs, ray_offers att g x y piece d.1 d.2 end_ apa iac m := by
  induction dirs generalizing moves with
  | nil => exact Or.inl h
  | cons d dirs ih =>
    rcases ih _ h with h1 | ⟨d', hd', h1⟩
    · rcases mem_add_move_range h1 with h2 | h2
      · exact Or.inl h2
      · exact Or.inr ⟨d, List.mem_cons_self _ _, h2⟩
    · exact Or.inr ⟨d', List.mem_cons_of_mem _ hd', h1⟩

theorem add_rays_complete {m : kgchess_move_t} (dirs : List (Int × Int))
    (moves : kgchess_moves_array_t) (hcap : moves.length + total_room x y end_ dirs ≤ 28)
    (d : Int × Int) (hd : d ∈ dirs) (h : ray_offers att g x y piece d.1 d.2 end_ apa iac m) :
    m ∈ add_rays att g x y piece end_ apa iac dirs moves := by
  induction dirs generalizing moves with
  | nil => cases hd
  | cons d' dirs ih =>
    simp only [total_room, List.map_cons, List.sum_cons] at hcap
    have hl := @length_add_move_range_le att g x y piece end_ apa iac d'.1 d'.2 moves
    show m ∈ add_rays att g x y piece end_ apa iac dirs
      (add_move_range att g moves x y piece d'.1 d'.2 end_ apa iac)
    rcases List.mem_cons.1 hd with rfl | hd
    · exact mem_add_rays_of_mem dirs _ (add_move_range_complete (by omega) h)
    · refine ih _ ?_ hd
      unfold total_room
      omega

end rays

theorem total_room_queen {x y : Int} (h : in_board x y) :
    total_room x y 7 (rook_dirs ++ bishop_dirs) ≤ 27 := by
  have h1 : ∀ a ∈ range8, ∀ b ∈ range8, total_room a b 7 (rook_dirs ++ bishop_dirs) ≤ 27 := by
    decide
  exact h1 x (mem_range8.2 ⟨h.1, h.2.1⟩) y (mem_range8.2 ⟨h.2.2.1, h.2.2.2⟩)

theorem total_room_king (x y : Int) : total_room x y 1 (rook_dirs ++ bishop_dirs) ≤ 8 := by
  simp only [total_room, rook_dirs, bishop_dirs, List.cons_append, List.nil_append, List.map_cons,
    List.map_nil, List.sum_cons, List.sum_nil]
  have e : ((1 : Int) + 1 - 1).toNat = 1 := rfl
  simp only [e, ray_room]
  split_ifs <;> omega

/-! ## Attack probes, square by square -/

theorem ray_continues_probe {g : kgchess_t} {piece : kgchess_piece_t} {u v : Int} :
    ray_continues g piece true true u v ↔ probe_pass g piece.player u v := by
  unfold ray_continues probe_pass
  simp only [Bool.not_true, Bool.or_true, and_true]
  constructor
  · rintro (h | ⟨-, h1, h2⟩)
    · exact Or.inl h
    · exact Or.inr ⟨h1, h2⟩
  · rintro (h | ⟨h1, h2⟩)
    · exact Or.inl h
    · by_cases ht : (kgchess_get_piece_at g u v).type = KGCHESS_PIECE_NONE
      · exact Or.inl ht
      · exact Or.inr ⟨ht, h1, h2⟩

theorem range_target_probe {g : kgchess_t} {piece : kgchess_piece_t} {u v : Int} {a : Bool} :
    range_target g piece true true u v a ↔ (a = true ∧ probe_offer g piece.player u v) := by
  unfold range_target probe_offer
  simp only [Bool.not_true, Bool.or_true, and_true, true_and]
  constructor
  · rintro (⟨h, rfl⟩ | ⟨-, h, rfl⟩)
    · exact ⟨rfl, Or.inl h⟩
    · exact ⟨rfl, Or.inr h⟩
  · rintro ⟨rfl, h | h⟩
    · exact Or.inl ⟨h, rfl⟩
    · by_cases ht : (kgchess_get_piece_at g u v).type = KGCHESS_PIECE_NONE
      · exact Or.inl ⟨ht, rfl⟩
      · exact Or.inr ⟨ht, h, rfl⟩

theorem admitted_probe {att : oracle} {g : kgchess_t} {m : kgchess_move_t} :
    admitted att g true m ↔ in_board m.to_.x m.to_.y := by
  unfold admitted in_board
  simp

/-- In a probe, the rays of a piece on the board report exactly the squares they hit. -/
theorem add_rays_probe {att : oracle} {g : kgchess_t} {a b : Int} {piece : kgchess_piece_t}
    {end_ : Int} (dirs : List (Int × Int)) (hb : in_board a b) (he : 1 ≤ end_ ∧ end_ ≤ 7)
    (hd : ∀ d ∈ dirs, (-1 ≤ d.1 ∧ d.1 ≤ 1) ∧ (-1 ≤ d.2 ∧ d.2 ≤ 1))
    (hcap : total_room a b end_ dirs ≤ 28) (sx sy : Int) :
    (∃ m ∈ add_rays att g a b piece end_ true true dirs [],
        m.is_attack = true ∧ m.to_.x = sx ∧ m.to_.y = sy) ↔
      ∃ d ∈ dirs, ray_hits g piece.player a b d.1 d.2 end_ sx sy := by
  have h8 : ∀ (k d : Int), 1 ≤ k → k ≤ end_ → -1 ≤ d → d ≤ 1 → ∀ c : Int, 0 ≤ c → c < 8 →
      to_int8 (c + k * d) = c + k * d := by
    intro k d h1 h2 h3 h4 c h5 h6
    have : -7 ≤ k * d ∧ k * d ≤ 7 := by
      rcases (by omega : d = -1 ∨ d = 0 ∨ d = 1) with rfl | rfl | rfl <;> omega
    exact to_int8_of_range (by omega) (by omega)
  constructor
  · rintro ⟨m, hm, -, rfl, rfl⟩
    rcases mem_add_rays dirs [] hm with h | ⟨d, hd', k, f, h1, h2, h3, h4, h5, rfl⟩
    · cases h
    · refine ⟨d, hd', k, h1, h2, ?_, ?_, ?_, ?_, ?_⟩
      · exact h8 k d.1 h1 h2 (hd d hd').1.1 (hd d hd').1.2 a hb.1 hb.2.1
      · exact h8 k d.2 h1 h2 (hd d hd').2.1 (hd d hd').2.2 b hb.2.2.1 hb.2.2.2
      · exact admitted_probe.1 h5
      · exact fun k' h6 h7 => ray_continues_probe.1 (h3 k' h6 h7)
      · have := (range_target_probe.1 h4).2
        show probe_offer g piece.player (to_int8 _) (to_int8 _)
        rw [h8 k d.1 h1 h2 (hd d hd').1.1 (hd d hd').1.2 a hb.1 hb.2.1,
          h8 k d.2 h1 h2 (hd d hd').2.1 (hd d hd').2.2 b hb.2.2.1 hb.2.2.2]
        exact this
  · rintro ⟨d, hd', k, h1, h2, rfl, rfl, h5, h6, h7⟩
    have e1 := h8 k d.1 h1 h2 (hd d hd').1.1 (hd d hd').1.2 a hb.1 hb.2.1
    have e2 := h8 k d.2 h1 h2 (hd d hd').2.1 (hd d hd').2.2 b hb.2.2.1 hb.2.2.2
    refine ⟨move_make a b (a + k * d.1) (b + k * d.2) true false false, ?_, rfl, e1, e2⟩
    refine add_rays_complete dirs [] (by simpa using hcap) d hd' ⟨k, true, h1, h2, ?_, ?_, ?_, rfl⟩
    · exact fun k' h8 h9 => ray_continues_probe.2 (h6 k' h8 h9)
    · exact range_target_probe.2 ⟨rfl, h7⟩
    · refine admitted_probe.2 ?_
      show in_board (to_int8 _) (to_int8 _)
      rw [e1, e2]
      exact h5

section knight

variable {att : oracle} {g : kgchess_t} {x y : Int} {piece : kgchess_piece_t} {apa iac : Bool}

theorem mem_knight_foldl_of_mem {m : kgchess_move_t} (l : List kgchess_pos_t)
    (moves : kgchess_moves_array_t) (h : m ∈ moves) :
    m ∈ l.foldl (knight_step att g x y (kgchess_get_enemy_player piece.player) apa iac) moves := by
  induction l generalizing moves with
  | nil => exact h
  | cons pos l ih =>
    refine ih _ ?_
    unfold knight_step
    dsimp only
    split_ifs
    · exact mem_add_move_if_legal_of_mem h
    · exact mem_add_move_if_legal_of_mem h
    · exact h

theorem length_knight_step_le (moves : kgchess_moves_array_t) (pos : kgchess_pos_t) :
    (knight_step att g x y (kgchess_get_enemy_player piece.player) apa iac moves pos).length ≤
      moves.length + 1 := by
  unfold knight_step
  dsimp only
  split_ifs
  · exact length_add_move_if_legal_le _ _ _ _ _
  · exact length_add_move_if_legal_le _ _ _ _ _
  · omega

theorem knight_foldl_complete (l : List kgchess_pos_t) (moves : kgchess_moves_array_t)
    (hcap : moves.length + l.length ≤ 28) (pos : kgchess_pos_t) (hp : pos ∈ l) (a : Bool)
    (ht : range_target g piece apa iac pos.x pos.y a)
    (ha : admitted att g iac (move_make x y pos.x pos.y a false false)) :
    move_make x y pos.x pos.y a false false ∈
      l.foldl (knight_step att g x y (kgchess_get_enemy_player piece.player) apa iac) moves := by
  induction l generalizing moves with
  | nil => cases hp
  | cons p l ih =>
    simp only [List.length_cons] at hcap
    simp only [List.foldl_cons]
    rcases List.mem_cons.1 hp with rfl | hp
    · refine mem_knight_foldl_of_mem l _ ?_
      unfold knight_step
      dsimp only
      rcases ht with ⟨h1, h2, rfl⟩ | ⟨h1, h2, rfl⟩
      · rw [if_pos ⟨h1, h2⟩]
        exact mem_add_move_if_legal_self ha (by omega)
      · rw [if_neg h1, if_pos h2]
        exact mem_add_move_if_legal_self ha (by omega)
    · refine ih _ ?_ hp
      have := @length_knight_step_le att g x y piece apa iac moves p
      omega

theorem mem_get_knight_moves {m : kgchess_move_t}
    (h : m ∈ get_knight_moves att g x y piece apa iac) :
    ∃ pos ∈ positions_to_check x y, ∃ a : Bool, range_target g piece apa iac pos.x pos.y a ∧
      admitted att g iac (move_make x y pos.x pos.y a false false) ∧
      m = move_make x y pos.x pos.y a false false :=
  forall_get_knight_moves
    (fun m => ∃ pos ∈ positions_to_check x y, ∃ a : Bool, range_target g piece apa iac pos.x pos.y a ∧
      admitted att g iac (move_make x y pos.x pos.y a false false) ∧
      m = move_make x y pos.x pos.y a false false)
    (fun pos a hp ht ha => ⟨pos, hp, a, ht, ha, rfl⟩) m h

theorem get_knight_moves_complete (pos : kgchess_pos_t) (hp : pos ∈ positions_to_check x y)
    (a : Bool) (ht : range_target g piece apa iac pos.x pos.y a)
    (ha : admitted att g iac (move_make x y pos.x pos.y a false false)) :
    move_make x y pos.x pos.y a false false ∈ get_knight_moves att g x y piece apa iac := by
  unfold get_knight_moves
  exact knight_foldl_complete _ _ (by simp [positions_to_check, kgchess_moves_array_make_empty])
    pos hp a ht ha

end knight

/-- The knight's table without the `int8_t` conversions, for a square of the board. -/
theorem positions_to_check_eq {x y : Int} (h : in_board x y) :
    positions_to_check x y =
      [⟨x + 2, y + 1⟩, ⟨x + 2, y - 1⟩, ⟨x - 2, y + 1⟩, ⟨x - 2, y - 1⟩,
        ⟨x + 1, y + 2⟩, ⟨x + 1, y - 2⟩, ⟨x - 1, y + 2⟩, ⟨x - 1, y - 2⟩] := by
  obtain ⟨h1, h2, h3, h4⟩ := h
  unfold positions_to_check
  simp only [to_int8_of_range (v := x + 2) (by omega) (by omega),
    to_int8_of_range (v := x - 2) (by omega) (by omega),
    to_int8_of_range (v := x + 1) (by omega) (by omega),
    to_int8_of_range (v := x - 1) (by omega) (by omega),
    to_int8_of_range (v := y + 2) (by omega) (by omega),
    to_int8_of_range (v := y - 2) (by omega) (by omega),
    to_int8_of_range (v := y + 1) (by omega) (by omega),
    to_int8_of_range (v := y - 1) (by omega) (by omega)]

theorem knight_probe {att : oracle} {g : kgchess_t} {a b : Int} {piece : kgchess_piece_t}
    (sx sy : Int) :
    (∃ m ∈ get_knight_moves att g a b piece true true,
        m.is_attack = true ∧ m.to_.x = sx ∧ m.to_.y = sy) ↔
      ((⟨sx, sy⟩ : kgchess_pos_t) ∈ positions_to_check a b ∧ in_board sx sy ∧
        probe_offer g piece.player sx sy) := by
  constructor
  · rintro ⟨m, hm, -, rfl, rfl⟩
    obtain ⟨pos, hp, f, ht, ha, rfl⟩ := mem_get_knight_moves hm
    have hb : in_board (to_int8 pos.x) (to_int8 pos.y) := admitted_probe.1 ha
    have e1 : to_int8 pos.x = pos.x := to_int8_of_range (by
      unfold positions_to_check at hp
      simp only [List.mem_cons, List.mem_singleton, List.not_mem_nil, or_false] at hp
      rcases hp with rfl | rfl | rfl | rfl | rfl | rfl | rfl | rfl <;>
        simp only [to_int8] <;> omega) (by
      unfold positions_to_check at hp
      simp only [List.mem_cons, List.mem_singleton, List.not_mem_nil, or_false] at hp
      rcases hp with rfl | rfl | rfl | rfl | rfl | rfl | rfl | rfl <;>
        simp only [to_int8] <;> omega)
    have e2 : to_int8 pos.y = pos.y := to_int8_of_range (by
      unfold positions_to_check at hp
      simp only [List.mem_cons, List.mem_singleton, List.not_mem_nil, or_false] at hp
      rcases hp with rfl | rfl | rfl | rfl | rfl | rfl | rfl | rfl <;>
        simp only [to_int8] <;> omega) (by
      unfold positions_to_check at hp
      simp only [List.mem_cons, List.mem_singleton, List.not_mem_nil, or_false] at hp
      rcases hp with rfl | rfl | rfl | rfl | rfl | rfl | rfl | rfl <;>
        simp only [to_int8] <;> omega)
    show (⟨to_int8 pos.x, to_int8 pos.y⟩ : kgchess_pos_t) ∈ _ ∧
      in_board (to_int8 pos.x) (to_int8 pos.y) ∧
      probe_offer g piece.player (to_int8 pos.x) (to_int8 pos.y)
    rw [e1, e2] at hb ⊢
    exact ⟨hp, hb, (range_target_probe.1 ht).2⟩
  · rintro ⟨hp, hb, ho⟩
    have e1 : to_int8 sx = sx := to_int8_of_range (by have := hb.1; omega) (by have := hb.2.1; omega)
    have e2 : to_int8 sy = sy :=
      to_int8_of_range (by have := hb.2.2.1; omega) (by have := hb.2.2.2; omega)
    refine ⟨move_make a b sx sy true false false, ?_, rfl, e1, e2⟩
    refine get_knight_moves_complete ⟨sx, sy⟩ hp true (range_target_probe.2 ⟨rfl, ho⟩)
      (admitted_probe.2 ?_)
    show in_board (to_int8 sx) (to_int8 sy)
    rw [e1, e2]
    exact hb

theorem pawn_probe {att : oracle} {g : kgchess_t} {a b : Int} {piece : kgchess_piece_t}
    (hb : in_board a b) (sx sy : Int) :
    (∃ m ∈ get_pawn_moves att g a b piece true true,
        m.is_attack = true ∧ m.to_.x = sx ∧ m.to_.y = sy) ↔
      (in_board sx sy ∧ sy = b + pawn_dir piece.player ∧ (sx = a + 1 ∨ sx = a - 1)) := by
  obtain ⟨h1, h2, h3, h4⟩ := hb
  have hd := pawn_dir_cases piece.player
  have e1 : to_int8 (a + 1) = a + 1 := to_int8_of_range (by omega) (by omega)
  have e2 : to_int8 (a - 1) = a - 1 := to_int8_of_range (by omega) (by omega)
  have e3 : to_int8 (b + pawn_dir piece.player) = b + pawn_dir piece.player :=
    to_int8_of_range (by omega) (by omega)
  have hl : get_pawn_moves att g a b piece true true =
      add_move_if_legal att g (add_move_if_legal att g []
        (move_make a b (a + 1) (b + pawn_dir piece.player) true false false) true)
        (move_make a b (a - 1) (b + pawn_dir piece.player) true false false) true := by
    simp [get_pawn_moves, pawn_dir, kgchess_moves_array_make_empty]
  rw [hl]
  constructor
  · rintro ⟨m, hm, -, rfl, rfl⟩
    rcases mem_add_move_if_legal hm with hm | ⟨rfl, ha⟩
    · rcases mem_add_move_if_legal hm with hm | ⟨rfl, ha⟩
      · cases hm
      · have hb : in_board (to_int8 (a + 1)) (to_int8 (b + pawn_dir piece.player)) :=
          admitted_probe.1 ha
        rw [e1, e3] at hb
        exact ⟨by simp only [move_make, e1, e3]; exact hb, by simp only [move_make, e3],
          Or.inl (by simp only [move_make, e1])⟩
    · have hb : in_board (to_int8 (a - 1)) (to_int8 (b + pawn_dir piece.player)) :=
        admitted_probe.1 ha
      rw [e2, e3] at hb
      exact ⟨by simp only [move_make, e2, e3]; exact hb, by simp only [move_make, e3],
        Or.inr (by simp only [move_make, e2])⟩
  · rintro ⟨hb, rfl, rfl | rfl⟩
    · refine ⟨move_make a b (a + 1) (b + pawn_dir piece.player) true false false,
        mem_add_move_if_legal_of_mem (mem_add_move_if_legal_self (admitted_probe.2 ?_) (by simp)),
        rfl, e1, e3⟩
      show in_board (to_int8 _) (to_int8 _)
      rw [e1, e3]
      exact hb
    · refine ⟨move_make a b (a - 1) (b + pawn_dir piece.player) true false false,
        mem_add_move_if_legal_self (admitted_probe.2 ?_) ?_, rfl, e2, e3⟩
      · show in_board (to_int8 _) (to_int8 _)
        rw [e2, e3]
        exact hb
      · have := length_add_move_if_legal_le att g []
          (move_make a b (a + 1) (b + pawn_dir piece.player) true false false) true
        simp only [List.length_nil] at this
        omega

end Gen

theorem dirs_small : ∀ d ∈ Gen.rook_dirs ++ Gen.bishop_dirs,
    (-1 ≤ d.1 ∧ d.1 ≤ 1) ∧ (-1 ≤ d.2 ∧ d.2 ≤ 1) := by
  decide

theorem total_room_mono (x y end_ : Int) (l : List (Int × Int)) :
    Gen.total_room x y end_ l ≤ Gen.total_room x y end_ (Gen.rook_dirs ++ l) ∧
      Gen.total_room x y end_ l ≤ Gen.total_room x y end_ (l ++ Gen.bishop_dirs) := by
  unfold Gen.total_room
  simp only [List.map_append, List.sum_append]
  omega

/-- Attack probes report exactly the squares of `piece_hits`. -/
theorem probe_iff {g : kgchess_t} {a b : Int} (hb : in_board a b) (sx sy : Int) :
    (∃ m ∈ get_moves g a b true true, m.is_attack = true ∧ m.to_.x = sx ∧ m.to_.y = sy) ↔
      piece_hits g a b sx sy := by
  have hq := Gen.total_room_queen hb
  have hk := Gen.total_room_king a b
  have hr := (total_room_mono a b 7 Gen.rook_dirs).2
  have hbi := (total_room_mono a b 7 Gen.bishop_dirs).1
  have h7 : (1 : Int) ≤ 7 ∧ (7 : Int) ≤ 7 := by omega
  have h1 : (1 : Int) ≤ 1 ∧ (1 : Int) ≤ 7 := by omega
  unfold get_moves Gen.get_moves piece_hits
  cases ht : (kgchess_get_piece_at g a b).type <;> simp only [ht]
  · simp [kgchess_moves_array_make_empty]
  · have e : Gen.get_king_moves kgchess_is_square_attacked_by_player g a b
        (kgchess_get_piece_at g a b) true true =
        Gen.add_rays kgchess_is_square_attacked_by_player g a b (kgchess_get_piece_at g a b) 1
          true true (Gen.rook_dirs ++ Gen.bishop_dirs) [] := by
      simp [Gen.get_king_moves, Gen.add_rays, Gen.rook_dirs, Gen.bishop_dirs,
        kgchess_moves_array_make_empty]
    rw [e]
    exact Gen.add_rays_probe _ hb h1 dirs_small (by omega) sx sy
  · exact Gen.add_rays_probe (Gen.rook_dirs ++ Gen.bishop_dirs) hb h7 dirs_small
      (by omega) sx sy
  · exact Gen.add_rays_probe Gen.bishop_dirs hb h7
      (fun d hd => dirs_small d (List.mem_append_right _ hd)) (by omega) sx sy
  · exact Gen.knight_probe sx sy
  · exact Gen.add_rays_probe Gen.rook_dirs hb h7
      (fun d hd => dirs_small d (List.mem_append_left _ hd)) (by omega) sx sy
  · exact Gen.pawn_probe hb sx sy

/-- The attack oracle: some piece of the player reports the square. -/
theorem attacked_iff (g : kgchess_t) (sx sy : Int) (player : kgchess_player_t) :
    kgchess_is_square_attacked_by_player g sx sy player = true ↔
      ∃ a b : Int, in_board a b ∧ (kgchess_get_piece_at g a b).player = player ∧
        piece_hits g a b sx sy := by
  rw [attacked_unfold]
  simp only [List.any_eq_true, mem_range8]
  constructor
  · rintro ⟨a, ha, b, hb, h⟩
    split at h
    · cases h
    · rename_i hp
      rw [List.any_eq_true] at h
      obtain ⟨m, hm, hh⟩ := h
      simp only [Bool.and_eq_true, decide_eq_true_eq] at hh
      exact ⟨a, b, ⟨ha.1, ha.2, hb.1, hb.2⟩, by simpa using hp,
        (probe_iff ⟨ha.1, ha.2, hb.1, hb.2⟩ sx sy).1 ⟨m, hm, hh.1.1, hh.1.2, hh.2⟩⟩
  · rintro ⟨a, b, hb, hp, hh⟩
    refine ⟨a, ⟨hb.1, hb.2.1⟩, b, ⟨hb.2.2.1, hb.2.2.2⟩, ?_⟩
    rw [if_neg (by simpa using hp), List.any_eq_true]
    obtain ⟨m, hm, h1, h2, h3⟩ := (probe_iff hb sx sy).2 hh
    exact ⟨m, hm, by simp [h1, h2, h3]⟩

/-! ## Where `is_in_check` finds the king -/

theorem find_unique (q : Int → Bool) (l : List Int) (ky : Int) (hky : ky ∈ l)
    (h1 : q ky = true) (h2 : ∀ y ∈ l, q y = true → y = ky) : l.find? q = some ky := by
  induction l with
  | nil => cases hky
  | cons a l ih =>
    by_cases ha : q a = true
    · have := h2 a (List.mem_cons_self _ _) ha
      subst this
      exact List.find?_cons_of_pos _ ha
    · have hne : ky ≠ a := fun h => ha (h ▸ h1)
      have hky' : ky ∈ l := by
        rcases List.mem_cons.1 hky with h | h
        · exact absurd h hne
        · exact h
      rw [List.find?_cons_of_neg _ ha]
      exact ih hky' (fun y hy => h2 y (List.mem_cons_of_mem _ hy))

theorem find_none (q : Int → Bool) (l : List Int) (h : ∀ y ∈ l, q y = false) :
    l.find? q = none := by
  induction l with
  | nil => rfl
  | cons a l ih =>
    rw [List.find?_cons_of_neg _ (by simp [h a (List.mem_cons_self _ _)])]
    exact ih (fun y hy => h y (List.mem_cons_of_mem _ hy))

theorem foldl_king (f : Int → Option Int) (kx ky : Int) (l : List Int) (init : Int × Int)
    (h1 : f kx = some ky) (h2 : ∀ x ∈ l, x ≠ kx → f x = none) :
    l.foldl (fun king x => match f x with
      | some y => (x, y)
      | none => king) init = if kx ∈ l then (kx, ky) else init := by
  induction l generalizing init with
  | nil => simp
  | cons a l ih =>
    simp only [List.foldl_cons]
    rw [ih _ (fun x hx => h2 x (List.mem_cons_of_mem _ hx))]
    by_cases ha : a = kx
    · subst ha
      simp [h1]
    · rw [h2 a (List.mem_cons_self _ _) ha]
      have : (kx ∈ a :: l) ↔ kx ∈ l := by
        simp only [List.mem_cons]
        constructor
        · rintro (h | h)
          · exact absurd h.symm ha
          · exact h
        · exact Or.inr
      simp only [this]

/-- With a single king of the player on the board, `is_in_check` asks the attack
oracle about the square of that king. -/
theorem is_in_check_eq {g : kgchess_t} {P : kgchess_player_t} {kx ky : Int}
    (hk : kgchess_get_piece_at g kx ky = ⟨KGCHESS_PIECE_KING, P⟩)
    (hu : ∀ a b : Int, kgchess_get_piece_at g a b = ⟨KGCHESS_PIECE_KING, P⟩ → a = kx ∧ b = ky) :
    is_in_check g P =
      kgchess_is_square_attacked_by_player g kx ky (kgchess_get_enemy_player P) := by
  have hty : (kgchess_get_piece_at g kx ky).type ≠ KGCHESS_PIECE_NONE := by
    rw [hk]
    simp
  have hb := in_range_of_type hty
  have hq : ∀ a b : Int, (decide ((kgchess_get_piece_at g a b).type = KGCHESS_PIECE_KING) &&
      decide ((kgchess_get_piece_at g a b).player = P)) = true ↔
      kgchess_get_piece_at g a b = ⟨KGCHESS_PIECE_KING, P⟩ := by
    intro a b
    simp only [Bool.and_eq_true, decide_eq_true_eq]
    constructor
    · rintro ⟨h1, h2⟩
      cases hp : kgchess_get_piece_at g a b
      rw [hp] at h1 h2
      simp only at h1 h2
      rw [h1, h2]
    · intro h
      rw [h]
      exact ⟨rfl, rfl⟩
  have hf : ∀ x : Int, range8.find? (fun y =>
      decide ((kgchess_get_piece_at g x y).type = KGCHESS_PIECE_KING) &&
        decide ((kgchess_get_piece_at g x y).player = P)) =
      if x = kx then some ky else none := by
    intro x
    split
    · rename_i hx
      subst hx
      exact find_unique _ _ ky (mem_range8.2 ⟨hb.2.2.1, hb.2.2.2⟩) ((hq x ky).2 hk)
        (fun y _ hy => (hu x y ((hq x y).1 hy)).2)
    · rename_i hx
      refine find_none _ _ (fun y _ => ?_)
      by_contra hc
      exact hx (hu x y ((hq x y).1 (by simpa using hc))).1
  unfold is_in_check Gen.is_in_check
  simp only [hf]
  generalize hK : List.foldl _ _ range8 = K
  have hKe : K = (kx, ky) := by
    rw [← hK]
    exact (foldl_king (fun x => if x = kx then some ky else none) kx ky range8 (-1, -1)
      (by simp) (fun x _ hx => by simp [hx])).trans (if_pos (mem_range8.2 ⟨hb.1, hb.2.1⟩))
  rw [hKe]
  have : ¬ (kx = -1 ∨ ky = -1) := by omega
  simp only [this, if_false]

/-! ## Castling: the board after the move and the attacks on the king's destination -/

theorem kgchess_get_piece_at_set {g : kgchess_t} {p : kgchess_piece_internal_t} {x y : Int}
    (h : in_board x y) (u v : Int) :
    kgchess_get_piece_at (set_piece_at g p x y) u v =
      if u = x ∧ v = y then convert_piece p else kgchess_get_piece_at g u v := by
  unfold kgchess_get_piece_at
  rw [get_piece_at_set_piece_at]
  have h' : 0 ≤ x ∧ x < 8 ∧ 0 ≤ y ∧ y < 8 := h
  simp only [h', true_and]
  split <;> rfl

/-- The board after castling: king and rook on their new squares, their old
squares empty, everything else as before. -/
theorem castle_board {g : kgchess_t} {y r : Int} (hy : 0 ≤ y ∧ y < 8) (hr : r = 0 ∨ r = 7)
    (u v : Int) :
    kgchess_get_piece_at (apply_move_body g (castle_move y r)) u v =
      if u = castle_transit r ∧ v = y then kgchess_get_piece_at g r y
      else if u = castle_to r ∧ v = y then kgchess_get_piece_at g 4 y
      else if (u = r ∨ u = 4) ∧ v = y then ⟨KGCHESS_PIECE_NONE, KGCHESS_PLAYER_NONE⟩
      else kgchess_get_piece_at g u v := by
  have hp : kgchess_get_piece_at (apply_move_body g (castle_move y r)) u v =
      kgchess_get_piece_at (set_piece_at (set_piece_at
        (set_piece_at (set_piece_at g (piece_make KGCHESS_PIECE_NONE KGCHESS_PLAYER_NONE) 4 y)
          (piece_make KGCHESS_PIECE_NONE KGCHESS_PLAYER_NONE) r y)
        { get_piece_at g 4 y with last_move_num := g.move_num } (castle_to r) y)
        { get_piece_at g r y with last_move_num := g.move_num } (castle_transit r) y) u v := by
    apply kgchess_get_piece_at_congr
    unfold apply_move_body castle_move castle_to castle_transit
    rcases hr with rfl | rfl <;> simp
  rw [hp]
  have b1 : in_board (castle_transit r) y := by
    unfold castle_transit in_board; rcases hr with rfl | rfl <;> simp <;> omega
  have b2 : in_board (castle_to r) y := by
    unfold castle_to in_board; rcases hr with rfl | rfl <;> simp <;> omega
  have b3 : in_board r y := by
    unfold in_board; rcases hr with rfl | rfl <;> omega
  have b4 : in_board 4 y := by
    unfold in_board; omega
  rw [kgchess_get_piece_at_set b1, kgchess_get_piece_at_set b2, kgchess_get_piece_at_set b3,
    kgchess_get_piece_at_set b4]
  by_cases h1 : u = castle_transit r ∧ v = y
  · rw [if_pos h1, if_pos h1]
    rfl
  · rw [if_neg h1, if_neg h1]
    by_cases h2 : u = castle_to r ∧ v = y
    · rw [if_pos h2, if_pos h2]
      rfl
    · rw [if_neg h2, if_neg h2]
      by_cases h3 : u = r ∧ v = y
      · rw [if_pos h3, if_pos ⟨Or.inl h3.1, h3.2⟩]
        rfl
      · rw [if_neg h3]
        by_cases h4 : u = 4 ∧ v = y
        · rw [if_pos h4, if_pos ⟨Or.inr h4.1, h4.2⟩]
          rfl
        · rw [if_neg h4, if_neg]
          rintro ⟨h5 | h5, h6⟩
          · exact h3 ⟨h5, h6⟩
          · exact h4 ⟨h5, h6⟩

theorem dirs_nonzero : ∀ d ∈ Gen.rook_dirs ++ Gen.bishop_dirs, d.1 ≠ 0 ∨ d.2 ≠ 0 := by
  decide

section castle

variable {g : kgchess_t} {y r : Int} {P : kgchess_player_t} (S : castle_setting g y r P)
include S

theorem castle_rank : 0 ≤ y ∧ y < 8 := by
  have := in_range_of_type (by rw [S.king]; simp :
    (kgchess_get_piece_at g 4 y).type ≠ KGCHESS_PIECE_NONE)
  omega

theorem castle_enemy_ne : kgchess_get_enemy_player P ≠ P ∧
    kgchess_get_enemy_player P ≠ KGCHESS_PLAYER_NONE ∧
    kgchess_get_enemy_player (kgchess_get_enemy_player P) = P := by
  rcases S.player with rfl | rfl <;> decide

/-- No piece of the opponent reports the king's square. -/
theorem castle_king_not_hit (a b : Int) (hb : in_board a b)
    (hp : (kgchess_get_piece_at g a b).player = kgchess_get_enemy_player P) :
    ¬ piece_hits g a b 4 y := by
  intro hh
  have h1 := (attacked_iff g 4 y (kgchess_get_enemy_player P)).2 ⟨a, b, hb, hp, hh⟩
  rw [← is_in_check_eq S.king S.unique, S.safe] at h1
  cases h1

/-- The rook does not belong to the opponent: it would attack the king. -/
theorem castle_rook_owner :
    (kgchess_get_piece_at g r y).player ≠ kgchess_get_enemy_player P := by
  intro hc
  have hy := castle_rank S
  have hb : in_board r y := by
    unfold in_board; rcases S.file with rfl | rfl <;> omega
  refine castle_king_not_hit S r y hb hc ?_
  unfold piece_hits
  simp only [S.rook, hc]
  have hE := castle_enemy_ne S
  have hoff : probe_offer g (kgchess_get_enemy_player P) 4 y := by
    unfold probe_offer
    rw [S.king]
    exact Or.inr hE.2.2.symm
  rcases S.file with rfl | rfl
  · refine ⟨(1, 0), by decide, 4, by omega, by omega, by omega, by omega, by
      unfold in_board; omega, ?_, hoff⟩
    intro k' h1 h2
    exact Or.inl (by
      have := S.between (0 + k' * 1) (by simp; omega) (by simp; omega)
      simpa using this)
  · refine ⟨(-1, 0), by decide, 3, by omega, by omega, by omega, by omega, by
      unfold in_board; omega, ?_, hoff⟩
    intro k' h1 h2
    exact Or.inl (by
      have := S.between (7 + k' * -1) (by simp; omega) (by simp; omega)
      simpa using this)

theorem castle_board_off {u v : Int} (h : ¬ castle_square y r u v) :
    kgchess_get_piece_at (apply_move_body g (castle_move y r)) u v =
      kgchess_get_piece_at g u v := by
  rw [castle_board (castle_rank S) S.file]
  unfold castle_square at h
  rw [if_neg (fun hc => h ⟨hc.2, by simp [hc.1]⟩), if_neg (fun hc => h ⟨hc.2, by simp [hc.1]⟩),
    if_neg]
  rintro ⟨h1 | h1, h2⟩
  · exact h ⟨h2, by simp [h1]⟩
  · exact h ⟨h2, by simp [h1]⟩

theorem castle_transit_empty :
    (kgchess_get_piece_at g (castle_transit r) y).type = KGCHESS_PIECE_NONE ∧
      (kgchess_get_piece_at g (castle_to r) y).type = KGCHESS_PIECE_NONE := by
  unfold castle_transit castle_to
  rcases S.file with rfl | rfl
  · exact ⟨S.between 3 (by simp) (by simp), S.between 2 (by simp) (by simp)⟩
  · exact ⟨S.between 5 (by simp) (by simp), S.between 6 (by simp) (by simp)⟩

/-- A piece of the opponent, before castling, stands on none of the changed
squares, and on the far side of the king if it stands on the king's rank. -/
theorem castle_attacker_before {a b : Int}
    (ht : (kgchess_get_piece_at g a b).type ≠ KGCHESS_PIECE_NONE)
    (hp : (kgchess_get_piece_at g a b).player = kgchess_get_enemy_player P) :
    ¬ castle_square y r a b ∧ (b = y → (r = 7 ∧ a < 4) ∨ (r = 0 ∧ 4 < a)) := by
  have hE := castle_enemy_ne S
  have hb := in_range_of_type ht
  have key : b = y → (r = 7 ∧ a < 4) ∨ (r = 0 ∧ 4 < a) := by
    intro hby
    subst hby
    have h4 : a ≠ 4 := by
      rintro rfl
      rw [S.king] at hp
      exact hE.1 hp.symm
    have hr : a ≠ r := by
      rintro rfl
      exact castle_rook_owner S hp
    rcases S.file with rfl | rfl
    · right
      refine ⟨rfl, ?_⟩
      by_contra hc
      exact ht (S.between a (by simp; omega) (by simp; omega))
    · left
      refine ⟨rfl, ?_⟩
      by_contra hc
      exact ht (S.between a (by simp; omega) (by simp; omega))
  refine ⟨?_, key⟩
  rintro ⟨h1, h2⟩
  have := key h1
  unfold castle_transit castle_to at h2
  rcases S.file with rfl | rfl <;> simp at h2 <;> omega

/-- A piece of the opponent, after castling, stands on none of the changed squares. -/
theorem castle_attacker_after {a b : Int}
    (ht : (kgchess_get_piece_at (apply_move_body g (castle_move y r)) a b).type ≠
      KGCHESS_PIECE_NONE)
    (hp : (kgchess_get_piece_at (apply_move_body g (castle_move y r)) a b).player =
      kgchess_get_enemy_player P) :
    ¬ castle_square y r a b := by
  have hE := castle_enemy_ne S
  intro hc
  rw [castle_board (castle_rank S) S.file] at ht hp
  by_cases h1 : a = castle_transit r ∧ b = y
  · rw [if_pos h1] at hp
    exact castle_rook_owner S hp
  · rw [if_neg h1] at ht hp
    by_cases h2 : a = castle_to r ∧ b = y
    · rw [if_pos h2, S.king] at hp
      exact hE.1 hp.symm
    · rw [if_neg h2] at ht hp
      by_cases h3 : (a = r ∨ a = 4) ∧ b = y
      · rw [if_pos h3] at ht
        exact ht rfl
      · obtain ⟨h4, h5 | h5 | h5 | h5⟩ := hc
        · exact h3 ⟨Or.inr h5, h4⟩
        · exact h3 ⟨Or.inl h5, h4⟩
        · exact h1 ⟨h5, h4⟩
        · exact h2 ⟨h5, h4⟩

theorem castle_offer_to :
    probe_offer g (kgchess_get_enemy_player P) (castle_to r) y ∧
      probe_offer (apply_move_body g (castle_move y r)) (kgchess_get_enemy_player P)
        (castle_to r) y := by
  refine ⟨Or.inl (castle_transit_empty S).2, Or.inr ?_⟩
  rw [castle_board (castle_rank S) S.file]
  have h1 : ¬ (castle_to r = castle_transit r ∧ y = y) := by
    unfold castle_to castle_transit
    rcases S.file with rfl | rfl <;> simp
  rw [if_neg h1, if_pos ⟨rfl, rfl⟩, S.king]
  exact (castle_enemy_ne S).2.2.symm

/-- A probing ray of the opponent reports the king's destination after castling
exactly when it does before. -/
theorem castle_ray {a b dx dy end_ : Int}
    (ht : (kgchess_get_piece_at g a b).type ≠ KGCHESS_PIECE_NONE)
    (hp : (kgchess_get_piece_at g a b).player = kgchess_get_enemy_player P)
    (hdx : -1 ≤ dx ∧ dx ≤ 1) (hdy : -1 ≤ dy ∧ dy ≤ 1) (hnz : dx ≠ 0 ∨ dy ≠ 0)
    (hno : ¬ ray_hits g (kgchess_get_enemy_player P) a b dx dy end_ 4 y) :
    ray_hits (apply_move_body g (castle_move y r)) (kgchess_get_enemy_player P) a b dx dy end_
        (castle_to r) y ↔
      ray_hits g (kgchess_get_enemy_player P) a b dx dy end_ (castle_to r) y := by
  have hE := castle_enemy_ne S
  have hy := castle_rank S
  obtain ⟨hnsq, hfar⟩ := castle_attacker_before S ht hp
  have hbd := in_range_of_type ht
  have hoff := castle_offer_to S
  have pass_iff : ∀ u v : Int, ¬ castle_square y r u v →
      (probe_pass (apply_move_body g (castle_move y r)) (kgchess_get_enemy_player P) u v ↔
        probe_pass g (kgchess_get_enemy_player P) u v) := by
    intro u v h
    unfold probe_pass
    rw [castle_board_off S h]
  have hking : ¬ probe_pass g (kgchess_get_enemy_player P) 4 y := by
    unfold probe_pass
    rw [S.king]
    rintro (h | ⟨h, -⟩)
    · cases h
    · exact h hE.2.2.symm
  by_cases hdy0 : dy = 0
  · -- a ray along a rank: it would have to pass over the king's square
    subst hdy0
    have hdx' : dx = 1 ∨ dx = -1 := by
      rcases hnz with h | h
      · omega
      · exact absurd rfl h
    have both : ∀ G : kgchess_t, (∀ u v : Int, ¬ castle_square y r u v →
        (probe_pass G (kgchess_get_enemy_player P) u v ↔
          probe_pass g (kgchess_get_enemy_player P) u v)) →
        (G = g ∨ True) →
        ray_hits G (kgchess_get_enemy_player P) a b dx 0 end_ (castle_to r) y →
        ∃ k0 : Int, 1 ≤ k0 ∧ k0 ≤ end_ ∧ a + k0 * dx = 4 ∧ b = y ∧
          (∀ k' : Int, 1 ≤ k' → k' < k0 →
            probe_pass g (kgchess_get_enemy_player P) (a + k' * dx) (b + k' * 0)) ∧
          ∃ k : Int, k0 < k ∧ (∀ k' : Int, 1 ≤ k' → k' < k →
            probe_pass G (kgchess_get_enemy_player P) (a + k' * dx) (b + k' * 0)) := by
      rintro G hG - ⟨k, h1, h2, h3, h4, -, h6, -⟩
      have hby : b = y := by omega
      have hf := hfar hby
      have hsq : ∀ k' : Int, 1 ≤ k' → k' < (4 - a) * dx →
          ¬ castle_square y r (a + k' * dx) (b + k' * 0) := by
        intro k' h7 h8
        unfold castle_square castle_transit castle_to
        unfold castle_to at h3
        rcases hf with ⟨rfl, hf⟩ | ⟨rfl, hf⟩ <;> rcases hdx' with rfl | rfl <;>
          simp at h3 h8 ⊢ <;> omega
      refine ⟨(4 - a) * dx, ?_, ?_, ?_, hby, ?_, k, ?_, h6⟩
      · unfold castle_to at h3
        rcases hf with ⟨rfl, hf⟩ | ⟨rfl, hf⟩ <;> rcases hdx' with rfl | rfl <;>
          simp at h3 ⊢ <;> omega
      · unfold castle_to at h3
        rcases hf with ⟨rfl, hf⟩ | ⟨rfl, hf⟩ <;> rcases hdx' with rfl | rfl <;>
          simp at h3 ⊢ <;> omega
      · rcases hdx' with rfl | rfl <;> ring
      · intro k' h7 h8
        have h9 : k' < k := by
          unfold castle_to at h3
          rcases hf with ⟨rfl, hf⟩ | ⟨rfl, hf⟩ <;> rcases hdx' with rfl | rfl <;>
            simp at h3 h8 ⊢ <;> omega
        exact (hG _ _ (hsq k' h7 h8)).1 (h6 k' h7 h9)
      · unfold castle_to at h3
        rcases hf with ⟨rfl, hf⟩ | ⟨rfl, hf⟩ <;> rcases hdx' with rfl | rfl <;>
          simp at h3 ⊢ <;> omega
    constructor
    · intro h
      exfalso
      obtain ⟨k0, h1, h2, h3, h4, h5, -⟩ := both _ pass_iff (Or.inr trivial) h
      refine hno ⟨k0, h1, h2, h3.symm, by omega, by unfold in_board; omega, h5, ?_⟩
      unfold probe_offer
      rw [S.king]
      exact Or.inr hE.2.2.symm
    · intro h
      exfalso
      obtain ⟨k0, h1, h2, h3, h4, -, k, h6, h7⟩ := both g (fun _ _ _ => Iff.rfl) (Or.inl rfl) h
      have := h7 k0 h1 h6
      rw [h3, h4] at this
      simp only [mul_zero, add_zero] at this
      exact hking this
  · -- any other ray meets the king's rank only at its target
    have hsq : ∀ k k' : Int, b + k * dy = y → k' < k →
        ¬ castle_square y r (a + k' * dx) (b + k' * dy) := by
      intro k k' h1 h2 hc
      have h3 := hc.1
      rcases (by omega : dy = 1 ∨ dy = -1) with rfl | rfl <;> omega
    constructor
    · rintro ⟨k, h1, h2, h3, h4, h5, h6, -⟩
      exact ⟨k, h1, h2, h3, h4, h5,
        fun k' h7 h8 => (pass_iff _ _ (hsq k k' h4.symm h8)).1 (h6 k' h7 h8), hoff.1⟩
    · rintro ⟨k, h1, h2, h3, h4, h5, h6, -⟩
      exact ⟨k, h1, h2, h3, h4, h5,
        fun k' h7 h8 => (pass_iff _ _ (hsq k k' h4.symm h8)).2 (h6 k' h7 h8), hoff.2⟩

/-- A piece of the opponent reports the king's destination after castling
exactly when it does before. -/
theorem castle_piece_hits {a b : Int}
    (ht : (kgchess_get_piece_at g a b).type ≠ KGCHESS_PIECE_NONE)
    (hp : (kgchess_get_piece_at g a b).player = kgchess_get_enemy_player P) :
    piece_hits (apply_move_body g (castle_move y r)) a b (castle_to r) y ↔
      piece_hits g a b (castle_to r) y := by
  have hb : in_board a b := in_range_of_type ht
  have hsame := castle_board_off S (castle_attacker_before S ht hp).1
  have hoff := castle_offer_to S
  have rays : ∀ (dirs : List (Int × Int)) (end_ : Int),
      (∀ d ∈ dirs, d ∈ Gen.rook_dirs ++ Gen.bishop_dirs) →
      (∀ d ∈ dirs, ¬ ray_hits g (kgchess_get_enemy_player P) a b d.1 d.2 end_ 4 y) →
      ((∃ d ∈ dirs, ray_hits (apply_move_body g (castle_move y r)) (kgchess_get_enemy_player P)
          a b d.1 d.2 end_ (castle_to r) y) ↔
        ∃ d ∈ dirs, ray_hits g (kgchess_get_enemy_player P) a b d.1 d.2 end_ (castle_to r) y) := by
    intro dirs end_ hsub hno
    constructor
    · rintro ⟨d, hd, h⟩
      exact ⟨d, hd, (castle_ray S ht hp (dirs_small d (hsub d hd)).1 (dirs_small d (hsub d hd)).2
        (dirs_nonzero d (hsub d hd)) (hno d hd)).1 h⟩
    · rintro ⟨d, hd, h⟩
      exact ⟨d, hd, (castle_ray S ht hp (dirs_small d (hsub d hd)).1 (dirs_small d (hsub d hd)).2
        (dirs_nonzero d (hsub d hd)) (hno d hd)).2 h⟩
  have hno := castle_king_not_hit S a b hb hp
  unfold piece_hits at hno ⊢
  rw [hsame]
  cases hty : (kgchess_get_piece_at g a b).type <;> simp only [hty, hp] at hno ⊢
  · exact rays _ 1 (fun d hd => hd) (fun d hd hc => hno ⟨d, hd, hc⟩)
  · exact rays _ 7 (fun d hd => hd) (fun d hd hc => hno ⟨d, hd, hc⟩)
  · exact rays _ 7 (fun d hd => List.mem_append_right _ hd) (fun d hd hc => hno ⟨d, hd, hc⟩)
  · simp only [hoff.1, hoff.2]
  · exact rays _ 7 (fun d hd => List.mem_append_left _ hd) (fun d hd hc => hno ⟨d, hd, hc⟩)

/-- The king's destination is attacked before castling exactly when the king is
in check after it. -/
theorem castle_destination :
    is_in_check (apply_move_body g (castle_move y r)) P =
      kgchess_is_square_attacked_by_player g (castle_to r) y (kgchess_get_enemy_player P) := by
  have hy := castle_rank S
  have hE := castle_enemy_ne S
  have hne : ¬ (castle_to r = castle_transit r ∧ y = y) := by
    unfold castle_to castle_transit
    rcases S.file with rfl | rfl <;> simp
  have hk : kgchess_get_piece_at (apply_move_body g (castle_move y r)) (castle_to r) y =
      ⟨KGCHESS_PIECE_KING, P⟩ := by
    rw [castle_board hy S.file, if_neg hne, if_pos ⟨rfl, rfl⟩, S.king]
  have hu : ∀ a b : Int, kgchess_get_piece_at (apply_move_body g (castle_move y r)) a b =
      ⟨KGCHESS_PIECE_KING, P⟩ → a = castle_to r ∧ b = y := by
    intro a b h
    rw [castle_board hy S.file] at h
    by_cases h1 : a = castle_transit r ∧ b = y
    · rw [if_pos h1] at h
      have := S.rook
      rw [h] at this
      cases this
    · rw [if_neg h1] at h
      by_cases h2 : a = castle_to r ∧ b = y
      · exact h2
      · rw [if_neg h2] at h
        by_cases h3 : (a = r ∨ a = 4) ∧ b = y
        · rw [if_pos h3] at h
          cases h
        · rw [if_neg h3] at h
          have := S.unique a b h
          exact absurd ⟨Or.inr this.1, this.2⟩ h3
  rw [is_in_check_eq hk hu]
  have key : kgchess_is_square_attacked_by_player (apply_move_body g (castle_move y r))
      (castle_to r) y (kgchess_get_enemy_player P) = true ↔
      kgchess_is_square_attacked_by_player g (castle_to r) y (kgchess_get_enemy_player P)
        = true := by
    rw [attacked_iff, attacked_iff]
    constructor
    · rintro ⟨a, b, hb, hp, hh⟩
      have ht : (kgchess_get_piece_at (apply_move_body g (castle_move y r)) a b).type ≠
          KGCHESS_PIECE_NONE := by
        intro hc
        unfold piece_hits at hh
        simp only [hc] at hh
      have hoffD := castle_board_off S (castle_attacker_after S ht hp)
      rw [hoffD] at ht hp
      exact ⟨a, b, hb, hp, (castle_piece_hits S ht hp).1 hh⟩
    · rintro ⟨a, b, hb, hp, hh⟩
      have ht : (kgchess_get_piece_at g a b).type ≠ KGCHESS_PIECE_NONE := by
        intro hc
        unfold piece_hits at hh
        simp only [hc] at hh
      have hoffD := castle_board_off S (castle_attacker_before S ht hp).1
      exact ⟨a, b, hb, by rw [hoffD]; exact hp, (castle_piece_hits S ht hp).2 hh⟩
  cases h1 : kgchess_is_square_attacked_by_player (apply_move_body g (castle_move y r))
      (castle_to r) y (kgchess_get_enemy_player P) <;>
    cases h2 : kgchess_is_square_attacked_by_player g (castle_to r) y
      (kgchess_get_enemy_player P)
  · rfl
  · rw [key.2 h2] at h1
    cases h1
  · rw [key.1 h1] at h2
    cases h2
  · rfl

end castle

/-! ## Castling: when it is listed -/

theorem between_queen_side (g : kgchess_t) (y : Int) :
    (∀ u : Int, min 4 0 < u → u < max 4 0 → is_position_empty g u y = true) ↔
      (is_position_empty g 1 y = true ∧ is_position_empty g 2 y = true ∧
        is_position_empty g 3 y = true) := by
  constructor
  · intro h
    exact ⟨h 1 (by simp) (by simp), h 2 (by simp) (by simp), h 3 (by simp) (by simp)⟩
  · rintro ⟨h1, h2, h3⟩ u hu1 hu2
    simp at hu1 hu2
    rcases (by omega : u = 1 ∨ u = 2 ∨ u = 3) with rfl | rfl | rfl <;> assumption

theorem between_king_side (g : kgchess_t) (y : Int) :
    (∀ u : Int, min 4 7 < u → u < max 4 7 → is_position_empty g u y = true) ↔
      (is_position_empty g 5 y = true ∧ is_position_empty g 6 y = true) := by
  constructor
  · intro h
    exact ⟨h 5 (by simp) (by simp), h 6 (by simp) (by simp)⟩
  · rintro ⟨h1, h2⟩ u hu1 hu2
    simp at hu1 hu2
    rcases (by omega : u = 5 ∨ u = 6) with rfl | rfl <;> assumption

/-- What `is_castling_possible` tests, for a rook file 0 or 7. -/
theorem is_castling_possible_iff {g : kgchess_t} {x y r : Int} (hr : r = 0 ∨ r = 7) :
    is_castling_possible g x y r = true ↔
      ((get_piece_at g x y).type = KGCHESS_PIECE_KING ∧
        (get_piece_at g r y).type = KGCHESS_PIECE_ROOK ∧
        (get_piece_at g x y).last_move_num = -1 ∧ (get_piece_at g r y).last_move_num = -1 ∧
        is_in_check g (get_piece_at g x y).player = false ∧
        (∀ u : Int, min 4 r < u → u < max 4 r → is_position_empty g u y = true) ∧
        kgchess_is_square_attacked_by_player g (castle_transit r) y
          (kgchess_get_enemy_player (get_piece_at g x y).player) = false) := by
  unfold is_castling_possible Gen.is_castling_possible is_in_check castle_transit
  constructor
  · intro h
    dsimp only at h
    split at h
    · cases h
    · rename_i h1
      split at h
      · cases h
      · rename_i h2
        split at h
        · cases h
        · rename_i h3
          push_neg at h1 h2
          refine ⟨h1.1, h1.2, h2.1, h2.2, by simpa using h3, ?_⟩
          rcases hr with rfl | rfl
          · rw [between_queen_side]
            simp only [if_true] at h ⊢
            split at h
            · cases h
            · rename_i h4
              split at h
              · cases h
              · rename_i h5
                simp only [Bool.or_eq_true, Bool.not_eq_true', not_or, Bool.not_eq_false] at h4
                exact ⟨⟨h4.1.1, h4.1.2, h4.2⟩, by simpa using h5⟩
          · rw [between_king_side]
            have e : ¬ ((7 : Int) = 0) := by decide
            simp only [e, if_false, if_true] at h ⊢
            split at h
            · cases h
            · rename_i h4
              split at h
              · cases h
              · rename_i h5
                simp only [Bool.or_eq_true, Bool.not_eq_true', not_or, Bool.not_eq_false] at h4
                exact ⟨⟨h4.1, h4.2⟩, by simpa using h5⟩
  · rintro ⟨h1, h2, h3, h4, h5, h6, h7⟩
    dsimp only
    rw [if_neg (by simp [h1, h2]), if_neg (by simp [h3, h4]), if_neg (by simp [h5])]
    rcases hr with rfl | rfl
    · rw [between_queen_side] at h6
      simp only [if_true] at h7 ⊢
      rw [if_neg (by simp [h6.1, h6.2.1, h6.2.2]), if_neg (by simp [h7])]
    · rw [between_king_side] at h6
      have e : ¬ ((7 : Int) = 0) := by decide
      simp only [e, if_false, if_true] at h7 ⊢
      rw [if_neg (by simp [h6.1, h6.2]), if_neg (by simp [h7])]

theorem move_make_castle {y r : Int} (hy : 0 ≤ y ∧ y < 8) (hr : r = 0 ∨ r = 7) :
    move_make 4 y (castle_to r) y false true false = castle_move y r := by
  unfold move_make castle_move castle_to
  rw [to_int8_of_range (v := y) (by omega) (by omega)]
  rcases hr with rfl | rfl <;> simp [to_int8]

/-- A castling move to the file of `castle_to r` is listed for the king on
`(4, y)` exactly when `is_castling_possible` holds for the rook file `r` and the
move passes the legality filter. -/
theorem castle_listed_iff {g : kgchess_t} {y r : Int} (hr : r = 0 ∨ r = 7)
    (hk : (kgchess_get_piece_at g 4 y).type = KGCHESS_PIECE_KING) :
    (∃ m ∈ kgchess_get_moves g 4 y, m.is_castling = true ∧ m.to_.x = castle_to r) ↔
      (is_castling_possible g 4 y r = true ∧ passes_filter g (castle_move y r)) := by
  have hb := in_range_of_type (by rw [hk]; simp :
    (kgchess_get_piece_at g 4 y).type ≠ KGCHESS_PIECE_NONE)
  have hy : 0 ≤ y ∧ y < 8 := ⟨hb.2.2.1, hb.2.2.2⟩
  have hlist : kgchess_get_moves g 4 y =
      Gen.get_king_moves kgchess_is_square_attacked_by_player g 4 y (kgchess_get_piece_at g 4 y)
        false false := by
    unfold kgchess_get_moves get_moves Gen.get_moves
    simp only [hk]
  rw [hlist, passes_filter_iff]
  constructor
  · rintro ⟨m, hm, hc, ht⟩
    refine Gen.forall_get_king_moves
      (fun m => m.is_castling = true → m.to_.x = castle_to r →
        (is_castling_possible g 4 y r = true ∧
          Gen.admitted kgchess_is_square_attacked_by_player g false (castle_move y r)))
      (fun _ _ _ _ _ _ _ _ _ h => by simp [move_make] at h) ?_ m hm hc ht
    rintro rook_x to_x hx - hp ha - h2
    have h3 : rook_x = r ∧ to_x = castle_to r := by
      unfold castle_to at h2 ⊢
      rcases hx with ⟨rfl, rfl⟩ | ⟨rfl, rfl⟩ <;> rcases hr with rfl | rfl <;>
        simp [move_make, to_int8] at h2 ⊢
    obtain ⟨rfl, rfl⟩ := h3
    rw [move_make_castle hy hr] at ha
    exact ⟨hp, ha⟩
  · rintro ⟨hp, ha⟩
    refine ⟨castle_move y r, ?_, rfl, rfl⟩
    have hrays : (Gen.add_rays kgchess_is_square_attacked_by_player g 4 y
        (kgchess_get_piece_at g 4 y) 1 false false (Gen.rook_dirs ++ Gen.bishop_dirs) []).length
        ≤ 8 := by
      have h1 := @Gen.length_add_rays_le kgchess_is_square_attacked_by_player g 4 y
        (kgchess_get_piece_at g 4 y) 1 false false (Gen.rook_dirs ++ Gen.bishop_dirs) []
      have h2 := Gen.total_room_king 4 y
      simp only [List.length_nil] at h1
      omega
    have hstruct : Gen.get_king_moves kgchess_is_square_attacked_by_player g 4 y
        (kgchess_get_piece_at g 4 y) false false =
        (if (!false && is_castling_possible g 4 y 7) = true then
          Gen.add_move_if_legal kgchess_is_square_attacked_by_player g
            (if (!false && is_castling_possible g 4 y 0) = true then
              Gen.add_move_if_legal kgchess_is_square_attacked_by_player g
                (Gen.add_rays kgchess_is_square_attacked_by_player g 4 y
                  (kgchess_get_piece_at g 4 y) 1 false false (Gen.rook_dirs ++ Gen.bishop_dirs) [])
                (move_make 4 y 2 y false true false) false
            else Gen.add_rays kgchess_is_square_attacked_by_player g 4 y
              (kgchess_get_piece_at g 4 y) 1 false false (Gen.rook_dirs ++ Gen.bishop_dirs) [])
            (move_make 4 y 6 y false true false) false
        else
          (if (!false && is_castling_possible g 4 y 0) = true then
            Gen.add_move_if_legal kgchess_is_square_attacked_by_player g
              (Gen.add_rays kgchess_is_square_attacked_by_player g 4 y
                (kgchess_get_piece_at g 4 y) 1 false false (Gen.rook_dirs ++ Gen.bishop_dirs) [])
              (move_make 4 y 2 y false true false) false
          else Gen.add_rays kgchess_is_square_attacked_by_player g 4 y
            (kgchess_get_piece_at g 4 y) 1 false false (Gen.rook_dirs ++ Gen.bishop_dirs) [])) :=
      rfl
    rw [hstruct]
    have hlen := Gen.length_ite_add_le kgchess_is_square_attacked_by_player g
      (Gen.add_rays kgchess_is_square_attacked_by_player g 4 y
        (kgchess_get_piece_at g 4 y) 1 false false (Gen.rook_dirs ++ Gen.bishop_dirs) [])
      (move_make 4 y 2 y false true false) false
      ((!false && is_castling_possible g 4 y 0) = true)
    rcases hr with rfl | rfl
    · have h0 : move_make 4 y 2 y false true false = castle_move y 0 :=
        move_make_castle hy (Or.inl rfl)
      have hin : castle_move y 0 ∈
          (if (!false && is_castling_possible g 4 y 0) = true then
            Gen.add_move_if_legal kgchess_is_square_attacked_by_player g
              (Gen.add_rays kgchess_is_square_attacked_by_player g 4 y
                (kgchess_get_piece_at g 4 y) 1 false false (Gen.rook_dirs ++ Gen.bishop_dirs) [])
              (move_make 4 y 2 y false true false) false
          else Gen.add_rays kgchess_is_square_attacked_by_player g 4 y
            (kgchess_get_piece_at g 4 y) 1 false false (Gen.rook_dirs ++ Gen.bishop_dirs) []) := by
        rw [if_pos (by simp [hp]), h0]
        exact Gen.mem_add_move_if_legal_self ha (by omega)
      split
      · exact Gen.mem_add_move_if_legal_of_mem hin
      · exact hin
    · have h7 : move_make 4 y 6 y false true false = castle_move y 7 :=
        move_make_castle hy (Or.inr rfl)
      rw [if_pos (by simp [hp]), h7]
      exact Gen.mem_add_move_if_legal_self ha (by omega)

/-- The hypotheses of the castling claim and the tests of `is_castling_possible`
put the board in a `castle_setting`. -/
theorem castle_setting_of {g : kgchess_t} {y r : Int} {P : kgchess_player_t}
    (hr : r = 0 ∨ r = 7) (hP : P = KGCHESS_PLAYER_WHITE ∨ P = KGCHESS_PLAYER_BLACK)
    (hk : kgchess_get_piece_at g 4 y = ⟨KGCHESS_PIECE_KING, P⟩)
    (hu : ∀ a b : Int, kgchess_get_piece_at g a b = ⟨KGCHESS_PIECE_KING, P⟩ → a = 4 ∧ b = y)
    (hrook : (get_piece_at g r y).type = KGCHESS_PIECE_ROOK)
    (hbetween : ∀ u : Int, min 4 r < u → u < max 4 r → is_position_empty g u y = true)
    (hsafe : is_in_check g P = false) : castle_setting g y r P :=
  { file := hr
    player := hP
    king := hk
    unique := hu
    rook := hrook
    between := fun u h1 h2 => by simpa [is_position_empty] using hbetween u h1 h2
    safe := hsafe }

/-! ## Example positions -/

theorem eq_true_pair {p : Bool × kgchess_t} (h : p.1 = true) : p = (true, p.2) := by
  obtain ⟨a, b⟩ := p
  simp only at h
  rw [h]

theorem castle_position_king (a b : Int)
    (h : kgchess_get_piece_at castle_position a b =
      ⟨KGCHESS_PIECE_KING, KGCHESS_PLAYER_WHITE⟩) : a = 4 ∧ b = 0 := by
  have hb := in_range_of_type (by rw [h]; simp :
    (kgchess_get_piece_at castle_position a b).type ≠ KGCHESS_PIECE_NONE)
  have hall : ∀ u ∈ range8, ∀ v ∈ range8,
      kgchess_get_piece_at castle_position u v = ⟨KGCHESS_PIECE_KING, KGCHESS_PLAYER_WHITE⟩ →
        u = 4 ∧ v = 0 := by decide!
  exact hall a (mem_range8.2 ⟨hb.1, hb.2.1⟩) b (mem_range8.2 ⟨hb.2.2.1, hb.2.2.2⟩) h

/-! ## The phase after a move -/

/-- The phase after `kgchess_move`: a promotion trigger sets AwaitingPromotion,
otherwise the phase is the one before, except that from AwaitingMove the
end-of-game scan may set Ended. -/
theorem kgchess_move_state (g : kgchess_t) (m : kgchess_move_t) :
    (kgchess_move g m).2.state =
      if promotes g m = true then KGCHESS_STATE_PROMOTION
      else if g.state = KGCHESS_STATE_MOVE then
        (check_checkmate { apply_move_body g m with
          current_player := kgchess_get_enemy_player g.current_player }).state
      else g.state := by
  cases hp : promotes g m
  · simp only [Bool.false_eq_true, if_false]
    by_cases hs : g.state = KGCHESS_STATE_MOVE
    · rw [if_pos hs, kgchess_move_eq hs hp]
    · rw [if_neg hs]
      have h1 : (apply_move_body g m).state = g.state := by
        rw [apply_move_body_state, hp]; simp
      have h2 : ¬ (apply_move_body g m).state = KGCHESS_STATE_MOVE := by rw [h1]; exact hs
      show (apply_move g m true).state = g.state
      unfold apply_move
      dsimp only
      rw [if_neg (fun h => h2 h.1)]
      exact h1
  · simp only [if_true]
    rw [kgchess_move_of_promotes hp, apply_move_body_state, hp]
    rfl

theorem drawn_game_reachable : reachable drawn_game false :=
  reachable.draw promotion_game_8_reachable

theorem kgchess_draw_same_core (g : kgchess_t) : same_core (kgchess_draw g) g := ⟨rfl, rfl, rfl⟩

theorem drawn_game_core : same_core drawn_game promotion_game_8 :=
  kgchess_draw_same_core promotion_game_8

/-! ## The board after a move -/

theorem get_piece_at_apply_move (g : kgchess_t) (m : kgchess_move_t) (u : Bool) (a b : Int) :
    get_piece_at (apply_move g m u) a b = get_piece_at (apply_move_body g m) a b :=
  get_piece_at_congr (apply_move_pieces g m u) a b

/-- The board after an ordinary move, as two writes. -/
theorem apply_move_body_ordinary {g : kgchess_t} {m : kgchess_move_t} (hc : m.is_castling = false)
    (he : m.is_en_passant = false) (a b : Int) :
    get_piece_at (apply_move_body g m) a b =
      get_piece_at (set_piece_at (set_piece_at g (piece_make KGCHESS_PIECE_NONE KGCHESS_PLAYER_NONE)
        m.from_.x m.from_.y)
        { get_piece_at g m.from_.x m.from_.y with last_move_num := g.move_num }
        m.to_.x m.to_.y) a b := by
  apply get_piece_at_congr
  unfold apply_move_body
  simp only [hc, he, Bool.false_eq_true, if_false, set_piece_at_move_num]
  split_ifs <;> rfl

/-- The board after a castling move, as four writes. -/
theorem apply_move_body_castling {g : kgchess_t} {m : kgchess_move_t} (hc : m.is_castling = true)
    (a b : Int) :
    get_piece_at (apply_move_body g m) a b =
      get_piece_at (set_piece_at (set_piece_at
        (set_piece_at (set_piece_at g (piece_make KGCHESS_PIECE_NONE KGCHESS_PLAYER_NONE)
          m.from_.x m.from_.y) (piece_make KGCHESS_PIECE_NONE KGCHESS_PLAYER_NONE)
          (rook_from_x m) m.from_.y)
        { get_piece_at g m.from_.x m.from_.y with last_move_num := g.move_num }
        m.to_.x m.to_.y)
        { get_piece_at g (rook_from_x m) m.from_.y with last_move_num := g.move_num }
        (rook_to_x m) m.to_.y) a b := by
  apply get_piece_at_congr
  unfold apply_move_body rook_from_x rook_to_x
  simp only [hc, if_true, set_piece_at_move_num]

/-- The board after an en passant capture, as three writes. -/
theorem apply_move_body_en_passant {g : kgchess_t} {m : kgchess_move_t}
    (hc : m.is_castling = false) (he : m.is_en_passant = true) (a b : Int) :
    get_piece_at (apply_move_body g m) a b =
      get_piece_at (set_piece_at (set_piece_at
        (set_piece_at g (piece_make KGCHESS_PIECE_NONE KGCHESS_PLAYER_NONE) m.from_.x m.from_.y)
        { get_piece_at g m.from_.x m.from_.y with last_move_num := g.move_num }
        m.to_.x m.to_.y)
        (piece_make KGCHESS_PIECE_NONE KGCHESS_PLAYER_NONE) m.to_.x m.from_.y) a b := by
  apply get_piece_at_congr
  unfold apply_move_body
  simp only [hc, he, Bool.false_eq_true, if_false, if_true, set_piece_at_move_num]

/-- A castling-flagged move is listed only for a king for which
`is_castling_possible` holds with rook file 0 or 7, and it is the move of the
king along its rank to file 2 resp. 6. -/
theorem castling_of_mem {g : kgchess_t} {x y : Int} {m : kgchess_move_t}
    (h : m ∈ kgchess_get_moves g x y) (hc : m.is_castling = true) :
    ∃ r : Int, (r = 0 ∨ r = 7) ∧ is_castling_possible g x y r = true ∧
      m = ⟨⟨x, y⟩, ⟨castle_to r, y⟩, true, false, false⟩ := by
  have hr := in_range_of_type (Gen.get_moves_type h)
  have hx : to_int8 x = x := to_int8_of_range (by omega) (by omega)
  have hy : to_int8 y = y := to_int8_of_range (by omega) (by omega)
  suffices H : ∀ m ∈ kgchess_get_moves g x y, m.is_castling = true →
      ∃ r : Int, (r = 0 ∨ r = 7) ∧ is_castling_possible g x y r = true ∧
        m = ⟨⟨x, y⟩, ⟨castle_to r, y⟩, true, false, false⟩ from H m h hc
  unfold kgchess_get_moves get_moves Gen.get_moves
  dsimp only
  split
  · refine Gen.forall_get_king_moves _ (fun _ _ _ _ _ _ _ _ _ he => by simp [move_make] at he) ?_
    rintro rook_x to_x hxx - hp - -
    refine ⟨rook_x, by omega, hp, ?_⟩
    unfold move_make castle_to
    rw [hx, hy]
    rcases hxx with ⟨rfl, rfl⟩ | ⟨rfl, rfl⟩ <;> simp [to_int8]
  · exact Gen.forall_get_queen_moves _ (fun _ _ _ _ _ _ _ _ _ he => by simp [move_make] at he)
  · exact Gen.forall_get_bishop_moves _ (fun _ _ _ _ _ _ _ _ _ he => by simp [move_make] at he)
  · exact Gen.forall_get_knight_moves _ (fun _ _ _ _ _ he => by simp [move_make] at he)
  · exact Gen.forall_get_rook_moves _ (fun _ _ _ _ _ _ _ _ _ he => by simp [move_make] at he)
  · exact Gen.forall_get_pawn_moves _ (fun _ _ _ he => by simp [move_make] at he)
      (fun _ _ _ _ _ he => by simp [move_make] at he)
      (fun _ _ _ _ he => by simp [move_make] at he)
      (fun _ _ _ _ he => by simp [move_make] at he)
  · intro m hm
    simp [kgchess_moves_array_make_empty] at hm

/-! ## Empty and out-of-range squares -/

theorem kgchess_get_moves_of_none {g : kgchess_t} {x y : Int}
    (h : (kgchess_get_piece_at g x y).type = KGCHESS_PIECE_NONE) : kgchess_get_moves g x y = [] := by
  unfold kgchess_get_moves get_moves Gen.get_moves
  simp [h, kgchess_moves_array_make_empty]

theorem kgchess_get_piece_at_outside {g : kgchess_t} {x y : Int}
    (h : x < 0 ∨ 7 < x ∨ y < 0 ∨ 7 < y) :
    kgchess_get_piece_at g x y = ⟨KGCHESS_PIECE_NONE, KGCHESS_PLAYER_NONE⟩ := by
  have h' : x < 0 ∨ x ≥ 8 ∨ y < 0 ∨ y ≥ 8 := by omega
  simp [kgchess_get_piece_at, get_piece_at, h', convert_piece, piece_make]

/-! ## Scripted games -/

theorem kgchess_move_hand_over {g : kgchess_t} {m : kgchess_move_t}
    (hs : g.state = KGCHESS_STATE_MOVE) (hp : promotes g m = false)
    (hl : has_legal_move (hand_over g m) = true) : (kgchess_move g m).2 = hand_over g m := by
  rw [kgchess_move_eq hs hp]
  apply check_checkmate_continue
  intro hn
  rw [no_legal_move_iff] at hn
  unfold hand_over at hl
  rw [hn] at hl
  cases hl

theorem hand_over_state {g : kgchess_t} {m : kgchess_move_t} (hp : promotes g m = false) :
    (hand_over g m).state = g.state := by
  show (apply_move_body g m).state = g.state
  rw [apply_move_body_state, hp]
  simp

theorem play_eq_play_turns {g : kgchess_t} (ms : List kgchess_move_t)
    (hs : g.state = KGCHESS_STATE_MOVE) (h : script_continues g ms = true) :
    play g ms = play_turns g ms := by
  induction ms generalizing g with
  | nil => rfl
  | cons m ms ih =>
    simp only [script_continues, Bool.and_eq_true, Bool.not_eq_true'] at h
    obtain ⟨⟨hp, hl⟩, hc⟩ := h
    simp only [play, play_turns]
    rw [kgchess_move_hand_over hs hp hl]
    exact ih ((hand_over_state hp).trans hs) hc

theorem opening_eq : play kgchess_make opening_moves = play_turns kgchess_make opening_moves :=
  play_eq_play_turns _ rfl (by decide!)

theorem opening_first_eq :
    play kgchess_make [⟨⟨4, 1⟩, ⟨4, 3⟩, false, false, false⟩] =
      play_turns kgchess_make [⟨⟨4, 1⟩, ⟨4, 3⟩, false, false, false⟩] :=
  play_eq_play_turns _ rfl (by decide!)

theorem fools_mate_eq :
    play kgchess_make fools_mate_moves = play_turns kgchess_make fools_mate_moves :=
  play_eq_play_turns _ rfl (by decide!)

theorem fools_mate_prefix_1 :
    play kgchess_make [⟨⟨5, 1⟩, ⟨5, 2⟩, false, false, false⟩] =
      play_turns kgchess_make [⟨⟨5, 1⟩, ⟨5, 2⟩, false, false, false⟩] :=
  play_eq_play_turns _ rfl (by decide!)

theorem fools_mate_prefix_2 :
    play kgchess_make [⟨⟨5, 1⟩, ⟨5, 2⟩, false, false, false⟩,
        ⟨⟨4, 6⟩, ⟨4, 4⟩, false, false, false⟩] =
      play_turns kgchess_make [⟨⟨5, 1⟩, ⟨5, 2⟩, false, false, false⟩,
        ⟨⟨4, 6⟩, ⟨4, 4⟩, false, false, false⟩] :=
  play_eq_play_turns _ rfl (by decide!)

theorem fools_mate_no_move :
    has_legal_move (hand_over (play_turns kgchess_make fools_mate_moves) fools_mate_queen) =
      false := by decide!

theorem fools_mate_check :
    is_in_check (hand_over (play_turns kgchess_make fools_mate_moves) fools_mate_queen)
      KGCHESS_PLAYER_WHITE = true := by decide!

/-! ## Empty squares and their owner -/

theorem kgchess_get_piece_at_eq (g : kgchess_t) (a b : Int) :
    kgchess_get_piece_at g a b = ⟨(get_piece_at g a b).type, (get_piece_at g a b).player⟩ := rfl

theorem empty_unowned_make : empty_unowned kgchess_make := by
  intro a b h
  by_cases ho : a < 0 ∨ 7 < a ∨ b < 0 ∨ 7 < b
  · rw [kgchess_get_piece_at_outside ho]
  · have hall : ∀ u ∈ range8, ∀ v ∈ range8,
        (kgchess_get_piece_at kgchess_make u v).type = KGCHESS_PIECE_NONE →
          (kgchess_get_piece_at kgchess_make u v).player = KGCHESS_PLAYER_NONE := by decide!
    exact hall a (mem_range8.2 (by omega)) b (mem_range8.2 (by omega)) h

/-- A listed move keeps empty squares unowned: `apply_move` writes the empty
occupant or a piece taken from a square that `kgchess_get_moves` found occupied. -/
theorem empty_unowned_move {g : kgchess_t} {x y : Int} {m : kgchess_move_t}
    (hg : empty_unowned g) (hm : m ∈ kgchess_get_moves g x y) :
    empty_unowned (kgchess_move g m).2 := by
  have hfrom := (kgchess_get_moves_sound hm).2.1
  have hty : (get_piece_at g x y).type ≠ KGCHESS_PIECE_NONE := Gen.get_moves_type hm
  have hgi : ∀ a b : Int, (get_piece_at g a b).type = KGCHESS_PIECE_NONE →
      (get_piece_at g a b).player = KGCHESS_PLAYER_NONE := hg
  suffices H : ∀ a b : Int, (get_piece_at (apply_move_body g m) a b).type = KGCHESS_PIECE_NONE →
      (get_piece_at (apply_move_body g m) a b).player = KGCHESS_PLAYER_NONE by
    intro a b
    have e : get_piece_at (kgchess_move g m).2 a b = get_piece_at (apply_move_body g m) a b :=
      get_piece_at_apply_move g m true a b
    rw [kgchess_get_piece_at_eq]
    dsimp only
    rw [e]
    exact H a b
  intro a b
  cases hc : m.is_castling
  · cases he : m.is_en_passant
    · rw [apply_move_body_ordinary hc he, get_piece_at_set_piece_at, get_piece_at_set_piece_at,
        hfrom]
      dsimp only
      split_ifs
      · intro h; exact absurd h hty
      · intro _; rfl
      · exact hgi a b
    · rw [apply_move_body_en_passant hc he, get_piece_at_set_piece_at, get_piece_at_set_piece_at,
        get_piece_at_set_piece_at, hfrom]
      dsimp only
      split_ifs
      · intro _; rfl
      · intro h; exact absurd h hty
      · intro _; rfl
      · exact hgi a b
  · obtain ⟨r, hr, hp, rfl⟩ := castling_of_mem hm hc
    obtain ⟨-, hrk, -⟩ := (is_castling_possible_iff hr).1 hp
    have hrf : rook_from_x ⟨⟨x, y⟩, ⟨castle_to r, y⟩, true, false, false⟩ = r := by
      unfold rook_from_x castle_to
      rcases hr with rfl | rfl <;> simp
    rw [apply_move_body_castling rfl, get_piece_at_set_piece_at, get_piece_at_set_piece_at,
      get_piece_at_set_piece_at, get_piece_at_set_piece_at, hrf]
    dsimp only
    split_ifs
    · intro h; rw [hrk] at h; cases h
    · intro h; exact absurd h hty
    · intro _; rfl
    · intro _; rfl
    · exact hgi a b

/-- A promotion to a kind other than None keeps empty squares unowned. -/
theorem empty_unowned_promote {g : kgchess_t} {piece_type : kgchess_piece_type_t}
    (hg : empty_unowned g) (hk : piece_type ≠ KGCHESS_PIECE_NONE) :
    empty_unowned (kgchess_promote g piece_type).2 := by
  have hgi : ∀ a b : Int, (get_piece_at g a b).type = KGCHESS_PIECE_NONE →
      (get_piece_at g a b).player = KGCHESS_PLAYER_NONE := hg
  unfold kgchess_promote
  split
  · exact hg
  · split
    · exact hg
    · split
      · exact hg
      · intro a b
        rw [kgchess_get_piece_at_eq]
        dsimp only
        rw [get_piece_at_congr (check_checkmate_pieces _) a b]
        have e : ∀ (c : kgchess_t) (s : kgchess_state_t) (p : kgchess_player_t),
            get_piece_at { c with state := s, current_player := p } a b = get_piece_at c a b :=
          fun _ _ _ => rfl
        simp only [e, get_piece_at_set_piece_at]
        split_ifs
        · intro h; exact absurd h hk
        · exact hgi a b

theorem empty_unowned_congr {g g' : kgchess_t} (h : g.pieces = g'.pieces) :
    empty_unowned g ↔ empty_unowned g' := by
  unfold empty_unowned
  simp only [kgchess_get_piece_at_congr h]

theorem empty_unowned_of_board {g : kgchess_t}
    (h : ∀ u ∈ range8, ∀ v ∈ range8,
      (kgchess_get_piece_at g u v).type = KGCHESS_PIECE_NONE →
        (kgchess_get_piece_at g u v).player = KGCHESS_PLAYER_NONE) : empty_unowned g := by
  intro a b hn
  by_cases ho : a < 0 ∨ 7 < a ∨ b < 0 ∨ 7 < b
  · rw [kgchess_get_piece_at_outside ho]
  · exact h a (mem_range8.2 (by omega)) b (mem_range8.2 (by omega)) hn

/-- The board after a successful promotion. -/
theorem get_piece_at_promote {g : kgchess_t} {k : kgchess_piece_type_t}
    (h : (kgchess_promote g k).1 = true) (a b : Int) :
    get_piece_at (kgchess_promote g k).2 a b =
      get_piece_at (set_piece_at g
        { get_piece_at g g.promotion_pos.x g.promotion_pos.y with type := k }
        g.promotion_pos.x g.promotion_pos.y) a b := by
  obtain ⟨-, he⟩ := kgchess_promote_eq (eq_true_pair h)
  rw [he, get_piece_at_congr (check_checkmate_pieces _) a b]
  rfl

theorem promotion_game_9_pawn :
    get_piece_at promotion_game_9 1 7 = ⟨KGCHESS_PIECE_PAWN, KGCHESS_PLAYER_WHITE, 8⟩ := by
  rw [get_piece_at_congr promotion_game_9_core.pieces]
  decide!

theorem promotion_game_9_unowned : empty_unowned promotion_game_9 := by
  rw [empty_unowned_congr promotion_game_9_core.pieces]
  exact empty_unowned_of_board (by decide!)

/-! ## The castling helper -/

theorem is_castling_possible_file {g : kgchess_t} {x y r : Int}
    (h : is_castling_possible g x y r = true) : r = 0 ∨ r = 7 := by
  by_contra hr
  have h0 : ¬ r = 0 := fun h0 => hr (Or.inl h0)
  have h7 : ¬ r = 7 := fun h7 => hr (Or.inr h7)
  unfold is_castling_possible Gen.is_castling_possible at h
  dsimp only at h
  rw [if_neg h0, if_neg h7] at h
  split at h
  · cases h
  · split at h
    · cases h
    · split at h <;> cases h

/-- The tests of `is_castling_possible`, spelled out. -/
theorem is_castling_possible_spec (g : kgchess_t) (x y r : Int) :
    is_castling_possible g x y r = true ↔
      ((get_piece_at g x y).type = KGCHESS_PIECE_KING ∧
        (get_piece_at g x y).last_move_num = -1 ∧
        (get_piece_at g r y).type = KGCHESS_PIECE_ROOK ∧
        (get_piece_at g r y).last_move_num = -1 ∧
        is_in_check g (get_piece_at g x y).player = false ∧
        ((r = 0 ∧ is_position_empty g 1 y = true ∧ is_position_empty g 2 y = true ∧
            is_position_empty g 3 y = true ∧
            kgchess_is_square_attacked_by_player g 3 y
              (kgchess_get_enemy_player (get_piece_at g x y).player) = false) ∨
          (r = 7 ∧ is_position_empty g 5 y = true ∧ is_position_empty g 6 y = true ∧
            kgchess_is_square_attacked_by_player g 5 y
              (kgchess_get_enemy_player (get_piece_at g x y).player) = false))) := by
  constructor
  · intro h
    have hr := is_castling_possible_file h
    obtain ⟨h1, h2, h3, h4, h5, h6, h7⟩ := (is_castling_possible_iff hr).1 h
    refine ⟨h1, h3, h2, h4, h5, ?_⟩
    rcases hr with rfl | rfl
    · rw [between_queen_side] at h6
      exact Or.inl ⟨rfl, h6.1, h6.2.1, h6.2.2, h7⟩
    · rw [between_king_side] at h6
      exact Or.inr ⟨rfl, h6.1, h6.2, h7⟩
  · rintro ⟨h1, h3, h2, h4, h5, ⟨rfl, e1, e2, e3, h7⟩ | ⟨rfl, e5, e6, h7⟩⟩
    · exact (is_castling_possible_iff (Or.inl rfl)).2
        ⟨h1, h2, h3, h4, h5, (between_queen_side g y).2 ⟨e1, e2, e3⟩, h7⟩
    · exact (is_castling_possible_iff (Or.inr rfl)).2
        ⟨h1, h2, h3, h4, h5, (between_king_side g y).2 ⟨e5, e6⟩, h7⟩

/-- A rook of the opponent on the corner attacks the transit square across the
empty squares beside it. -/
theorem corner_rook_attacks {g : kgchess_t} {y r : Int} {E : kgchess_player_t}
    (hr : r = 0 ∨ r = 7)
    (hk : kgchess_get_piece_at g r y = ⟨KGCHESS_PIECE_ROOK, E⟩)
    (hb : ∀ u : Int, min 4 r < u → u < max 4 r → is_position_empty g u y = true) :
    kgchess_is_square_attacked_by_player g (castle_transit r) y E = true := by
  have hin := in_range_of_type (by rw [hk]; simp :
    (kgchess_get_piece_at g r y).type ≠ KGCHESS_PIECE_NONE)
  have hy : 0 ≤ y ∧ y < 8 := ⟨hin.2.2.1, hin.2.2.2⟩
  have he : ∀ u : Int, min 4 r < u → u < max 4 r →
      (kgchess_get_piece_at g u y).type = KGCHESS_PIECE_NONE := fun u h1 h2 => by
    simpa [is_position_empty] using hb u h1 h2
  rw [attacked_iff]
  refine ⟨r, y, hin, by rw [hk], ?_⟩
  unfold piece_hits
  simp only [hk]
  rcases hr with rfl | rfl
  · refine ⟨(1, 0), by simp [Gen.rook_dirs], 3, by omega, by omega, by simp [castle_transit],
      by simp, ⟨by simp [castle_transit], by simp [castle_transit], hy.1, hy.2⟩, ?_, ?_⟩
    · intro k' h1 h2
      have : k' = 1 ∨ k' = 2 := by omega
      rcases this with rfl | rfl
      · exact Or.inl (by simpa using he 1 (by simp) (by simp))
      · exact Or.inl (by simpa using he 2 (by simp) (by simp))
    · exact Or.inl (by simpa [castle_transit] using he 3 (by simp) (by simp))
  · refine ⟨(-1, 0), by simp [Gen.rook_dirs], 2, by omega, by omega, by simp [castle_transit],
      by simp, ⟨by simp [castle_transit], by simp [castle_transit], hy.1, hy.2⟩, ?_, ?_⟩
    · intro k' h1 h2
      have : k' = 1 := by omega
      subst this
      exact Or.inl (by simpa using he 6 (by simp) (by simp))
    · exact Or.inl (by simpa [castle_transit] using he 5 (by simp) (by simp))

/-! ## The generators as sequences of blocks -/

namespace Gen

theorem get_queen_moves_eq (att : oracle) (g : kgchess_t) (x y : Int) (piece : kgchess_piece_t)
    (apa iac : Bool) :
    get_queen_moves att g x y piece apa iac =
      add_rays att g x y piece 7 apa iac (rook_dirs ++ bishop_dirs) [] := rfl

theorem get_rook_moves_eq (att : oracle) (g : kgchess_t) (x y : Int) (piece : kgchess_piece_t)
    (apa iac : Bool) :
    get_rook_moves att g x y piece apa iac = add_rays att g x y piece 7 apa iac rook_dirs [] :=
  rfl

theorem get_bishop_moves_eq (att : oracle) (g : kgchess_t) (x y : Int) (piece : kgchess_piece_t)
    (apa iac : Bool) :
    get_bishop_moves att g x y piece apa iac = add_rays att g x y piece 7 apa iac bishop_dirs [] :=
  rfl

theorem get_king_moves_eq (att : oracle) (g : kgchess_t) (x y : Int) (piece : kgchess_piece_t)
    (apa iac : Bool) :
    get_king_moves att g x y piece apa iac =
      add_castle att g x y iac 7 6 (add_castle att g x y iac 0 2
        (add_rays att g x y piece 1 apa iac (rook_dirs ++ bishop_dirs) [])) := rfl

end Gen

/-- On a square of the board the steps of a ray stay within `int8_t`. -/
theorem to_int8_step {c k d : Int} (hc : 0 ≤ c ∧ c < 8) (hk : 1 ≤ k ∧ k ≤ 7)
    (hd : -1 ≤ d ∧ d ≤ 1) : to_int8 (c + k * d) = c + k * d := by
  have : -7 ≤ k * d ∧ k * d ≤ 7 := by
    rcases (by omega : d = -1 ∨ d = 0 ∨ d = 1) with rfl | rfl | rfl <;> omega
  exact to_int8_of_range (by omega) (by omega)

theorem move_make_step {x y k : Int} {d : Int × Int} (a c e : Bool) (hb : in_board x y)
    (hk : 1 ≤ k ∧ k ≤ 7) (hd : (-1 ≤ d.1 ∧ d.1 ≤ 1) ∧ (-1 ≤ d.2 ∧ d.2 ≤ 1)) :
    move_make x y (x + k * d.1) (y + k * d.2) a c e =
      ⟨⟨x, y⟩, ⟨x + k * d.1, y + k * d.2⟩, c, a, e⟩ := by
  unfold move_make
  rw [to_int8_step ⟨hb.1, hb.2.1⟩ hk hd.1, to_int8_step ⟨hb.2.2.1, hb.2.2.2⟩ hk hd.2,
    to_int8_of_range (v := x) (by have := hb.1; omega) (by have := hb.2.1; omega),
    to_int8_of_range (v := y) (by have := hb.2.2.1; omega) (by have := hb.2.2.2; omega)]

/-! ## What is listed outside attack probes -/

theorem ray_continues_listing {g : kgchess_t} {piece : kgchess_piece_t} {u v : Int} :
    Gen.ray_continues g piece false false u v ↔ probe_pass g piece.player u v := by
  unfold Gen.ray_continues probe_pass
  simp only [Bool.not_false, Bool.true_or, and_true]
  constructor
  · rintro (h | ⟨-, h1, h2⟩)
    · exact Or.inl h
    · exact Or.inr ⟨h1, h2⟩
  · rintro (h | ⟨h1, h2⟩)
    · exact Or.inl h
    · by_cases ht : (kgchess_get_piece_at g u v).type = KGCHESS_PIECE_NONE
      · exact Or.inl ht
      · exact Or.inr ⟨ht, h1, h2⟩

theorem range_target_listing {g : kgchess_t} {piece : kgchess_piece_t} {u v : Int} {a : Bool} :
    Gen.range_target g piece false false u v a ↔
      (((kgchess_get_piece_at g u v).type = KGCHESS_PIECE_NONE ∧ a = false) ∨
        ((kgchess_get_piece_at g u v).type ≠ KGCHESS_PIECE_NONE ∧
          (kgchess_get_piece_at g u v).player = kgchess_get_enemy_player piece.player ∧
          a = true)) := by
  unfold Gen.range_target
  simp only [Bool.not_false, Bool.true_or, and_true, true_and]

theorem ray_offers_iff {att : Gen.oracle} {g : kgchess_t} {x y : Int} {piece : kgchess_piece_t}
    {d : Int × Int} {end_ : Int} {m : kgchess_move_t} (hb : in_board x y) (he : end_ ≤ 7)
    (hd : (-1 ≤ d.1 ∧ d.1 ≤ 1) ∧ (-1 ≤ d.2 ∧ d.2 ≤ 1)) :
    Gen.ray_offers att g x y piece d.1 d.2 end_ false false m ↔
      ray_lists att g x y piece.player d end_ m := by
  unfold Gen.ray_offers ray_lists step_lists
  constructor
  · rintro ⟨k, a, h1, h2, h3, h4, h5, rfl⟩
    rw [move_make_step a false false hb ⟨h1, by omega⟩ hd] at h5 ⊢
    exact ⟨k, h1, h2, fun k' h6 h7 => ray_continues_listing.1 (h3 k' h6 h7), a,
      range_target_listing.1 h4, h5, rfl⟩
  · rintro ⟨k, h1, h2, h3, a, h4, h5, rfl⟩
    refine ⟨k, a, h1, h2, fun k' h6 h7 => ray_continues_listing.2 (h3 k' h6 h7),
      range_target_listing.2 h4, ?_, ?_⟩
    · rw [move_make_step a false false hb ⟨h1, by omega⟩ hd]
      exact h5
    · rw [move_make_step a false false hb ⟨h1, by omega⟩ hd]

/-- The moves listed by a sequence of rays, outside attack probes. -/
theorem mem_add_rays_iff {att : Gen.oracle} {g : kgchess_t} {x y : Int} {piece : kgchess_piece_t}
    {end_ : Int} (dirs : List (Int × Int)) (hb : in_board x y) (he : end_ ≤ 7)
    (hd : ∀ d ∈ dirs, (-1 ≤ d.1 ∧ d.1 ≤ 1) ∧ (-1 ≤ d.2 ∧ d.2 ≤ 1))
    (hcap : Gen.total_room x y end_ dirs ≤ 28) (m : kgchess_move_t) :
    m ∈ Gen.add_rays att g x y piece end_ false false dirs [] ↔
      ∃ d ∈ dirs, ray_lists att g x y piece.player d end_ m := by
  constructor
  · intro h
    rcases Gen.mem_add_rays dirs [] h with h | ⟨d, hd', h⟩
    · cases h
    · exact ⟨d, hd', (ray_offers_iff hb he (hd d hd')).1 h⟩
  · rintro ⟨d, hd', h⟩
    exact Gen.add_rays_complete dirs [] (by simpa using hcap) d hd'
      ((ray_offers_iff hb he (hd d hd')).2 h)

/-- A capture listed by a ray is reported by the same ray in an attack probe. -/
theorem ray_lists_hits {att : Gen.oracle} {g : kgchess_t} {x y : Int} {P : kgchess_player_t}
    {d : Int × Int} {end_ : Int} {m : kgchess_move_t}
    (h : ray_lists att g x y P d end_ m) (ha : m.is_attack = true) :
    ray_hits g P x y d.1 d.2 end_ m.to_.x m.to_.y := by
  obtain ⟨k, h1, h2, h3, a, h4, h5, rfl⟩ := h
  dsimp only at ha
  subst ha
  refine ⟨k, h1, h2, rfl, rfl, h5.1, h3, ?_⟩
  rcases h4 with ⟨-, hf⟩ | ⟨-, hp, -⟩
  · cases hf
  · exact Or.inr hp

/-- The moves listed for a knight, outside attack probes. -/
theorem mem_get_knight_moves_iff {att : Gen.oracle} {g : kgchess_t} {x y : Int}
    {piece : kgchess_piece_t} (hb : in_board x y) (m : kgchess_move_t) :
    m ∈ Gen.get_knight_moves att g x y piece false false ↔
      ∃ pos ∈ Gen.positions_to_check x y, step_lists att g x y piece.player pos m := by
  have hx : to_int8 x = x :=
    to_int8_of_range (by have := hb.1; omega) (by have := hb.2.1; omega)
  have hy : to_int8 y = y :=
    to_int8_of_range (by have := hb.2.2.1; omega) (by have := hb.2.2.2; omega)
  have hpos : ∀ pos ∈ Gen.positions_to_check x y, ∀ a : Bool,
      move_make x y pos.x pos.y a false false = ⟨⟨x, y⟩, pos, false, a, false⟩ := by
    intro pos hp a
    rw [Gen.positions_to_check_eq hb] at hp
    obtain ⟨h1, h2, h3, h4⟩ := hb
    unfold move_make
    rw [hx, hy]
    simp only [List.mem_cons, List.mem_singleton, List.not_mem_nil, or_false] at hp
    rcases hp with rfl | rfl | rfl | rfl | rfl | rfl | rfl | rfl <;>
      (dsimp only
       rw [to_int8_of_range (by omega) (by omega), to_int8_of_range (by omega) (by omega)])
  unfold step_lists
  constructor
  · intro h
    obtain ⟨pos, hp, a, ht, ha, rfl⟩ := Gen.mem_get_knight_moves h
    rw [hpos pos hp a] at ha ⊢
    exact ⟨pos, hp, a, range_target_listing.1 ht, ha, rfl⟩
  · rintro ⟨pos, hp, a, ht, ha, rfl⟩
    rw [← hpos pos hp a] at ha ⊢
    exact Gen.get_knight_moves_complete pos hp a (range_target_listing.2 ht) ha

/-- A castling block adds at most the castling move. -/
theorem mem_add_castle {att : Gen.oracle} {g : kgchess_t} {x y rook_x to_x : Int}
    {moves : kgchess_moves_array_t} {m : kgchess_move_t}
    (h : m ∈ Gen.add_castle att g x y false rook_x to_x moves) :
    m ∈ moves ∨ (Gen.is_castling_possible att g x y rook_x = true ∧
      Gen.admitted att g false (move_make x y to_x y false true false) ∧
      m = move_make x y to_x y false true false) := by
  unfold Gen.add_castle at h
  split at h
  · rename_i hc
    rcases Gen.mem_add_move_if_legal h with h | ⟨rfl, ha⟩
    · exact Or.inl h
    · exact Or.inr ⟨by simpa using hc, ha, rfl⟩
  · exact Or.inl h

theorem mem_add_castle_of_mem {att : Gen.oracle} {g : kgchess_t} {x y rook_x to_x : Int}
    {iac : Bool} {moves : kgchess_moves_array_t} {m : kgchess_move_t} (h : m ∈ moves) :
    m ∈ Gen.add_castle att g x y iac rook_x to_x moves := by
  unfold Gen.add_castle
  split
  · exact Gen.mem_add_move_if_legal_of_mem h
  · exact h

/-- The non-castling moves listed for a king, outside attack probes. -/
theorem mem_get_king_moves_iff {att : Gen.oracle} {g : kgchess_t} {x y : Int}
    {piece : kgchess_piece_t} (hb : in_board x y) (m : kgchess_move_t) :
    (m ∈ Gen.get_king_moves att g x y piece false false ∧ m.is_castling = false) ↔
      ∃ d ∈ Gen.rook_dirs ++ Gen.bishop_dirs, ray_lists att g x y piece.player d 1 m := by
  have hk := Gen.total_room_king x y
  rw [Gen.get_king_moves_eq, ← mem_add_rays_iff (Gen.rook_dirs ++ Gen.bishop_dirs) hb (by omega)
    dirs_small (by omega) m]
  constructor
  · rintro ⟨h, hc⟩
    rcases mem_add_castle h with h | ⟨-, -, rfl⟩
    · rcases mem_add_castle h with h | ⟨-, -, rfl⟩
      · exact h
      · simp [move_make] at hc
    · simp [move_make] at hc
  · intro h
    refine ⟨mem_add_castle_of_mem (mem_add_castle_of_mem h), ?_⟩
    obtain ⟨d, -, k, -, -, -, a, -, -, rfl⟩ :=
      (mem_add_rays_iff (Gen.rook_dirs ++ Gen.bishop_dirs) hb (by omega) dirs_small
        (by omega) m).1 h
    rfl

/-! ## The blocks of the pawn generator -/

namespace Gen

theorem mem_add_if {att : oracle} {g : kgchess_t} {c : Bool} {move m : kgchess_move_t}
    {moves : kgchess_moves_array_t} (h : m ∈ add_if att g c move moves) :
    m ∈ moves ∨ (c = true ∧ admitted att g false move ∧ m = move) := by
  unfold add_if at h
  split at h
  · rename_i hc
    rcases mem_add_move_if_legal h with h | ⟨rfl, ha⟩
    · exact Or.inl h
    · exact Or.inr ⟨hc, ha, rfl⟩
  · exact Or.inl h

theorem mem_add_if_of_mem {att : oracle} {g : kgchess_t} {c : Bool} {move m : kgchess_move_t}
    {moves : kgchess_moves_array_t} (h : m ∈ moves) : m ∈ add_if att g c move moves := by
  unfold add_if
  split
  · exact mem_add_move_if_legal_of_mem h
  · exact h

theorem mem_add_if_self {att : oracle} {g : kgchess_t} {c : Bool} {move : kgchess_move_t}
    {moves : kgchess_moves_array_t} (hc : c = true) (ha : admitted att g false move)
    (hl : moves.length < 28) : move ∈ add_if att g c move moves := by
  unfold add_if
  rw [if_pos hc]
  exact mem_add_move_if_legal_self ha hl

theorem length_add_if_le (att : oracle) (g : kgchess_t) (c : Bool) (move : kgchess_move_t)
    (moves : kgchess_moves_array_t) : (add_if att g c move moves).length ≤ moves.length + 1 := by
  unfold add_if
  split
  · exact length_add_move_if_legal_le att g moves move false
  · omega

/-- The blocks of `get_pawn_moves` outside attack probes. -/
theorem get_pawn_moves_eq (att : oracle) (g : kgchess_t) (x y : Int) (piece : kgchess_piece_t) :
    get_pawn_moves att g x y piece false false =
      add_if att g (decide (get_en_passant g x y piece ≠ -1))
        (move_make x y (get_en_passant g x y piece) (y + pawn_dir piece.player) true false true)
        (add_if att g
          (is_player_at_position g (kgchess_get_enemy_player piece.player) (x - 1)
            (y + 1 * pawn_dir piece.player))
          (move_make x y (x - 1) (y + 1 * pawn_dir piece.player) true false false)
          (add_if att g
            (is_player_at_position g (kgchess_get_enemy_player piece.player) (x + 1)
              (y + 1 * pawn_dir piece.player))
            (move_make x y (x + 1) (y + 1 * pawn_dir piece.player) true false false)
            (add_if att g
              (is_position_empty g x (y + 1 * pawn_dir piece.player) &&
                decide (y = pawn_initial_y piece.player ∧
                  is_position_empty g x (y + 2 * pawn_dir piece.player) = true))
              (move_make x y x (y + 2 * pawn_dir piece.player) false false false)
              (add_if att g (is_position_empty g x (y + 1 * pawn_dir piece.player))
                (move_make x y x (y + 1 * pawn_dir piece.player) false false false) [])))) := by
  unfold get_pawn_moves add_if pawn_dir pawn_initial_y
  simp only [kgchess_moves_array_make_empty, Bool.not_false, Bool.true_and, Bool.false_or,
    Bool.and_self, if_true, decide_eq_true_eq, Bool.and_eq_true]
  by_cases h1 : is_position_empty g x (y + 1 * if piece.player = KGCHESS_PLAYER_BLACK then -1 else 1)
      = true
  · simp only [h1, if_true, true_and]
  · simp only [h1, if_false, false_and, Bool.false_eq_true]

theorem mem_add_if_iff {att : oracle} {g : kgchess_t} {c : Bool} {move m : kgchess_move_t}
    {moves : kgchess_moves_array_t} (hl : moves.length < 28) :
    m ∈ add_if att g c move moves ↔
      (m ∈ moves ∨ (c = true ∧ admitted att g false move ∧ m = move)) := by
  constructor
  · exact mem_add_if
  · rintro (h | ⟨hc, ha, rfl⟩)
    · exact mem_add_if_of_mem h
    · exact mem_add_if_self hc ha hl

/-- The moves listed for a pawn, outside attack probes: block by block. -/
theorem mem_get_pawn_moves_blocks (att : oracle) (g : kgchess_t) (x y : Int)
    (piece : kgchess_piece_t) (m : kgchess_move_t) :
    m ∈ get_pawn_moves att g x y piece false false ↔
      ((is_position_empty g x (y + 1 * pawn_dir piece.player) = true ∧
          admitted att g false
            (move_make x y x (y + 1 * pawn_dir piece.player) false false false) ∧
          m = move_make x y x (y + 1 * pawn_dir piece.player) false false false) ∨
        ((is_position_empty g x (y + 1 * pawn_dir piece.player) = true ∧
            y = pawn_initial_y piece.player ∧
            is_position_empty g x (y + 2 * pawn_dir piece.player) = true) ∧
          admitted att g false
            (move_make x y x (y + 2 * pawn_dir piece.player) false false false) ∧
          m = move_make x y x (y + 2 * pawn_dir piece.player) false false false) ∨
        (is_player_at_position g (kgchess_get_enemy_player piece.player) (x + 1)
            (y + 1 * pawn_dir piece.player) = true ∧
          admitted att g false
            (move_make x y (x + 1) (y + 1 * pawn_dir piece.player) true false false) ∧
          m = move_make x y (x + 1) (y + 1 * pawn_dir piece.player) true false false) ∨
        (is_player_at_position g (kgchess_get_enemy_player piece.player) (x - 1)
            (y + 1 * pawn_dir piece.player) = true ∧
          admitted att g false
            (move_make x y (x - 1) (y + 1 * pawn_dir piece.player) true false false) ∧
          m = move_make x y (x - 1) (y + 1 * pawn_dir piece.player) true false false) ∨
        (get_en_passant g x y piece ≠ -1 ∧
          admitted att g false
            (move_make x y (get_en_passant g x y piece) (y + pawn_dir piece.player)
              true false true) ∧
          m = move_make x y (get_en_passant g x y piece) (y + pawn_dir piece.player)
            true false true)) := by
  have hl : ∀ (c : Bool) (mv : kgchess_move_t) (l : kgchess_moves_array_t) (n : Nat),
      l.length ≤ n → (add_if att g c mv l).length ≤ n + 1 := fun c mv l n h =>
    le_trans (length_add_if_le att g c mv l) (by omega)
  have l0 : ([] : kgchess_moves_array_t).length ≤ 0 := le_refl _
  rw [get_pawn_moves_eq,
    mem_add_if_iff (lt_of_le_of_lt (hl _ _ _ _ (hl _ _ _ _ (hl _ _ _ _ (hl _ _ _ _ l0))))
      (by omega)),
    mem_add_if_iff (lt_of_le_of_lt (hl _ _ _ _ (hl _ _ _ _ (hl _ _ _ _ l0))) (by omega)),
    mem_add_if_iff (lt_of_le_of_lt (hl _ _ _ _ (hl _ _ _ _ l0)) (by omega)),
    mem_add_if_iff (lt_of_le_of_lt (hl _ _ _ _ l0) (by omega)),
    mem_add_if_iff (lt_of_le_of_lt l0 (by omega))]
  simp only [List.not_mem_nil, false_or, Bool.and_eq_true, decide_eq_true_eq]
  constructor
  · rintro (((((h | h) | h) | h) | h))
    · exact Or.inl h
    · exact Or.inr (Or.inl h)
    · exact Or.inr (Or.inr (Or.inl h))
    · exact Or.inr (Or.inr (Or.inr (Or.inl h)))
    · exact Or.inr (Or.inr (Or.inr (Or.inr h)))
  · rintro (h | h | h | h | h)
    · exact Or.inl (Or.inl (Or.inl (Or.inl h)))
    · exact Or.inl (Or.inl (Or.inl (Or.inr h)))
    · exact Or.inl (Or.inl (Or.inr h))
    · exact Or.inl (Or.inr h)
    · exact Or.inr h

end Gen

/-! ## Captures and the attack oracle -/

theorem step_lists_offer {att : Gen.oracle} {g : kgchess_t} {x y : Int} {P : kgchess_player_t}
    {s : kgchess_pos_t} {m : kgchess_move_t} (h : step_lists att g x y P s m)
    (ha : m.is_attack = true) : m.to_ = s ∧ in_board s.x s.y ∧ probe_offer g P s.x s.y := by
  obtain ⟨a, h4, h5, rfl⟩ := h
  dsimp only at ha
  subst ha
  refine ⟨rfl, h5.1, ?_⟩
  rcases h4 with ⟨-, hf⟩ | ⟨-, hp, -⟩
  · cases hf
  · exact Or.inr hp

/-- A capture-flagged move of a list, other than an en passant capture, goes to
a square that the same piece reports in an attack probe. -/
theorem capture_hits {g : kgchess_t} {x y : Int} {m : kgchess_move_t}
    (h : m ∈ kgchess_get_moves g x y) (ha : m.is_attack = true)
    (he : m.is_en_passant = false) : piece_hits g x y m.to_.x m.to_.y := by
  have hb : in_board x y := in_range_of_type (Gen.get_moves_type h)
  have hq := Gen.total_room_queen hb
  have hr := (total_room_mono x y 7 Gen.rook_dirs).2
  have hbi := (total_room_mono x y 7 Gen.bishop_dirs).1
  unfold piece_hits
  unfold kgchess_get_moves get_moves Gen.get_moves at h
  cases ht : (kgchess_get_piece_at g x y).type <;> simp only [ht] at h ⊢
  · simp [kgchess_moves_array_make_empty] at h
  · cases hc : m.is_castling
    · obtain ⟨d, hd, hl⟩ := (mem_get_king_moves_iff hb m).1 ⟨h, hc⟩
      exact ⟨d, hd, ray_lists_hits hl ha⟩
    · exfalso
      have hk : m ∈ kgchess_get_moves g x y := by
        unfold kgchess_get_moves get_moves Gen.get_moves
        simp only [ht]
        exact h
      obtain ⟨r, -, -, rfl⟩ := castling_of_mem hk hc
      cases ha
  · rw [Gen.get_queen_moves_eq, mem_add_rays_iff _ hb (le_refl _) dirs_small (by omega)] at h
    obtain ⟨d, hd, hl⟩ := h
    exact ⟨d, hd, ray_lists_hits hl ha⟩
  · rw [Gen.get_bishop_moves_eq, mem_add_rays_iff _ hb (le_refl _)
      (fun d hd => dirs_small d (List.mem_append_right _ hd)) (by omega)] at h
    obtain ⟨d, hd, hl⟩ := h
    exact ⟨d, hd, ray_lists_hits hl ha⟩
  · obtain ⟨pos, hp, hl⟩ := (mem_get_knight_moves_iff hb m).1 h
    obtain ⟨h1, h2, h3⟩ := step_lists_offer hl ha
    rw [h1]
    exact ⟨hp, h2, h3⟩
  · rw [Gen.get_rook_moves_eq, mem_add_rays_iff _ hb (le_refl _)
      (fun d hd => dirs_small d (List.mem_append_left _ hd)) (by omega)] at h
    obtain ⟨d, hd, hl⟩ := h
    exact ⟨d, hd, ray_lists_hits hl ha⟩
  · have hd := pawn_dir_cases (kgchess_get_piece_at g x y).player
    obtain ⟨h1, h2, h3, h4⟩ := hb
    have e1 : to_int8 (x + 1) = x + 1 := to_int8_of_range (by omega) (by omega)
    have e2 : to_int8 (x - 1) = x - 1 := to_int8_of_range (by omega) (by omega)
    have e3 : to_int8 (y + 1 * Gen.pawn_dir (kgchess_get_piece_at g x y).player) =
        y + Gen.pawn_dir (kgchess_get_piece_at g x y).player :=
      (to_int8_of_range (by omega) (by omega)).trans (by ring)
    rcases (Gen.mem_get_pawn_moves_blocks _ g x y _ m).1 h with
      ⟨-, -, rfl⟩ | ⟨-, -, rfl⟩ | ⟨-, hadm, rfl⟩ | ⟨-, hadm, rfl⟩ | ⟨-, -, rfl⟩
    · cases ha
    · cases ha
    · have hin : in_board _ _ := hadm.1
      simp only [move_make, e1, e3] at hin ⊢
      exact ⟨hin, trivial, Or.inl trivial⟩
    · have hin : in_board _ _ := hadm.1
      simp only [move_make, e2, e3] at hin ⊢
      exact ⟨hin, trivial, Or.inr trivial⟩
    · cases he

theorem step_lists_quiet {att : Gen.oracle} {g : kgchess_t} {x y : Int} {P : kgchess_player_t}
    {s : kgchess_pos_t} {m : kgchess_move_t} (h : step_lists att g x y P s m)
    (ha : m.is_attack = false) :
    (kgchess_get_piece_at g m.to_.x m.to_.y).type = KGCHESS_PIECE_NONE := by
  obtain ⟨a, h4, -, rfl⟩ := h
  dsimp only at ha ⊢
  subst ha
  rcases h4 with ⟨h, -⟩ | ⟨-, -, hf⟩
  · exact h
  · cases hf

theorem ray_lists_quiet {att : Gen.oracle} {g : kgchess_t} {x y : Int} {P : kgchess_player_t}
    {d : Int × Int} {end_ : Int} {m : kgchess_move_t}
    (h : ray_lists att g x y P d end_ m) (ha : m.is_attack = false) :
    (kgchess_get_piece_at g m.to_.x m.to_.y).type = KGCHESS_PIECE_NONE := by
  obtain ⟨k, -, -, -, h⟩ := h
  exact step_lists_quiet h ha

theorem is_position_empty_iff {g : kgchess_t} {x y : Int} :
    is_position_empty g x y = true ↔ (kgchess_get_piece_at g x y).type = KGCHESS_PIECE_NONE := by
  simp [is_position_empty]

/-- A listed move without the capture flag goes to an empty square. -/
theorem quiet_lands_on_empty {g : kgchess_t} {x y : Int} {m : kgchess_move_t}
    (h : m ∈ kgchess_get_moves g x y) (ha : m.is_attack = false) :
    (kgchess_get_piece_at g m.to_.x m.to_.y).type = KGCHESS_PIECE_NONE := by
  have hb : in_board x y := in_range_of_type (Gen.get_moves_type h)
  have hq := Gen.total_room_queen hb
  have hr := (total_room_mono x y 7 Gen.rook_dirs).2
  have hbi := (total_room_mono x y 7 Gen.bishop_dirs).1
  have hk := h
  unfold kgchess_get_moves get_moves Gen.get_moves at h
  cases ht : (kgchess_get_piece_at g x y).type <;> simp only [ht] at h
  · simp [kgchess_moves_array_make_empty] at h
  · cases hc : m.is_castling
    · obtain ⟨d, -, hl⟩ := (mem_get_king_moves_iff hb m).1 ⟨h, hc⟩
      exact ray_lists_quiet hl ha
    · obtain ⟨r, hr0, hp, rfl⟩ := castling_of_mem hk hc
      have he := ((is_castling_possible_iff hr0).1 hp).2.2.2.2.2.1
      rcases hr0 with rfl | rfl
      · exact is_position_empty_iff.1 (he 2 (by decide) (by decide))
      · exact is_position_empty_iff.1 (he 6 (by decide) (by decide))
  · rw [Gen.get_queen_moves_eq, mem_add_rays_iff _ hb (le_refl _) dirs_small (by omega)] at h
    obtain ⟨d, -, hl⟩ := h
    exact ray_lists_quiet hl ha
  · rw [Gen.get_bishop_moves_eq, mem_add_rays_iff _ hb (le_refl _)
      (fun d hd => dirs_small d (List.mem_append_right _ hd)) (by omega)] at h
    obtain ⟨d, -, hl⟩ := h
    exact ray_lists_quiet hl ha
  · obtain ⟨pos, -, hl⟩ := (mem_get_knight_moves_iff hb m).1 h
    exact step_lists_quiet hl ha
  · rw [Gen.get_rook_moves_eq, mem_add_rays_iff _ hb (le_refl _)
      (fun d hd => dirs_small d (List.mem_append_left _ hd)) (by omega)] at h
    obtain ⟨d, -, hl⟩ := h
    exact ray_lists_quiet hl ha
  · have hd := pawn_dir_cases (kgchess_get_piece_at g x y).player
    obtain ⟨h1, h2, h3, h4⟩ := hb
    have e0 : to_int8 x = x := to_int8_of_range (by omega) (by omega)
    have e3 : to_int8 (y + 1 * Gen.pawn_dir (kgchess_get_piece_at g x y).player) =
        y + 1 * Gen.pawn_dir (kgchess_get_piece_at g x y).player :=
      to_int8_of_range (by omega) (by omega)
    have e4 : to_int8 (y + 2 * Gen.pawn_dir (kgchess_get_piece_at g x y).player) =
        y + 2 * Gen.pawn_dir (kgchess_get_piece_at g x y).player :=
      to_int8_of_range (by omega) (by omega)
    rcases (Gen.mem_get_pawn_moves_blocks _ g x y _ m).1 h with
      ⟨he, -, rfl⟩ | ⟨⟨-, -, he⟩, -, rfl⟩ | ⟨-, -, rfl⟩ | ⟨-, -, rfl⟩ | ⟨-, -, rfl⟩
    · simp only [move_make, e0, e3]
      exact is_position_empty_iff.1 he
    · simp only [move_make, e0, e4]
      exact is_position_empty_iff.1 he
    · cases ha
    · cases ha
    · cases ha

/-- An en passant capture goes to a square that its pawn reports in an attack probe. -/
theorem en_passant_hits {g : kgchess_t} {x y : Int} {m : kgchess_move_t}
    (h : m ∈ kgchess_get_moves g x y) (he : m.is_en_passant = true) :
    piece_hits g x y m.to_.x m.to_.y := by
  obtain ⟨ht, hc, rfl, hadm⟩ := en_passant_of_mem h he
  unfold piece_hits
  simp only [ht]
  have hin : in_board _ _ := hadm.1
  refine ⟨hin, rfl, ?_⟩
  rcases hc.2.2.2.2 with h | h
  · exact Or.inr h
  · exact Or.inl h

/-! ## Attack probes and the pieces of the prober -/

theorem enemy_ne_self {P : kgchess_player_t}
    (hP : P = KGCHESS_PLAYER_WHITE ∨ P = KGCHESS_PLAYER_BLACK) :
    kgchess_get_enemy_player P ≠ P := by
  rcases hP with rfl | rfl <;> decide

/-- A probing ray does not report a square held by a piece of the prober's side. -/
theorem ray_hits_own {g : kgchess_t} {P : kgchess_player_t} {a b dx dy end_ sx sy : Int}
    (hP : P = KGCHESS_PLAYER_WHITE ∨ P = KGCHESS_PLAYER_BLACK)
    (hs : (kgchess_get_piece_at g sx sy).type ≠ KGCHESS_PIECE_NONE)
    (hsp : (kgchess_get_piece_at g sx sy).player = P) :
    ¬ ray_hits g P a b dx dy end_ sx sy := by
  rintro ⟨k, -, -, -, -, -, -, h | h⟩
  · exact hs h
  · rw [hsp] at h
    exact enemy_ne_self hP h.symm

/-- In an attack probe only a pawn reports a square held by a piece of its own side. -/
theorem piece_hits_own {g : kgchess_t} {P : kgchess_player_t} {a b sx sy : Int}
    (hP : P = KGCHESS_PLAYER_WHITE ∨ P = KGCHESS_PLAYER_BLACK)
    (hs : (kgchess_get_piece_at g sx sy).type ≠ KGCHESS_PIECE_NONE)
    (hsp : (kgchess_get_piece_at g sx sy).player = P)
    (hp : (kgchess_get_piece_at g a b).player = P) :
    piece_hits g a b sx sy ↔
      ((kgchess_get_piece_at g a b).type = KGCHESS_PIECE_PAWN ∧
        sy = b + Gen.pawn_dir P ∧ (sx = a + 1 ∨ sx = a - 1)) := by
  have hin : in_board sx sy := in_range_of_type hs
  unfold piece_hits
  cases ht : (kgchess_get_piece_at g a b).type <;> simp only [ht, hp]
  · simp
  · simp only [reduceCtorEq, false_and, iff_false, not_exists, not_and]
    exact fun d _ => ray_hits_own hP hs hsp
  · simp only [reduceCtorEq, false_and, iff_false, not_exists, not_and]
    exact fun d _ => ray_hits_own hP hs hsp
  · simp only [reduceCtorEq, false_and, iff_false, not_exists, not_and]
    exact fun d _ => ray_hits_own hP hs hsp
  · simp only [reduceCtorEq, false_and, iff_false, not_and]
    rintro - - (h | h)
    · exact hs h
    · rw [hsp] at h
      exact enemy_ne_self hP h.symm
  · simp only [reduceCtorEq, false_and, iff_false, not_exists, not_and]
    exact fun d _ => ray_hits_own hP hs hsp
  · simp only [true_and]
    exact ⟨fun h => h.2, fun h => ⟨hin, h⟩⟩

/-! ## The legality filter outside attack probes -/

/-- What `Gen.admitted` says outside attack probes, for a move that starts on `(x, y)`. -/
theorem admitted_listing {g : kgchess_t} {x y : Int} {t : kgchess_pos_t} {c a e : Bool} :
    Gen.admitted kgchess_is_square_attacked_by_player g false ⟨⟨x, y⟩, t, c, a, e⟩ ↔
      (in_board t.x t.y ∧
        is_in_check (apply_move_body g ⟨⟨x, y⟩, t, c, a, e⟩)
          (kgchess_get_piece_at g x y).player = false) := by
  unfold Gen.admitted in_board is_in_check
  simp only [true_implies]

/-! ## Sliding and stepping pieces -/

theorem pieces_owned_of_board {g : kgchess_t}
    (h : ∀ u ∈ range8, ∀ v ∈ range8,
      (kgchess_get_piece_at g u v).type ≠ KGCHESS_PIECE_NONE →
        (kgchess_get_piece_at g u v).player = KGCHESS_PLAYER_WHITE ∨
          (kgchess_get_piece_at g u v).player = KGCHESS_PLAYER_BLACK) : pieces_owned g := by
  intro a b hn
  have hb := in_range_of_type hn
  exact h a (mem_range8.2 ⟨hb.1, hb.2.1⟩) b (mem_range8.2 ⟨hb.2.2.1, hb.2.2.2⟩) hn

theorem is_player_at_position_iff {g : kgchess_t} {P : kgchess_player_t} {x y : Int} :
    is_player_at_position g P x y = true ↔
      ((kgchess_get_piece_at g x y).type ≠ KGCHESS_PIECE_NONE ∧
        (kgchess_get_piece_at g x y).player = P) := by
  simp [is_player_at_position]

/-- What a generator of rays or steps lists on a square it has reached. -/
theorem step_lists_iff {g : kgchess_t} {x y : Int} {P : kgchess_player_t} {s : kgchess_pos_t}
    {m : kgchess_move_t} (hp : (kgchess_get_piece_at g x y).player = P) :
    step_lists kgchess_is_square_attacked_by_player g x y P s m ↔
      ((is_position_empty g s.x s.y = true ∨
          is_player_at_position g (kgchess_get_enemy_player P) s.x s.y = true) ∧
        in_board s.x s.y ∧
        is_in_check (apply_move_body g (offered_move g x y P s)) P = false ∧
        m = offered_move g x y P s) := by
  unfold step_lists offered_move
  constructor
  · rintro ⟨a, h4, h5, rfl⟩
    rw [admitted_listing, hp] at h5
    rcases h4 with ⟨h, rfl⟩ | ⟨h1, h2, rfl⟩
    · have e : is_player_at_position g (kgchess_get_enemy_player P) s.x s.y = false := by
        simp [is_player_at_position, h]
      rw [e]
      exact ⟨Or.inl (is_position_empty_iff.2 h), h5.1, h5.2, rfl⟩
    · have e : is_player_at_position g (kgchess_get_enemy_player P) s.x s.y = true :=
        is_player_at_position_iff.2 ⟨h1, h2⟩
      rw [e]
      exact ⟨Or.inr rfl, h5.1, h5.2, rfl⟩
  · rintro ⟨h1, h2, h3, rfl⟩
    refine ⟨is_player_at_position g (kgchess_get_enemy_player P) s.x s.y, ?_, ?_, rfl⟩
    · cases e : is_player_at_position g (kgchess_get_enemy_player P) s.x s.y
      · rw [e] at h1
        rcases h1 with h | h
        · exact Or.inl ⟨is_position_empty_iff.1 h, rfl⟩
        · cases h
      · have := is_player_at_position_iff.1 e
        exact Or.inr ⟨this.1, this.2, rfl⟩
    · rw [admitted_listing, hp]
      exact ⟨h2, h3⟩

/-- Where every piece has an owner, a ray of a piece of White or Black goes on
exactly over the empty squares. -/
theorem probe_pass_owned {g : kgchess_t} {P : kgchess_player_t} {u v : Int}
    (ho : pieces_owned g) (hP : P = KGCHESS_PLAYER_WHITE ∨ P = KGCHESS_PLAYER_BLACK) :
    probe_pass g P u v ↔ is_position_empty g u v = true := by
  rw [is_position_empty_iff]
  unfold probe_pass
  constructor
  · rintro (h | ⟨h1, h2⟩)
    · exact h
    · by_contra hn
      rcases ho u v hn with h | h <;> rcases hP with rfl | rfl <;>
        simp [h, kgchess_get_enemy_player] at h1 h2
  · exact Or.inl

/-- A step along one of the eight directions from a square of the board to a
square of the board has `k ≤ 7`. -/
theorem step_le_seven {x y k : Int} {d : Int × Int} (hb : in_board x y)
    (hd : d ∈ Gen.rook_dirs ++ Gen.bishop_dirs)
    (hs : in_board (x + k * d.1) (y + k * d.2)) : k ≤ 7 := by
  obtain ⟨h1, h2, h3, h4⟩ := hb
  obtain ⟨h5, h6, h7, h8⟩ := hs
  simp only [Gen.rook_dirs, Gen.bishop_dirs, List.cons_append, List.nil_append, List.mem_cons,
    List.mem_singleton, List.not_mem_nil, or_false] at hd
  rcases hd with rfl | rfl | rfl | rfl | rfl | rfl | rfl | rfl <;> simp only at h5 h6 h7 h8 <;>
    omega

/-- The moves listed by a sequence of rays for a piece of White or Black, where
every piece has an owner. -/
theorem mem_add_rays_owned {g : kgchess_t} {x y : Int} {P : kgchess_player_t} {end_ : Int}
    (dirs : List (Int × Int)) (ho : pieces_owned g)
    (hP : P = KGCHESS_PLAYER_WHITE ∨ P = KGCHESS_PLAYER_BLACK)
    (hp : (kgchess_get_piece_at g x y).player = P) (hb : in_board x y) (he : end_ ≤ 7)
    (hd : ∀ d ∈ dirs, (-1 ≤ d.1 ∧ d.1 ≤ 1) ∧ (-1 ≤ d.2 ∧ d.2 ≤ 1))
    (hcap : Gen.total_room x y end_ dirs ≤ 28) (m : kgchess_move_t) :
    m ∈ Gen.add_rays kgchess_is_square_attacked_by_player g x y (kgchess_get_piece_at g x y)
        end_ false false dirs [] ↔
      ∃ d ∈ dirs, ∃ k : Int, 1 ≤ k ∧ k ≤ end_ ∧
        (∀ j : Int, 1 ≤ j → j < k → is_position_empty g (x + j * d.1) (y + j * d.2) = true) ∧
        (is_position_empty g (x + k * d.1) (y + k * d.2) = true ∨
          is_player_at_position g (kgchess_get_enemy_player P) (x + k * d.1) (y + k * d.2)
            = true) ∧
        in_board (x + k * d.1) (y + k * d.2) ∧
        is_in_check (apply_move_body g (offered_move g x y P ⟨x + k * d.1, y + k * d.2⟩)) P
          = false ∧
        m = offered_move g x y P ⟨x + k * d.1, y + k * d.2⟩ := by
  rw [mem_add_rays_iff dirs hb he hd hcap, hp]
  unfold ray_lists
  simp only [step_lists_iff hp, probe_pass_owned ho hP]

theorem slide_dirs_sub {T : kgchess_piece_type_t} :
    ∀ d ∈ slide_dirs T, d ∈ Gen.rook_dirs ++ Gen.bishop_dirs := by
  cases T <;> simp only [slide_dirs] <;> intro d hd
  all_goals first
    | exact hd
    | exact List.mem_append_left _ hd
    | exact List.mem_append_right _ hd
    | exact absurd hd (List.not_mem_nil _)

/-- The list of a rook, bishop or queen is the list of its rays. -/
theorem kgchess_get_moves_slide {g : kgchess_t} {x y : Int} {T : kgchess_piece_type_t}
    (ht : (kgchess_get_piece_at g x y).type = T)
    (hT : T = KGCHESS_PIECE_ROOK ∨ T = KGCHESS_PIECE_BISHOP ∨ T = KGCHESS_PIECE_QUEEN) :
    kgchess_get_moves g x y =
      Gen.add_rays kgchess_is_square_attacked_by_player g x y (kgchess_get_piece_at g x y) 7
        false false (slide_dirs T) [] := by
  unfold kgchess_get_moves get_moves Gen.get_moves
  rcases hT with rfl | rfl | rfl <;> simp only [ht, slide_dirs]
  · exact Gen.get_rook_moves_eq _ _ _ _ _ _ _
  · exact Gen.get_bishop_moves_eq _ _ _ _ _ _ _
  · exact Gen.get_queen_moves_eq _ _ _ _ _ _ _

theorem total_room_slide {x y : Int} (hb : in_board x y) (T : kgchess_piece_type_t) :
    Gen.total_room x y 7 (slide_dirs T) ≤ 28 := by
  have hq := Gen.total_room_queen hb
  have hr := (total_room_mono x y 7 Gen.rook_dirs).2
  have hbi := (total_room_mono x y 7 Gen.bishop_dirs).1
  cases T <;> simp only [slide_dirs] <;> first
    | omega
    | simp [Gen.total_room]

theorem mem_positions_to_check_iff {x y : Int} (hb : in_board x y) (s : kgchess_pos_t) :
    s ∈ Gen.positions_to_check x y ↔ knight_offset x y s := by
  rw [Gen.positions_to_check_eq hb]
  obtain ⟨sx, sy⟩ := s
  simp only [List.mem_cons, List.mem_singleton, List.not_mem_nil, or_false,
    kgchess_pos_t.mk.injEq, knight_offset]
  omega

theorem adjacent_iff {x y : Int} (s : kgchess_pos_t) :
    adjacent x y s ↔ ∃ d ∈ Gen.rook_dirs ++ Gen.bishop_dirs, s = ⟨x + 1 * d.1, y + 1 * d.2⟩ := by
  obtain ⟨sx, sy⟩ := s
  simp only [Gen.rook_dirs, Gen.bishop_dirs, List.cons_append, List.nil_append, List.mem_cons,
    List.mem_singleton, List.not_mem_nil, or_false, exists_eq_or_imp, exists_eq_left,
    kgchess_pos_t.mk.injEq, adjacent, ne_eq, not_and, one_mul, add_zero]
  constructor
  · rintro ⟨h1, h2, h3⟩
    have hx : sx = x + -1 ∨ sx = x ∨ sx = x + 1 := by omega
    have hy : sy = y + -1 ∨ sy = y ∨ sy = y + 1 := by omega
    rcases hx with rfl | rfl | rfl <;> rcases hy with rfl | rfl | rfl <;>
      first
        | exact absurd rfl (h3 rfl)
        | simp
  · rintro (⟨rfl, rfl⟩ | ⟨rfl, rfl⟩ | ⟨rfl, rfl⟩ | ⟨rfl, rfl⟩ | ⟨rfl, rfl⟩ | ⟨rfl, rfl⟩ |
      ⟨rfl, rfl⟩ | ⟨rfl, rfl⟩) <;> simp

/-- Where every piece has an owner, a square is free of the pieces of `P` (White
or Black) when it is empty or holds an enemy piece. -/
theorem not_own_iff {g : kgchess_t} {P : kgchess_player_t} {u v : Int}
    (ho : pieces_owned g) (hP : P = KGCHESS_PLAYER_WHITE ∨ P = KGCHESS_PLAYER_BLACK) :
    ¬ is_player_at_position g P u v = true ↔
      (is_position_empty g u v = true ∨
        is_player_at_position g (kgchess_get_enemy_player P) u v = true) := by
  rw [is_player_at_position_iff, is_player_at_position_iff, is_position_empty_iff]
  constructor
  · intro h
    by_cases hn : (kgchess_get_piece_at g u v).type = KGCHESS_PIECE_NONE
    · exact Or.inl hn
    · refine Or.inr ⟨hn, ?_⟩
      have h2 : (kgchess_get_piece_at g u v).player ≠ P := fun hc => h ⟨hn, hc⟩
      rcases ho u v hn with h1 | h1 <;> rcases hP with rfl | rfl <;>
        simp [h1, kgchess_get_enemy_player] at h2 ⊢
  · rintro (h | ⟨-, h⟩) ⟨h1, h2⟩
    · exact h1 h
    · rw [h2] at h
      exact enemy_ne_self hP h.symm

/-- The non-castling moves in the list of a knight or king. -/
theorem mem_steps_owned {g : kgchess_t} {x y : Int} {T : kgchess_piece_type_t}
    {P : kgchess_player_t} (ho : pieces_owned g)
    (hP : P = KGCHESS_PLAYER_WHITE ∨ P = KGCHESS_PLAYER_BLACK)
    (ht : (kgchess_get_piece_at g x y).type = T)
    (hp : (kgchess_get_piece_at g x y).player = P) (hb : in_board x y)
    (hT : T = KGCHESS_PIECE_KNIGHT ∨ T = KGCHESS_PIECE_KING) (m : kgchess_move_t) :
    (m ∈ kgchess_get_moves g x y ∧ m.is_castling = false) ↔
      ∃ s : kgchess_pos_t, step_squares T x y s ∧ in_board s.x s.y ∧
        ¬ is_player_at_position g P s.x s.y = true ∧
        is_in_check (apply_move_body g (offered_move g x y P s)) P = false ∧
        m = offered_move g x y P s := by
  unfold kgchess_get_moves get_moves Gen.get_moves step_squares
  rcases hT with rfl | rfl <;> simp only [ht, reduceCtorEq, false_and, or_false, false_or, true_and]
  · constructor
    · rintro ⟨hm, -⟩
      obtain ⟨pos, h1, h2⟩ := (mem_get_knight_moves_iff hb m).1 hm
      rw [hp, step_lists_iff hp] at h2
      exact ⟨pos, (mem_positions_to_check_iff hb pos).1 h1, h2.2.1, (not_own_iff ho hP).2 h2.1,
        h2.2.2⟩
    · rintro ⟨s, h1, h2, h3, h4, rfl⟩
      refine ⟨(mem_get_knight_moves_iff hb _).2 ⟨s, (mem_positions_to_check_iff hb s).2 h1, ?_⟩,
        rfl⟩
      rw [hp, step_lists_iff hp]
      exact ⟨(not_own_iff ho hP).1 h3, h2, h4, rfl⟩
  · rw [mem_get_king_moves_iff hb m, hp]
    unfold ray_lists
    constructor
    · rintro ⟨d, hd, k, h1, h2, -, h3⟩
      have hk : k = 1 := by omega
      subst hk
      rw [step_lists_iff hp] at h3
      exact ⟨_, (adjacent_iff _).2 ⟨d, hd, rfl⟩, h3.2.1, (not_own_iff ho hP).2 h3.1, h3.2.2⟩
    · rintro ⟨s, h1, h2, h3, h4, rfl⟩
      obtain ⟨d, hd, rfl⟩ := (adjacent_iff s).1 h1
      refine ⟨d, hd, 1, le_refl _, le_refl _, fun k' h5 h6 => by omega, ?_⟩
      rw [step_lists_iff hp]
      exact ⟨(not_own_iff ho hP).1 h3, h2, h4, rfl⟩

/-! ## Pieces that have never moved -/

theorem played_from_trans {g0 g1 g2 : kgchess_t} (h1 : played_from g0 g1)
    (h2 : played_from g1 g2) : played_from g0 g2 := by
  induction h2 with
  | start => exact h1
  | move x y m _ hs hm ih => exact played_from.move x y m ih hs hm
  | promote k _ hs ih => exact played_from.promote k ih hs

/-- A move leaves on the board, with the marker -1, only pieces that stood there before. -/
theorem unmoved_apply_move_body {g : kgchess_t} (m : kgchess_move_t) (h0 : 0 ≤ g.move_num)
    (a b : Int) (ht : (get_piece_at (apply_move_body g m) a b).type ≠ KGCHESS_PIECE_NONE)
    (hl : (get_piece_at (apply_move_body g m) a b).last_move_num = -1) :
    get_piece_at (apply_move_body g m) a b = get_piece_at g a b := by
  have hne : g.move_num ≠ -1 := by omega
  revert ht hl
  cases hc : m.is_castling
  · cases he : m.is_en_passant
    · rw [apply_move_body_ordinary hc he, get_piece_at_set_piece_at, get_piece_at_set_piece_at]
      split_ifs
      · intro _ hl; exact absurd hl hne
      · intro ht _; exact absurd rfl ht
      · intro _ _; rfl
    · rw [apply_move_body_en_passant hc he, get_piece_at_set_piece_at, get_piece_at_set_piece_at,
        get_piece_at_set_piece_at]
      split_ifs
      · intro ht _; exact absurd rfl ht
      · intro _ hl; exact absurd hl hne
      · intro ht _; exact absurd rfl ht
      · intro _ _; rfl
  · rw [apply_move_body_castling hc, get_piece_at_set_piece_at, get_piece_at_set_piece_at,
      get_piece_at_set_piece_at, get_piece_at_set_piece_at]
    split_ifs
    · intro _ hl; exact absurd hl hne
    · intro _ hl; exact absurd hl hne
    · intro ht _; exact absurd rfl ht
    · intro ht _; exact absurd rfl ht
    · intro _ _; rfl

theorem kgchess_move_move_num (g : kgchess_t) (m : kgchess_move_t) :
    (kgchess_move g m).2.move_num = g.move_num + 1 := by
  unfold kgchess_move apply_move
  dsimp only
  split
  · rw [check_checkmate_move_num]
    exact apply_move_body_move_num g m
  · exact apply_move_body_move_num g m

theorem markers_sound_move {g : kgchess_t} {x y : Int} {m : kgchess_move_t}
    (h : markers_sound g) (hs : g.state = KGCHESS_STATE_MOVE)
    (hm : m ∈ kgchess_get_moves g x y) : markers_sound (kgchess_move g m).2 := by
  obtain ⟨h0, -⟩ := h
  refine ⟨by rw [kgchess_move_move_num]; omega, ?_⟩
  intro hst
  rw [kgchess_move_state] at hst
  cases hp : promotes g m
  · rw [hp, if_neg (by simp), if_pos hs] at hst
    rcases check_checkmate_state_of_move
      { apply_move_body g m with current_player := kgchess_get_enemy_player g.current_player }
      (by
        show (apply_move_body g m).state = KGCHESS_STATE_MOVE
        rw [apply_move_body_state, hp, hs]; simp) with h1 | h1
    · rw [h1] at hst; cases hst
    · rw [h1] at hst; cases hst
  · have hin := (kgchess_get_moves_sound hm).2.2.1
    have hpc : m.is_castling = false ∧ m.is_en_passant = false := by
      unfold promotes at hp
      simp only [Bool.and_eq_true, Bool.not_eq_true', Bool.or_eq_true, decide_eq_true_eq] at hp
      exact ⟨hp.1.1.1, hp.1.1.2⟩
    have hpos : (kgchess_move g m).2.promotion_pos = m.to_ := by
      unfold kgchess_move
      rw [apply_move_promotion_pos, apply_move_body_promotion_pos, if_pos hp]
    rw [hpos]
    have e : get_piece_at (kgchess_move g m).2 m.to_.x m.to_.y =
        get_piece_at (apply_move_body g m) m.to_.x m.to_.y :=
      get_piece_at_apply_move g m true _ _
    rw [e, apply_move_body_ordinary hpc.1 hpc.2, get_piece_at_set_piece_at,
      if_pos ⟨hin, rfl, rfl⟩]
    dsimp only
    omega

theorem unmoved_since_move {g0 g : kgchess_t} (m : kgchess_move_t) (h : markers_sound g)
    (hu : unmoved_since g0 g) : unmoved_since g0 (kgchess_move g m).2 := by
  intro a b
  have e : get_piece_at (kgchess_move g m).2 a b = get_piece_at (apply_move_body g m) a b :=
    get_piece_at_apply_move g m true a b
  rw [e]
  intro ht hl
  have e2 := unmoved_apply_move_body m h.1 a b ht hl
  rw [e2] at ht hl ⊢
  exact hu a b ht hl

theorem promote_cases (g : kgchess_t) (k : kgchess_piece_type_t) :
    (kgchess_promote g k).2 = g ∨ (kgchess_promote g k).1 = true := by
  unfold kgchess_promote
  split
  · exact Or.inl rfl
  · split
    · exact Or.inl rfl
    · split
      · exact Or.inl rfl
      · exact Or.inr rfl

theorem markers_sound_promote {g : kgchess_t} (k : kgchess_piece_type_t)
    (h : markers_sound g) : markers_sound (kgchess_promote g k).2 := by
  rcases promote_cases g k with he | ht
  · rw [he]; exact h
  · obtain ⟨-, he⟩ := kgchess_promote_eq (eq_true_pair ht)
    constructor
    · rw [he, check_checkmate_move_num]
      show (set_piece_at g _ _ _).move_num ≥ 0
      rw [set_piece_at_move_num]
      exact h.1
    · intro hst
      rcases promote_success_state g k with h1 | h1 | h1
      · rw [ht] at h1; cases h1
      · rw [h1] at hst; cases hst
      · rw [h1] at hst; cases hst

theorem unmoved_since_promote {g0 g : kgchess_t} (k : kgchess_piece_type_t)
    (h : markers_sound g) (hu : unmoved_since g0 g) :
    unmoved_since g0 (kgchess_promote g k).2 := by
  rcases promote_cases g k with he | ht
  · rw [he]; exact hu
  · have hs := (kgchess_promote_eq (eq_true_pair ht)).1.1
    have hmark := h.2 hs
    intro a b
    rw [get_piece_at_promote ht, get_piece_at_set_piece_at]
    split_ifs
    · intro _ hl; exact absurd hl hmark
    · exact hu a b

/-- Along a game the ply counter stays non-negative, and a piece that has never
moved has stood on its square all along. -/
theorem played_from_unmoved {g0 g : kgchess_t} (h0 : markers_sound g0)
    (h : played_from g0 g) : markers_sound g ∧ unmoved_since g0 g := by
  induction h with
  | start => exact ⟨h0, fun _ _ _ _ => rfl⟩
  | move x y m _ hs hm ih => exact ⟨markers_sound_move ih.1 hs hm, unmoved_since_move m ih.1 ih.2⟩
  | promote k _ _ ih => exact ⟨markers_sound_promote k ih.1, unmoved_since_promote k ih.1 ih.2⟩

theorem markers_sound_make : markers_sound kgchess_make :=
  ⟨by decide, fun h => by cases h⟩

/-- In the initial position a king and a rook of the same rank have the same owner. -/
theorem make_king_rook {x y r : Int}
    (hk : (get_piece_at kgchess_make x y).type = KGCHESS_PIECE_KING)
    (hr : (get_piece_at kgchess_make r y).type = KGCHESS_PIECE_ROOK) :
    (get_piece_at kgchess_make r y).player = (get_piece_at kgchess_make x y).player := by
  have hbk : in_board x y := in_range_of_type (g := kgchess_make) (by
    show (get_piece_at kgchess_make x y).type ≠ _
    rw [hk]; simp)
  have hbr : in_board r y := in_range_of_type (g := kgchess_make) (by
    show (get_piece_at kgchess_make r y).type ≠ _
    rw [hr]; simp)
  have hall : ∀ u ∈ range8, ∀ v ∈ range8, ∀ w ∈ range8,
      (get_piece_at kgchess_make u v).type = KGCHESS_PIECE_KING →
        (get_piece_at kgchess_make w v).type = KGCHESS_PIECE_ROOK →
        (get_piece_at kgchess_make w v).player = (get_piece_at kgchess_make u v).player := by
    decide!
  exact hall x (mem_range8.2 ⟨hbk.1, hbk.2.1⟩) y (mem_range8.2 ⟨hbk.2.2.1, hbk.2.2.2⟩) r
    (mem_range8.2 ⟨hbr.1, hbr.2.1⟩) hk hr

/-! ## The capacity guard of `add_move` -/

theorem add_move_take (l : kgchess_moves_array_t) (m : kgchess_move_t) :
    add_move (l.take 28) m = (Unbounded.add_move l m).take 28 := by
  unfold add_move Unbounded.add_move
  by_cases h : l.length < 28
  · rw [List.take_of_length_le (by omega), if_neg (by omega),
      List.take_of_length_le (by simp; omega)]
  · rw [if_pos (by simp; omega), List.take_append_of_le_length (by omega)]

theorem add_move_if_legal_take (att : Gen.oracle) (g : kgchess_t) (l : kgchess_moves_array_t)
    (m : kgchess_move_t) (iac : Bool) :
    Gen.add_move_if_legal att g (l.take 28) m iac =
      (Unbounded.add_move_if_legal att g l m iac).take 28 := by
  unfold Gen.add_move_if_legal Unbounded.add_move_if_legal
  dsimp only
  split_ifs <;> first
    | rfl
    | exact add_move_take l m

theorem add_move_range_loop_take (att : Gen.oracle) (g : kgchess_t) (x y : Int)
    (piece : kgchess_piece_t) (dx dy : Int) (apa iac : Bool) (n : Nat) (i : Int)
    (l : kgchess_moves_array_t) :
    Gen.add_move_range_loop att g x y piece dx dy apa iac n i (l.take 28) =
      (Unbounded.add_move_range_loop att g x y piece dx dy apa iac n i l).take 28 := by
  induction n generalizing i l with
  | zero => rfl
  | succ n ih =>
    simp only [Gen.add_move_range_loop, Unbounded.add_move_range_loop]
    split_ifs
    · rw [add_move_if_legal_take, ih]
    · rw [add_move_if_legal_take]
    · rfl
    · rw [ih]

theorem add_move_range_take (att : Gen.oracle) (g : kgchess_t) (l : kgchess_moves_array_t)
    (x y : Int) (piece : kgchess_piece_t) (dx dy end_ : Int) (apa iac : Bool) :
    Gen.add_move_range att g (l.take 28) x y piece dx dy end_ apa iac =
      (Unbounded.add_move_range att g l x y piece dx dy end_ apa iac).take 28 :=
  add_move_range_loop_take att g x y piece dx dy apa iac _ _ l

theorem take_ite (c : Prop) [Decidable c] (a b : kgchess_moves_array_t) :
    (if c then a.take 28 else b.take 28) = (if c then a else b).take 28 := by
  split_ifs <;> rfl

theorem nil_take : ([] : kgchess_moves_array_t) = ([] : kgchess_moves_array_t).take 28 := rfl

theorem get_queen_moves_take (att : Gen.oracle) (g : kgchess_t) (x y : Int)
    (piece : kgchess_piece_t) (apa iac : Bool) :
    Gen.get_queen_moves att g x y piece apa iac =
      (Unbounded.get_queen_moves att g x y piece apa iac).take 28 := by
  unfold Gen.get_queen_moves Unbounded.get_queen_moves kgchess_moves_array_make_empty
  dsimp only
  rw [nil_take]
  simp only [add_move_range_take]
  rfl

theorem get_rook_moves_take (att : Gen.oracle) (g : kgchess_t) (x y : Int)
    (piece : kgchess_piece_t) (apa iac : Bool) :
    Gen.get_rook_moves att g x y piece apa iac =
      (Unbounded.get_rook_moves att g x y piece apa iac).take 28 := by
  unfold Gen.get_rook_moves Unbounded.get_rook_moves kgchess_moves_array_make_empty
  dsimp only
  rw [nil_take]
  simp only [add_move_range_take]
  rfl

theorem get_bishop_moves_take (att : Gen.oracle) (g : kgchess_t) (x y : Int)
    (piece : kgchess_piece_t) (apa iac : Bool) :
    Gen.get_bishop_moves att g x y piece apa iac =
      (Unbounded.get_bishop_moves att g x y piece apa iac).take 28 := by
  unfold Gen.get_bishop_moves Unbounded.get_bishop_moves kgchess_moves_array_make_empty
  dsimp only
  rw [nil_take]
  simp only [add_move_range_take]
  rfl

theorem get_king_moves_take (att : Gen.oracle) (g : kgchess_t) (x y : Int)
    (piece : kgchess_piece_t) (apa iac : Bool) :
    Gen.get_king_moves att g x y piece apa iac =
      (Unbounded.get_king_moves att g x y piece apa iac).take 28 := by
  unfold Gen.get_king_moves Unbounded.get_king_moves kgchess_moves_array_make_empty
  dsimp only
  rw [nil_take]
  simp only [add_move_range_take, add_move_if_legal_take, take_ite]
  rfl

theorem knight_step_take (att : Gen.oracle) (g : kgchess_t) (x y : Int)
    (enemy : kgchess_player_t) (apa iac : Bool) (l : kgchess_moves_array_t)
    (pos : kgchess_pos_t) :
    Gen.knight_step att g x y enemy apa iac (l.take 28) pos =
      (Unbounded.knight_step att g x y enemy apa iac l pos).take 28 := by
  unfold Gen.knight_step Unbounded.knight_step
  dsimp only
  split_ifs <;> first
    | rfl
    | exact add_move_if_legal_take _ _ _ _ _

theorem knight_foldl_take (att : Gen.oracle) (g : kgchess_t) (x y : Int)
    (enemy : kgchess_player_t) (apa iac : Bool) (ps : List kgchess_pos_t)
    (l : kgchess_moves_array_t) :
    ps.foldl (Gen.knight_step att g x y enemy apa iac) (l.take 28) =
      (ps.foldl (Unbounded.knight_step att g x y enemy apa iac) l).take 28 := by
  induction ps generalizing l with
  | nil => rfl
  | cons p ps ih => rw [List.foldl_cons, List.foldl_cons, knight_step_take, ih]

theorem get_knight_moves_take (att : Gen.oracle) (g : kgchess_t) (x y : Int)
    (piece : kgchess_piece_t) (apa iac : Bool) :
    Gen.get_knight_moves att g x y piece apa iac =
      (Unbounded.get_knight_moves att g x y piece apa iac).take 28 := by
  unfold Gen.get_knight_moves Unbounded.get_knight_moves kgchess_moves_array_make_empty
  dsimp only
  rw [nil_take, knight_foldl_take]
  rfl

theorem get_pawn_moves_take (att : Gen.oracle) (g : kgchess_t) (x y : Int)
    (piece : kgchess_piece_t) (apa iac : Bool) :
    Gen.get_pawn_moves att g x y piece apa iac =
      (Unbounded.get_pawn_moves att g x y piece apa iac).take 28 := by
  unfold Gen.get_pawn_moves Unbounded.get_pawn_moves kgchess_moves_array_make_empty
  dsimp only
  rw [nil_take]
  simp only [add_move_if_legal_take, take_ite]
  rfl

/-- The list of the generator is the list made without capacity guard, cut after
28 entries. -/
theorem get_moves_take (att : Gen.oracle) (g : kgchess_t) (x y : Int) (apa iac : Bool) :
    Gen.get_moves att g x y apa iac = (Unbounded.get_moves att g x y apa iac).take 28 := by
  cases ht : (kgchess_get_piece_at g x y).type <;>
    simp only [Gen.get_moves, Unbounded.get_moves, ht]
  · rfl
  · exact get_king_moves_take _ _ _ _ _ _ _
  · exact get_queen_moves_take _ _ _ _ _ _ _
  · exact get_bishop_moves_take _ _ _ _ _ _ _
  · exact get_knight_moves_take _ _ _ _ _ _ _
  · exact get_rook_moves_take _ _ _ _ _ _ _
  · exact get_pawn_moves_take _ _ _ _ _ _ _

namespace Gen

theorem length_add_castle_le (att : oracle) (g : kgchess_t) (x y : Int) (iac : Bool)
    (rook_x to_x : Int) (moves : kgchess_moves_array_t) :
    (add_castle att g x y iac rook_x to_x moves).length ≤ moves.length + 1 := by
  unfold add_castle
  split
  · exact length_add_move_if_legal_le att g moves _ false
  · omega

theorem length_knight_foldl_le (att : oracle) (g : kgchess_t) (x y : Int)
    (piece : kgchess_piece_t) (apa iac : Bool) (l : List kgchess_pos_t)
    (moves : kgchess_moves_array_t) :
    (l.foldl (knight_step att g x y (kgchess_get_enemy_player piece.player) apa iac) moves).length
      ≤ moves.length + l.length := by
  induction l generalizing moves with
  | nil => simp
  | cons p l ih =>
    have h1 := ih (knight_step att g x y (kgchess_get_enemy_player piece.player) apa iac moves p)
    have h2 := @length_knight_step_le att g x y piece apa iac moves p
    simp only [List.foldl_cons, List.length_cons]
    omega

theorem length_get_knight_moves_le (att : oracle) (g : kgchess_t) (x y : Int)
    (piece : kgchess_piece_t) (apa iac : Bool) :
    (get_knight_moves att g x y piece apa iac).length ≤ 8 := by
  unfold get_knight_moves
  exact length_knight_foldl_le att g x y piece apa iac _ _

theorem length_get_king_moves_le (att : oracle) (g : kgchess_t) (x y : Int)
    (piece : kgchess_piece_t) (apa iac : Bool) :
    (get_king_moves att g x y piece apa iac).length ≤ 10 := by
  rw [get_king_moves_eq]
  have h1 := @length_add_rays_le att g x y piece 1 apa iac (rook_dirs ++ bishop_dirs) []
  have h2 := total_room_king x y
  have h3 := length_add_castle_le att g x y iac 0 2
    (add_rays att g x y piece 1 apa iac (rook_dirs ++ bishop_dirs) [])
  have h4 := length_add_castle_le att g x y iac 7 6 (add_castle att g x y iac 0 2
    (add_rays att g x y piece 1 apa iac (rook_dirs ++ bishop_dirs) []))
  simp only [List.length_nil] at h1
  omega

theorem length_get_pawn_moves_le (att : oracle) (g : kgchess_t) (x y : Int)
    (piece : kgchess_piece_t) (apa iac : Bool) :
    (get_pawn_moves att g x y piece apa iac).length ≤ 5 := by
  have step : ∀ (l : kgchess_moves_array_t) (m : kgchess_move_t) (b : Bool) (n : Nat),
      l.length ≤ n → (add_move_if_legal att g l m b).length ≤ n + 1 :=
    fun l m b n h => le_trans (length_add_move_if_legal_le att g l m b) (by omega)
  have blk : ∀ (c : Prop) [Decidable c] (l : kgchess_moves_array_t) (m : kgchess_move_t)
      (b : Bool) (n : Nat), l.length ≤ n →
      (if c then add_move_if_legal att g l m b else l).length ≤ n + 1 := by
    intro c _ l m b n h
    split
    · exact step l m b n h
    · omega
  have blk2 : ∀ (c c' : Prop) [Decidable c] [Decidable c'] (l : kgchess_moves_array_t)
      (m : kgchess_move_t) (b : Bool) (n : Nat), l.length ≤ n →
      (if c then (if c' then add_move_if_legal att g l m b else l) else l).length ≤ n + 1 := by
    intro c c' _ _ l m b n h
    split
    · exact blk c' l m b n h
    · omega
  have push : ∀ (c c' : Prop) [Decidable c] [Decidable c'] (m m' : kgchess_move_t) (b : Bool),
      (if c then
          (if c' then add_move_if_legal att g (add_move_if_legal att g [] m b) m' b
            else add_move_if_legal att g [] m b)
        else []).length ≤ 2 := by
    intro c c' _ _ m m' b
    split
    · exact blk c' _ m' b 1 (step [] m b 0 (le_refl _))
    · exact Nat.zero_le 2
  unfold get_pawn_moves kgchess_moves_array_make_empty
  dsimp only
  exact blk2 _ _ _ _ _ 4 (blk _ _ _ _ 3 (blk _ _ _ _ 2 (push _ _ _ _ _)))

/-- On every square the generator lists fewer moves than the capacity of a list. -/
theorem length_get_moves_lt (att : oracle) (g : kgchess_t) (x y : Int) (apa iac : Bool) :
    (get_moves att g x y apa iac).length < 28 := by
  by_cases hn : (kgchess_get_piece_at g x y).type = KGCHESS_PIECE_NONE
  · simp [get_moves, hn, kgchess_moves_array_make_empty]
  have hb : in_board x y := in_range_of_type hn
  have hq := total_room_queen hb
  have hr := (total_room_mono x y 7 rook_dirs).2
  have hbi := (total_room_mono x y 7 bishop_dirs).1
  cases ht : (kgchess_get_piece_at g x y).type <;> simp only [get_moves, ht]
  · exact absurd ht hn
  · have := length_get_king_moves_le att g x y (kgchess_get_piece_at g x y) apa iac
    omega
  · have := @length_add_rays_le att g x y (kgchess_get_piece_at g x y) 7 apa iac
      (rook_dirs ++ bishop_dirs) []
    rw [get_queen_moves_eq]
    simp only [List.length_nil] at this
    omega
  · have := @length_add_rays_le att g x y (kgchess_get_piece_at g x y) 7 apa iac bishop_dirs []
    rw [get_bishop_moves_eq]
    simp only [List.length_nil] at this
    omega
  · have := length_get_knight_moves_le att g x y (kgchess_get_piece_at g x y) apa iac
    omega
  · have := @length_add_rays_le att g x y (kgchess_get_piece_at g x y) 7 apa iac rook_dirs []
    rw [get_rook_moves_eq]
    simp only [List.length_nil] at this
    omega
  · have := length_get_pawn_moves_le att g x y (kgchess_get_piece_at g x y) apa iac
    omega

end Gen

/-- The capacity guard never discards a move: the generator returns the list
made without the guard. -/
theorem get_moves_unbounded (att : Gen.oracle) (g : kgchess_t) (x y : Int) (apa iac : Bool) :
    Unbounded.get_moves att g x y apa iac = Gen.get_moves att g x y apa iac := by
  have h1 := get_moves_take att g x y apa iac
  have h2 := Gen.length_get_moves_lt att g x y apa iac
  rw [h1, List.length_take] at h2
  rw [h1, List.take_of_length_le (by omega)]

theorem is_square_attacked_unbounded (att : Gen.oracle) :
    Unbounded.is_square_attacked att = Gen.is_square_attacked att := by
  funext g sx sy p
  unfold Unbounded.is_square_attacked Gen.is_square_attacked
  simp only [get_moves_unbounded]

theorem attacked_unbounded :
    Unbounded.kgchess_is_square_attacked_by_player = kgchess_is_square_attacked_by_player := by
  unfold Unbounded.kgchess_is_square_attacked_by_player kgchess_is_square_attacked_by_player
  exact is_square_attacked_unbounded _

/-! ## Destinations of a list -/

namespace Gen

section tails

variable {att : oracle} {g : kgchess_t} {x y : Int} {piece : kgchess_piece_t}
  {apa iac : Bool}

/-- `add_move_if_legal` leaves the list as it is or appends the move, and it
appends only a move that it admits. -/
theorem add_move_if_legal_tail (l : kgchess_moves_array_t) (m : kgchess_move_t) :
    add_move_if_legal att g l m iac = l ∨
      (add_move_if_legal att g l m iac = l ++ [m] ∧ admitted att g iac m) := by
  by_cases hm : m ∈ add_move_if_legal att g l m iac ∧ add_move_if_legal att g l m iac ≠ l
  · right
    have hadm : admitted att g iac m := by
      unfold add_move_if_legal at hm
      unfold admitted
      obtain ⟨-, hne⟩ := hm
      split at hne
      · exact absurd rfl hne
      · rename_i hr
        refine ⟨by omega, ?_⟩
        intro hi
        subst hi
        simp only [Bool.not_false, if_true] at hne
        split at hne
        · exact absurd rfl hne
        · rename_i hc
          simpa using hc
    refine ⟨?_, hadm⟩
    obtain ⟨-, hne⟩ := hm
    unfold add_move_if_legal at hne ⊢
    unfold add_move at hne ⊢
    dsimp only at hne ⊢
    split_ifs at hne ⊢ <;> first
      | rfl
      | exact absurd rfl hne
  · left
    by_contra hne
    apply hm
    refine ⟨?_, hne⟩
    unfold add_move_if_legal at hne ⊢
    unfold add_move at hne ⊢
    dsimp only at hne ⊢
    split_ifs at hne ⊢ <;> first
      | exact absurd rfl hne
      | simp

theorem loop_tail (dx dy : Int) (n : Nat) (i : Int) (l : kgchess_moves_array_t) :
    ∃ t : kgchess_moves_array_t,
      add_move_range_loop att g x y piece dx dy apa iac n i l = l ++ t ∧
        (t.map fun m => m.to_).Sublist (ray_squares x y dx dy n i) := by
  induction n generalizing i l with
  | zero => exact ⟨[], by simp [add_move_range_loop], by simp [ray_squares]⟩
  | succ n ih =>
    have hstep : ∀ a : Bool, ∃ t1 : kgchess_moves_array_t,
        add_move_if_legal att g l (move_make x y (x + i * dx) (y + i * dy) a false false) iac =
          l ++ t1 ∧
        (t1.map fun m => m.to_).Sublist
          [⟨to_int8 (x + i * dx), to_int8 (y + i * dy)⟩] := by
      intro a
      rcases @add_move_if_legal_tail att g iac l
        (move_make x y (x + i * dx) (y + i * dy) a false false) with h | ⟨h, -⟩
      · exact ⟨[], by rw [h]; simp, by simp⟩
      · exact ⟨[_], h, by simp [move_make]⟩
    simp only [add_move_range_loop, ray_squares]
    split_ifs
    · obtain ⟨t1, h1, s1⟩ := hstep apa
      obtain ⟨t2, h2, s2⟩ := ih (i + 1) (l ++ t1)
      refine ⟨t1 ++ t2, by rw [h1, h2, List.append_assoc], ?_⟩
      rw [List.map_append]
      exact s1.append s2
    · obtain ⟨t1, h1, s1⟩ := hstep true
      refine ⟨t1, h1, ?_⟩
      exact s1.trans ((List.nil_sublist _).cons₂ _)
    · exact ⟨[], by simp, by simp⟩
    · obtain ⟨t2, h2, s2⟩ := ih (i + 1) l
      exact ⟨t2, h2, s2.trans (List.sublist_cons_self _ _)⟩

theorem add_rays_tail (end_ : Int) (dirs : List (Int × Int)) (l : kgchess_moves_array_t) :
    ∃ t : kgchess_moves_array_t,
      add_rays att g x y piece end_ apa iac dirs l = l ++ t ∧
        (t.map fun m => m.to_).Sublist (sweep_squares x y end_ dirs) := by
  induction dirs generalizing l with
  | nil => exact ⟨[], by simp [add_rays], by simp [sweep_squares]⟩
  | cons d dirs ih =>
    obtain ⟨t1, h1, s1⟩ := @loop_tail att g x y piece apa iac d.1 d.2 (end_ + 1 - 1).toNat 1 l
    obtain ⟨t2, h2, s2⟩ := ih (l ++ t1)
    refine ⟨t1 ++ t2, ?_, ?_⟩
    · show add_rays att g x y piece end_ apa iac dirs
        (add_move_range att g l x y piece d.1 d.2 end_ apa iac) = _
      unfold add_move_range
      rw [h1, h2, List.append_assoc]
    · rw [List.map_append]
      simp only [sweep_squares, List.flatMap_cons] at s2 ⊢
      exact s1.append s2

end tails

theorem mem_ray_squares {x y dx dy : Int} {p : kgchess_pos_t} (n : Nat) (i : Int) :
    p ∈ ray_squares x y dx dy n i ↔
      ∃ k : Int, i ≤ k ∧ k < i + n ∧ p = ⟨to_int8 (x + k * dx), to_int8 (y + k * dy)⟩ := by
  induction n generalizing i with
  | zero =>
    simp only [ray_squares, List.not_mem_nil, false_iff]
    rintro ⟨k, h1, h2, -⟩
    simp at h2
    omega
  | succ n ih =>
    simp only [ray_squares, List.mem_cons, ih]
    constructor
    · rintro (rfl | ⟨k, h1, h2, rfl⟩)
      · exact ⟨i, le_refl _, by push_cast; omega, rfl⟩
      · exact ⟨k, by omega, by push_cast; omega, rfl⟩
    · rintro ⟨k, h1, h2, rfl⟩
      by_cases hk : k = i
      · subst hk
        exact Or.inl rfl
      · exact Or.inr ⟨k, by omega, by push_cast at h2; omega, rfl⟩

end Gen

/-- Two steps from a square of the board along the eight directions reach the
same square only as the same step of the same direction. -/
theorem step_inj {x y k k' : Int} {d d' : Int × Int} (hb : in_board x y)
    (hd : d ∈ Gen.rook_dirs ++ Gen.bishop_dirs) (hd' : d' ∈ Gen.rook_dirs ++ Gen.bishop_dirs)
    (hk : 1 ≤ k ∧ k ≤ 7) (hk' : 1 ≤ k' ∧ k' ≤ 7)
    (h : (⟨to_int8 (x + k * d.1), to_int8 (y + k * d.2)⟩ : kgchess_pos_t) =
      ⟨to_int8 (x + k' * d'.1), to_int8 (y + k' * d'.2)⟩) : d = d' ∧ k = k' := by
  have s := dirs_small d hd
  have s' := dirs_small d' hd'
  rw [to_int8_step ⟨hb.1, hb.2.1⟩ hk s.1, to_int8_step ⟨hb.2.2.1, hb.2.2.2⟩ hk s.2,
    to_int8_step ⟨hb.1, hb.2.1⟩ hk' s'.1, to_int8_step ⟨hb.2.2.1, hb.2.2.2⟩ hk' s'.2] at h
  have h1 : x + k * d.1 = x + k' * d'.1 := congrArg kgchess_pos_t.x h
  have h2 : y + k * d.2 = y + k' * d'.2 := congrArg kgchess_pos_t.y h
  simp only [Gen.rook_dirs, Gen.bishop_dirs, List.cons_append, List.nil_append, List.mem_cons,
    List.mem_singleton, List.not_mem_nil, or_false] at hd hd'
  rcases hd with rfl | rfl | rfl | rfl | rfl | rfl | rfl | rfl <;>
    rcases hd' with rfl | rfl | rfl | rfl | rfl | rfl | rfl | rfl <;>
    simp only at h1 h2 <;>
    first
      | exact ⟨rfl, by omega⟩
      | (exfalso; omega)

namespace Gen

theorem ray_squares_nodup {x y : Int} {d : Int × Int} (hb : in_board x y)
    (hd : d ∈ rook_dirs ++ bishop_dirs) (n : Nat) (i : Int) (hi : 1 ≤ i) (hn : i + n ≤ 8) :
    (ray_squares x y d.1 d.2 n i).Nodup := by
  induction n generalizing i with
  | zero => simp [ray_squares]
  | succ n ih =>
    simp only [ray_squares, List.nodup_cons]
    push_cast at hn
    refine ⟨?_, ih (i + 1) (by omega) (by omega)⟩
    rw [mem_ray_squares]
    rintro ⟨k, h1, h2, h3⟩
    have := (step_inj hb hd hd ⟨hi, by omega⟩ ⟨by omega, by omega⟩ h3).2
    omega

theorem sweep_squares_nodup {x y end_ : Int} (hb : in_board x y) (he : end_ ≤ 7)
    (dirs : List (Int × Int)) (hn : dirs.Nodup) (hd : ∀ d ∈ dirs, d ∈ rook_dirs ++ bishop_dirs) :
    (sweep_squares x y end_ dirs).Nodup := by
  unfold sweep_squares
  rw [List.nodup_flatMap]
  constructor
  · intro d hdm
    exact ray_squares_nodup hb (hd d hdm) _ 1 (le_refl _) (by omega)
  · refine List.Pairwise.imp_of_mem ?_ hn
    intro d d' hdm hdm' hne p hp hp'
    rw [mem_ray_squares] at hp hp'
    obtain ⟨k, h1, h2, rfl⟩ := hp
    obtain ⟨k', h1', h2', h3⟩ := hp'
    exact hne (step_inj hb (hd d hdm) (hd d' hdm') ⟨h1, by omega⟩ ⟨h1', by omega⟩ h3).1

/-- The moves listed by a sequence of rays have pairwise different destinations. -/
theorem add_rays_pairwise {att : oracle} {g : kgchess_t} {x y : Int} {piece : kgchess_piece_t}
    {apa iac : Bool} {end_ : Int} (hb : in_board x y) (he : end_ ≤ 7)
    (dirs : List (Int × Int)) (hn : dirs.Nodup) (hd : ∀ d ∈ dirs, d ∈ rook_dirs ++ bishop_dirs) :
    (add_rays att g x y piece end_ apa iac dirs []).Pairwise (fun a b => a.to_ ≠ b.to_) := by
  obtain ⟨t, h1, s⟩ := @add_rays_tail att g x y piece apa iac end_ dirs []
  rw [h1, List.nil_append]
  have := s.nodup (sweep_squares_nodup hb he dirs hn hd)
  exact List.pairwise_map.1 this

end Gen

namespace Gen

section more_tails

variable {att : oracle} {g : kgchess_t} {x y : Int} {piece : kgchess_piece_t}
  {apa iac : Bool}

theorem knight_foldl_tail (enemy : kgchess_player_t) (ps : List kgchess_pos_t)
    (l : kgchess_moves_array_t) :
    ∃ t : kgchess_moves_array_t,
      ps.foldl (knight_step att g x y enemy apa iac) l = l ++ t ∧
        (t.map fun m => m.to_).Sublist (ps.map fun p => ⟨to_int8 p.x, to_int8 p.y⟩) := by
  induction ps generalizing l with
  | nil => exact ⟨[], by simp, by simp⟩
  | cons p ps ih =>
    have hstep : ∃ t1 : kgchess_moves_array_t,
        knight_step att g x y enemy apa iac l p = l ++ t1 ∧
          (t1.map fun m => m.to_).Sublist [⟨to_int8 p.x, to_int8 p.y⟩] := by
      have hadd : ∀ a : Bool, ∃ t1 : kgchess_moves_array_t,
          add_move_if_legal att g l (move_make x y p.x p.y a false false) iac = l ++ t1 ∧
            (t1.map fun m => m.to_).Sublist [⟨to_int8 p.x, to_int8 p.y⟩] := by
        intro a
        rcases @add_move_if_legal_tail att g iac l
          (move_make x y p.x p.y a false false) with h | ⟨h, -⟩
        · exact ⟨[], by rw [h]; simp, by simp⟩
        · exact ⟨[_], h, by simp [move_make]⟩
      unfold knight_step
      dsimp only
      split_ifs
      · exact hadd apa
      · exact hadd true
      · exact ⟨[], by simp, by simp⟩
    obtain ⟨t1, h1, s1⟩ := hstep
    obtain ⟨t2, h2, s2⟩ := ih (l ++ t1)
    refine ⟨t1 ++ t2, by rw [List.foldl_cons, h1, h2, List.append_assoc], ?_⟩
    rw [List.map_append, List.map_cons]
    exact s1.append s2

theorem positions_to_check_nodup {x y : Int} (hb : in_board x y) :
    ((positions_to_check x y).map fun p => (⟨to_int8 p.x, to_int8 p.y⟩ : kgchess_pos_t)).Nodup := by
  have h : ∀ a ∈ range8, ∀ b ∈ range8,
      ((positions_to_check a b).map
        fun p => (⟨to_int8 p.x, to_int8 p.y⟩ : kgchess_pos_t)).Nodup := by
    decide!
  exact h x (mem_range8.2 ⟨hb.1, hb.2.1⟩) y (mem_range8.2 ⟨hb.2.2.1, hb.2.2.2⟩)

theorem get_knight_moves_pairwise (hb : in_board x y) :
    (get_knight_moves att g x y piece apa iac).Pairwise (fun a b => a.to_ ≠ b.to_) := by
  unfold get_knight_moves kgchess_moves_array_make_empty
  obtain ⟨t, h1, s⟩ := @knight_foldl_tail att g x y apa iac
    (kgchess_get_enemy_player piece.player) (positions_to_check x y) []
  dsimp only
  rw [h1, List.nil_append]
  exact List.pairwise_map.1 (s.nodup (positions_to_check_nodup hb))

/-- A castling block leaves the list as it is or, outside attack probes and
when `is_castling_possible` holds, appends the castling move. -/
theorem add_castle_tail (rook_x to_x : Int) (l : kgchess_moves_array_t) :
    add_castle att g x y iac rook_x to_x l = l ∨
      (add_castle att g x y iac rook_x to_x l = l ++ [move_make x y to_x y false true false] ∧
        is_castling_possible att g x y rook_x = true) := by
  unfold add_castle
  split
  · rename_i hc
    simp only [Bool.and_eq_true] at hc
    rcases @add_move_if_legal_tail att g false l
      (move_make x y to_x y false true false) with h | ⟨h, -⟩
    · exact Or.inl h
    · exact Or.inr ⟨h, hc.2⟩
  · exact Or.inl rfl

/-- A guarded call of `add_move_if_legal` leaves the list as it is or appends the move. -/
theorem add_if_tail (c : Bool) (m : kgchess_move_t) (l : kgchess_moves_array_t) :
    add_if att g c m l = l ∨ (add_if att g c m l = l ++ [m] ∧ c = true) := by
  unfold add_if
  split
  · rename_i hc
    rcases @add_move_if_legal_tail att g false l m with h | ⟨h, -⟩
    · exact Or.inl h
    · exact Or.inr ⟨h, hc⟩
  · exact Or.inl rfl

theorem pairwise_add_if {R : kgchess_move_t → kgchess_move_t → Prop} {c : Bool}
    {m : kgchess_move_t} {l : kgchess_moves_array_t} (h : l.Pairwise R)
    (hm : c = true → ∀ a ∈ l, R a m) : (add_if att g c m l).Pairwise R := by
  rcases @add_if_tail att g c m l with e | ⟨e, hc⟩
  · rw [e]; exact h
  · rw [e, List.pairwise_append]
    exact ⟨h, List.pairwise_singleton _ _, fun a ha b hb => by
      rw [List.mem_singleton] at hb
      subst hb
      exact hm hc a ha⟩

theorem pairwise_add_castle {R : kgchess_move_t → kgchess_move_t → Prop} {rook_x to_x : Int}
    {l : kgchess_moves_array_t} (h : l.Pairwise R)
    (hm : is_castling_possible att g x y rook_x = true →
      ∀ a ∈ l, R a (move_make x y to_x y false true false)) :
    (add_castle att g x y iac rook_x to_x l).Pairwise R := by
  rcases @add_castle_tail att g x y iac rook_x to_x l with
    e | ⟨e, hc⟩
  · rw [e]; exact h
  · rw [e, List.pairwise_append]
    exact ⟨h, List.pairwise_singleton _ _, fun a ha b hb => by
      rw [List.mem_singleton] at hb
      subst hb
      exact hm hc a ha⟩

/-- A move listed by the rays of a king goes to one of the eight squares next to it. -/
theorem king_ray_to (hb : in_board x y) {a : kgchess_move_t}
    (ha : a ∈ add_rays att g x y piece 1 apa iac (rook_dirs ++ bishop_dirs) []) :
    ∃ d ∈ rook_dirs ++ bishop_dirs, a.to_ = ⟨x + d.1, y + d.2⟩ := by
  obtain ⟨t, h1, s⟩ := @add_rays_tail att g x y piece apa iac 1 (rook_dirs ++ bishop_dirs) []
  rw [h1, List.nil_append] at ha
  have hin : a.to_ ∈ sweep_squares x y 1 (rook_dirs ++ bishop_dirs) :=
    s.subset (List.mem_map.2 ⟨a, ha, rfl⟩)
  unfold sweep_squares at hin
  rw [List.mem_flatMap] at hin
  obtain ⟨d, hd, hp⟩ := hin
  rw [mem_ray_squares] at hp
  obtain ⟨k, h2, h3, h4⟩ := hp
  have hk : k = 1 := by
    have e : ((1 : Int) + 1 - 1).toNat = 1 := rfl
    rw [e] at h3
    push_cast at h3
    omega
  subst hk
  have sm := dirs_small d hd
  rw [to_int8_step ⟨hb.1, hb.2.1⟩ ⟨le_refl _, by decide⟩ sm.1,
    to_int8_step ⟨hb.2.2.1, hb.2.2.2⟩ ⟨le_refl _, by decide⟩ sm.2, one_mul, one_mul] at h4
  exact ⟨d, hd, h4⟩

end more_tails

end Gen

/-- What `is_castling_possible` implies for the place of the king: it is not on
a square that the helper demands to be empty, nor on the square of the rook. -/
theorem castling_king_file {att : Gen.oracle} {g : kgchess_t} {x y r : Int}
    (h : Gen.is_castling_possible att g x y r = true) :
    (r = 0 ∧ x ≠ 1 ∧ x ≠ 2 ∧ x ≠ 3) ∨ (r = 7 ∧ x ≠ 5 ∧ x ≠ 6 ∧ x ≠ 7) := by
  unfold Gen.is_castling_possible at h
  dsimp only at h
  split at h
  · cases h
  · rename_i h1
    push_neg at h1
    have hk : (kgchess_get_piece_at g x y).type = KGCHESS_PIECE_KING := h1.1
    have hne : ∀ u : Int, is_position_empty g u y = true → x ≠ u := by
      intro u hu hx
      subst hx
      rw [is_position_empty_iff, hk] at hu
      cases hu
    split at h
    · cases h
    · split at h
      · cases h
      · split at h
        · rename_i hr
          subst hr
          split at h
          · cases h
          · rename_i he
            simp only [Bool.or_eq_true, Bool.not_eq_true', not_or, Bool.not_eq_false] at he
            exact Or.inl ⟨rfl, hne 1 he.1.1, hne 2 he.1.2, hne 3 he.2⟩
        · split at h
          · rename_i hr
            subst hr
            split at h
            · cases h
            · rename_i he
              simp only [Bool.or_eq_true, Bool.not_eq_true', not_or, Bool.not_eq_false] at he
              refine Or.inr ⟨rfl, hne 5 he.1, hne 6 he.2, ?_⟩
              intro hx
              subst hx
              have h2 := h1.2
              rw [h1.1] at h2
              cases h2
          · cases h

/-- The moves listed for a king have pairwise different destinations. -/
theorem get_king_moves_pairwise {att : Gen.oracle} {g : kgchess_t} {x y : Int}
    {piece : kgchess_piece_t} {apa iac : Bool} (hb : in_board x y) :
    (Gen.get_king_moves att g x y piece apa iac).Pairwise (fun a b => a.to_ ≠ b.to_) := by
  have hx : to_int8 x = x :=
    to_int8_of_range (by have := hb.1; omega) (by have := hb.2.1; omega)
  have hy : to_int8 y = y :=
    to_int8_of_range (by have := hb.2.2.1; omega) (by have := hb.2.2.2; omega)
  have hnd : (Gen.rook_dirs ++ Gen.bishop_dirs).Nodup := by decide
  have hrays := @Gen.add_rays_pairwise att g x y piece apa iac 1 hb (by decide)
    (Gen.rook_dirs ++ Gen.bishop_dirs) hnd (fun _ h => h)
  have hto : ∀ (to_x : Int), (move_make x y to_x y false true false).to_ =
      ⟨to_int8 to_x, y⟩ := by
    intro to_x
    unfold move_make
    rw [hy]
  have hray_ne : ∀ (to_x : Int) (a : kgchess_move_t),
      a ∈ Gen.add_rays att g x y piece 1 apa iac (Gen.rook_dirs ++ Gen.bishop_dirs) [] →
      x ≠ to_x - 1 → x ≠ to_x → x ≠ to_x + 1 → a.to_ ≠ ⟨to_x, y⟩ := by
    intro to_x a ha h1 h2 h3 he
    obtain ⟨d, hd, hd2⟩ := Gen.king_ray_to hb ha
    rw [hd2] at he
    have e1 : x + d.1 = to_x := congrArg kgchess_pos_t.x he
    have sm := dirs_small d hd
    omega
  rw [Gen.get_king_moves_eq]
  refine Gen.pairwise_add_castle (Gen.pairwise_add_castle hrays ?_) ?_
  · intro hc a ha
    rw [hto]
    rcases castling_king_file hc with ⟨-, h1, h2, h3⟩ | ⟨h0, -⟩
    · exact hray_ne 2 a ha (by omega) (by omega) (by omega)
    · cases h0
  · intro hc a ha
    rw [hto]
    rcases castling_king_file hc with ⟨h0, -⟩ | ⟨-, h1, h2, h3⟩
    · cases h0
    · rcases @Gen.add_castle_tail att g x y iac 0 2
        (Gen.add_rays att g x y piece 1 apa iac (Gen.rook_dirs ++ Gen.bishop_dirs) []) with
        e | ⟨e, -⟩
      · rw [e] at ha
        exact hray_ne 6 a ha (by omega) (by omega) (by omega)
      · rw [e, List.mem_append, List.mem_singleton] at ha
        rcases ha with ha | rfl
        · exact hray_ne 6 a ha (by omega) (by omega) (by omega)
        · rw [hto]
          intro he
          have h26 : to_int8 2 = to_int8 6 := congrArg kgchess_pos_t.x he
          exact absurd h26 (by decide)

/-- In the list of a pawn two entries share their destination only as a capture
followed by the en passant capture. -/
theorem get_pawn_moves_pairwise {att : Gen.oracle} {g : kgchess_t} {x y : Int}
    (ht : (kgchess_get_piece_at g x y).type = KGCHESS_PIECE_PAWN) :
    (Gen.get_pawn_moves att g x y (kgchess_get_piece_at g x y) false false).Pairwise
      (shared_destination g x y) := by
  have hb : in_board x y := in_range_of_type (by rw [ht]; simp)
  have hd := pawn_dir_cases (kgchess_get_piece_at g x y).player
  obtain ⟨h1, h2, h3, h4⟩ := hb
  have e0 : to_int8 x = x := to_int8_of_range (by omega) (by omega)
  have e1 : to_int8 (x + 1) = x + 1 := to_int8_of_range (by omega) (by omega)
  have e2 : to_int8 (x - 1) = x - 1 := to_int8_of_range (by omega) (by omega)
  have e3 : to_int8 (y + 1 * Gen.pawn_dir (kgchess_get_piece_at g x y).player) =
      y + 1 * Gen.pawn_dir (kgchess_get_piece_at g x y).player :=
    to_int8_of_range (by omega) (by omega)
  have e4 : to_int8 (y + 2 * Gen.pawn_dir (kgchess_get_piece_at g x y).player) =
      y + 2 * Gen.pawn_dir (kgchess_get_piece_at g x y).player :=
    to_int8_of_range (by omega) (by omega)
  have ne_x : ∀ {u v u' v' : Int}, u ≠ u' → (⟨u, v⟩ : kgchess_pos_t) ≠ ⟨u', v'⟩ :=
    fun h he => h (congrArg kgchess_pos_t.x he)
  have ne_y : ∀ {u v u' v' : Int}, v ≠ v' → (⟨u, v⟩ : kgchess_pos_t) ≠ ⟨u', v'⟩ :=
    fun h he => h (congrArg kgchess_pos_t.y he)
  rw [Gen.get_pawn_moves_eq]
  refine Gen.pairwise_add_if (Gen.pairwise_add_if (Gen.pairwise_add_if (Gen.pairwise_add_if
    (Gen.pairwise_add_if List.Pairwise.nil ?_) ?_) ?_) ?_) ?_
  · intro _ a ha
    cases ha
  · intro _ a ha he
    exfalso
    rcases Gen.mem_add_if ha with ha | ⟨-, -, rfl⟩
    · cases ha
    · revert he
      simp only [move_make, e0, e3, e4]
      exact ne_y (by omega)
  · intro _ a ha he
    exfalso
    rcases Gen.mem_add_if ha with ha | ⟨-, -, rfl⟩
    · rcases Gen.mem_add_if ha with ha | ⟨-, -, rfl⟩
      · cases ha
      · revert he
        simp only [move_make, e0, e1]
        exact ne_x (by omega)
    · revert he
      simp only [move_make, e0, e1]
      exact ne_x (by omega)
  · intro _ a ha he
    exfalso
    rcases Gen.mem_add_if ha with ha | ⟨-, -, rfl⟩
    · rcases Gen.mem_add_if ha with ha | ⟨-, -, rfl⟩
      · rcases Gen.mem_add_if ha with ha | ⟨-, -, rfl⟩
        · cases ha
        · revert he
          simp only [move_make, e0, e2]
          exact ne_x (by omega)
      · revert he
        simp only [move_make, e0, e2]
        exact ne_x (by omega)
    · revert he
      simp only [move_make, e1, e2]
      exact ne_x (by omega)
  · intro hc a ha he
    have hne : get_en_passant g x y (kgchess_get_piece_at g x y) ≠ -1 := by simpa using hc
    have hcond := (conditions_of_get_en_passant hne).2
    have hval := (get_en_passant_of_conditions ht hcond).1
    have hadj := hcond.2.2.2.2
    have e5 : to_int8 (get_en_passant g x y (kgchess_get_piece_at g x y)) =
        get_en_passant g x y (kgchess_get_piece_at g x y) :=
      to_int8_of_range (by omega) (by omega)
    rcases Gen.mem_add_if ha with ha | ⟨-, -, rfl⟩
    · rcases Gen.mem_add_if ha with ha | ⟨-, -, rfl⟩
      · exfalso
        rcases Gen.mem_add_if ha with ha | ⟨-, -, rfl⟩
        · rcases Gen.mem_add_if ha with ha | ⟨-, -, rfl⟩
          · cases ha
          · revert he
            simp only [move_make, e0, e5]
            exact ne_x (by omega)
        · revert he
          simp only [move_make, e0, e5]
          exact ne_x (by omega)
      · exact ⟨ht, rfl, rfl, rfl⟩
    · exact ⟨ht, rfl, rfl, rfl⟩

/-- Entries with pairwise different destinations satisfy `shared_destination`. -/
theorem shared_of_ne {g : kgchess_t} {x y : Int} {l : kgchess_moves_array_t}
    (h : l.Pairwise (fun a b => a.to_ ≠ b.to_)) : l.Pairwise (shared_destination g x y) :=
  h.imp (fun hne he => absurd he hne)

theorem kgchess_get_moves_pairwise (g : kgchess_t) (x y : Int) :
    (kgchess_get_moves g x y).Pairwise (shared_destination g x y) := by
  by_cases hn : (kgchess_get_piece_at g x y).type = KGCHESS_PIECE_NONE
  · simp [kgchess_get_moves, get_moves, Gen.get_moves, hn, kgchess_moves_array_make_empty]
  have hb : in_board x y := in_range_of_type hn
  have hnd : (Gen.rook_dirs ++ Gen.bishop_dirs).Nodup := by decide
  have hnr : Gen.rook_dirs.Nodup := by decide
  have hnb : Gen.bishop_dirs.Nodup := by decide
  unfold kgchess_get_moves get_moves Gen.get_moves
  cases ht : (kgchess_get_piece_at g x y).type <;> simp only [ht]
  · exact absurd ht hn
  · exact shared_of_ne (get_king_moves_pairwise hb)
  · rw [Gen.get_queen_moves_eq]
    exact shared_of_ne (Gen.add_rays_pairwise hb (le_refl _) _ hnd (fun _ h => h))
  · rw [Gen.get_bishop_moves_eq]
    exact shared_of_ne (Gen.add_rays_pairwise hb (le_refl _) _ hnb
      (fun _ h => List.mem_append_right _ h))
  · exact shared_of_ne (Gen.get_knight_moves_pairwise hb)
  · rw [Gen.get_rook_moves_eq]
    exact shared_of_ne (Gen.add_rays_pairwise hb (le_refl _) _ hnr
      (fun _ h => List.mem_append_left _ h))
  · have := @get_pawn_moves_pairwise kgchess_is_square_attacked_by_player g x y ht
    exact this

theorem double_capture_core :
    same_core double_capture_game (play_body kgchess_make double_capture_moves) :=
  play_same_core ⟨rfl, rfl, rfl⟩ _

theorem double_capture_reachable : reachable double_capture_game false := by
  have h := reachable_play double_capture_moves reachable.make ⟨rfl, rfl, rfl⟩ (by decide!)
  have hb : last_promotes kgchess_make false double_capture_moves = false := by decide!
  rw [hb] at h
  exact h

/-! ## The attack oracle reads kind and owner only -/

theorem same_occupancy_all {g g' : kgchess_t} (h : same_occupancy g g') (a b : Int) :
    kgchess_get_piece_at g a b = kgchess_get_piece_at g' a b := by
  by_cases ho : a < 0 ∨ 7 < a ∨ b < 0 ∨ 7 < b
  · rw [kgchess_get_piece_at_outside ho, kgchess_get_piece_at_outside ho]
  · exact h a b (by unfold in_board; omega)

theorem piece_hits_occupancy {g g' : kgchess_t} (h : same_occupancy g g') (a b sx sy : Int) :
    piece_hits g a b sx sy ↔ piece_hits g' a b sx sy := by
  have h' := same_occupancy_all h
  unfold piece_hits ray_hits probe_pass probe_offer
  simp only [h']

theorem attacked_occupancy {g g' : kgchess_t} (h : same_occupancy g g') (sx sy : Int)
    (P : kgchess_player_t) :
    kgchess_is_square_attacked_by_player g sx sy P =
      kgchess_is_square_attacked_by_player g' sx sy P := by
  rw [Bool.eq_iff_iff, attacked_iff, attacked_iff]
  simp only [same_occupancy_all h, piece_hits_occupancy h]

theorem is_in_check_occupancy {g g' : kgchess_t} (h : same_occupancy g g')
    (P : kgchess_player_t) : is_in_check g P = is_in_check g' P := by
  unfold is_in_check Gen.is_in_check
  simp only [same_occupancy_all h, attacked_occupancy h]

theorem same_occupancy_with_other_fields (g : kgchess_t) (current_player : kgchess_player_t)
    (move_num : Int) (last_move : kgchess_move_t) (state : kgchess_state_t)
    (promotion_pos : kgchess_pos_t) (winner : kgchess_player_t) (markers : Int → Int → Int) :
    same_occupancy g
      (with_other_fields g current_player move_num last_move state promotion_pos winner
        markers) := by
  intro a b hb
  have hn : ¬ (a < 0 ∨ a ≥ 8 ∨ b < 0 ∨ b ≥ 8) := by unfold in_board at hb; omega
  simp [kgchess_get_piece_at, get_piece_at, convert_piece, with_other_fields, hn]

/-! ## The engine with fuel returns what the engine returns -/

theorem any_opt_some {α : Type} (f : α → Option Bool) (p : α → Bool) (l : List α)
    (h : ∀ a, f a = some (p a)) : Fuel.any_opt f l = some (l.any p) := by
  induction l with
  | nil => rfl
  | cons a l ih =>
    simp only [Fuel.any_opt, h a, Option.some_bind, ih, List.any_cons]
    cases p a <;> simp

theorem ite_some {α : Type} (c : Prop) [Decidable c] (a b : α) :
    (if c then some a else some b) = some (if c then a else b) := by
  split_ifs <;> rfl

section lift

variable {att' : Fuel.oracle} {att : Gen.oracle} {cm : Fuel.scan} {g : kgchess_t}

theorem fuel_is_in_check (h : returns att' att) (p : kgchess_player_t) :
    Fuel.is_in_check att' g p = some (Gen.is_in_check att g p) := by
  unfold Fuel.is_in_check Gen.is_in_check
  dsimp only
  rw [h]
  split_ifs <;> rfl

theorem fuel_is_castling_possible (h : returns att' att) (x y r : Int) :
    Fuel.is_castling_possible att' g x y r = some (Gen.is_castling_possible att g x y r) := by
  unfold Fuel.is_castling_possible Gen.is_castling_possible
  simp only [fuel_is_in_check h, h _ _ _ _, Option.some_bind, ite_some]

/-- Speculative application (`update_state = false`) does not call `check_checkmate`. -/
theorem fuel_apply_move_false (cm : Fuel.scan) (g : kgchess_t) (m : kgchess_move_t) :
    Fuel.apply_move cm g m false = some (apply_move_body g m) := by
  simp [Fuel.apply_move]

/-- In an attack probe `add_move_if_legal` calls nothing that could fail to
return; outside, it returns when the attack oracle does. -/
theorem fuel_add_move_if_legal {iac : Bool} (h : iac = true ∨ returns att' att)
    (arr : kgchess_moves_array_t) (m : kgchess_move_t) :
    Fuel.add_move_if_legal att' cm g arr m iac = some (Gen.add_move_if_legal att g arr m iac) := by
  unfold Fuel.add_move_if_legal Gen.add_move_if_legal
  rcases h with rfl | h
  · simp only [Bool.not_true, Bool.false_eq_true, if_false, ite_some]
  · simp only [fuel_apply_move_false, fuel_is_in_check h, Option.some_bind, ite_some]

theorem fuel_add_move_range_loop {apa iac : Bool} (h : iac = true ∨ returns att' att)
    (x y : Int) (piece : kgchess_piece_t) (dx dy : Int) (n : Nat) (i : Int)
    (moves : kgchess_moves_array_t) :
    Fuel.add_move_range_loop att' cm g x y piece dx dy apa iac n i moves =
      some (Gen.add_move_range_loop att g x y piece dx dy apa iac n i moves) := by
  induction n generalizing i moves with
  | zero => rfl
  | succ n ih =>
    simp only [Fuel.add_move_range_loop, Gen.add_move_range_loop, fuel_add_move_if_legal h,
      Option.some_bind, ih]
    split_ifs <;> rfl

theorem fuel_add_move_range {apa iac : Bool} (h : iac = true ∨ returns att' att)
    (moves : kgchess_moves_array_t) (x y : Int) (piece : kgchess_piece_t) (dx dy end_ : Int) :
    Fuel.add_move_range att' cm g moves x y piece dx dy end_ apa iac =
      some (Gen.add_move_range att g moves x y piece dx dy end_ apa iac) :=
  fuel_add_move_range_loop h x y piece dx dy _ _ moves

theorem fuel_get_queen_moves {apa iac : Bool} (h : iac = true ∨ returns att' att)
    (x y : Int) (piece : kgchess_piece_t) :
    Fuel.get_queen_moves att' cm g x y piece apa iac =
      some (Gen.get_queen_moves att g x y piece apa iac) := by
  simp only [Fuel.get_queen_moves, Gen.get_queen_moves, fuel_add_move_range h, Option.some_bind]

theorem fuel_get_rook_moves {apa iac : Bool} (h : iac = true ∨ returns att' att)
    (x y : Int) (piece : kgchess_piece_t) :
    Fuel.get_rook_moves att' cm g x y piece apa iac =
      some (Gen.get_rook_moves att g x y piece apa iac) := by
  simp only [Fuel.get_rook_moves, Gen.get_rook_moves, fuel_add_move_range h, Option.some_bind]

theorem fuel_get_bishop_moves {apa iac : Bool} (h : iac = true ∨ returns att' att)
    (x y : Int) (piece : kgchess_piece_t) :
    Fuel.get_bishop_moves att' cm g x y piece apa iac =
      some (Gen.get_bishop_moves att g x y piece apa iac) := by
  simp only [Fuel.get_bishop_moves, Gen.get_bishop_moves, fuel_add_move_range h,
    Option.some_bind]

theorem fuel_get_king_moves {apa iac : Bool} (h : iac = true ∨ returns att' att)
    (x y : Int) (piece : kgchess_piece_t) :
    Fuel.get_king_moves att' cm g x y piece apa iac =
      some (Gen.get_king_moves att g x y piece apa iac) := by
  rcases h with rfl | h
  · simp only [Fuel.get_king_moves, Gen.get_king_moves,
      fuel_add_move_range (Or.inl rfl : true = true ∨ returns att' att), Option.some_bind,
      Bool.not_true, Bool.false_eq_true, if_false, Bool.false_and]
  · simp only [Fuel.get_king_moves, Gen.get_king_moves,
      fuel_add_move_range (Or.inr h : iac = true ∨ returns att' att), Option.some_bind,
      fuel_is_castling_possible h,
      fuel_add_move_if_legal (Or.inr h : false = true ∨ returns att' att), ite_some]
    cases iac <;> simp

theorem fuel_knight_step {apa iac : Bool} (h : iac = true ∨ returns att' att)
    (x y : Int) (enemy : kgchess_player_t) (moves : kgchess_moves_array_t)
    (pos : kgchess_pos_t) :
    Fuel.knight_step att' cm g x y enemy apa iac moves pos =
      some (Gen.knight_step att g x y enemy apa iac moves pos) := by
  simp only [Fuel.knight_step, Gen.knight_step, fuel_add_move_if_legal h, ite_some]

theorem fuel_knight_loop {apa iac : Bool} (h : iac = true ∨ returns att' att)
    (x y : Int) (enemy : kgchess_player_t) (ps : List kgchess_pos_t)
    (moves : kgchess_moves_array_t) :
    Fuel.knight_loop att' cm g x y enemy apa iac ps moves =
      some (ps.foldl (Gen.knight_step att g x y enemy apa iac) moves) := by
  induction ps generalizing moves with
  | nil => rfl
  | cons p ps ih =>
    simp only [Fuel.knight_loop, fuel_knight_step h, Option.some_bind, ih, List.foldl_cons]

theorem fuel_get_knight_moves {apa iac : Bool} (h : iac = true ∨ returns att' att)
    (x y : Int) (piece : kgchess_piece_t) :
    Fuel.get_knight_moves att' cm g x y piece apa iac =
      some (Gen.get_knight_moves att g x y piece apa iac) := by
  simp only [Fuel.get_knight_moves, Gen.get_knight_moves, fuel_knight_loop h]

theorem fuel_get_pawn_moves {apa iac : Bool} (h : iac = true ∨ returns att' att)
    (x y : Int) (piece : kgchess_piece_t) :
    Fuel.get_pawn_moves att' cm g x y piece apa iac =
      some (Gen.get_pawn_moves att g x y piece apa iac) := by
  simp only [Fuel.get_pawn_moves, Gen.get_pawn_moves, fuel_add_move_if_legal h,
    Option.some_bind, ite_some]

/-- The generator returns when the attack oracle does, and in an attack probe
whatever the oracle and the scan do: it calls neither. -/
theorem fuel_get_moves {apa iac : Bool} (h : iac = true ∨ returns att' att) (x y : Int) :
    Fuel.get_moves att' cm g x y apa iac = some (Gen.get_moves att g x y apa iac) := by
  cases ht : (kgchess_get_piece_at g x y).type <;>
    simp only [Fuel.get_moves, Gen.get_moves, ht]
  · exact fuel_get_king_moves h _ _ _
  · exact fuel_get_queen_moves h _ _ _
  · exact fuel_get_bishop_moves h _ _ _
  · exact fuel_get_knight_moves h _ _ _
  · exact fuel_get_rook_moves h _ _ _
  · exact fuel_get_pawn_moves h _ _ _

end lift

/-- The body of `kgchess_is_square_attacked_by_player` returns whatever the
calls it is given would do: its probes make none. -/
theorem fuel_is_square_attacked (att' : Fuel.oracle) (cm : Fuel.scan) (g : kgchess_t)
    (sx sy : Int) (p : kgchess_player_t) :
    Fuel.is_square_attacked att' cm g sx sy p =
      some (kgchess_is_square_attacked_by_player g sx sy p) := by
  have h : (true = true ∨ returns att' (fun _ _ _ _ => false)) := Or.inl rfl
  unfold Fuel.is_square_attacked kgchess_is_square_attacked_by_player Gen.is_square_attacked
  refine any_opt_some _ _ _ (fun x => any_opt_some _ _ _ (fun y => ?_))
  simp only [fuel_get_moves h, Option.some_bind, ite_some]

theorem calls_attacked (n : Nat) :
    returns (Fuel.calls (n + 1)).1 kgchess_is_square_attacked_by_player :=
  fun g x y p => fuel_is_square_attacked _ _ g x y p

/-- The body of `check_checkmate` returns when the attack oracle does. -/
theorem fuel_check_checkmate {att' : Fuel.oracle}
    (h : returns att' kgchess_is_square_attacked_by_player) (cm : Fuel.scan) (g : kgchess_t) :
    Fuel.check_checkmate att' cm g = some (check_checkmate g) := by
  have h' : (false = true ∨ returns att' kgchess_is_square_attacked_by_player) := Or.inr h
  have hs : Fuel.any_opt (fun x =>
      Fuel.any_opt (fun y =>
        if (kgchess_get_piece_at g x y).type = KGCHESS_PIECE_NONE ∨
            (kgchess_get_piece_at g x y).player ≠ g.current_player then some false
        else
          (Fuel.get_moves att' cm g x y false false).bind fun moves =>
            some (decide (moves.length ≠ 0)))
        range8) range8 =
      some (range8.any fun x =>
        range8.any fun y =>
          if (kgchess_get_piece_at g x y).type = KGCHESS_PIECE_NONE ∨
              (kgchess_get_piece_at g x y).player ≠ g.current_player then false
          else decide ((kgchess_get_moves g x y).length ≠ 0)) := by
    refine any_opt_some _ _ _ (fun x => any_opt_some _ _ _ (fun y => ?_))
    simp only [fuel_get_moves h', Option.some_bind, ite_some]
    rfl
  unfold Fuel.check_checkmate check_checkmate
  dsimp only
  rw [hs, Option.some_bind, fuel_is_in_check h, Option.some_bind]
  simp only [ite_some]
  rfl

theorem calls_scan (n : Nat) (g : kgchess_t) :
    (Fuel.calls (n + 2)).2 g = some (check_checkmate g) :=
  fuel_check_checkmate (calls_attacked n) _ g

theorem fuel_apply_move {cm : Fuel.scan} (h : ∀ g, cm g = some (check_checkmate g))
    (g : kgchess_t) (m : kgchess_move_t) (u : Bool) :
    Fuel.apply_move cm g m u = some (apply_move g m u) := by
  unfold Fuel.apply_move apply_move
  simp only [h, ite_some]

/-- With no fuel for the calls it makes, the listing of the king's pawn in the
initial position does not return: the legality filter asks the attack oracle. -/
theorem kgchess_get_moves_out_of_fuel : Fuel.kgchess_get_moves 1 kgchess_make 4 1 = none := by
  decide!

/-- With fuel 2, `kgchess_move` does not return for 1. e2-e4: the end-of-game
scan lists the moves of Black, whose legality filter asks the attack oracle. -/
theorem kgchess_move_out_of_fuel :
    (Fuel.kgchess_move 2 kgchess_make ⟨⟨4, 1⟩, ⟨4, 3⟩, false, false, false⟩).isSome = false := by
  decide!

/-! ## Claims -/

/-- C1 (no self-check): if `m` is in the list `kgchess_get_moves g x y` and the
piece on `(x, y)` is owned by `P`, then in the state produced by
`kgchess_move g m` the king of `P` is not attacked: `is_in_check` is false. -/
theorem no_self_check (g : kgchess_t) (x y : Int) (m : kgchess_move_t) (P : kgchess_player_t)
    (hP : (kgchess_get_piece_at g x y).player = P) (hm : m ∈ kgchess_get_moves g x y) :
    is_in_check (kgchess_move g m).2 P = false := by
  have h := (kgchess_get_moves_sound hm).2.2.2
  rw [hP] at h
  rw [← h]
  exact is_in_check_congr (apply_move_pieces g m true) P

theorem no_self_check_witness :
    (kgchess_get_piece_at kgchess_make 4 1).player = KGCHESS_PLAYER_WHITE ∧
      (⟨⟨4, 1⟩, ⟨4, 3⟩, false, false, false⟩ : kgchess_move_t) ∈ kgchess_get_moves kgchess_make 4 1 ∧
      is_in_check (kgchess_move kgchess_make ⟨⟨4, 1⟩, ⟨4, 3⟩, false, false, false⟩).2
        KGCHESS_PLAYER_WHITE = false :=
  ⟨by decide, by decide!,
    no_self_check kgchess_make 4 1 _ KGCHESS_PLAYER_WHITE (by decide) (by decide!)⟩

/-- C2 (game-over detection): for a state in phase AwaitingMove and a move that
does not trigger promotion, `kgchess_move` hands the turn to the opponent, and
afterwards the phase is Ended if and only if no square owned by the new current
player has a non-empty `kgchess_get_moves` list; when some owned square has a
legal move the phase is still AwaitingMove and the winner is unchanged. -/
theorem game_over_detection (g : kgchess_t) (m : kgchess_move_t)
    (hs : g.state = KGCHESS_STATE_MOVE) (hp : promotes g m = false) :
    (kgchess_move g m).2.current_player = kgchess_get_enemy_player g.current_player ∧
      ((kgchess_move g m).2.state = KGCHESS_STATE_ENDED ↔ no_legal_move (kgchess_move g m).2) ∧
      (¬ no_legal_move (kgchess_move g m).2 →
        (kgchess_move g m).2.state = KGCHESS_STATE_MOVE ∧
          (kgchess_move g m).2.winner = g.winner) := by
  rw [kgchess_move_eq hs hp]
  have h1 : (apply_move_body g m).state = KGCHESS_STATE_MOVE := by
    rw [apply_move_body_state, hp, hs]; simp
  refine ⟨check_checkmate_current_player _, ?_, ?_⟩
  · rw [no_legal_move_check_checkmate]
    constructor
    · intro he
      by_contra hn
      rw [check_checkmate_continue hn] at he
      change (apply_move_body g m).state = _ at he
      rw [h1] at he
      cases he
    · intro hn
      exact (check_checkmate_end hn).1
  · rw [no_legal_move_check_checkmate]
    intro hn
    rw [check_checkmate_continue hn]
    exact ⟨h1, apply_move_body_winner g m⟩

theorem game_over_detection_witness :
    kgchess_make.state = KGCHESS_STATE_MOVE ∧
      promotes kgchess_make ⟨⟨4, 1⟩, ⟨4, 3⟩, false, false, false⟩ = false ∧
      (kgchess_move kgchess_make ⟨⟨4, 1⟩, ⟨4, 3⟩, false, false, false⟩).2.current_player =
        KGCHESS_PLAYER_BLACK ∧
      ¬ (kgchess_move kgchess_make ⟨⟨4, 1⟩, ⟨4, 3⟩, false, false, false⟩).2.state =
        KGCHESS_STATE_ENDED :=
  have h := game_over_detection kgchess_make ⟨⟨4, 1⟩, ⟨4, 3⟩, false, false, false⟩
    (by decide) (by decide)
  ⟨by decide, by decide, h.1, fun he => by
    have hn := h.2.1.1 he
    rw [no_legal_move_iff] at hn
    revert hn
    decide!⟩

/-- C3 (checkmate): whenever checkmate detection ran (`kgchess_move` in phase
AwaitingMove with a non-promoting move, or a successful `kgchess_promote`) and
in the resulting state the current player has no legal move on any square it
owns and its king is attacked, the phase is Ended and the winner is the
opponent of the current player. -/
theorem checkmate_detected (g g' : kgchess_t) (h : detection_ran g g')
    (hn : no_legal_move g') (hc : is_in_check g' g'.current_player = true) :
    g'.state = KGCHESS_STATE_ENDED ∧
      g'.winner = kgchess_get_enemy_player g'.current_player := by
  obtain ⟨g1, rfl, -, -⟩ := detection_ran_eq h
  rw [no_legal_move_check_checkmate] at hn
  rw [check_checkmate_current_player,
    is_in_check_congr (check_checkmate_pieces g1)] at hc
  have he := check_checkmate_end hn
  rw [hc] at he
  rw [check_checkmate_current_player]
  simpa using he

theorem checkmate_detected_witness :
    detection_ran back_rank_position (kgchess_move back_rank_position back_rank_move).2 ∧
      (kgchess_move back_rank_position back_rank_move).2.state = KGCHESS_STATE_ENDED ∧
      (kgchess_move back_rank_position back_rank_move).2.winner = KGCHESS_PLAYER_WHITE :=
  have hd : detection_ran back_rank_position (kgchess_move back_rank_position back_rank_move).2 :=
    Or.inl ⟨back_rank_move, by decide, by decide, rfl⟩
  ⟨hd, checkmate_detected _ _ hd ((no_legal_move_iff _).2 (by decide!)) (by decide!)⟩

/-- C4 as stated fails: in `pending_after_resignation` the promotion to a queen
succeeds and stalemates Black (no legal move, king not attacked), yet the
winner reported afterwards is Black, the winner recorded before the call. -/
theorem stalemate_winner_counterexample :
    detection_ran pending_after_resignation
        (kgchess_promote pending_after_resignation KGCHESS_PIECE_QUEEN).2 ∧
      no_legal_move (kgchess_promote pending_after_resignation KGCHESS_PIECE_QUEEN).2 ∧
      is_in_check (kgchess_promote pending_after_resignation KGCHESS_PIECE_QUEEN).2
        (kgchess_promote pending_after_resignation KGCHESS_PIECE_QUEEN).2.current_player = false ∧
      kgchess_get_winner (kgchess_promote pending_after_resignation KGCHESS_PIECE_QUEEN).2 ≠
        KGCHESS_PLAYER_NONE :=
  ⟨Or.inr ⟨KGCHESS_PIECE_QUEEN, eq_true_pair (by decide!)⟩,
    (no_legal_move_iff _).2 (by decide!), by decide!, by decide!⟩

/-- C4, amended (stalemate): whenever checkmate detection ran and in the
resulting state the current player has no legal move on any square it owns and
its king is not attacked, the phase is Ended and the winner reported by
`kgchess_get_winner` is the winner recorded before the call; it is None when
no winner had been recorded. -/
theorem stalemate_detected (g g' : kgchess_t) (h : detection_ran g g')
    (hn : no_legal_move g') (hc : is_in_check g' g'.current_player = false) :
    g'.state = KGCHESS_STATE_ENDED ∧ kgchess_get_winner g' = g.winner ∧
      (g.winner = KGCHESS_PLAYER_NONE → kgchess_get_winner g' = KGCHESS_PLAYER_NONE) := by
  obtain ⟨g1, rfl, -, hw⟩ := detection_ran_eq h
  rw [no_legal_move_check_checkmate] at hn
  rw [check_checkmate_current_player,
    is_in_check_congr (check_checkmate_pieces g1)] at hc
  have he := check_checkmate_end hn
  rw [hc] at he
  have hw' : kgchess_get_winner (check_checkmate g1) = g.winner := by
    unfold kgchess_get_winner
    rw [← hw]
    simpa using he.2
  exact ⟨he.1, hw', fun h0 => by rw [hw', h0]⟩

theorem stalemate_detected_witness :
    detection_ran (kgchess_move pawn_b7_position pawn_b8_move).2
        (kgchess_promote (kgchess_move pawn_b7_position pawn_b8_move).2 KGCHESS_PIECE_QUEEN).2 ∧
      (kgchess_promote (kgchess_move pawn_b7_position pawn_b8_move).2
        KGCHESS_PIECE_QUEEN).2.state = KGCHESS_STATE_ENDED ∧
      kgchess_get_winner (kgchess_promote (kgchess_move pawn_b7_position pawn_b8_move).2
        KGCHESS_PIECE_QUEEN).2 = KGCHESS_PLAYER_NONE :=
  have hd : detection_ran (kgchess_move pawn_b7_position pawn_b8_move).2
      (kgchess_promote (kgchess_move pawn_b7_position pawn_b8_move).2 KGCHESS_PIECE_QUEEN).2 :=
    Or.inr ⟨KGCHESS_PIECE_QUEEN, eq_true_pair (by decide!)⟩
  have h := stalemate_detected _ _ hd ((no_legal_move_iff _).2 (by decide!)) (by decide!)
  ⟨hd, h.1, h.2.2 (by decide!)⟩

/-- C5 (castling preconditions): in a state whose only king of player `P` stands
on `(4, y)`, and for a rook file `r` that is 0 or 7, the list
`kgchess_get_moves g 4 y` contains a castling-flagged move to file `castle_to r`
(2 for `r = 0`, 6 for `r = 7`) if and only if the king on `(4, y)` and a rook on
`(r, y)` both carry the never-moved mark `last_move_num = -1`, every square
strictly between them is empty, `P` is not in check, and neither the transit
square (file 3 resp. 5) nor the destination square is attacked by the opponent
of `P`.  Being an equivalence, it also says that the candidate disappears as
soon as one of the conditions fails. -/
theorem castling_offered (g : kgchess_t) (y r : Int) (P : kgchess_player_t)
    (hr : r = 0 ∨ r = 7) (hP : P = KGCHESS_PLAYER_WHITE ∨ P = KGCHESS_PLAYER_BLACK)
    (hk : kgchess_get_piece_at g 4 y = ⟨KGCHESS_PIECE_KING, P⟩)
    (hu : ∀ a b : Int, kgchess_get_piece_at g a b = ⟨KGCHESS_PIECE_KING, P⟩ → a = 4 ∧ b = y) :
    (∃ m ∈ kgchess_get_moves g 4 y, m.is_castling = true ∧ m.to_.x = castle_to r) ↔
      ((get_piece_at g 4 y).last_move_num = -1 ∧
        (get_piece_at g r y).type = KGCHESS_PIECE_ROOK ∧
        (get_piece_at g r y).last_move_num = -1 ∧
        (∀ u : Int, min 4 r < u → u < max 4 r → is_position_empty g u y = true) ∧
        is_in_check g P = false ∧
        kgchess_is_square_attacked_by_player g (castle_transit r) y
          (kgchess_get_enemy_player P) = false ∧
        kgchess_is_square_attacked_by_player g (castle_to r) y
          (kgchess_get_enemy_player P) = false) := by
  have hkt : (kgchess_get_piece_at g 4 y).type = KGCHESS_PIECE_KING := by rw [hk]
  have hkp : (kgchess_get_piece_at g 4 y).player = P := by rw [hk]
  have hkt2 : (get_piece_at g 4 y).type = KGCHESS_PIECE_KING := hkt
  have hkp2 : (get_piece_at g 4 y).player = P := hkp
  have hy : 0 ≤ y ∧ y < 8 := by
    have := in_range_of_type (by rw [hkt]; simp :
      (kgchess_get_piece_at g 4 y).type ≠ KGCHESS_PIECE_NONE)
    omega
  have hto : 0 ≤ castle_to r ∧ castle_to r < 8 := by
    unfold castle_to
    rcases hr with rfl | rfl <;> simp
  rw [castle_listed_iff hr hkt, is_castling_possible_iff hr, hkp2]
  unfold passes_filter
  have hfrom : (kgchess_get_piece_at g (castle_move y r).from_.x (castle_move y r).from_.y).player
      = P := hkp
  have hmto : (castle_move y r).to_.x = castle_to r ∧ (castle_move y r).to_.y = y := ⟨rfl, rfl⟩
  rw [hfrom, hmto.1, hmto.2]
  constructor
  · rintro ⟨⟨-, h2, h3, h4, h5, h6, h7⟩, -, h8⟩
    have S := castle_setting_of hr hP hk hu h2 h6 h5
    rw [castle_destination S] at h8
    exact ⟨h3, h2, h4, h6, h5, h7, h8⟩
  · rintro ⟨h3, h2, h4, h6, h5, h7, h8⟩
    have S := castle_setting_of hr hP hk hu h2 h6 h5
    refine ⟨⟨hkt2, h2, h3, h4, h5, h6, h7⟩, ⟨hto.1, hto.2, hy.1, hy.2⟩, ?_⟩
    rw [castle_destination S]
    exact h8

theorem castling_offered_witness :
    kgchess_get_piece_at castle_position 4 0 = ⟨KGCHESS_PIECE_KING, KGCHESS_PLAYER_WHITE⟩ ∧
      castle_move 0 7 ∈ kgchess_get_moves castle_position 4 0 ∧
      kgchess_is_square_attacked_by_player castle_position (castle_to 7) 0
        (kgchess_get_enemy_player KGCHESS_PLAYER_WHITE) = false ∧
      (∀ m ∈ kgchess_get_moves castle_position 4 0,
        m.is_castling = true → m.to_.x ≠ castle_to 0) ∧
      kgchess_is_square_attacked_by_player castle_position (castle_transit 0) 0
        (kgchess_get_enemy_player KGCHESS_PLAYER_WHITE) = true :=
  have h7 := castling_offered castle_position 0 7 KGCHESS_PLAYER_WHITE (Or.inr rfl) (Or.inl rfl)
    (by decide!) castle_position_king
  have h0 := castling_offered castle_position 0 0 KGCHESS_PLAYER_WHITE (Or.inl rfl) (Or.inl rfl)
    (by decide!) castle_position_king
  ⟨by decide!, by decide!,
    (h7.1 ⟨castle_move 0 7, by decide!, rfl, rfl⟩).2.2.2.2.2.2,
    fun m hm hc ht => by
      have h := (h0.1 ⟨m, hm, hc, ht⟩).2.2.2.2.2.1
      exact absurd h (by decide!),
    by decide!⟩

/-- C6 as stated fails: the engine does not ask that the pawn moved last be an
enemy pawn.  After 1. d2-d4 a7-a6 2. e2-e4 the list of White's pawn on d4
contains an en-passant-flagged move onto e5, although the pawn that has just
advanced two squares beside it, on e4, is White's own. -/
theorem en_passant_own_pawn_counterexample :
    reachable own_pawn_game false ∧
      kgchess_get_piece_at own_pawn_game 3 3 = ⟨KGCHESS_PIECE_PAWN, KGCHESS_PLAYER_WHITE⟩ ∧
      (⟨⟨3, 3⟩, ⟨4, 4⟩, false, true, true⟩ : kgchess_move_t) ∈ kgchess_get_moves own_pawn_game 3 3 ∧
      own_pawn_game.last_move = ⟨⟨4, 1⟩, ⟨4, 3⟩, false, false, false⟩ ∧
      (kgchess_get_piece_at own_pawn_game 4 3).player ≠
        kgchess_get_enemy_player KGCHESS_PLAYER_WHITE := by
  have hc := own_pawn_game_core
  refine ⟨own_pawn_game_reachable, ?_, ?_, ?_, ?_⟩
  · rw [kgchess_get_piece_at_congr hc.pieces]
    decide!
  · rw [kgchess_get_moves_congr hc]
    decide!
  · rw [hc.last_move]
    decide!
  · rw [kgchess_get_piece_at_congr hc.pieces]
    decide!

/-- C6, amended (en passant window): for a pawn on `(x, y)`, the list
`kgchess_get_moves g x y` contains an en-passant-flagged move if and only if at
least one ply has been played, the destination of the last move holds a pawn
(of either player) on rank `y` on file `x - 1` or `x + 1`, the last move
covered two ranks, and the capture passes the legality filter; the offered
move is the capture onto (that pawn's file, `y + dir`); and once any further
listed move has been applied, no en passant capture onto that pawn's file is
listed for `(x, y)`. -/
theorem en_passant_window (g : kgchess_t) (x y : Int)
    (hp : (kgchess_get_piece_at g x y).type = KGCHESS_PIECE_PAWN) :
    ((∃ m ∈ kgchess_get_moves g x y, m.is_en_passant = true) ↔
        (en_passant_conditions g x y ∧ passes_filter g (en_passant_move g x y))) ∧
      (∀ m ∈ kgchess_get_moves g x y, m.is_en_passant = true → m = en_passant_move g x y) ∧
      (∀ (a b : Int) (m' m : kgchess_move_t), en_passant_conditions g x y →
        m' ∈ kgchess_get_moves g a b → m ∈ kgchess_get_moves (kgchess_move g m').2 x y →
        m.is_en_passant = true → m.to_.x ≠ g.last_move.to_.x) := by
  refine ⟨⟨?_, ?_⟩, ?_, ?_⟩
  · rintro ⟨m, hm, he⟩
    obtain ⟨-, hc, -, ha⟩ := en_passant_of_mem hm he
    exact ⟨hc, (passes_filter_iff _ _).2 ha⟩
  · rintro ⟨hc, ha⟩
    exact ⟨_, en_passant_mem hp hc ((passes_filter_iff _ _).1 ha), rfl⟩
  · intro m hm he
    exact (en_passant_of_mem hm he).2.2.1
  · intro a b m' m hc hm' hm he
    refine en_passant_expires ?_ hm' hm he
    rw [← hc.2.2.1, hc.2.1]
    decide

theorem en_passant_window_witness :
    (kgchess_get_piece_at en_passant_position 4 4).type = KGCHESS_PIECE_PAWN ∧
      en_passant_move en_passant_position 4 4 = ⟨⟨4, 4⟩, ⟨3, 5⟩, false, true, true⟩ ∧
      en_passant_conditions en_passant_position 4 4 ∧
      passes_filter en_passant_position (en_passant_move en_passant_position 4 4) :=
  have h := (en_passant_window en_passant_position 4 4 (by decide!)).1
  ⟨by decide!, by decide!, h.1 ⟨en_passant_move en_passant_position 4 4, by decide!, rfl⟩⟩

/-- C7 (promote fails atomically): if the phase is not AwaitingPromotion, or a
coordinate of the promotion square is -1 (no square recorded), or the kind is
King or Pawn, then `kgchess_promote` returns false and the game is unchanged. -/
theorem promote_fails_atomically (g : kgchess_t) (piece_type : kgchess_piece_type_t)
    (h : g.state ≠ KGCHESS_STATE_PROMOTION ∨
      (g.promotion_pos.x = -1 ∨ g.promotion_pos.y = -1) ∨
      piece_type = KGCHESS_PIECE_KING ∨ piece_type = KGCHESS_PIECE_PAWN) :
    kgchess_promote g piece_type = (false, g) := by
  unfold kgchess_promote
  rcases h with h | h | h | h
  · simp [h]
  · split
    · rfl
    · simp [h]
  · split
    · rfl
    · split
      · rfl
      · simp [h]
  · split
    · rfl
    · split
      · rfl
      · simp [h]

theorem promote_fails_atomically_witness :
    (kgchess_make.state ≠ KGCHESS_STATE_PROMOTION ∨
      (kgchess_make.promotion_pos.x = -1 ∨ kgchess_make.promotion_pos.y = -1) ∨
      KGCHESS_PIECE_QUEEN = KGCHESS_PIECE_KING ∨ KGCHESS_PIECE_QUEEN = KGCHESS_PIECE_PAWN) ∧
      kgchess_promote kgchess_make KGCHESS_PIECE_QUEEN = (false, kgchess_make) :=
  ⟨Or.inl (by decide), promote_fails_atomically _ _ (Or.inl (by decide))⟩

/-- C8 as stated fails: in `promotion_off_board` the phase is AwaitingPromotion
and a promotion square is recorded (neither coordinate is -1, the only test of
`kgchess_promote`), `kgchess_promote` with Queen returns true, and afterwards
the occupant of the promotion square `(8, 7)` is the empty occupant, not a
queen: the square is off the board, where `set_piece_at` writes nothing. -/
theorem promote_off_board_counterexample :
    promotion_off_board.state = KGCHESS_STATE_PROMOTION ∧
      promotion_off_board.promotion_pos = ⟨8, 7⟩ ∧
      (promotion_off_board.promotion_pos.x ≠ -1 ∧ promotion_off_board.promotion_pos.y ≠ -1) ∧
      (kgchess_promote promotion_off_board KGCHESS_PIECE_QUEEN).1 = true ∧
      kgchess_get_piece_at (kgchess_promote promotion_off_board KGCHESS_PIECE_QUEEN).2 8 7 =
        ⟨KGCHESS_PIECE_NONE, KGCHESS_PLAYER_NONE⟩ := by
  refine ⟨by decide!, by decide!, by decide!, by decide!, by decide!⟩

/-- C8, amended (promote success): in phase AwaitingPromotion with a recorded
promotion square (neither coordinate is -1) and a kind other than King and
Pawn, `kgchess_promote` returns true; afterwards, if the promotion square is a
square of the board, its occupant has the chosen kind with its owner and
last-moved marker unchanged, and if it is not, no square has changed; every
other square, the ply counter and the last move are unchanged, the current
player is the opponent of the previous one, and the phase is AwaitingMove or
Ended, Ended exactly when the new current player has no legal move. -/
theorem promote_success (g : kgchess_t) (piece_type : kgchess_piece_type_t)
    (hs : g.state = KGCHESS_STATE_PROMOTION)
    (hr : g.promotion_pos.x ≠ -1 ∧ g.promotion_pos.y ≠ -1)
    (hk : piece_type ≠ KGCHESS_PIECE_KING ∧ piece_type ≠ KGCHESS_PIECE_PAWN) :
    (kgchess_promote g piece_type).1 = true ∧
      (in_board g.promotion_pos.x g.promotion_pos.y →
        get_piece_at (kgchess_promote g piece_type).2 g.promotion_pos.x g.promotion_pos.y =
          { get_piece_at g g.promotion_pos.x g.promotion_pos.y with type := piece_type }) ∧
      (¬ in_board g.promotion_pos.x g.promotion_pos.y →
        ∀ a b : Int, get_piece_at (kgchess_promote g piece_type).2 a b = get_piece_at g a b) ∧
      (∀ a b : Int, ¬ (a = g.promotion_pos.x ∧ b = g.promotion_pos.y) →
        get_piece_at (kgchess_promote g piece_type).2 a b = get_piece_at g a b) ∧
      (kgchess_promote g piece_type).2.move_num = g.move_num ∧
      (kgchess_promote g piece_type).2.last_move = g.last_move ∧
      (kgchess_promote g piece_type).2.current_player =
        kgchess_get_enemy_player g.current_player ∧
      ((kgchess_promote g piece_type).2.state = KGCHESS_STATE_MOVE ∨
        (kgchess_promote g piece_type).2.state = KGCHESS_STATE_ENDED) ∧
      ((kgchess_promote g piece_type).2.state = KGCHESS_STATE_ENDED ↔
        no_legal_move (kgchess_promote g piece_type).2) := by
  have h1 : ¬ (g.promotion_pos.x = -1 ∨ g.promotion_pos.y = -1) := by
    rintro (h | h)
    · exact hr.1 h
    · exact hr.2 h
  have h2 : ¬ (piece_type = KGCHESS_PIECE_PAWN ∨ piece_type = KGCHESS_PIECE_KING) := by
    rintro (h | h)
    · exact hk.2 h
    · exact hk.1 h
  have hg : ∀ (c : kgchess_t) (a b : Int),
      get_piece_at (check_checkmate c) a b = get_piece_at c a b := by
    intro c a b
    simp [get_piece_at, check_checkmate_pieces]
  have he : kgchess_promote g piece_type = (true, check_checkmate
      { set_piece_at g
          { get_piece_at g g.promotion_pos.x g.promotion_pos.y with type := piece_type }
          g.promotion_pos.x g.promotion_pos.y with
        state := KGCHESS_STATE_MOVE
        current_player := kgchess_get_enemy_player g.current_player }) := by
    simp [kgchess_promote, hs, h1, h2]
  rw [he]
  dsimp only
  have hget : ∀ a b : Int, get_piece_at
      { set_piece_at g
          { get_piece_at g g.promotion_pos.x g.promotion_pos.y with type := piece_type }
          g.promotion_pos.x g.promotion_pos.y with
        state := KGCHESS_STATE_MOVE
        current_player := kgchess_get_enemy_player g.current_player } a b =
      get_piece_at (set_piece_at g
          { get_piece_at g g.promotion_pos.x g.promotion_pos.y with type := piece_type }
          g.promotion_pos.x g.promotion_pos.y) a b := fun a b => rfl
  refine ⟨rfl, ?_, ?_, ?_, ?_, ?_, ?_, ?_, ?_⟩
  · intro hb
    rw [hg, hget, get_piece_at_set_piece_at, if_pos ⟨hb, rfl, rfl⟩]
  · intro hb a b
    rw [hg, hget, get_piece_at_set_piece_at, if_neg (fun h => hb h.1)]
  · intro a b hab
    rw [hg, hget, get_piece_at_set_piece_at]
    simp [hab]
  · rw [check_checkmate_move_num]
    exact set_piece_at_move_num _ _ _ _
  · rw [check_checkmate_last_move]
    exact set_piece_at_last_move _ _ _ _
  · rw [check_checkmate_current_player]
  · by_cases hn : no_legal_move
        { set_piece_at g
            { get_piece_at g g.promotion_pos.x g.promotion_pos.y with type := piece_type }
            g.promotion_pos.x g.promotion_pos.y with
          state := KGCHESS_STATE_MOVE
          current_player := kgchess_get_enemy_player g.current_player }
    · exact Or.inr (check_checkmate_end hn).1
    · rw [check_checkmate_continue hn]
      exact Or.inl rfl
  · rw [no_legal_move_check_checkmate]
    constructor
    · intro hE
      by_contra hn
      rw [check_checkmate_continue hn] at hE
      cases hE
    · intro hn
      exact (check_checkmate_end hn).1

theorem promote_success_witness :
    (kgchess_move pawn_b7_position pawn_b8_move).2.state = KGCHESS_STATE_PROMOTION ∧
      (kgchess_promote (kgchess_move pawn_b7_position pawn_b8_move).2 KGCHESS_PIECE_ROOK).1
        = true ∧
      (get_piece_at (kgchess_promote (kgchess_move pawn_b7_position pawn_b8_move).2
        KGCHESS_PIECE_ROOK).2 1 7).type = KGCHESS_PIECE_ROOK :=
  have h := promote_success (kgchess_move pawn_b7_position pawn_b8_move).2 KGCHESS_PIECE_ROOK
    (by decide!) (by decide!) (by decide)
  ⟨by decide!, h.1, by decide!⟩

/-- C9 (ply accounting): for every state, move and value of `update_state`,
`apply_move` increases `move_num` by exactly one and sets `last_move` to the
move; `kgchess_promote`, successful or not, leaves both unchanged.  (The C
`int` counter is an unbounded integer here.) -/
theorem ply_accounting (g : kgchess_t) (m : kgchess_move_t) (update_state : Bool)
    (piece_type : kgchess_piece_type_t) :
    (apply_move g m update_state).move_num = g.move_num + 1 ∧
      (apply_move g m update_state).last_move = m ∧
      (kgchess_promote g piece_type).2.move_num = g.move_num ∧
      (kgchess_promote g piece_type).2.last_move = g.last_move := by
  refine ⟨?_, ?_, ?_, ?_⟩
  · unfold apply_move
    dsimp only
    split
    · rw [check_checkmate_move_num]; exact apply_move_body_move_num g m
    · exact apply_move_body_move_num g m
  · unfold apply_move
    dsimp only
    split
    · rw [check_checkmate_last_move]; exact apply_move_body_last_move g m
    · exact apply_move_body_last_move g m
  · unfold kgchess_promote
    split_ifs <;> simp [check_checkmate_move_num]
  · unfold kgchess_promote
    split_ifs <;> simp [check_checkmate_last_move]

/-- C10 as stated fails on reachable states.  In the nine-ply game above, once
the promotion on b8 has been resolved the phase is AwaitingMove while the
promotion square is still recorded and the last applied move is still the pawn
move onto the back rank; and if the host moves again instead of promoting, the
phase stays AwaitingPromotion although the last applied move is not a pawn move
onto the back rank. -/
theorem promotion_pending_counterexample :
    (reachable promotion_game_resolved true ∧
        promotion_game_resolved.state ≠ KGCHESS_STATE_PROMOTION ∧
        promotion_game_resolved.promotion_pos ≠ KGCHESS_POS_INVALID) ∧
      (reachable promotion_game_unresolved false ∧
        promotion_game_unresolved.state = KGCHESS_STATE_PROMOTION) := by
  refine ⟨⟨reachable.promote KGCHESS_PIECE_QUEEN promotion_game_9_reachable, ?_, ?_⟩,
    ⟨reachable_move 7 4 _ promotion_game_9_reachable
      ((kgchess_get_moves_congr promotion_game_9_core 7 4).symm ▸ (by decide!))
      ((promotes_congr promotion_game_9_core _).trans (by decide!)),
      kgchess_move_state_pending _ promotion_game_9_state⟩⟩
  · have h := (promote_success_state promotion_game_9 KGCHESS_PIECE_QUEEN)
    intro hc
    rcases h with h | h | h
    · rw [kgchess_promote_fst promotion_game_9_state
        (by rw [promotion_game_9_promotion_pos]; decide) (by decide)] at h
      cases h
    · rw [promotion_game_resolved, h] at hc; cases hc
    · rw [promotion_game_resolved, h] at hc; cases hc
  · unfold promotion_game_resolved
    rw [kgchess_promote_promotion_pos, promotion_game_9_promotion_pos]
    decide

/-- C10, amended (promotion-pending invariant): in every reachable state, if
the phase is AwaitingPromotion then a promotion square is recorded
(`promotion_pos` is not `(-1, -1)`), and if the last applied move moved a pawn
onto its far back rank then a promotion square is recorded and it is the
destination of that move. -/
theorem promotion_pending_invariant (g : kgchess_t) (b : Bool) (h : reachable g b) :
    (g.state = KGCHESS_STATE_PROMOTION → g.promotion_pos ≠ KGCHESS_POS_INVALID) ∧
      (b = true → g.promotion_pos ≠ KGCHESS_POS_INVALID ∧ g.promotion_pos = g.last_move.to_) := by
  induction h with
  | make =>
    refine ⟨fun hs => ?_, fun hb => by cases hb⟩
    have : kgchess_make.state = KGCHESS_STATE_MOVE := rfl
    rw [this] at hs
    cases hs
  | @move g b x y m _ _ ih =>
    have hl : (kgchess_move g m).2.last_move = m := by
      show (apply_move g m true).last_move = m
      unfold apply_move
      dsimp only
      split
      · rw [check_checkmate_last_move]; exact apply_move_body_last_move g m
      · exact apply_move_body_last_move g m
    have hp : (kgchess_move g m).2.promotion_pos =
        if promotes g m = true then m.to_ else g.promotion_pos := by
      show (apply_move g m true).promotion_pos = _
      rw [apply_move_promotion_pos, apply_move_body_promotion_pos]
    cases hb : promotes g m
    · rw [hb] at hp
      simp only [Bool.false_eq_true, if_false] at hp
      refine ⟨fun hs => ?_, fun hc => by cases hc⟩
      have h1 := apply_move_state_promotion hs
      rw [apply_move_body_state, hb] at h1
      simp only [Bool.false_eq_true, if_false] at h1
      rw [hp]
      exact ih.1 h1
    · rw [hb] at hp
      simp only [if_true] at hp
      rw [hp, hl]
      exact ⟨fun _ => promotes_to_valid hb, fun _ => ⟨promotes_to_valid hb, rfl⟩⟩
  | @promote g b k _ ih =>
    rw [kgchess_promote_promotion_pos, kgchess_promote_last_move]
    exact ⟨fun hs => ih.1 (kgchess_promote_state_promotion hs), ih.2⟩
  | draw _ ih =>
    exact ⟨fun hs => (by cases hs), ih.2⟩
  | set_winner player _ ih =>
    exact ⟨fun hs => (by cases hs), ih.2⟩

theorem promotion_pending_invariant_witness :
    reachable promotion_game_9 true ∧
      promotion_game_9.promotion_pos ≠ KGCHESS_POS_INVALID ∧
      promotion_game_9.promotion_pos = promotion_game_9.last_move.to_ :=
  ⟨promotion_game_9_reachable,
    (promotion_pending_invariant promotion_game_9 true promotion_game_9_reachable).2 rfl⟩

/-- C11 as stated fails: `drawn_game` is a reachable state in phase Ended, the
capture a7xb8 is in the list of the pawn on a7, and after `kgchess_move` with it
the phase is AwaitingPromotion. -/
theorem ended_not_terminal_counterexample :
    reachable drawn_game false ∧ drawn_game.state = KGCHESS_STATE_ENDED ∧
      promotion_game_capture ∈ kgchess_get_moves drawn_game 0 6 ∧
      (kgchess_move drawn_game promotion_game_capture).2.state = KGCHESS_STATE_PROMOTION := by
  refine ⟨drawn_game_reachable, rfl, ?_, ?_⟩
  · rw [kgchess_get_moves_congr (same_core_trans drawn_game_core promotion_game_8_core)]
    decide!
  · rw [kgchess_move_state, promotes_congr drawn_game_core, promotion_game_capture_promotes]
    rfl

/-- C11, amended (Ended): in phase Ended `kgchess_promote` returns false and
changes nothing, and `kgchess_move` leaves the phase Ended unless the move is an
ordinary move of a pawn onto its far back rank, in which case the phase becomes
AwaitingPromotion. -/
theorem ended_terminal (g : kgchess_t) (m : kgchess_move_t) (piece_type : kgchess_piece_type_t)
    (hs : g.state = KGCHESS_STATE_ENDED) :
    kgchess_promote g piece_type = (false, g) ∧
      (kgchess_move g m).2.state =
        if promotes g m = true then KGCHESS_STATE_PROMOTION else KGCHESS_STATE_ENDED := by
  constructor
  · simp [kgchess_promote, hs]
  · rw [kgchess_move_state, hs]
    simp

theorem ended_terminal_witness :
    (kgchess_set_winner back_rank_position KGCHESS_PLAYER_BLACK).state = KGCHESS_STATE_ENDED ∧
      kgchess_promote (kgchess_set_winner back_rank_position KGCHESS_PLAYER_BLACK)
          KGCHESS_PIECE_QUEEN =
        (false, kgchess_set_winner back_rank_position KGCHESS_PLAYER_BLACK) ∧
      (kgchess_move (kgchess_set_winner back_rank_position KGCHESS_PLAYER_BLACK)
        back_rank_move).2.state = KGCHESS_STATE_ENDED :=
  have h := ended_terminal (kgchess_set_winner back_rank_position KGCHESS_PLAYER_BLACK)
    back_rank_move KGCHESS_PIECE_QUEEN rfl
  ⟨rfl, h.1, h.2.trans (by decide!)⟩

/-- C12 (turn advancement): `kgchess_move` hands the turn to
`kgchess_get_enemy_player` of the current player when the phase before the call
is AwaitingMove and the move does not trigger a promotion, and leaves the
current player unchanged in every other case; `kgchess_promote` hands the turn
over when it succeeds and leaves the current player unchanged when it fails. -/
theorem turn_advancement (g : kgchess_t) (m : kgchess_move_t)
    (piece_type : kgchess_piece_type_t) :
    (kgchess_move g m).2.current_player =
        (if g.state = KGCHESS_STATE_MOVE ∧ promotes g m = false then
          kgchess_get_enemy_player g.current_player
        else g.current_player) ∧
      (kgchess_promote g piece_type).2.current_player =
        (if (kgchess_promote g piece_type).1 = true then
          kgchess_get_enemy_player g.current_player
        else g.current_player) := by
  constructor
  · by_cases h : g.state = KGCHESS_STATE_MOVE ∧ promotes g m = false
    · rw [if_pos h, kgchess_move_eq h.1 h.2, check_checkmate_current_player]
    · rw [if_neg h]
      have h2 : ¬ (apply_move_body g m).state = KGCHESS_STATE_MOVE := by
        rw [apply_move_body_state]
        cases hp : promotes g m
        · simp only [Bool.false_eq_true, if_false]
          exact fun hs => h ⟨hs, hp⟩
        · simp
      simp [kgchess_move, apply_move, h2, apply_move_body_current_player]
  · unfold kgchess_promote
    split
    · simp
    · split
      · simp
      · split
        · simp
        · simp [check_checkmate_current_player]

/-- C13 (ordinary move and frame): for a move that is neither castling- nor
en-passant-flagged, with origin and destination on the board and distinct,
after `apply_move` (with either value of `update_state`) the origin holds the
empty occupant, the destination holds the occupant of the origin with
`last_move_num` set to the ply counter before the move, and every other square
is unchanged. -/
theorem ordinary_move_frame (g : kgchess_t) (m : kgchess_move_t) (update_state : Bool)
    (hc : m.is_castling = false) (he : m.is_en_passant = false)
    (hf : in_board m.from_.x m.from_.y) (ht : in_board m.to_.x m.to_.y)
    (hne : m.from_ ≠ m.to_) :
    get_piece_at (apply_move g m update_state) m.from_.x m.from_.y =
        piece_make KGCHESS_PIECE_NONE KGCHESS_PLAYER_NONE ∧
      get_piece_at (apply_move g m update_state) m.to_.x m.to_.y =
        { get_piece_at g m.from_.x m.from_.y with last_move_num := g.move_num } ∧
      (∀ a b : Int, ¬ (a = m.from_.x ∧ b = m.from_.y) → ¬ (a = m.to_.x ∧ b = m.to_.y) →
        get_piece_at (apply_move g m update_state) a b = get_piece_at g a b) := by
  have hne' : ¬ (m.from_.x = m.to_.x ∧ m.from_.y = m.to_.y) := by
    rintro ⟨h1, h2⟩
    apply hne
    cases hfr : m.from_
    cases hto : m.to_
    rw [hfr, hto] at h1 h2
    simp only at h1 h2
    rw [h1, h2]
  unfold in_board at hf ht
  refine ⟨?_, ?_, ?_⟩
  · rw [get_piece_at_apply_move, apply_move_body_ordinary hc he, get_piece_at_set_piece_at,
      if_neg (fun h => hne' h.2), get_piece_at_set_piece_at, if_pos ⟨hf, rfl, rfl⟩]
  · rw [get_piece_at_apply_move, apply_move_body_ordinary hc he, get_piece_at_set_piece_at,
      if_pos ⟨ht, rfl, rfl⟩]
  · intro a b h1 h2
    rw [get_piece_at_apply_move, apply_move_body_ordinary hc he, get_piece_at_set_piece_at,
      if_neg (fun h => h2 h.2), get_piece_at_set_piece_at, if_neg (fun h => h1 h.2)]

theorem ordinary_move_frame_witness :
    get_piece_at (apply_move kgchess_make ⟨⟨4, 1⟩, ⟨4, 3⟩, false, false, false⟩ true) 4 1 =
        ⟨KGCHESS_PIECE_NONE, KGCHESS_PLAYER_NONE, -1⟩ ∧
      get_piece_at (apply_move kgchess_make ⟨⟨4, 1⟩, ⟨4, 3⟩, false, false, false⟩ true) 4 3 =
        ⟨KGCHESS_PIECE_PAWN, KGCHESS_PLAYER_WHITE, 0⟩ :=
  have h := ordinary_move_frame kgchess_make ⟨⟨4, 1⟩, ⟨4, 3⟩, false, false, false⟩ true rfl rfl
    (by decide) (by decide) (by decide)
  ⟨h.1, h.2.1.trans (by decide)⟩

/-- C14 (promotion trigger): for a move that is neither castling- nor
en-passant-flagged and either value of `update_state`, if the piece on the
origin is a White pawn and the destination is on rank 7, or a Black pawn and the
destination is on rank 0, then after `apply_move` the phase is AwaitingPromotion
and the promotion square is the destination; otherwise the promotion square is
unchanged and the phase is the one before, or Ended when the call started in
AwaitingMove with `update_state` set (so the phase is never set to
AwaitingPromotion). -/
theorem promotion_trigger (g : kgchess_t) (m : kgchess_move_t) (update_state : Bool)
    (hc : m.is_castling = false) (he : m.is_en_passant = false) :
    ((get_piece_at g m.from_.x m.from_.y).type = KGCHESS_PIECE_PAWN ∧
        (((get_piece_at g m.from_.x m.from_.y).player = KGCHESS_PLAYER_WHITE ∧ m.to_.y = 7) ∨
          ((get_piece_at g m.from_.x m.from_.y).player = KGCHESS_PLAYER_BLACK ∧ m.to_.y = 0)) →
        (apply_move g m update_state).state = KGCHESS_STATE_PROMOTION ∧
          (apply_move g m update_state).promotion_pos = m.to_) ∧
      (¬ ((get_piece_at g m.from_.x m.from_.y).type = KGCHESS_PIECE_PAWN ∧
        (((get_piece_at g m.from_.x m.from_.y).player = KGCHESS_PLAYER_WHITE ∧ m.to_.y = 7) ∨
          ((get_piece_at g m.from_.x m.from_.y).player = KGCHESS_PLAYER_BLACK ∧ m.to_.y = 0))) →
        (apply_move g m update_state).promotion_pos = g.promotion_pos ∧
          ((apply_move g m update_state).state = g.state ∨
            ((apply_move g m update_state).state = KGCHESS_STATE_ENDED ∧
              g.state = KGCHESS_STATE_MOVE ∧ update_state = true))) := by
  have hiff : promotes g m = true ↔
      ((get_piece_at g m.from_.x m.from_.y).type = KGCHESS_PIECE_PAWN ∧
        (((get_piece_at g m.from_.x m.from_.y).player = KGCHESS_PLAYER_WHITE ∧ m.to_.y = 7) ∨
          ((get_piece_at g m.from_.x m.from_.y).player = KGCHESS_PLAYER_BLACK ∧ m.to_.y = 0))) := by
    simp [promotes, hc, he]
  rw [← hiff, apply_move_promotion_pos, apply_move_body_promotion_pos]
  constructor
  · intro hp
    rw [if_pos hp]
    refine ⟨?_, rfl⟩
    have h1 : (apply_move_body g m).state = KGCHESS_STATE_PROMOTION := by
      rw [apply_move_body_state, if_pos hp]
    unfold apply_move
    dsimp only
    rw [if_neg (by rw [h1]; simp)]
    exact h1
  · intro hp
    rw [if_neg hp]
    refine ⟨rfl, ?_⟩
    have h1 : (apply_move_body g m).state = g.state := by
      rw [apply_move_body_state, if_neg hp]
    unfold apply_move
    dsimp only
    split
    · rename_i h2
      rcases check_checkmate_state_cases
        { apply_move_body g m with
          current_player := kgchess_get_enemy_player (apply_move_body g m).current_player }
        with h | h
      · left
        rw [h]
        exact h1
      · right
        exact ⟨h, h1 ▸ h2.1, h2.2⟩
    · exact Or.inl h1

theorem promotion_trigger_witness :
    (apply_move pawn_b7_position pawn_b8_move false).state = KGCHESS_STATE_PROMOTION ∧
      (apply_move pawn_b7_position pawn_b8_move true).state = KGCHESS_STATE_PROMOTION ∧
      (apply_move pawn_b7_position pawn_b8_move true).promotion_pos = ⟨1, 7⟩ :=
  have h0 := (promotion_trigger pawn_b7_position pawn_b8_move false rfl rfl).1 (by decide)
  have h1 := (promotion_trigger pawn_b7_position pawn_b8_move true rfl rfl).1 (by decide)
  ⟨h0.1, h1.1, h1.2⟩

/-- C15 (castling application): for a castling-flagged move `m` in a list of
`kgchess_get_moves`, the destination is on file 2 or 6 of the king's rank, the
origin holds a king and the square on file `rook_from_x m` of that rank a rook;
after `kgchess_move` both of these squares hold the empty occupant, the king
stands on the destination and the rook on file `rook_to_x m` (3 resp. 5), both
with kind and owner kept and `last_move_num` set to the ply counter before the
move, and every other square is unchanged. -/
theorem castling_application (g : kgchess_t) (x y : Int) (m : kgchess_move_t)
    (h : m ∈ kgchess_get_moves g x y) (hc : m.is_castling = true) :
    (m.to_.x = 2 ∨ m.to_.x = 6) ∧ m.to_.y = m.from_.y ∧
      (get_piece_at g m.from_.x m.from_.y).type = KGCHESS_PIECE_KING ∧
      (get_piece_at g (rook_from_x m) m.from_.y).type = KGCHESS_PIECE_ROOK ∧
      get_piece_at (kgchess_move g m).2 m.from_.x m.from_.y =
        piece_make KGCHESS_PIECE_NONE KGCHESS_PLAYER_NONE ∧
      get_piece_at (kgchess_move g m).2 (rook_from_x m) m.from_.y =
        piece_make KGCHESS_PIECE_NONE KGCHESS_PLAYER_NONE ∧
      get_piece_at (kgchess_move g m).2 m.to_.x m.to_.y =
        { get_piece_at g m.from_.x m.from_.y with last_move_num := g.move_num } ∧
      get_piece_at (kgchess_move g m).2 (rook_to_x m) m.from_.y =
        { get_piece_at g (rook_from_x m) m.from_.y with last_move_num := g.move_num } ∧
      (∀ a b : Int,
        ¬ (b = m.from_.y ∧ (a = m.from_.x ∨ a = rook_from_x m ∨ a = m.to_.x ∨ a = rook_to_x m)) →
        get_piece_at (kgchess_move g m).2 a b = get_piece_at g a b) := by
  have hr := in_range_of_type (Gen.get_moves_type h)
  obtain ⟨r, hr07, hp, rfl⟩ := castling_of_mem h hc
  obtain ⟨hk, hrk, -, -, -, hb, -⟩ := (is_castling_possible_iff hr07).1 hp
  have hg : ∀ a b : Int, get_piece_at (kgchess_move g
      ⟨⟨x, y⟩, ⟨castle_to r, y⟩, true, false, false⟩).2 a b = _ :=
    fun a b => (get_piece_at_apply_move g _ true a b).trans (apply_move_body_castling rfl a b)
  have hempty : ∀ u : Int, min 4 r < u → u < max 4 r → x ≠ u := by
    intro u h1 h2 hxu
    have := hb u h1 h2
    rw [← hxu] at this
    simp only [is_position_empty, kgchess_get_piece_at, convert_piece, decide_eq_true_eq] at this
    rw [hk] at this
    cases this
  have hxr : x ≠ r := by
    intro hxr
    rw [← hxr, hk] at hrk
    cases hrk
  simp only [hg, get_piece_at_set_piece_at, rook_from_x, rook_to_x]
  rcases hr07 with rfl | rfl
  · have h1 := hempty 1 (by simp) (by simp)
    have h2 := hempty 2 (by simp) (by simp)
    have h3 := hempty 3 (by simp) (by simp)
    simp only [castle_to, if_true]
    refine ⟨Or.inl trivial, trivial, hk, hrk, ?_, ?_, ?_, ?_, ?_⟩
    · simp [hr, h1, h2, h3, hxr]
    · simp [hr, Ne.symm hxr]
    · simp [hr]
    · simp [hr]
    · intro a b hab
      have : ¬ (a = 3 ∧ b = y) ∧ ¬ (a = 2 ∧ b = y) ∧ ¬ (a = 0 ∧ b = y) ∧ ¬ (a = x ∧ b = y) := by
        refine ⟨?_, ?_, ?_, ?_⟩ <;> rintro ⟨rfl, rfl⟩ <;> simp at hab
      simp [this]
  · have h5 := hempty 5 (by simp) (by simp)
    have h6 := hempty 6 (by simp) (by simp)
    have e : ¬ ((7 : Int) = 0) := by decide
    have e6 : ¬ ((6 : Int) = 2) := by decide
    simp only [castle_to, e, e6, if_false]
    refine ⟨Or.inr trivial, trivial, hk, hrk, ?_, ?_, ?_, ?_, ?_⟩
    · simp [hr, h5, h6, hxr]
    · simp [hr, Ne.symm hxr]
    · simp [hr]
    · simp [hr]
    · intro a b hab
      have : ¬ (a = 5 ∧ b = y) ∧ ¬ (a = 6 ∧ b = y) ∧ ¬ (a = 7 ∧ b = y) ∧ ¬ (a = x ∧ b = y) := by
        refine ⟨?_, ?_, ?_, ?_⟩ <;> rintro ⟨rfl, rfl⟩ <;> simp at hab
      simp [this]

theorem castling_application_witness :
    castle_move 0 7 ∈ kgchess_get_moves castle_position 4 0 ∧
      get_piece_at (kgchess_move castle_position (castle_move 0 7)).2 6 0 =
        ⟨KGCHESS_PIECE_KING, KGCHESS_PLAYER_WHITE, 40⟩ ∧
      get_piece_at (kgchess_move castle_position (castle_move 0 7)).2 5 0 =
        ⟨KGCHESS_PIECE_ROOK, KGCHESS_PLAYER_WHITE, 40⟩ ∧
      get_piece_at (kgchess_move castle_position (castle_move 0 7)).2 4 0 =
        ⟨KGCHESS_PIECE_NONE, KGCHESS_PLAYER_NONE, -1⟩ ∧
      get_piece_at (kgchess_move castle_position (castle_move 0 7)).2 7 0 =
        ⟨KGCHESS_PIECE_NONE, KGCHESS_PLAYER_NONE, -1⟩ :=
  have h := castling_application castle_position 4 0 (castle_move 0 7) (by decide!) rfl
  ⟨by decide!, h.2.2.2.2.2.2.1.trans (by decide!), h.2.2.2.2.2.2.2.1.trans (by decide!),
    h.2.2.2.2.1, h.2.2.2.2.2.1⟩

/-- C16 (en passant application): for an en-passant-flagged move `m` in a list
of `kgchess_get_moves`, the origin holds a pawn and the destination is one rank
ahead of it; after `kgchess_move` the origin and the square on the file of the
destination and the rank of the origin hold the empty occupant, the pawn stands
on the destination (stamped with the ply counter before the move), and every
other square is unchanged. -/
theorem en_passant_application (g : kgchess_t) (x y : Int) (m : kgchess_move_t)
    (h : m ∈ kgchess_get_moves g x y) (he : m.is_en_passant = true) :
    (get_piece_at g m.from_.x m.from_.y).type = KGCHESS_PIECE_PAWN ∧
      m.to_.y = m.from_.y + Gen.pawn_dir (get_piece_at g m.from_.x m.from_.y).player ∧
      get_piece_at (kgchess_move g m).2 m.from_.x m.from_.y =
        piece_make KGCHESS_PIECE_NONE KGCHESS_PLAYER_NONE ∧
      get_piece_at (kgchess_move g m).2 m.to_.x m.from_.y =
        piece_make KGCHESS_PIECE_NONE KGCHESS_PLAYER_NONE ∧
      get_piece_at (kgchess_move g m).2 m.to_.x m.to_.y =
        { get_piece_at g m.from_.x m.from_.y with last_move_num := g.move_num } ∧
      (∀ a b : Int, ¬ (a = m.from_.x ∧ b = m.from_.y) → ¬ (a = m.to_.x ∧ b = m.from_.y) →
        ¬ (a = m.to_.x ∧ b = m.to_.y) →
        get_piece_at (kgchess_move g m).2 a b = get_piece_at g a b) := by
  have hr := in_range_of_type (Gen.get_moves_type h)
  obtain ⟨hp, hcond, rfl, ha⟩ := en_passant_of_mem h he
  have hg : ∀ a b : Int, get_piece_at (kgchess_move g (en_passant_move g x y)).2 a b = _ :=
    fun a b => (get_piece_at_apply_move g _ true a b).trans
      (apply_move_body_en_passant rfl rfl a b)
  have hd := pawn_dir_cases (kgchess_get_piece_at g x y).player
  have hto := ha.1
  have hadj := hcond.2.2.2.2
  simp only [en_passant_move] at hto
  simp only [hg, get_piece_at_set_piece_at]
  simp only [en_passant_move]
  have hpl : (get_piece_at g x y).player = (kgchess_get_piece_at g x y).player := rfl
  refine ⟨hp, by rw [hpl], ?_, ?_, ?_, ?_⟩
  · have h1 : ¬ (x = g.last_move.to_.x) := by omega
    simp [hr, h1]
  · simp [hr, hto]
  · have h1 : ¬ (y + Gen.pawn_dir (kgchess_get_piece_at g x y).player = y) := by omega
    simp [hto, h1]
  · intro a b h1 h2 h3
    simp [h1, h2, h3]

theorem en_passant_application_witness :
    en_passant_move en_passant_position 4 4 ∈ kgchess_get_moves en_passant_position 4 4 ∧
      get_piece_at (kgchess_move en_passant_position (en_passant_move en_passant_position 4 4)).2
        3 4 = ⟨KGCHESS_PIECE_NONE, KGCHESS_PLAYER_NONE, -1⟩ ∧
      get_piece_at (kgchess_move en_passant_position (en_passant_move en_passant_position 4 4)).2
        3 5 = ⟨KGCHESS_PIECE_PAWN, KGCHESS_PLAYER_WHITE, 4⟩ :=
  have h := en_passant_application en_passant_position 4 4
    (en_passant_move en_passant_position 4 4) (by decide!) rfl
  ⟨by decide!, h.2.2.2.1, h.2.2.2.2.1.trans (by decide!)⟩

/-- C17 (empty results): for a pair `(x, y)` with a coordinate outside 0..7,
`kgchess_get_piece_at` returns kind None with owner None and `kgchess_get_moves`
a list of length 0; `kgchess_get_moves` also returns a list of length 0 for
every square whose kind is None. -/
theorem empty_results (g : kgchess_t) (x y : Int) :
    ((x < 0 ∨ 7 < x ∨ y < 0 ∨ 7 < y) →
        kgchess_get_piece_at g x y = ⟨KGCHESS_PIECE_NONE, KGCHESS_PLAYER_NONE⟩ ∧
          (kgchess_get_moves g x y).length = 0) ∧
      ((kgchess_get_piece_at g x y).type = KGCHESS_PIECE_NONE →
        (kgchess_get_moves g x y).length = 0) := by
  constructor
  · intro h
    have hp := kgchess_get_piece_at_outside (g := g) h
    refine ⟨hp, ?_⟩
    rw [kgchess_get_moves_of_none (by rw [hp])]
    rfl
  · intro h
    rw [kgchess_get_moves_of_none h]
    rfl

theorem empty_results_witness :
    kgchess_get_piece_at kgchess_make 8 0 = ⟨KGCHESS_PIECE_NONE, KGCHESS_PLAYER_NONE⟩ ∧
      (kgchess_get_moves kgchess_make 8 0).length = 0 ∧
      (kgchess_get_moves kgchess_make (-1) 3).length = 0 ∧
      (kgchess_get_moves kgchess_make 4 4).length = 0 :=
  ⟨((empty_results kgchess_make 8 0).1 (by decide)).1,
    ((empty_results kgchess_make 8 0).1 (by decide)).2,
    ((empty_results kgchess_make (-1) 3).1 (by decide)).2,
    (empty_results kgchess_make 4 4).2 (by decide)⟩

/-- C18 (initial position): in `kgchess_make` rank 0 holds the White rook,
knight, bishop, queen, king, bishop, knight, rook on files 0..7 and rank 7 the
Black pieces in the same order, rank 1 holds White pawns and rank 6 Black
pawns, ranks 2 to 5 are empty, every piece has `last_move_num = -1`, the ply
counter is 0, White is to move, the phase is AwaitingMove, the winner is None
and the promotion square is the invalid position. -/
theorem initial_position :
    range8.map (fun x => kgchess_get_piece_at kgchess_make x 0) =
        [⟨KGCHESS_PIECE_ROOK, KGCHESS_PLAYER_WHITE⟩, ⟨KGCHESS_PIECE_KNIGHT, KGCHESS_PLAYER_WHITE⟩,
          ⟨KGCHESS_PIECE_BISHOP, KGCHESS_PLAYER_WHITE⟩, ⟨KGCHESS_PIECE_QUEEN, KGCHESS_PLAYER_WHITE⟩,
          ⟨KGCHESS_PIECE_KING, KGCHESS_PLAYER_WHITE⟩, ⟨KGCHESS_PIECE_BISHOP, KGCHESS_PLAYER_WHITE⟩,
          ⟨KGCHESS_PIECE_KNIGHT, KGCHESS_PLAYER_WHITE⟩, ⟨KGCHESS_PIECE_ROOK, KGCHESS_PLAYER_WHITE⟩] ∧
      range8.map (fun x => kgchess_get_piece_at kgchess_make x 7) =
        [⟨KGCHESS_PIECE_ROOK, KGCHESS_PLAYER_BLACK⟩, ⟨KGCHESS_PIECE_KNIGHT, KGCHESS_PLAYER_BLACK⟩,
          ⟨KGCHESS_PIECE_BISHOP, KGCHESS_PLAYER_BLACK⟩, ⟨KGCHESS_PIECE_QUEEN, KGCHESS_PLAYER_BLACK⟩,
          ⟨KGCHESS_PIECE_KING, KGCHESS_PLAYER_BLACK⟩, ⟨KGCHESS_PIECE_BISHOP, KGCHESS_PLAYER_BLACK⟩,
          ⟨KGCHESS_PIECE_KNIGHT, KGCHESS_PLAYER_BLACK⟩, ⟨KGCHESS_PIECE_ROOK, KGCHESS_PLAYER_BLACK⟩] ∧
      (∀ x : Int, 0 ≤ x ∧ x < 8 →
        kgchess_get_piece_at kgchess_make x 1 = ⟨KGCHESS_PIECE_PAWN, KGCHESS_PLAYER_WHITE⟩ ∧
        kgchess_get_piece_at kgchess_make x 6 = ⟨KGCHESS_PIECE_PAWN, KGCHESS_PLAYER_BLACK⟩ ∧
        (∀ y : Int, 2 ≤ y ∧ y ≤ 5 →
          kgchess_get_piece_at kgchess_make x y = ⟨KGCHESS_PIECE_NONE, KGCHESS_PLAYER_NONE⟩) ∧
        (∀ y : Int, (kgchess_get_piece_at kgchess_make x y).type ≠ KGCHESS_PIECE_NONE →
          (get_piece_at kgchess_make x y).last_move_num = -1)) ∧
      kgchess_make.move_num = 0 ∧ kgchess_make.current_player = KGCHESS_PLAYER_WHITE ∧
      kgchess_make.state = KGCHESS_STATE_MOVE ∧ kgchess_make.winner = KGCHESS_PLAYER_NONE ∧
      kgchess_make.promotion_pos = KGCHESS_POS_INVALID := by
  have hall : ∀ x ∈ range8,
      kgchess_get_piece_at kgchess_make x 1 = ⟨KGCHESS_PIECE_PAWN, KGCHESS_PLAYER_WHITE⟩ ∧
      kgchess_get_piece_at kgchess_make x 6 = ⟨KGCHESS_PIECE_PAWN, KGCHESS_PLAYER_BLACK⟩ ∧
      ∀ y ∈ range8,
        ((2 ≤ y ∧ y ≤ 5) →
          kgchess_get_piece_at kgchess_make x y = ⟨KGCHESS_PIECE_NONE, KGCHESS_PLAYER_NONE⟩) ∧
        ((kgchess_get_piece_at kgchess_make x y).type ≠ KGCHESS_PIECE_NONE →
          (get_piece_at kgchess_make x y).last_move_num = -1) := by decide!
  refine ⟨by decide!, by decide!, ?_, rfl, rfl, rfl, rfl, rfl⟩
  intro x hx
  obtain ⟨h1, h6, hy⟩ := hall x (mem_range8.2 hx)
  refine ⟨h1, h6, ?_, ?_⟩
  · intro y hy2
    exact (hy y (mem_range8.2 (by omega))).1 hy2
  · intro y hne
    have hb := in_range_of_type hne
    exact (hy y (mem_range8.2 ⟨hb.2.2.1, hb.2.2.2⟩)).2 hne

/-- C19 (scripted opening): from `kgchess_make` the moves (4,1)->(4,3) and
(4,6)->(4,4) are each in the list of their origin square when played; after both
calls of `kgchess_move`, (4,3) holds a White pawn, (4,4) a Black pawn, (4,1) and
(4,6) are empty, the ply counter is 2, White is to move, the phase is
AwaitingMove and no list of `kgchess_get_moves` holds an en-passant-flagged
move. -/
theorem scripted_opening :
    (⟨⟨4, 1⟩, ⟨4, 3⟩, false, false, false⟩ : kgchess_move_t) ∈ kgchess_get_moves kgchess_make 4 1 ∧
      (⟨⟨4, 6⟩, ⟨4, 4⟩, false, false, false⟩ : kgchess_move_t) ∈
        kgchess_get_moves (play kgchess_make [⟨⟨4, 1⟩, ⟨4, 3⟩, false, false, false⟩]) 4 6 ∧
      kgchess_get_piece_at (play kgchess_make opening_moves) 4 3 =
        ⟨KGCHESS_PIECE_PAWN, KGCHESS_PLAYER_WHITE⟩ ∧
      kgchess_get_piece_at (play kgchess_make opening_moves) 4 4 =
        ⟨KGCHESS_PIECE_PAWN, KGCHESS_PLAYER_BLACK⟩ ∧
      kgchess_get_piece_at (play kgchess_make opening_moves) 4 1 =
        ⟨KGCHESS_PIECE_NONE, KGCHESS_PLAYER_NONE⟩ ∧
      kgchess_get_piece_at (play kgchess_make opening_moves) 4 6 =
        ⟨KGCHESS_PIECE_NONE, KGCHESS_PLAYER_NONE⟩ ∧
      (play kgchess_make opening_moves).move_num = 2 ∧
      (play kgchess_make opening_moves).current_player = KGCHESS_PLAYER_WHITE ∧
      (play kgchess_make opening_moves).state = KGCHESS_STATE_MOVE ∧
      (∀ (x y : Int) (m : kgchess_move_t),
        m ∈ kgchess_get_moves (play kgchess_make opening_moves) x y → m.is_en_passant = false) := by
  rw [opening_eq, opening_first_eq]
  refine ⟨by decide!, by decide!, by decide!, by decide!, by decide!, by decide!, by decide!,
    by decide!, by decide!, ?_⟩
  intro x y m hm
  cases he : m.is_en_passant
  · rfl
  · exfalso
    obtain ⟨hp, hc, -, -⟩ := en_passant_of_mem hm he
    obtain ⟨-, -, hy, -, hx⟩ := hc
    have hlx : (play_turns kgchess_make opening_moves).last_move.to_.x = 4 := by decide!
    have hly : (play_turns kgchess_make opening_moves).last_move.to_.y = 4 := by decide!
    rw [hlx] at hx
    rw [hly] at hy
    subst hy
    have h3 : (kgchess_get_piece_at (play_turns kgchess_make opening_moves) 3 4).type ≠
        KGCHESS_PIECE_PAWN := by decide!
    have h5 : (kgchess_get_piece_at (play_turns kgchess_make opening_moves) 5 4).type ≠
        KGCHESS_PIECE_PAWN := by decide!
    rcases hx with hx | hx
    · have : x = 5 := by omega
      subst this
      exact h5 hp
    · have : x = 3 := by omega
      subst this
      exact h3 hp

/-- C20 (fool's mate): from `kgchess_make` the moves (5,1)->(5,2), (4,6)->(4,4),
(6,1)->(6,3) and (3,7)->(7,3) are each in the list of their origin square when
played; after the fourth call of `kgchess_move` the phase is Ended and the
winner is Black. -/
theorem fools_mate_ends_game :
    (⟨⟨5, 1⟩, ⟨5, 2⟩, false, false, false⟩ : kgchess_move_t) ∈ kgchess_get_moves kgchess_make 5 1 ∧
      (⟨⟨4, 6⟩, ⟨4, 4⟩, false, false, false⟩ : kgchess_move_t) ∈
        kgchess_get_moves (play kgchess_make [⟨⟨5, 1⟩, ⟨5, 2⟩, false, false, false⟩]) 4 6 ∧
      (⟨⟨6, 1⟩, ⟨6, 3⟩, false, false, false⟩ : kgchess_move_t) ∈
        kgchess_get_moves (play kgchess_make [⟨⟨5, 1⟩, ⟨5, 2⟩, false, false, false⟩,
          ⟨⟨4, 6⟩, ⟨4, 4⟩, false, false, false⟩]) 6 1 ∧
      fools_mate_queen ∈ kgchess_get_moves (play kgchess_make fools_mate_moves) 3 7 ∧
      (kgchess_move (play kgchess_make fools_mate_moves) fools_mate_queen).2.state =
        KGCHESS_STATE_ENDED ∧
      kgchess_get_winner (kgchess_move (play kgchess_make fools_mate_moves) fools_mate_queen).2 =
        KGCHESS_PLAYER_BLACK := by
  rw [fools_mate_prefix_1, fools_mate_prefix_2, fools_mate_eq]
  have hs : (play_turns kgchess_make fools_mate_moves).state = KGCHESS_STATE_MOVE := by decide!
  have hp : promotes (play_turns kgchess_make fools_mate_moves) fools_mate_queen = false := by
    decide!
  have hc : (hand_over (play_turns kgchess_make fools_mate_moves) fools_mate_queen).current_player
      = KGCHESS_PLAYER_WHITE := by decide!
  have he := check_checkmate_end ((no_legal_move_iff _).2 fools_mate_no_move)
  rw [hc, fools_mate_check] at he
  rw [kgchess_move_eq hs hp]
  exact ⟨by decide!, by decide!, by decide!, by decide!, he.1, he.2⟩

/-- C21 fails on the code: `promotion_game_9` is reachable (1. a4 b5 2. axb5 a6
3. bxa6 h6 4. a7 h5 5. axb8, promotion pending on b8) and all its empty squares
are unowned; `kgchess_promote` with `KGCHESS_PIECE_NONE`, a kind the guard of
`kgchess_promote` lets through, returns true and leaves on b8 an occupant of
kind None owned by White, so that the invariant no longer holds. -/
theorem promote_none_breaks_invariant :
    reachable promotion_game_9 true ∧ empty_unowned promotion_game_9 ∧
      (kgchess_promote promotion_game_9 KGCHESS_PIECE_NONE).1 = true ∧
      kgchess_get_piece_at (kgchess_promote promotion_game_9 KGCHESS_PIECE_NONE).2 1 7 =
        ⟨KGCHESS_PIECE_NONE, KGCHESS_PLAYER_WHITE⟩ ∧
      ¬ empty_unowned (kgchess_promote promotion_game_9 KGCHESS_PIECE_NONE).2 := by
  have hs : (kgchess_promote promotion_game_9 KGCHESS_PIECE_NONE).1 = true :=
    kgchess_promote_fst promotion_game_9_state
      (by rw [promotion_game_9_promotion_pos]; decide) (by decide)
  have hp : kgchess_get_piece_at (kgchess_promote promotion_game_9 KGCHESS_PIECE_NONE).2 1 7 =
      ⟨KGCHESS_PIECE_NONE, KGCHESS_PLAYER_WHITE⟩ := by
    rw [kgchess_get_piece_at_eq, get_piece_at_promote hs, promotion_game_9_promotion_pos,
      get_piece_at_set_piece_at, promotion_game_9_pawn]
    decide
  refine ⟨promotion_game_9_reachable, promotion_game_9_unowned, hs, hp, ?_⟩
  intro h
  have h1 := h 1 7 (by rw [hp])
  rw [hp] at h1
  cases h1

/-- C22 as stated fails: in `ownerless_position` the empty squares are unowned,
the White rook on a1 has a move to a3 in its list, and a3 lies on no ray of the
rook whose squares before a3 are all empty, the square a2 in between being held
by a knight that belongs to nobody. -/
theorem sliding_rule_counterexample :
    empty_unowned ownerless_position ∧
      kgchess_get_piece_at ownerless_position 0 0 =
        ⟨KGCHESS_PIECE_ROOK, KGCHESS_PLAYER_WHITE⟩ ∧
      (∃ m ∈ kgchess_get_moves ownerless_position 0 0, m.to_ = ⟨0, 2⟩) ∧
      is_position_empty ownerless_position 0 1 = false ∧
      ¬ (∃ d ∈ slide_dirs KGCHESS_PIECE_ROOK, ∃ k : Int, 1 ≤ k ∧
          (⟨0, 2⟩ : kgchess_pos_t) = ⟨0 + k * d.1, 0 + k * d.2⟩ ∧
          ∀ j : Int, 1 ≤ j → j < k →
            is_position_empty ownerless_position (0 + j * d.1) (0 + j * d.2) = true) := by
  refine ⟨empty_unowned_of_board (by decide!), by decide!,
    ⟨⟨⟨0, 0⟩, ⟨0, 2⟩, false, false, false⟩, by decide!, rfl⟩, by decide!, ?_⟩
  rintro ⟨d, hd, k, hk, he, hj⟩
  have h1 : (0 : Int) = 0 + k * d.1 := congrArg kgchess_pos_t.x he
  have h2 : (2 : Int) = 0 + k * d.2 := congrArg kgchess_pos_t.y he
  simp only [slide_dirs, Gen.rook_dirs, List.mem_cons, List.mem_singleton, List.not_mem_nil,
    or_false] at hd
  rcases hd with rfl | rfl | rfl | rfl <;> simp only at h1 h2 hj
  · have hk2 : k = 2 := by omega
    subst hk2
    have := hj 1 (by decide) (by decide)
    revert this
    decide!
  · omega
  · omega
  · omega

/-- C22, amended (every occupied square is owned by White or by Black): the list
of a rook, bishop or queen of `P` has a move to `s` exactly when `s` is on the
board and on one of the rays of the piece with every square before it empty,
`s` is empty or holds an enemy piece, and the move, applied to a copy, does not
leave the king of `P` in check; a listed move to `s` is `offered_move`: flagged
as a capture exactly when `s` holds an enemy piece, and neither castling nor en
passant. -/
theorem sliding_rule (g : kgchess_t) (x y : Int) (T : kgchess_piece_type_t)
    (P : kgchess_player_t) (s : kgchess_pos_t) (ho : pieces_owned g)
    (h : kgchess_get_piece_at g x y = ⟨T, P⟩)
    (hT : T = KGCHESS_PIECE_ROOK ∨ T = KGCHESS_PIECE_BISHOP ∨ T = KGCHESS_PIECE_QUEEN) :
    ((∃ m ∈ kgchess_get_moves g x y, m.to_ = s) ↔
      (in_board s.x s.y ∧
        (∃ d ∈ slide_dirs T, ∃ k : Int, 1 ≤ k ∧ s = ⟨x + k * d.1, y + k * d.2⟩ ∧
          ∀ j : Int, 1 ≤ j → j < k →
            is_position_empty g (x + j * d.1) (y + j * d.2) = true) ∧
        (is_position_empty g s.x s.y = true ∨
          is_player_at_position g (kgchess_get_enemy_player P) s.x s.y = true) ∧
        is_in_check (apply_move_body g (offered_move g x y P s)) P = false)) ∧
      (∀ m ∈ kgchess_get_moves g x y, m.to_ = s → m = offered_move g x y P s) := by
  have ht : (kgchess_get_piece_at g x y).type = T := by rw [h]
  have hp : (kgchess_get_piece_at g x y).player = P := by rw [h]
  have hne : (kgchess_get_piece_at g x y).type ≠ KGCHESS_PIECE_NONE := by
    rw [ht]
    rcases hT with rfl | rfl | rfl <;> simp
  have hb : in_board x y := in_range_of_type hne
  have hP : P = KGCHESS_PLAYER_WHITE ∨ P = KGCHESS_PLAYER_BLACK := hp ▸ ho x y hne
  have hmem := fun m => mem_add_rays_owned (slide_dirs T) ho hP hp hb (le_refl 7)
    (fun d hd => dirs_small d (slide_dirs_sub d hd)) (total_room_slide hb T) m
  rw [kgchess_get_moves_slide ht hT]
  constructor
  · constructor
    · rintro ⟨m, hm, rfl⟩
      obtain ⟨d, hd, k, h1, -, h3, h4, h5, h6, rfl⟩ := (hmem m).1 hm
      exact ⟨h5, ⟨d, hd, k, h1, rfl, h3⟩, h4, h6⟩
    · rintro ⟨h5, ⟨d, hd, k, h1, rfl, h3⟩, h4, h6⟩
      exact ⟨_, (hmem _).2 ⟨d, hd, k, h1, step_le_seven hb (slide_dirs_sub d hd) h5, h3, h4, h5,
        h6, rfl⟩, rfl⟩
  · rintro m hm rfl
    obtain ⟨d, hd, k, -, -, -, -, -, -, rfl⟩ := (hmem m).1 hm
    rfl

theorem sliding_rule_witness :
    pieces_owned back_rank_position ∧
      kgchess_get_piece_at back_rank_position 0 0 =
        ⟨KGCHESS_PIECE_ROOK, KGCHESS_PLAYER_WHITE⟩ ∧
      ∃ m ∈ kgchess_get_moves back_rank_position 0 0, m.to_ = ⟨0, 7⟩ :=
  have ho : pieces_owned back_rank_position := pieces_owned_of_board (by decide!)
  have h : kgchess_get_piece_at back_rank_position 0 0 =
      ⟨KGCHESS_PIECE_ROOK, KGCHESS_PLAYER_WHITE⟩ := by decide!
  ⟨ho, h, (sliding_rule back_rank_position 0 0 KGCHESS_PIECE_ROOK KGCHESS_PLAYER_WHITE ⟨0, 7⟩
    ho h (Or.inl rfl)).1.2 ⟨by decide, ⟨(0, 1), by decide, 7, by decide, by decide, by
      intro j h1 h2
      have hj : j = 1 ∨ j = 2 ∨ j = 3 ∨ j = 4 ∨ j = 5 ∨ j = 6 := by omega
      rcases hj with rfl | rfl | rfl | rfl | rfl | rfl <;> decide!⟩, by decide!, by decide!⟩⟩

/-- C23 as stated fails: in `ownerless_position` the empty squares are unowned,
the square a2 is a knight's move from the White knight on c1, is on the board,
holds no piece of White (its knight belongs to nobody), the move there would not
leave White's king in check, and yet the list of the knight has no move to a2. -/
theorem step_rule_counterexample :
    empty_unowned ownerless_position ∧
      kgchess_get_piece_at ownerless_position 2 0 =
        ⟨KGCHESS_PIECE_KNIGHT, KGCHESS_PLAYER_WHITE⟩ ∧
      in_board 0 1 ∧ knight_offset 2 0 ⟨0, 1⟩ ∧
      is_player_at_position ownerless_position KGCHESS_PLAYER_WHITE 0 1 = false ∧
      (∀ a : Bool, is_in_check (apply_move_body ownerless_position
        ⟨⟨2, 0⟩, ⟨0, 1⟩, false, a, false⟩) KGCHESS_PLAYER_WHITE = false) ∧
      ¬ (∃ m ∈ kgchess_get_moves ownerless_position 2 0, m.to_ = ⟨0, 1⟩) := by
  refine ⟨empty_unowned_of_board (by decide!), by decide!, by decide, by decide, by decide!,
    by decide!, by decide!⟩

/-- C23, amended (every occupied square is owned by White or by Black): the list
of a knight (resp. king) of `P` has a non-castling move to `s` exactly when `s`
is on the board, is one of the eight knight-offset squares (resp. the eight
adjacent squares), holds no piece of `P`, and the move, applied to a copy, does
not leave the king of `P` in check; a listed non-castling move to `s` is
`offered_move`: flagged as a capture exactly when `s` holds an enemy piece. -/
theorem step_rule (g : kgchess_t) (x y : Int) (T : kgchess_piece_type_t)
    (P : kgchess_player_t) (s : kgchess_pos_t) (ho : pieces_owned g)
    (h : kgchess_get_piece_at g x y = ⟨T, P⟩)
    (hT : T = KGCHESS_PIECE_KNIGHT ∨ T = KGCHESS_PIECE_KING) :
    ((∃ m ∈ kgchess_get_moves g x y, m.is_castling = false ∧ m.to_ = s) ↔
      (in_board s.x s.y ∧ step_squares T x y s ∧
        ¬ is_player_at_position g P s.x s.y = true ∧
        is_in_check (apply_move_body g (offered_move g x y P s)) P = false)) ∧
      (∀ m ∈ kgchess_get_moves g x y, m.is_castling = false → m.to_ = s →
        m = offered_move g x y P s) := by
  have ht : (kgchess_get_piece_at g x y).type = T := by rw [h]
  have hp : (kgchess_get_piece_at g x y).player = P := by rw [h]
  have hne : (kgchess_get_piece_at g x y).type ≠ KGCHESS_PIECE_NONE := by
    rw [ht]
    rcases hT with rfl | rfl <;> simp
  have hb : in_board x y := in_range_of_type hne
  have hP : P = KGCHESS_PLAYER_WHITE ∨ P = KGCHESS_PLAYER_BLACK := hp ▸ ho x y hne
  have hmem := fun m => mem_steps_owned ho hP ht hp hb hT m
  constructor
  · constructor
    · rintro ⟨m, hm, hc, rfl⟩
      obtain ⟨s, h1, h2, h3, h4, rfl⟩ := (hmem m).1 ⟨hm, hc⟩
      exact ⟨h2, h1, h3, h4⟩
    · rintro ⟨h2, h1, h3, h4⟩
      have := (hmem _).2 ⟨s, h1, h2, h3, h4, rfl⟩
      exact ⟨_, this.1, this.2, rfl⟩
  · rintro m hm hc rfl
    obtain ⟨s, -, -, -, -, rfl⟩ := (hmem m).1 ⟨hm, hc⟩
    rfl

theorem step_rule_witness :
    pieces_owned kgchess_make ∧
      kgchess_get_piece_at kgchess_make 1 0 = ⟨KGCHESS_PIECE_KNIGHT, KGCHESS_PLAYER_WHITE⟩ ∧
      ∃ m ∈ kgchess_get_moves kgchess_make 1 0, m.is_castling = false ∧ m.to_ = ⟨2, 2⟩ :=
  have ho : pieces_owned kgchess_make := pieces_owned_of_board (by decide!)
  have h : kgchess_get_piece_at kgchess_make 1 0 =
      ⟨KGCHESS_PIECE_KNIGHT, KGCHESS_PLAYER_WHITE⟩ := by decide!
  ⟨ho, h, (step_rule kgchess_make 1 0 KGCHESS_PIECE_KNIGHT KGCHESS_PLAYER_WHITE ⟨2, 2⟩
    ho h (Or.inl rfl)).1.2 ⟨by decide, Or.inl ⟨rfl, by decide⟩, by decide!, by decide!⟩⟩

/-- C24: the moves without the en passant flag in the list of a pawn are
exactly those of the one-square push (square ahead empty), the two-square push
(pawn on its starting rank, both squares ahead empty, whatever the fate of the
one-square push) and the two diagonal captures (each only onto a square held by
an enemy piece) that land on the board and do not leave the owner's king in
check once applied; the direction `Gen.pawn_dir` and the starting rank
`Gen.pawn_initial_y` are +1 and 1 for White, -1 and 6 for Black. -/
theorem pawn_rule (g : kgchess_t) (x y : Int) (P : kgchess_player_t) (m : kgchess_move_t)
    (h : kgchess_get_piece_at g x y = ⟨KGCHESS_PIECE_PAWN, P⟩) :
    ((m ∈ kgchess_get_moves g x y ∧ m.is_en_passant = false) ↔
      ((in_board m.to_.x m.to_.y ∧ is_in_check (apply_move_body g m) P = false) ∧
        ((m = ⟨⟨x, y⟩, ⟨x, y + Gen.pawn_dir P⟩, false, false, false⟩ ∧
            is_position_empty g x (y + Gen.pawn_dir P) = true) ∨
          (m = ⟨⟨x, y⟩, ⟨x, y + 2 * Gen.pawn_dir P⟩, false, false, false⟩ ∧
            y = Gen.pawn_initial_y P ∧ is_position_empty g x (y + Gen.pawn_dir P) = true ∧
            is_position_empty g x (y + 2 * Gen.pawn_dir P) = true) ∨
          (m = ⟨⟨x, y⟩, ⟨x + 1, y + Gen.pawn_dir P⟩, false, true, false⟩ ∧
            is_player_at_position g (kgchess_get_enemy_player P) (x + 1) (y + Gen.pawn_dir P)
              = true) ∨
          (m = ⟨⟨x, y⟩, ⟨x - 1, y + Gen.pawn_dir P⟩, false, true, false⟩ ∧
            is_player_at_position g (kgchess_get_enemy_player P) (x - 1) (y + Gen.pawn_dir P)
              = true)))) ∧
      (Gen.pawn_dir KGCHESS_PLAYER_WHITE = 1 ∧ Gen.pawn_initial_y KGCHESS_PLAYER_WHITE = 1 ∧
        Gen.pawn_dir KGCHESS_PLAYER_BLACK = -1 ∧ Gen.pawn_initial_y KGCHESS_PLAYER_BLACK = 6) := by
  refine ⟨?_, by decide⟩
  have ht : (kgchess_get_piece_at g x y).type = KGCHESS_PIECE_PAWN := by rw [h]
  have hp : (kgchess_get_piece_at g x y).player = P := by rw [h]
  have hb : in_board x y := in_range_of_type (by rw [ht]; simp)
  have hd := pawn_dir_cases P
  obtain ⟨h1, h2, h3, h4⟩ := hb
  have e0 : to_int8 x = x := to_int8_of_range (by omega) (by omega)
  have e0y : to_int8 y = y := to_int8_of_range (by omega) (by omega)
  have e1 : to_int8 (x + 1) = x + 1 := to_int8_of_range (by omega) (by omega)
  have e2 : to_int8 (x - 1) = x - 1 := to_int8_of_range (by omega) (by omega)
  have e3 : to_int8 (y + Gen.pawn_dir P) = y + Gen.pawn_dir P :=
    to_int8_of_range (by omega) (by omega)
  have e4 : to_int8 (y + 2 * Gen.pawn_dir P) = y + 2 * Gen.pawn_dir P :=
    to_int8_of_range (by omega) (by omega)
  have hl : kgchess_get_moves g x y =
      Gen.get_pawn_moves kgchess_is_square_attacked_by_player g x y
        (kgchess_get_piece_at g x y) false false := by
    unfold kgchess_get_moves get_moves Gen.get_moves
    simp only [ht]
  rw [hl, Gen.mem_get_pawn_moves_blocks]
  simp only [hp, one_mul, move_make, e0, e0y, e1, e2, e3, e4, admitted_listing]
  constructor
  · rintro ⟨(⟨he, hadm, rfl⟩ | ⟨⟨he1, hy, he2⟩, hadm, rfl⟩ | ⟨he, hadm, rfl⟩ | ⟨he, hadm, rfl⟩ |
      ⟨-, -, rfl⟩), hep⟩
    · exact ⟨hadm, Or.inl ⟨rfl, he⟩⟩
    · exact ⟨hadm, Or.inr (Or.inl ⟨rfl, hy, he1, he2⟩)⟩
    · exact ⟨hadm, Or.inr (Or.inr (Or.inl ⟨rfl, he⟩))⟩
    · exact ⟨hadm, Or.inr (Or.inr (Or.inr ⟨rfl, he⟩))⟩
    · cases hep
  · rintro ⟨hadm, (⟨rfl, he⟩ | ⟨rfl, hy, he1, he2⟩ | ⟨rfl, he⟩ | ⟨rfl, he⟩)⟩
    · exact ⟨Or.inl ⟨he, hadm, rfl⟩, rfl⟩
    · exact ⟨Or.inr (Or.inl ⟨⟨he1, hy, he2⟩, hadm, rfl⟩), rfl⟩
    · exact ⟨Or.inr (Or.inr (Or.inl ⟨he, hadm, rfl⟩)), rfl⟩
    · exact ⟨Or.inr (Or.inr (Or.inr (Or.inl ⟨he, hadm, rfl⟩))), rfl⟩

theorem pawn_rule_witness :
    kgchess_get_piece_at kgchess_make 4 1 = ⟨KGCHESS_PIECE_PAWN, KGCHESS_PLAYER_WHITE⟩ ∧
      (⟨⟨4, 1⟩, ⟨4, 3⟩, false, false, false⟩ : kgchess_move_t) ∈ kgchess_get_moves kgchess_make 4 1 :=
  have h : kgchess_get_piece_at kgchess_make 4 1 =
      ⟨KGCHESS_PIECE_PAWN, KGCHESS_PLAYER_WHITE⟩ := by decide!
  ⟨h, ((pawn_rule kgchess_make 4 1 KGCHESS_PLAYER_WHITE ⟨⟨4, 1⟩, ⟨4, 3⟩, false, false, false⟩
    h).1.2 ⟨by decide!, Or.inr (Or.inl (by decide!))⟩).1⟩

/-- C25 as stated fails: in the initial position the rook on a1 reaches the
knight on b1 along its rank with no square in between, both are White, and yet
the probe of the rook yields nothing and b1 is not attacked by White; likewise
d2, next to the king and the queen, a knight's move from b1 and diagonally next
to the bishop on c1, is not attacked by White. -/
theorem probe_own_blockers_counterexample :
    kgchess_get_piece_at kgchess_make 0 0 = ⟨KGCHESS_PIECE_ROOK, KGCHESS_PLAYER_WHITE⟩ ∧
      kgchess_get_piece_at kgchess_make 1 0 = ⟨KGCHESS_PIECE_KNIGHT, KGCHESS_PLAYER_WHITE⟩ ∧
      get_moves kgchess_make 0 0 true true = [] ∧
      kgchess_is_square_attacked_by_player kgchess_make 1 0 KGCHESS_PLAYER_WHITE = false ∧
      kgchess_get_piece_at kgchess_make 3 1 = ⟨KGCHESS_PIECE_PAWN, KGCHESS_PLAYER_WHITE⟩ ∧
      kgchess_get_piece_at kgchess_make 4 0 = ⟨KGCHESS_PIECE_KING, KGCHESS_PLAYER_WHITE⟩ ∧
      kgchess_is_square_attacked_by_player kgchess_make 3 1 KGCHESS_PLAYER_WHITE = false := by
  decide!

/-- C25, amended: in an attack probe the generator yields a square held by a
piece of the prober's own side only as the diagonal target of a pawn; a ray, a
knight step or a king step that meets a friendly piece yields nothing for its
square.  Hence a square held by a piece of `P` (White or Black) is attacked by
`P` exactly when a pawn of `P` stands diagonally behind it. -/
theorem probe_own_blockers (g : kgchess_t) (sx sy : Int) (P : kgchess_player_t)
    (hP : P = KGCHESS_PLAYER_WHITE ∨ P = KGCHESS_PLAYER_BLACK)
    (hs : (kgchess_get_piece_at g sx sy).type ≠ KGCHESS_PIECE_NONE)
    (hsp : (kgchess_get_piece_at g sx sy).player = P) :
    (∀ a b : Int, (kgchess_get_piece_at g a b).player = P →
        ((∃ m ∈ get_moves g a b true true,
            m.is_attack = true ∧ m.to_.x = sx ∧ m.to_.y = sy) ↔
          ((kgchess_get_piece_at g a b).type = KGCHESS_PIECE_PAWN ∧
            sy = b + Gen.pawn_dir P ∧ (sx = a + 1 ∨ sx = a - 1)))) ∧
      (kgchess_is_square_attacked_by_player g sx sy P = true ↔
        ∃ a b : Int, kgchess_get_piece_at g a b = ⟨KGCHESS_PIECE_PAWN, P⟩ ∧
          sy = b + Gen.pawn_dir P ∧ (sx = a + 1 ∨ sx = a - 1)) := by
  constructor
  · intro a b hp
    by_cases hb : in_board a b
    · rw [probe_iff hb, piece_hits_own hP hs hsp hp]
    · have ht : (kgchess_get_piece_at g a b).type = KGCHESS_PIECE_NONE := by
        by_contra hc
        exact hb (in_range_of_type hc)
      constructor
      · rintro ⟨m, hm, -⟩
        exact absurd ht (Gen.get_moves_type hm)
      · rintro ⟨h, -⟩
        rw [ht] at h
        cases h
  · rw [attacked_iff]
    constructor
    · rintro ⟨a, b, -, hp, hh⟩
      obtain ⟨h1, h2⟩ := (piece_hits_own hP hs hsp hp).1 hh
      refine ⟨a, b, ?_, h2⟩
      cases hq : kgchess_get_piece_at g a b
      rw [hq] at h1 hp
      dsimp only at h1 hp
      rw [h1, hp]
    · rintro ⟨a, b, hq, h2⟩
      have hp : (kgchess_get_piece_at g a b).player = P := by rw [hq]
      have ht : (kgchess_get_piece_at g a b).type = KGCHESS_PIECE_PAWN := by rw [hq]
      exact ⟨a, b, in_range_of_type (by rw [ht]; simp), hp,
        (piece_hits_own hP hs hsp hp).2 ⟨ht, h2⟩⟩

theorem probe_own_blockers_witness :
    (kgchess_get_piece_at (play_body kgchess_make fools_mate_moves) 6 3).type ≠
        KGCHESS_PIECE_NONE ∧
      (kgchess_get_piece_at (play_body kgchess_make fools_mate_moves) 6 3).player =
        KGCHESS_PLAYER_WHITE ∧
      kgchess_is_square_attacked_by_player (play_body kgchess_make fools_mate_moves) 6 3
        KGCHESS_PLAYER_WHITE = true :=
  have hs : (kgchess_get_piece_at (play_body kgchess_make fools_mate_moves) 6 3).type ≠
      KGCHESS_PIECE_NONE := by decide!
  have hsp : (kgchess_get_piece_at (play_body kgchess_make fools_mate_moves) 6 3).player =
      KGCHESS_PLAYER_WHITE := by decide!
  ⟨hs, hsp, (probe_own_blockers (play_body kgchess_make fools_mate_moves) 6 3
    KGCHESS_PLAYER_WHITE (Or.inl rfl) hs hsp).2.2 ⟨5, 2, by decide!, by decide, by decide⟩⟩

/-- C26: for every state, square and pair of flags, the generator without
capacity guard (each call of `add_move` appends one entry, so the length of its
list is the number of candidates passed to `add_move`) makes a list of at most
28 entries, at most 27 for a queen, 10 for a king, 8 for a knight and 5 for a
pawn; the bounded generator returns the same list, its count is at most 28, and
`kgchess_get_moves` equals the list of the unbounded generator. -/
theorem capacity_never_reached (g : kgchess_t) (x y : Int) (apa iac : Bool) :
    ((Unbounded.get_moves Unbounded.kgchess_is_square_attacked_by_player g x y apa iac).length
        ≤ 28 ∧
      ((kgchess_get_piece_at g x y).type = KGCHESS_PIECE_QUEEN →
        (Unbounded.get_moves Unbounded.kgchess_is_square_attacked_by_player g x y apa iac).length
          ≤ 27) ∧
      ((kgchess_get_piece_at g x y).type = KGCHESS_PIECE_KING →
        (Unbounded.get_moves Unbounded.kgchess_is_square_attacked_by_player g x y apa iac).length
          ≤ 10) ∧
      ((kgchess_get_piece_at g x y).type = KGCHESS_PIECE_KNIGHT →
        (Unbounded.get_moves Unbounded.kgchess_is_square_attacked_by_player g x y apa iac).length
          ≤ 8) ∧
      ((kgchess_get_piece_at g x y).type = KGCHESS_PIECE_PAWN →
        (Unbounded.get_moves Unbounded.kgchess_is_square_attacked_by_player g x y apa iac).length
          ≤ 5)) ∧
      get_moves g x y apa iac =
        Unbounded.get_moves Unbounded.kgchess_is_square_attacked_by_player g x y apa iac ∧
      (get_moves g x y apa iac).length ≤ 28 ∧
      kgchess_get_moves g x y = Unbounded.kgchess_get_moves g x y := by
  have e : Unbounded.get_moves Unbounded.kgchess_is_square_attacked_by_player g x y apa iac =
      get_moves g x y apa iac := by
    rw [attacked_unbounded, get_moves_unbounded]
    rfl
  have e2 : Unbounded.kgchess_get_moves g x y = kgchess_get_moves g x y := by
    unfold Unbounded.kgchess_get_moves
    rw [attacked_unbounded, get_moves_unbounded]
    rfl
  have hlt := Gen.length_get_moves_lt kgchess_is_square_attacked_by_player g x y apa iac
  have hlt' : (get_moves g x y apa iac).length < 28 := hlt
  rw [e, e2]
  refine ⟨⟨by omega, ?_, ?_, ?_, ?_⟩, rfl, by omega, rfl⟩
  · intro ht
    have hb : in_board x y := in_range_of_type (by rw [ht]; simp)
    have h1 := @Gen.length_add_rays_le kgchess_is_square_attacked_by_player g x y
      (kgchess_get_piece_at g x y) 7 apa iac (Gen.rook_dirs ++ Gen.bishop_dirs) []
    have h2 := Gen.total_room_queen hb
    unfold get_moves Gen.get_moves
    simp only [ht, Gen.get_queen_moves_eq]
    simp only [List.length_nil] at h1
    omega
  · intro ht
    unfold get_moves Gen.get_moves
    simp only [ht]
    exact Gen.length_get_king_moves_le _ _ _ _ _ _ _
  · intro ht
    unfold get_moves Gen.get_moves
    simp only [ht]
    exact Gen.length_get_knight_moves_le _ _ _ _ _ _ _
  · intro ht
    unfold get_moves Gen.get_moves
    simp only [ht]
    exact Gen.length_get_pawn_moves_le _ _ _ _ _ _ _

/-- C27 as stated fails: after 1. d2-d4 e7-e5 2. e2-e4, a reachable state, the
list of the pawn on d4 has two entries with the destination e5, the capture of
the pawn on e5 and an en passant capture (offered because White's own e-pawn has
just advanced two squares next to it). -/
theorem no_duplicate_destinations_counterexample :
    reachable double_capture_game false ∧
      kgchess_get_moves double_capture_game 3 3 =
        [⟨⟨3, 3⟩, ⟨3, 4⟩, false, false, false⟩, ⟨⟨3, 3⟩, ⟨4, 4⟩, false, true, false⟩,
          ⟨⟨3, 3⟩, ⟨4, 4⟩, false, true, true⟩] := by
  refine ⟨double_capture_reachable, ?_⟩
  rw [kgchess_get_moves_congr double_capture_core]
  decide!

/-- C27, amended: in every list of `kgchess_get_moves` two entries have the same
destination only if the piece is a pawn, the earlier entry is its ordinary
capture and the later one its en passant capture; hence the entries are pairwise
different moves, and a list without en passant capture has no destination
twice. -/
theorem no_duplicate_destinations (g : kgchess_t) (x y : Int) :
    (kgchess_get_moves g x y).Pairwise (shared_destination g x y) ∧
      (kgchess_get_moves g x y).Nodup ∧
      ((∀ m ∈ kgchess_get_moves g x y, m.is_en_passant = false) →
        ((kgchess_get_moves g x y).map fun m => m.to_).Nodup) := by
  have h := kgchess_get_moves_pairwise g x y
  refine ⟨h, ?_, ?_⟩
  · refine h.imp ?_
    intro a b hs he
    subst he
    obtain ⟨-, -, h1, h2⟩ := hs rfl
    rw [h1] at h2
    cases h2
  · intro hall
    refine List.pairwise_map.2 (List.Pairwise.imp_of_mem ?_ h)
    intro a b _ hb hs he
    obtain ⟨-, -, -, h2⟩ := hs he
    rw [hall b hb] at h2
    cases h2

/-- C28 as stated fails: in `castle_guarded_position` the helper returns true for
the king on e1 and the rook on h1 although g1, the destination of the king, is
attacked by Black; the helper does not look at the destination (the castling
move is then rejected by the legality filter: the list of the king has no
castling move). -/
theorem castling_helper_counterexample :
    is_castling_possible castle_guarded_position 4 0 7 = true ∧
      kgchess_is_square_attacked_by_player castle_guarded_position 6 0 KGCHESS_PLAYER_BLACK =
        true ∧
      kgchess_get_piece_at castle_guarded_position 4 0 =
        ⟨KGCHESS_PIECE_KING, KGCHESS_PLAYER_WHITE⟩ ∧
      (∀ m ∈ kgchess_get_moves castle_guarded_position 4 0, m.is_castling = false) := by
  refine ⟨by decide!, by decide!, by decide!, by decide!⟩

/-- C28, amended: `is_castling_possible g x y r` is true exactly when `(x, y)`
holds a never-moved king, `(r, y)` a never-moved rook, the king's side is not in
check, and either `r = 0`, files 1, 2, 3 of the rank are empty and file 3 is not
attacked by the opponent, or `r = 7`, files 5, 6 are empty and file 5 is not
attacked; the destination of the king is not examined and the owner of the
rook is not compared, but where every piece has an owner (`pieces_owned`) a
true result implies that the rook belongs to the owner of the king. -/
theorem castling_helper (g : kgchess_t) (x y r : Int) :
    (is_castling_possible g x y r = true ↔
      ((get_piece_at g x y).type = KGCHESS_PIECE_KING ∧
        (get_piece_at g x y).last_move_num = -1 ∧
        (get_piece_at g r y).type = KGCHESS_PIECE_ROOK ∧
        (get_piece_at g r y).last_move_num = -1 ∧
        is_in_check g (get_piece_at g x y).player = false ∧
        ((r = 0 ∧ is_position_empty g 1 y = true ∧ is_position_empty g 2 y = true ∧
            is_position_empty g 3 y = true ∧
            kgchess_is_square_attacked_by_player g 3 y
              (kgchess_get_enemy_player (get_piece_at g x y).player) = false) ∨
          (r = 7 ∧ is_position_empty g 5 y = true ∧ is_position_empty g 6 y = true ∧
            kgchess_is_square_attacked_by_player g 5 y
              (kgchess_get_enemy_player (get_piece_at g x y).player) = false)))) ∧
      (pieces_owned g → is_castling_possible g x y r = true →
        (get_piece_at g r y).player = (get_piece_at g x y).player) := by
  refine ⟨is_castling_possible_spec g x y r, ?_⟩
  intro ho h
  have hr := is_castling_possible_file h
  obtain ⟨h1, h2, -, -, -, h6, h7⟩ := (is_castling_possible_iff hr).1 h
  by_contra hne
  have hko := ho x y (by show (get_piece_at g x y).type ≠ _; rw [h1]; simp)
  have hro := ho r y (by show (get_piece_at g r y).type ≠ _; rw [h2]; simp)
  have hko' : (get_piece_at g x y).player = KGCHESS_PLAYER_WHITE ∨
      (get_piece_at g x y).player = KGCHESS_PLAYER_BLACK := hko
  have hro' : (get_piece_at g r y).player = KGCHESS_PLAYER_WHITE ∨
      (get_piece_at g r y).player = KGCHESS_PLAYER_BLACK := hro
  have hen : (get_piece_at g r y).player =
      kgchess_get_enemy_player (get_piece_at g x y).player := by
    rcases hko' with hk | hk <;> rcases hro' with hr' | hr' <;>
      simp [hk, hr', kgchess_get_enemy_player] at hne ⊢
  have hatt := corner_rook_attacks (E := kgchess_get_enemy_player (get_piece_at g x y).player)
    hr (by rw [kgchess_get_piece_at_eq, h2, hen]) h6
  rw [hatt] at h7
  cases h7

theorem castling_helper_witness :
    pieces_owned castle_position ∧ is_castling_possible castle_position 4 0 7 = true ∧
      (get_piece_at castle_position 7 0).player = (get_piece_at castle_position 4 0).player :=
  have ho : pieces_owned castle_position := by
    intro a b hn
    have hb := in_range_of_type hn
    have hall : ∀ u ∈ range8, ∀ v ∈ range8,
        (kgchess_get_piece_at castle_position u v).type ≠ KGCHESS_PIECE_NONE →
          (kgchess_get_piece_at castle_position u v).player = KGCHESS_PLAYER_WHITE ∨
            (kgchess_get_piece_at castle_position u v).player = KGCHESS_PLAYER_BLACK := by
      decide!
    exact hall a (mem_range8.2 ⟨hb.1, hb.2.1⟩) b (mem_range8.2 ⟨hb.2.2.1, hb.2.2.2⟩) hn
  ⟨ho, by decide!, (castling_helper castle_position 4 0 7).2 ho (by decide!)⟩

/-- C29: every capture-flagged move of a list (en passant or not) goes to a
square that `kgchess_is_square_attacked_by_player` reports as attacked by the
owner of the moving piece; and a square that holds a king and is not attacked by
that owner is the destination of no listed move. -/
theorem captures_are_attacks (g : kgchess_t) (x y : Int) (P : kgchess_player_t)
    (m : kgchess_move_t) (hp : (kgchess_get_piece_at g x y).player = P)
    (hm : m ∈ kgchess_get_moves g x y) :
    (m.is_attack = true → kgchess_is_square_attacked_by_player g m.to_.x m.to_.y P = true) ∧
      (∀ kx ky : Int, (kgchess_get_piece_at g kx ky).type = KGCHESS_PIECE_KING →
        kgchess_is_square_attacked_by_player g kx ky P = false → m.to_ ≠ ⟨kx, ky⟩) := by
  have hb : in_board x y := in_range_of_type (Gen.get_moves_type hm)
  have hall : m.is_attack = true →
      kgchess_is_square_attacked_by_player g m.to_.x m.to_.y P = true := by
    intro ha
    refine (attacked_iff g _ _ P).2 ⟨x, y, hb, hp, ?_⟩
    cases he : m.is_en_passant
    · exact capture_hits hm ha he
    · exact en_passant_hits hm he
  refine ⟨hall, ?_⟩
  intro kx ky hk hatt hto
  cases ha : m.is_attack
  · have := quiet_lands_on_empty hm ha
    rw [hto] at this
    rw [hk] at this
    cases this
  · have := hall ha
    rw [hto, hatt] at this
    cases this

theorem captures_are_attacks_witness :
    (kgchess_get_piece_at promotion_game_8 0 6).player = KGCHESS_PLAYER_WHITE ∧
      promotion_game_capture ∈ kgchess_get_moves promotion_game_8 0 6 ∧
      kgchess_is_square_attacked_by_player promotion_game_8 1 7 KGCHESS_PLAYER_WHITE = true :=
  have hp : (kgchess_get_piece_at promotion_game_8 0 6).player = KGCHESS_PLAYER_WHITE := by
    rw [kgchess_get_piece_at_congr promotion_game_8_core.pieces]
    decide!
  have hm : promotion_game_capture ∈ kgchess_get_moves promotion_game_8 0 6 :=
    (kgchess_get_moves_congr promotion_game_8_core 0 6).symm ▸ (by decide!)
  ⟨hp, hm, (captures_are_attacks promotion_game_8 0 6 KGCHESS_PLAYER_WHITE
    promotion_game_capture hp hm).1 rfl⟩

/-- C30: in every state `g2` reached from `kgchess_make` (through any earlier
state `g1`) by listed moves played in phase AwaitingMove and by `kgchess_promote`
called in phase AwaitingPromotion, the ply counter is non-negative; every
non-empty occupant whose marker is -1 is the occupant `kgchess_make` put on that
square (same kind, owner and marker) and was the occupant of that square in
`g1` too; hence where `is_castling_possible` returns true, king and rook are
the ones of the initial position and have stood there in every earlier state
(a king or rook that has moved is never eligible again), and the rook belongs
to the owner of the king. -/
theorem never_moved_invariant (g1 g2 : kgchess_t) (h1 : played_from kgchess_make g1)
    (h2 : played_from g1 g2) :
    0 ≤ g2.move_num ∧
      (∀ a b : Int, (get_piece_at g2 a b).type ≠ KGCHESS_PIECE_NONE →
        (get_piece_at g2 a b).last_move_num = -1 →
        get_piece_at g2 a b = get_piece_at kgchess_make a b ∧
          get_piece_at g2 a b = get_piece_at g1 a b) ∧
      (∀ x y r : Int, is_castling_possible g2 x y r = true →
        (get_piece_at g2 x y = get_piece_at kgchess_make x y ∧
          get_piece_at g2 r y = get_piece_at kgchess_make r y) ∧
        (get_piece_at g2 x y = get_piece_at g1 x y ∧
          get_piece_at g2 r y = get_piece_at g1 r y) ∧
        (get_piece_at g2 r y).player = (get_piece_at g2 x y).player) := by
  have hm1 := played_from_unmoved markers_sound_make h1
  have hm2 := played_from_unmoved hm1.1 h2
  have hm := played_from_unmoved markers_sound_make (played_from_trans h1 h2)
  refine ⟨hm.1.1, fun a b ht hl => ⟨hm.2 a b ht hl, hm2.2 a b ht hl⟩, ?_⟩
  intro x y r hc
  obtain ⟨k1, k2, k3, k4, -⟩ := (is_castling_possible_iff (is_castling_possible_file hc)).1 hc
  have hk : (get_piece_at g2 x y).type ≠ KGCHESS_PIECE_NONE := by rw [k1]; simp
  have hr : (get_piece_at g2 r y).type ≠ KGCHESS_PIECE_NONE := by rw [k2]; simp
  have ek := hm.2 x y hk k3
  have er := hm.2 r y hr k4
  refine ⟨⟨ek, er⟩, ⟨hm2.2 x y hk k3, hm2.2 r y hr k4⟩, ?_⟩
  rw [ek, er]
  exact make_king_rook (ek ▸ k1) (er ▸ k2)

theorem never_moved_invariant_witness :
    played_from kgchess_make kgchess_make ∧
      played_from kgchess_make
        (kgchess_move kgchess_make ⟨⟨4, 1⟩, ⟨4, 3⟩, false, false, false⟩).2 ∧
      0 ≤ (kgchess_move kgchess_make ⟨⟨4, 1⟩, ⟨4, 3⟩, false, false, false⟩).2.move_num :=
  have h2 : played_from kgchess_make
      (kgchess_move kgchess_make ⟨⟨4, 1⟩, ⟨4, 3⟩, false, false, false⟩).2 :=
    played_from.move 4 1 _ played_from.start rfl (by decide!)
  ⟨played_from.start, h2, (never_moved_invariant kgchess_make _ played_from.start h2).1⟩

/-- C31: if two game states hold occupants of the same kind and owner on every
square of the board, `kgchess_is_square_attacked_by_player` returns the same
result for every square and player and `is_in_check` the same result for every
player; in particular the results are those of the state in which the current
player, the ply counter, the last move, the phase, the promotion square, the
winner and every last-moved marker have been replaced by arbitrary values. -/
theorem oracle_reads_occupancy (g g' : kgchess_t) (h : same_occupancy g g') :
    (∀ (sx sy : Int) (P : kgchess_player_t),
        kgchess_is_square_attacked_by_player g sx sy P =
          kgchess_is_square_attacked_by_player g' sx sy P) ∧
      (∀ P : kgchess_player_t, is_in_check g P = is_in_check g' P) ∧
      (∀ (current_player : kgchess_player_t) (move_num : Int) (last_move : kgchess_move_t)
          (state : kgchess_state_t) (promotion_pos : kgchess_pos_t) (winner : kgchess_player_t)
          (markers : Int → Int → Int) (sx sy : Int) (P : kgchess_player_t),
        kgchess_is_square_attacked_by_player
            (with_other_fields g' current_player move_num last_move state promotion_pos winner
              markers) sx sy P =
          kgchess_is_square_attacked_by_player g sx sy P ∧
        is_in_check
            (with_other_fields g' current_player move_num last_move state promotion_pos winner
              markers) P =
          is_in_check g P) := by
  refine ⟨attacked_occupancy h, is_in_check_occupancy h, ?_⟩
  intro cp mn lm st pp w mk sx sy P
  have h2 : same_occupancy g (with_other_fields g' cp mn lm st pp w mk) :=
    fun a b hb => (h a b hb).trans (same_occupancy_with_other_fields g' cp mn lm st pp w mk a b hb)
  exact ⟨(attacked_occupancy h2 sx sy P).symm, (is_in_check_occupancy h2 P).symm⟩

theorem oracle_reads_occupancy_witness :
    same_occupancy back_rank_position
        (with_other_fields back_rank_position KGCHESS_PLAYER_BLACK 7
          ⟨⟨1, 1⟩, ⟨2, 2⟩, true, true, true⟩ KGCHESS_STATE_ENDED ⟨3, 3⟩ KGCHESS_PLAYER_BLACK
          (fun a b => a + b)) ∧
      is_in_check
          (with_other_fields back_rank_position KGCHESS_PLAYER_BLACK 7
            ⟨⟨1, 1⟩, ⟨2, 2⟩, true, true, true⟩ KGCHESS_STATE_ENDED ⟨3, 3⟩ KGCHESS_PLAYER_BLACK
            (fun a b => a + b)) KGCHESS_PLAYER_BLACK =
        is_in_check back_rank_position KGCHESS_PLAYER_BLACK :=
  have h := same_occupancy_with_other_fields back_rank_position KGCHESS_PLAYER_BLACK 7
    ⟨⟨1, 1⟩, ⟨2, 2⟩, true, true, true⟩ KGCHESS_STATE_ENDED ⟨3, 3⟩ KGCHESS_PLAYER_BLACK
    (fun a b => a + b)
  ⟨h, ((oracle_reads_occupancy _ _ h).2.1 KGCHESS_PLAYER_BLACK).symm⟩

/-- C32: with fuel 3 or more, `kgchess_is_square_attacked_by_player`,
`kgchess_get_moves`, `kgchess_move` and `kgchess_promote` return on every
input, and they return the values of the engine.  The reason: generation in an
attack probe (`is_attacks_check = true`) returns whatever the recursive calls
it is given would do, even if they never return, because it makes none of
them (no clone-and-apply of the legality filter, no castling test, no en
passant, no checkmate detection); and `apply_move` with `update_state = false`
returns without `check_checkmate`.  So the nesting of the calls is at most
three deep. -/
theorem engine_terminates (fuel : Nat) (h : 3 ≤ fuel) (g : kgchess_t) (x y : Int)
    (P : kgchess_player_t) (m : kgchess_move_t) (piece_type : kgchess_piece_type_t) :
    Fuel.kgchess_is_square_attacked_by_player fuel g x y P =
        some (kgchess_is_square_attacked_by_player g x y P) ∧
      Fuel.kgchess_get_moves fuel g x y = some (kgchess_get_moves g x y) ∧
      Fuel.kgchess_move fuel g m = some (kgchess_move g m) ∧
      Fuel.kgchess_promote fuel g piece_type = some (kgchess_promote g piece_type) ∧
      (∀ (att : Fuel.oracle) (cm : Fuel.scan) (apa : Bool),
        Fuel.get_moves att cm g x y apa true = some (get_moves g x y apa true)) ∧
      (∀ cm : Fuel.scan, Fuel.apply_move cm g m false = some (apply_move g m false)) := by
  obtain ⟨n, rfl⟩ : ∃ n, fuel = n + 3 := ⟨fuel - 3, by omega⟩
  refine ⟨calls_attacked (n + 2) g x y P, ?_, ?_, ?_, ?_, ?_⟩
  · exact fuel_get_moves (Or.inr (calls_attacked (n + 1))) x y
  · show (Fuel.apply_move (Fuel.calls (n + 2)).2 g m true).bind _ = _
    rw [fuel_apply_move (calls_scan n)]
    rfl
  · show Fuel.kgchess_promote (n + 2 + 1) g piece_type = _
    unfold Fuel.kgchess_promote kgchess_promote
    simp only [fuel_check_checkmate (calls_attacked (n + 1)), Option.some_bind, ite_some]
  · intro att cm apa
    exact fuel_get_moves (Or.inl rfl) x y
  · intro cm
    rw [fuel_apply_move_false, apply_move_false]

theorem engine_terminates_witness :
    (3 : Nat) ≤ 3 ∧
      Fuel.kgchess_get_moves 3 kgchess_make 4 1 = some (kgchess_get_moves kgchess_make 4 1) ∧
      Fuel.kgchess_move 3 kgchess_make ⟨⟨4, 1⟩, ⟨4, 3⟩, false, false, false⟩ =
        some (kgchess_move kgchess_make ⟨⟨4, 1⟩, ⟨4, 3⟩, false, false, false⟩) :=
  have h := engine_terminates 3 (le_refl 3) kgchess_make 4 1 KGCHESS_PLAYER_WHITE
    ⟨⟨4, 1⟩, ⟨4, 3⟩, false, false, false⟩ KGCHESS_PIECE_QUEEN
  ⟨le_refl 3, h.2.1, h.2.2.1⟩

end KgChess
